import Mathlib

/-!
# ShooterDemo: the Quake 3 map core (`Q3Map.cpp`, `Q3Loader.cpp`, `camera_utils.cpp`)

A shallow embedding of the spatial-query core: point location in the BSP tree
(`FindLeaf`), the cluster visibility test (`IsClusterVisible`), the sweep
collision engine (`Trace`, `CheckNode`, `CheckLeaf`, `CheckBrush`), the
selection of the visible faces (`FindVisibleFaces`, `IsBoxInFrustum`), and of
the loader: the header check, the lump readers, the coordinate conversion and
the tessellation of the patches (`readMap`, `triangulateBezierPatches`,
`addPatchTriangles`).

Conventions of the embedding.

* `float` is `ℚ`: every statement is about exact arithmetic on finite inputs.
  The trace functions are given a second time with the result of every
  arithmetic operation rounded (`TraceFl`, with `roundF32` the rounding of
  binary32), for the inputs on which the rounded computation departs from
  the exact one.
* `int` is `Int`; signed overflow is undefined in the source and is not modelled.
  Unsigned arithmetic wraps where the source computes in `unsigned`.
* A read outside an array is undefined behaviour in the source; here it is the
  fault `Fault.outOfRange`. A failed `assert` is `Fault.assertFailed`.
* Recursion over the node array carries a fuel argument bounding the depth;
  running out is `Fault.outOfFuel`.
* `glm::normalize`, the square root and the constant `CONTENTS_SOLID` come
  from outside the repository sources at hand and are parameters of the
  functions using them; so are the record layouts, the magic tag, the version
  and the flag masks of the absent header `Q3Loader.h`, and the
  reinterpretation of the bits of a float as an `int`.
-/

namespace Q3

/-! ## Vectors -/

/-- Three floats: `glm::vec3` and `float[3]`. -/
structure Vec3 where
  x : ℚ
  y : ℚ
  z : ℚ
deriving DecidableEq, Repr

namespace Vec3

instance : Inhabited Vec3 := ⟨⟨0, 0, 0⟩⟩

/-- Component-wise sum. -/
def add (a b : Vec3) : Vec3 := ⟨a.x + b.x, a.y + b.y, a.z + b.z⟩

/-- Component-wise difference. -/
def sub (a b : Vec3) : Vec3 := ⟨a.x - b.x, a.y - b.y, a.z - b.z⟩

/-- Component-wise negation. -/
def neg (a : Vec3) : Vec3 := ⟨-a.x, -a.y, -a.z⟩

/-- Product with a scalar: `v * s`. -/
def scale (a : Vec3) (s : ℚ) : Vec3 := ⟨a.x * s, a.y * s, a.z * s⟩

/-- Scalar product: `glm::dot`. -/
def dot (a b : Vec3) : ℚ := a.x * b.x + a.y * b.y + a.z * b.z

/-- Component-wise absolute value: `glm::abs`. -/
def abs (a : Vec3) : Vec3 := ⟨|a.x|, |a.y|, |a.z|⟩

/-- Component-wise maximum: `glm::max`. -/
def max (a b : Vec3) : Vec3 := ⟨Max.max a.x b.x, Max.max a.y b.y, Max.max a.z b.z⟩

/-- Sign of a float as glm computes it: 1, 0 or -1. -/
def signf (a : ℚ) : ℚ := if 0 < a then 1 else if a < 0 then -1 else 0

/-- Component-wise sign: `glm::sign`. -/
def sign (a : Vec3) : Vec3 := ⟨signf a.x, signf a.y, signf a.z⟩

end Vec3

/-- Projection of the vector `v` on the plane of normal `planeNorm`
(`proj`, Q3Map.cpp:88). -/
def proj (planeNorm v : Vec3) : Vec3 :=
  Vec3.sub v (Vec3.scale planeNorm (Vec3.dot v planeNorm))

/-! ## Faults and array reads -/

/-- What stops a run short of a result. -/
inductive Fault where
  /-- a read outside an array -/
  | outOfRange
  /-- an `assert` that does not hold -/
  | assertFailed
  /-- the depth bound of the embedding is used up -/
  | outOfFuel
  /-- a container asked for a negative number of elements -/
  | lengthError
deriving DecidableEq, Repr

deriving instance DecidableEq for Except

/-- Read of `xs[i]` with an `int` index. -/
def lookup {α : Type} (xs : List α) (i : Int) : Except Fault α :=
  if i < 0 then .error .outOfRange
  else
    match xs.get? i.toNat with
    | some a => .ok a
    | none => .error .outOfRange

/-- Conversion of an `int` to `uint32_t`. -/
def toUInt32 (i : Int) : Nat := (i % 4294967296).toNat

/-! ## The map (`TMapQ3`)

The record declarations are in the header `Q3Loader.h`, which is not among
the sources at hand: the records below follow the data model of the
specification and carry the fields under the names the code reads. -/

/-- Modelled from the spec: `Q3Loader.h` is absent; one (offset, length)
entry of the lump directory of the header. -/
structure TLump where
  mOffset : Int := 0
  mLength : Int := 0
deriving DecidableEq, Repr

/-- Modelled from the spec: `Q3Loader.h` is absent; the number of lumps in
the directory of the header. -/
def cNbLumps : Nat := 17

/-- Modelled from the spec: `Q3Loader.h` is absent; the header is the magic
tag, the version and a directory of 17 lumps. -/
structure THeader where
  mMagicNumber : List Nat := [0, 0, 0, 0]
  mVersion : Int := 0
  mLumpes : Fin cNbLumps → TLump := fun _ => {}

/-- Modelled from the spec: `Q3Loader.h` is absent; the visibility lump is the
last entry of the directory of 17 lumps. -/
def cVisDataLump : Fin cNbLumps := ⟨16, by decide⟩

/-- Modelled from the spec: `Q3Loader.h` is absent; a texture descriptor:
name, surface flags, contents flags. -/
structure TTexture where
  mName : List Nat := []
  mFlags : Int := 0
  mContents : Int := 0
deriving DecidableEq, Repr

/-- Modelled from the spec: `Q3Loader.h` is absent; a plane: normal and
signed distance from the origin. -/
structure TPlane where
  mNormal : Vec3
  mDistance : ℚ
deriving DecidableEq, Repr

/-- Modelled from the spec: `Q3Loader.h` is absent; a BSP node: plane index,
the two child references (a negative one stands for the leaf
-child - 1), bounds. -/
structure TNode where
  mPlane : Int
  mChildren : Int × Int
  mMins : Vec3 := default
  mMaxs : Vec3 := default
deriving DecidableEq, Repr

/-- Read of `node.mChildren[side]` for `side` 0 or 1. -/
def TNode.child (node : TNode) (side : Nat) : Int :=
  if side = 0 then node.mChildren.1 else node.mChildren.2

/-- Modelled from the spec: `Q3Loader.h` is absent; a leaf: cluster id,
bounds, index ranges into the leaf face and leaf brush arrays. -/
structure TLeaf where
  mCluster : Int := 0
  mArea : Int := 0
  mMins : Vec3 := default
  mMaxs : Vec3 := default
  mLeafFace : Int := 0
  mNbLeafFaces : Int := 0
  mLeafBrush : Int := 0
  mNbLeafBrushes : Int := 0
deriving DecidableEq, Repr

/-- Modelled from the spec: `Q3Loader.h` is absent; one entry of the leaf
brush index array. -/
structure TLeafBrush where
  mBrushIndex : Int
deriving DecidableEq, Repr

/-- Modelled from the spec: `Q3Loader.h` is absent; a brush: index range
into the brush side array and texture index. -/
structure TBrush where
  mBrushSide : Int
  mNbBrushSides : Int
  mTextureIndex : Int
deriving DecidableEq, Repr

/-- Modelled from the spec: `Q3Loader.h` is absent; a brush side: plane
index and texture index. -/
structure TBrushSide where
  mPlaneIndex : Int
  mTextureIndex : Int := 0
deriving DecidableEq, Repr

/-- Modelled from the spec: `Q3Loader.h` is absent; the visibility data:
cluster count, row length in bytes, and the bit matrix as bytes. -/
structure TVisData where
  mNbClusters : Int := 0
  mBytesPerCluster : Int := 0
  mBuffer : List Nat := []
deriving DecidableEq, Repr

/-- Modelled from the spec: `Q3Loader.h` is absent; the entity lump: its
size and its characters (a `std::string`). -/
structure TEntity where
  mSize : Int := 0
  mBuffer : List Nat := []
deriving DecidableEq, Repr

/-- Modelled from the spec: `Q3Loader.h` is absent; one entry of the leaf
face index array. -/
structure TLeafFace where
  mFaceIndex : Int := 0
deriving DecidableEq, Repr

/-- Modelled from the spec: `Q3Loader.h` is absent; a model: bounds and
index ranges into the face and brush arrays. -/
structure TModel where
  mMins : Vec3 := default
  mMaxs : Vec3 := default
  mFace : Int := 0
  mNbFaces : Int := 0
  mBrush : Int := 0
  mNbBrushes : Int := 0
deriving DecidableEq, Repr

/-- Modelled from the spec: `Q3Loader.h` is absent; a vertex: position, two
pairs of texture coordinates (surface, light map), normal and a colour of
four `unsigned char`. -/
structure TVertex where
  mPosition : Vec3 := default
  mTexCoord : (ℚ × ℚ) × (ℚ × ℚ) := ((0, 0), (0, 0))
  mNormal : Vec3 := default
  mColor : Nat × Nat × Nat × Nat := (0, 0, 0, 0)
deriving DecidableEq, Repr

/-- Modelled from the spec: `Q3Loader.h` is absent; a mesh vertex is an
`int` offset relative to the first vertex of its face. -/
abbrev TMeshVert := Int

/-- Modelled from the spec: `Q3Loader.h` is absent; an effect: name, brush
index, unknown word. -/
structure TEffect where
  mName : List Nat := []
  mBrush : Int := 0
  mUnknown : Int := 0
deriving DecidableEq, Repr

/-- Modelled from the spec: `Q3Loader.h` is absent; a face: texture and
effect index, type (1 polygon, 2 patch, 3 mesh, 4 billboard), vertex and
mesh vertex ranges, light map data, normal and patch dimensions. -/
structure TFace where
  mTextureIndex : Int := 0
  mEffectIndex : Int := 0
  mType : Int := 0
  mVertex : Int := 0
  mNbVertices : Int := 0
  mMeshVertex : Int := 0
  mNbMeshVertices : Int := 0
  mLightmapIndex : Int := 0
  mLightmapCorner : Int × Int := (0, 0)
  mLightmapSize : Int × Int := (0, 0)
  mLightmapOrigin : Vec3 := default
  mLightmapVecs : Vec3 × Vec3 := (default, default)
  mNormal : Vec3 := default
  mPatchSize : Int × Int := (0, 0)
deriving DecidableEq, Repr

/-- Modelled from the spec: `Q3Loader.h` is absent; a light map: its texel
bytes. -/
structure TLightMap where
  mMapData : List Nat := []
deriving DecidableEq, Repr

/-- Modelled from the spec: `Q3Loader.h` is absent; an ambient light volume
sample: ambient and directional colour, direction. -/
structure TLightVol where
  mAmbient : List Nat := []
  mDirectional : List Nat := []
  mDir : List Nat := []
deriving DecidableEq, Repr

/-- Modelled from the spec: `Q3Loader.h` is absent; the map: the header and
the arrays the loader fills and the queries read. -/
structure TMapQ3 where
  mHeader : THeader := {}
  mTextures : List TTexture := []
  mPlanes : List TPlane := []
  mNodes : List TNode := []
  mLeaves : List TLeaf := []
  mLeafBrushes : List TLeafBrush := []
  mBrushes : List TBrush := []
  mBrushSides : List TBrushSide := []
  mVisData : TVisData := {}
  mEntity : TEntity := {}
  mLeafFaces : List TLeafFace := []
  mModels : List TModel := []
  mVertices : List TVertex := []
  mMeshVertices : List TMeshVert := []
  mEffects : List TEffect := []
  mFaces : List TFace := []
  mLightMaps : List TLightMap := []
  mLightVols : List TLightVol := []

/-! ## Point location and cluster visibility (Q3Map.cpp:602-644) -/

/-- The `while (index >= 0)` loop of `FindLeaf`, `fuel` bounding the number
of iterations. -/
def FindLeaf.loop (m : TMapQ3) (camPos : Vec3) : Nat → Int → Except Fault Int
  | 0, index => if index ≥ 0 then .error .outOfFuel else .ok (-index - 1)
  | fuel + 1, index =>
    if index ≥ 0 then
      match lookup m.mNodes index with
      | .error e => .error e
      | .ok node =>
        match lookup m.mPlanes node.mPlane with
        | .error e => .error e
        | .ok plane =>
          let normal := plane.mNormal
          let distance := Vec3.dot normal camPos - plane.mDistance
          if distance ≥ 0 then FindLeaf.loop m camPos fuel node.mChildren.1
          else FindLeaf.loop m camPos fuel node.mChildren.2
    else .ok (-index - 1)

/-- The function `Q3Map::FindLeaf` (Q3Map.cpp:602): descent from node 0. -/
def FindLeaf (m : TMapQ3) (fuel : Nat) (camPos : Vec3) : Except Fault Int :=
  FindLeaf.loop m camPos fuel 0

/-- The function `Q3Map::IsClusterVisible` (Q3Map.cpp:628). -/
def IsClusterVisible (m : TMapQ3) (visCluster testCluster : Int) : Except Fault Bool :=
  if m.mVisData.mBuffer.isEmpty then .ok true
  else if visCluster < 0 ∨ testCluster < 0 then .ok true
  else
    let i := visCluster * m.mVisData.mBytesPerCluster + (testCluster >>> 3)
    match lookup m.mVisData.mBuffer i with
    | .error e => .error e
    | .ok visSet => .ok (Nat.land visSet (1 <<< (Int.land testCluster 7).toNat) != 0)

/-! ## The visibility lump reader (`readVisData`, Q3Loader.cpp:610-631) -/

/-- The in-memory `std::stringstream` the map file is read from: its
characters (bytes), the read position and the two state bits the readers
can raise. -/
structure IStream where
  chars : List Nat
  pos : Nat := 0
  eofbit : Bool := false
  failbit : Bool := false
deriving DecidableEq, Repr

/-- No state bit is raised: `good()`. -/
def IStream.good (s : IStream) : Bool := !s.eofbit && !s.failbit

/-- Absolute positioning `seekg(off, std::ios_base::beg)`: the end-of-file bit is
cleared first, a failed stream stays where it is, a position outside the
buffer raises the fail bit. -/
def IStream.seekg (s : IStream) (off : Int) : IStream :=
  let s := { s with eofbit := false }
  if s.failbit then s
  else if 0 ≤ off ∧ off ≤ s.chars.length then { s with pos := off.toNat }
  else { s with failbit := true }

/-- Unformatted input `read(dst, n)`: the characters extracted, at most `n`;
a stream that is not good extracts nothing, a short read raises both bits. -/
def IStream.read (s : IStream) (n : Nat) : IStream × List Nat :=
  if s.good then
    let got := (s.chars.drop s.pos).take n
    if got.length < n then
      ({ s with pos := s.pos + got.length, eofbit := true, failbit := true }, got)
    else ({ s with pos := s.pos + n }, got)
  else ({ s with failbit := true }, [])

/-- The extracted characters written over the start of the destination. -/
def overlay (got dst : List Nat) : List Nat := got ++ dst.drop got.length

/-- The four bytes of an `int`, least significant first. -/
def intBytes (v : Int) : List Nat :=
  let u := toUInt32 v
  [u % 256, u / 256 % 256, u / 65536 % 256, u / 16777216 % 256]

/-- The `int` held by four bytes, least significant first. -/
def bytesInt (bs : List Nat) : Int :=
  let u : Nat := bs.getD 0 0 % 256 + 256 * (bs.getD 1 0 % 256) + 65536 * (bs.getD 2 0 % 256)
    + 16777216 * (bs.getD 3 0 % 256)
  if u < 2147483648 then (u : Int) else (u : Int) - 4294967296

/-- The call `read((char*)&v, sizeof(int))` on an `int` holding `old`. -/
def IStream.readInt (s : IStream) (old : Int) : IStream × Int :=
  let r := s.read 4
  (r.1, bytesInt (overlay r.2 (intBytes old)))

/-- The reader of the visibility lump, `readVisData`: returns the stream
and the map as the call leaves them. -/
def readVisData (bspData : IStream) (pMap : TMapQ3) : Except Fault (IStream × TMapQ3) :=
  let pMap := { pMap with
    mVisData := { pMap.mVisData with mNbClusters := 0, mBytesPerCluster := 0 } }
  if (pMap.mHeader.mLumpes cVisDataLump).mLength ≤ 0 then .ok (bspData, pMap)
  else
    let bspData := bspData.seekg (pMap.mHeader.mLumpes cVisDataLump).mOffset
    let r1 := bspData.readInt pMap.mVisData.mNbClusters
    let r2 := r1.1.readInt pMap.mVisData.mBytesPerCluster
    let lBufferSize := r1.2 * r2.2
    -- `assign` with a negative count, `&mBuffer[0]` on an empty buffer
    if lBufferSize < 0 then .error .lengthError
    else if lBufferSize = 0 then .error .outOfRange
    else
      let r3 := r2.1.read lBufferSize.toNat
      .ok (r3.1, { pMap with
        mVisData := { mNbClusters := r1.2, mBytesPerCluster := r2.2
                      mBuffer := overlay r3.2 (List.replicate lBufferSize.toNat 0) } })

/-! ## The trace request and result (`TraceData`, Q3Map.hpp:35-74) -/

/-- The shape that is moved: `TraceData::TraceType`. -/
inductive TraceType where
  | TracePoint
  | TraceSphere
  | TraceBox
deriving DecidableEq, Repr

/-- The trace request (input fields) and result (output fields).
`mContents` and `mPlaneProj` are left uninitialised by the constructors:
`none` stands for a field that was never written. `mCheckedBrushes` is the
set of brush indices already tested, kept as a list without repetition. -/
structure TraceData where
  mTraceType : TraceType
  mStart : Vec3
  mEnd : Vec3
  mRadius : ℚ
  mMinBounds : Vec3
  mMaxBounds : Vec3
  mExtends : Vec3
  mCollision : Bool
  mStartsOut : Bool
  mAllSolid : Bool
  mPlaneIndex : Int
  mFraction : ℚ
  mContents : Option Int
  mPlaneProj : Option Vec3
  mCheckedBrushes : List Nat
deriving DecidableEq, Repr

/-- Constructor for a moving point (Q3Map.cpp:646). The bounds and
extents are not set and never read for this trace type. -/
def TraceData.mkPoint (start end_ : Vec3) : TraceData :=
  { mTraceType := .TracePoint, mStart := start, mEnd := end_, mRadius := 0
    mMinBounds := default, mMaxBounds := default, mExtends := default
    mPlaneIndex := -1, mFraction := 1, mStartsOut := true, mAllSolid := false
    mCollision := false, mContents := none, mPlaneProj := none, mCheckedBrushes := [] }

/-- Constructor for a moving sphere (Q3Map.cpp:651). -/
def TraceData.mkSphere (start end_ : Vec3) (radius : ℚ) : TraceData :=
  { mTraceType := .TraceSphere, mStart := start, mEnd := end_, mRadius := radius
    mMinBounds := default, mMaxBounds := default, mExtends := default
    mPlaneIndex := -1, mFraction := 1, mStartsOut := true, mAllSolid := false
    mCollision := false, mContents := none, mPlaneProj := none, mCheckedBrushes := [] }

/-- Constructor for a moving box (Q3Map.cpp:656), with its assertion on the
sign of the extents. -/
def TraceData.mkBox (start end_ minBounds maxBounds : Vec3) : Except Fault TraceData :=
  let mExtends := Vec3.max (Vec3.neg minBounds) maxBounds
  if Vec3.sign mExtends = ⟨1, 1, 1⟩ then
    .ok { mTraceType := .TraceBox, mStart := start, mEnd := end_, mRadius := 0
          mMinBounds := minBounds, mMaxBounds := maxBounds, mExtends := mExtends
          mPlaneIndex := -1, mFraction := 1, mStartsOut := true, mAllSolid := false
          mCollision := false, mContents := none, mPlaneProj := none
          mCheckedBrushes := [] }
  else .error .assertFailed

/-- The output fields as every constructor leaves them. -/
def TraceData.Fresh (data : TraceData) : Prop :=
  data.mPlaneIndex = -1 ∧ data.mFraction = 1 ∧ data.mStartsOut = true ∧
  data.mAllSolid = false ∧ data.mCollision = false ∧ data.mCheckedBrushes = []

instance (data : TraceData) : Decidable data.Fresh := by
  unfold TraceData.Fresh; infer_instance

/-! ## Brush test (`Q3Map::CheckBrush`, Q3Map.cpp:770-869) -/

/-- The locals of `CheckBrush` that live across the loop over the sides. -/
structure BrushScan where
  enterFraction : ℚ
  leaveFraction : ℚ
  startPlaneIndex : Int
  startsOut : Bool
  endsOut : Bool
deriving DecidableEq, Repr

/-- The locals as initialised before the loop (Q3Map.cpp:779-781). -/
def BrushScan.init : BrushScan :=
  { enterFraction := -1, leaveFraction := 1, startPlaneIndex := -1
    startsOut := false, endsOut := false }

/-- What one side contributes: its plane index and the signed distances of
the start and the end point from its offset plane. -/
structure SideDist where
  mPlaneIndex : Int
  startDistance : ℚ
  endDistance : ℚ
deriving DecidableEq, Repr

/-- The corner of the box chosen per axis by the sign of the normal
(Q3Map.cpp:792-803). -/
def boxCorner (planeNormal minBounds maxBounds : Vec3) : Vec3 :=
  ⟨if planeNormal.x < 0 then maxBounds.x else minBounds.x,
   if planeNormal.y < 0 then maxBounds.y else minBounds.y,
   if planeNormal.z < 0 then maxBounds.z else minBounds.z⟩

/-- The offset `dist` of a side plane for the traced shape
(Q3Map.cpp:789-806). -/
def sideOffset (data : TraceData) (planeNormal : Vec3) : ℚ :=
  if data.mTraceType = .TraceBox then
    -(Vec3.dot (boxCorner planeNormal data.mMinBounds data.mMaxBounds) planeNormal)
  else data.mRadius

/-- First part of the loop body for side `i` of the brush
(Q3Map.cpp:785-809): reads the side and its plane, returns the distances,
computed without rounding (`sideDistancesFl` is the same with rounding). -/
def sideDistances (normalize : Vec3 → Vec3) (m : TMapQ3) (data : TraceData)
    (brush : TBrush) (i : Int) : Except Fault SideDist :=
  match lookup m.mBrushSides (brush.mBrushSide + i) with
  | .error e => .error e
  | .ok brushSide =>
    match lookup m.mPlanes brushSide.mPlaneIndex with
    | .error e => .error e
    | .ok plane =>
      let planeNormal := normalize plane.mNormal
      let dist := sideOffset data planeNormal
      .ok { mPlaneIndex := brushSide.mPlaneIndex
            startDistance := Vec3.dot data.mStart planeNormal - (plane.mDistance + dist)
            endDistance := Vec3.dot data.mEnd planeNormal - (plane.mDistance + dist) }

/-- Second part of the loop body (Q3Map.cpp:811-841): `none` is the
`return` of a trace completely in front of the side, otherwise the updated
locals. The fractions are computed without rounding, with the decimal 1e-4
(`clipSideFl` is the same with rounding and the literal `0.0001f`). -/
def clipSide (s : BrushScan) (sd : SideDist) : Option BrushScan :=
  let startDistance := sd.startDistance
  let endDistance := sd.endDistance
  let s := if startDistance > 0 then { s with startsOut := true } else s
  let s := if endDistance > 0 then { s with endsOut := true } else s
  if startDistance > 0 ∧ endDistance ≥ startDistance then none
  else if startDistance ≤ 0 ∧ endDistance ≤ 0 then some s
  else if startDistance > endDistance then
    let fraction := (startDistance - 1 / 10000) / (startDistance - endDistance)
    if fraction > s.enterFraction then
      some { s with enterFraction := fraction, startPlaneIndex := sd.mPlaneIndex }
    else some s
  else
    let fraction := (startDistance + 1 / 10000) / (startDistance - endDistance)
    if fraction < s.leaveFraction then some { s with leaveFraction := fraction }
    else some s

/-- The loop over the sides: `k` sides remain, `i` is the loop counter.
`none` is the early `return` out of `CheckBrush`. -/
def CheckBrush.sides (normalize : Vec3 → Vec3) (m : TMapQ3) (data : TraceData)
    (brush : TBrush) : Nat → Int → BrushScan → Except Fault (Option BrushScan)
  | 0, _, s => .ok (some s)
  | k + 1, i, s =>
    match sideDistances normalize m data brush i with
    | .error e => .error e
    | .ok sd =>
      match clipSide s sd with
      | none => .ok none
      | some s => CheckBrush.sides normalize m data brush k (i + 1) s

/-- The end of `CheckBrush` (Q3Map.cpp:844-868): what the locals left by
the loop do to the result. -/
def CheckBrush.finish (contents : Int) (s : BrushScan) (data : TraceData) :
    Except Fault TraceData :=
  if s.startsOut = false then
    .ok { data with
          mStartsOut := false
          mAllSolid := if s.endsOut = false then true else data.mAllSolid }
  else if s.enterFraction < s.leaveFraction then
    if s.enterFraction > -1 ∧ s.enterFraction ≤ data.mFraction then
      let enterFraction := if s.enterFraction < 0 then 0 else s.enterFraction
      if s.startPlaneIndex ≥ 0 then
        .ok { data with
              mPlaneIndex := s.startPlaneIndex
              mFraction := enterFraction
              mContents := some contents
              mCollision := true }
      else .error .assertFailed
    else .ok data
  else .ok data

/-- The start of `CheckBrush` up to the end of the loop
(Q3Map.cpp:772-842): `none` when the brush is left without any change (no
side, not solid, or the trace completely in front of a side), otherwise
the contents flags and the locals left by the loop. -/
def CheckBrush.scan (normalize : Vec3 → Vec3) (CONTENTS_SOLID : Int) (m : TMapQ3)
    (brushIndex : Int) (data : TraceData) : Except Fault (Option (Int × BrushScan)) :=
  match lookup m.mBrushes brushIndex with
  | .error e => .error e
  | .ok brush =>
    match lookup m.mTextures brush.mTextureIndex with
    | .error e => .error e
    | .ok texture =>
      let contents := texture.mContents
      if brush.mNbBrushSides ≤ 0 ∨ Int.land contents CONTENTS_SOLID = 0 then .ok none
      else
        match CheckBrush.sides normalize m data brush brush.mNbBrushSides.toNat 0
            BrushScan.init with
        | .error e => .error e
        | .ok none => .ok none
        | .ok (some s) => .ok (some (contents, s))

/-- The function `Q3Map::CheckBrush` (Q3Map.cpp:770): its two halves in
sequence. -/
def CheckBrush (normalize : Vec3 → Vec3) (CONTENTS_SOLID : Int) (m : TMapQ3)
    (brushIndex : Int) (data : TraceData) : Except Fault TraceData :=
  match CheckBrush.scan normalize CONTENTS_SOLID m brushIndex data with
  | .error e => .error e
  | .ok none => .ok data
  | .ok (some (contents, s)) => CheckBrush.finish contents s data

/-! ## Leaf and node descent, `Trace` (Q3Map.cpp:664-768) -/

/-- The loop of `CheckLeaf` over the brushes of the leaf: `k` entries
remain, `i` is the loop counter. -/
def CheckLeaf.loop (normalize : Vec3 → Vec3) (CONTENTS_SOLID : Int) (m : TMapQ3)
    (leaf : TLeaf) : Nat → Int → TraceData → Except Fault TraceData
  | 0, _, data => .ok data
  | k + 1, i, data =>
    match lookup m.mLeafBrushes (leaf.mLeafBrush + i) with
    | .error e => .error e
    | .ok leafBrush =>
      let brushIndex := leafBrush.mBrushIndex
      if toUInt32 brushIndex ∈ data.mCheckedBrushes then
        CheckLeaf.loop normalize CONTENTS_SOLID m leaf k (i + 1) data
      else
        match CheckBrush normalize CONTENTS_SOLID m brushIndex
            { data with mCheckedBrushes := toUInt32 brushIndex :: data.mCheckedBrushes } with
        | .error e => .error e
        | .ok data => CheckLeaf.loop normalize CONTENTS_SOLID m leaf k (i + 1) data

/-- The function `Q3Map::CheckLeaf` (Q3Map.cpp:753). -/
def CheckLeaf (normalize : Vec3 → Vec3) (CONTENTS_SOLID : Int) (m : TMapQ3)
    (leafIndex : Int) (data : TraceData) : Except Fault TraceData :=
  match lookup m.mLeaves leafIndex with
  | .error e => .error e
  | .ok leaf =>
    CheckLeaf.loop normalize CONTENTS_SOLID m leaf leaf.mNbLeafBrushes.toNat 0 data

/-- The `offset` of `CheckNode` for the traced shape (Q3Map.cpp:722-726). -/
def nodeOffset (data : TraceData) (planeNormal : Vec3) : ℚ :=
  if data.mTraceType = .TraceBox then Vec3.dot data.mExtends (Vec3.abs planeNormal)
  else data.mRadius

/-- The function `Q3Map::CheckNode` (Q3Map.cpp:709), `fuel` bounding the
depth of the recursion. -/
def CheckNode (normalize : Vec3 → Vec3) (CONTENTS_SOLID : Int) (m : TMapQ3) :
    Nat → Int → TraceData → Except Fault TraceData
  | 0, _, _ => .error .outOfFuel
  | fuel + 1, nodeIndex, data =>
    if nodeIndex < 0 then
      CheckLeaf normalize CONTENTS_SOLID m (-(nodeIndex + 1)) data
    else
      match lookup m.mNodes nodeIndex with
      | .error e => .error e
      | .ok node =>
        match lookup m.mPlanes node.mPlane with
        | .error e => .error e
        | .ok plane =>
          let planeNormal := plane.mNormal
          let offset := nodeOffset data planeNormal
          let startDistance := Vec3.dot data.mStart planeNormal - plane.mDistance
          let endDistance := Vec3.dot data.mEnd planeNormal - plane.mDistance
          if startDistance ≥ offset ∧ endDistance ≥ offset then
            CheckNode normalize CONTENTS_SOLID m fuel node.mChildren.1 data
          else if startDistance < -offset ∧ endDistance < -offset then
            CheckNode normalize CONTENTS_SOLID m fuel node.mChildren.2 data
          else
            let side : Nat := if startDistance < endDistance then 1 else 0
            match CheckNode normalize CONTENTS_SOLID m fuel (node.child side) data with
            | .error e => .error e
            | .ok data =>
              CheckNode normalize CONTENTS_SOLID m fuel (node.child (1 - side)) data

/-- The function `Q3Map::Trace` (Q3Map.cpp:664). The returned `bool` of the source is the field
`mCollision` of the data returned here. -/
def Trace (normalize : Vec3 → Vec3) (CONTENTS_SOLID : Int) (m : TMapQ3) (fuel : Nat)
    (data : TraceData) : Except Fault TraceData :=
  match CheckNode normalize CONTENTS_SOLID m fuel 0 data with
  | .error e => .error e
  | .ok data =>
    if data.mCollision then
      match lookup m.mPlanes data.mPlaneIndex with
      | .error e => .error e
      | .ok plane =>
        let innerBrushVec := Vec3.scale (Vec3.sub data.mEnd data.mStart) (1 - data.mFraction)
        .ok { data with mPlaneProj := some (proj plane.mNormal innerBrushVec) }
    else .ok data

/-! ## Notions used by the statements -/

/-- The second data has the input fields (set by the constructors, `const`
in the source) of the first. -/
def TraceData.SameInput (d d' : TraceData) : Prop :=
  d'.mTraceType = d.mTraceType ∧ d'.mStart = d.mStart ∧ d'.mEnd = d.mEnd ∧
  d'.mRadius = d.mRadius ∧ d'.mMinBounds = d.mMinBounds ∧
  d'.mMaxBounds = d.mMaxBounds ∧ d'.mExtends = d.mExtends

/-- The step an invariant has to survive: the brush index read from the leaf
brush array is marked as tested and the brush is tested. -/
def BrushStep (normalize : Vec3 → Vec3) (solid : Int) (m : TMapQ3)
    (I : TraceData → Prop) : Prop :=
  ∀ (d d' : TraceData) (leafBrush : TLeafBrush), I d → leafBrush ∈ m.mLeafBrushes →
    toUInt32 leafBrush.mBrushIndex ∉ d.mCheckedBrushes →
    CheckBrush normalize solid m leafBrush.mBrushIndex
      { d with mCheckedBrushes := toUInt32 leafBrush.mBrushIndex :: d.mCheckedBrushes } = .ok d' →
    I d'

/-- The node reference is the root of a finite tree: either it is negative
(it stands for a leaf), or it is the index of a node of the map whose plane
is a plane of the map and whose two child references are roots of finite
trees. Being inductive, the nodes reachable from the reference cannot
contain a cycle. -/
inductive WellFormedAt (m : TMapQ3) : Int → Prop
  | leaf (c : Int) (hc : c < 0) : WellFormedAt m c
  | node (index : Int) (node : TNode) (plane : TPlane) (hindex : 0 ≤ index)
      (hnode : lookup m.mNodes index = .ok node)
      (hplane : lookup m.mPlanes node.mPlane = .ok plane)
      (hfront : WellFormedAt m node.mChildren.1)
      (hback : WellFormedAt m node.mChildren.2) : WellFormedAt m index

/-- The second reference is reached from the first by following child
references of nodes of the map, at least one. -/
inductive Reaches (m : TMapQ3) : Int → Int → Prop
  | front (index : Int) (node : TNode) (hnode : lookup m.mNodes index = .ok node) :
      Reaches m index node.mChildren.1
  | back (index : Int) (node : TNode) (hnode : lookup m.mNodes index = .ok node) :
      Reaches m index node.mChildren.2
  | trans (a b c : Int) (hab : Reaches m a b) (hbc : Reaches m b c) : Reaches m a c

/-- The descent the specification describes for the point `p`: from a node
to child[0] exactly when dot(normal, p) - distance >= 0 and to child[1]
otherwise, down to the first negative child reference `c`. -/
inductive Descent (m : TMapQ3) (p : Vec3) : Int → Int → Prop
  | stop (c : Int) (hc : c < 0) : Descent m p c c
  | front (index : Int) (node : TNode) (plane : TPlane) (c : Int) (hindex : 0 ≤ index)
      (hnode : lookup m.mNodes index = .ok node)
      (hplane : lookup m.mPlanes node.mPlane = .ok plane)
      (hside : Vec3.dot plane.mNormal p - plane.mDistance ≥ 0)
      (hrest : Descent m p node.mChildren.1 c) : Descent m p index c
  | back (index : Int) (node : TNode) (plane : TPlane) (c : Int) (hindex : 0 ≤ index)
      (hnode : lookup m.mNodes index = .ok node)
      (hplane : lookup m.mPlanes node.mPlane = .ok plane)
      (hside : ¬ Vec3.dot plane.mNormal p - plane.mDistance ≥ 0)
      (hrest : Descent m p node.mChildren.2 c) : Descent m p index c

/-- What the locals of `CheckBrush` say after the loop over `nb` sides: the
entry fraction is at least its initial -1, and once it is above -1 it is
the biased fraction of a side of the brush that the trace enters from the
front, whose plane index is the recorded one. -/
def EntrySide (normalize : Vec3 → Vec3) (m : TMapQ3) (d : TraceData) (brush : TBrush)
    (nb : Int) (s : BrushScan) : Prop :=
  -1 ≤ s.enterFraction ∧
  (-1 < s.enterFraction →
    ∃ (i : Int) (sd : SideDist), 0 ≤ i ∧ i < nb ∧
      sideDistances normalize m d brush i = .ok sd ∧
      sd.mPlaneIndex = s.startPlaneIndex ∧ sd.endDistance < sd.startDistance ∧
      0 < sd.startDistance ∧
      s.enterFraction = (sd.startDistance - 1 / 10000) / (sd.startDistance - sd.endDistance))

/-- The data `CheckBrush` returns for a result of its first half, when the
assertion holds. -/
def applyScan (r : Option (Int × BrushScan)) (d : TraceData) : TraceData :=
  match r with
  | none => d
  | some (contents, s) =>
    if s.startsOut = false then
      { d with mStartsOut := false
               mAllSolid := if s.endsOut = false then true else d.mAllSolid }
    else if s.enterFraction < s.leaveFraction ∧ -1 < s.enterFraction ∧
        s.enterFraction ≤ d.mFraction then
      { d with mPlaneIndex := s.startPlaneIndex
               mFraction := if s.enterFraction < 0 then 0 else s.enterFraction
               mContents := some contents
               mCollision := true }
    else d

/-- The entry recorded by the locals of `CheckBrush`, clamped at 0, when
they describe one: the start is outside and -1 < enterFraction <
leaveFraction. -/
def scanEntry (r : Option (Int × BrushScan)) : Option ℚ :=
  match r with
  | some (_, s) =>
    if s.startsOut = true ∧ -1 < s.enterFraction ∧ s.enterFraction < s.leaveFraction then
      some (Max.max s.enterFraction 0)
    else none
  | none => none

/-- The entry of the trace into the brush, clamped at 0, when the brush test
finds one: the brush is solid with at least one side, the loop over its
sides ends with the start outside and -1 < enterFraction < leaveFraction. -/
def entryFraction (normalize : Vec3 → Vec3) (CONTENTS_SOLID : Int) (m : TMapQ3)
    (brushIndex : Int) (d : TraceData) : Option ℚ :=
  match CheckBrush.scan normalize CONTENTS_SOLID m brushIndex d with
  | .ok r => scanEntry r
  | .error _ => none

/-- The minimum of a fraction and an entry, when there is one. -/
def minEntry (f : ℚ) : Option ℚ → ℚ
  | none => f
  | some c => Min.min f c

/-- The plane index recorded in `x` is the plane index of a side of a solid
brush of the map, a side that the trace with the inputs of `d` enters from
the front: its start distance is positive and above its end distance. -/
def StruckSide (normalize : Vec3 → Vec3) (CONTENTS_SOLID : Int) (m : TMapQ3)
    (d x : TraceData) : Prop :=
  ∃ (brushIndex : Int) (brush : TBrush) (texture : TTexture) (i : Int) (sd : SideDist),
    lookup m.mBrushes brushIndex = .ok brush ∧
    lookup m.mTextures brush.mTextureIndex = .ok texture ∧
    Int.land texture.mContents CONTENTS_SOLID ≠ 0 ∧
    0 ≤ i ∧ i < brush.mNbBrushSides ∧
    sideDistances normalize m d brush i = .ok sd ∧
    sd.mPlaneIndex = x.mPlaneIndex ∧
    sd.endDistance < sd.startDistance ∧ 0 < sd.startDistance

/-! ## Concrete inputs the statements are run on -/

/-- A map with one node splitting at x = 0, whose two leaves both list the
one solid brush of the map, the slab 0 <= x <= 1 (side 0 faces +x at
distance 1, side 1 faces -x at distance 0). -/
def slabMap : TMapQ3 :=
  { mTextures := [{ mContents := 1 }]
    mPlanes := [⟨⟨1, 0, 0⟩, 1⟩, ⟨⟨-1, 0, 0⟩, 0⟩]
    mNodes := [{ mPlane := 1, mChildren := (-1, -2) }]
    mLeaves := [{ mLeafBrush := 0, mNbLeafBrushes := 1 }, { mLeafBrush := 0, mNbLeafBrushes := 1 }]
    mLeafBrushes := [⟨0⟩]
    mBrushes := [⟨0, 2, 0⟩]
    mBrushSides := [⟨0, 0⟩, ⟨1, 0⟩] }

/-- A map with one node and one leaf reference that lists two solid
brushes: the slab 0 <= x <= 1 (brush 0) and the slab 2 <= x <= 3 (brush 1). -/
def twoSlabMap : TMapQ3 :=
  { mTextures := [{ mContents := 1 }]
    mPlanes := [⟨⟨1, 0, 0⟩, 1⟩, ⟨⟨-1, 0, 0⟩, 0⟩, ⟨⟨1, 0, 0⟩, 3⟩, ⟨⟨-1, 0, 0⟩, -2⟩]
    mNodes := [{ mPlane := 1, mChildren := (-1, -1) }]
    mLeaves := [{ mLeafBrush := 0, mNbLeafBrushes := 2 }]
    mLeafBrushes := [⟨0⟩, ⟨1⟩]
    mBrushes := [⟨0, 2, 0⟩, ⟨2, 2, 0⟩]
    mBrushSides := [⟨0, 0⟩, ⟨1, 0⟩, ⟨2, 0⟩, ⟨3, 0⟩] }

/-- A map with one node and one leaf reference that lists one solid brush,
a thin wedge: side 0 faces -x at distance 0, side 1 has the unit normal
(400/40001, 39999/40001, 0), nearly along +y, at distance 1/20000. Along
the x axis the brush reaches from x = 0 to x = 40001/8000000. -/
def wedgeMap : TMapQ3 :=
  { mTextures := [{ mContents := 1 }]
    mPlanes := [⟨⟨-1, 0, 0⟩, 0⟩, ⟨⟨400 / 40001, 39999 / 40001, 0⟩, 1 / 20000⟩]
    mNodes := [{ mPlane := 0, mChildren := (-1, -1) }]
    mLeaves := [{ mLeafBrush := 0, mNbLeafBrushes := 1 }]
    mLeafBrushes := [⟨0⟩]
    mBrushes := [⟨0, 2, 0⟩]
    mBrushSides := [⟨0, 0⟩, ⟨1, 0⟩] }

/-- A map with one node splitting at x = 0 (normal +x): its front child is
leaf 0, which lists brush 0, its back child is leaf 1, which lists brush 1.
Both brushes have no side, so that testing them changes nothing but the set
of tested brushes. -/
def splitMap : TMapQ3 :=
  { mTextures := [{}]
    mPlanes := [⟨⟨1, 0, 0⟩, 0⟩]
    mNodes := [{ mPlane := 0, mChildren := (-1, -2) }]
    mLeaves := [{ mLeafBrush := 0, mNbLeafBrushes := 1 }, { mLeafBrush := 1, mNbLeafBrushes := 1 }]
    mLeafBrushes := [⟨0⟩, ⟨1⟩]
    mBrushes := [⟨0, 0, 0⟩, ⟨0, 0, 0⟩] }

/-- The box of half side 3/2 moved from x = 1 to x = 2: the data that the
box constructor builds for the bounds -3/2 and 3/2 on every axis. -/
def spanBox : TraceData :=
  { mTraceType := .TraceBox, mStart := ⟨1, 0, 0⟩, mEnd := ⟨2, 0, 0⟩, mRadius := 0
    mMinBounds := ⟨-3 / 2, -3 / 2, -3 / 2⟩, mMaxBounds := ⟨3 / 2, 3 / 2, 3 / 2⟩
    mExtends := ⟨3 / 2, 3 / 2, 3 / 2⟩
    mPlaneIndex := -1, mFraction := 1, mStartsOut := true, mAllSolid := false
    mCollision := false, mContents := none, mPlaneProj := none, mCheckedBrushes := [] }


/-! ## The loader: helpers on vectors and vertices (Q3Loader.cpp:16-132)

The patch `const TVertex* patch` of the tessellation functions points into
the vertex array of the map, which is also the array they append to; it is
the index of the pointed element. The array is reserved beforehand
(Q3Loader.cpp:1012), so that appending never moves it. -/

/-- Conversion of an unsigned value to `int`: wrapped to 32 bits. -/
def toInt32 (i : Int) : Int :=
  if (i % 4294967296).toNat < 2147483648 then i % 4294967296
  else i % 4294967296 - 4294967296

/-- Write of `xs[i] = a` with an `int` index. -/
def assign {α : Type} (xs : List α) (i : Int) (a : α) : Except Fault (List α) :=
  if 0 ≤ i ∧ i < xs.length then .ok (xs.set i.toNat a) else .error .outOfRange

/-- The function `swizzle3` (Q3Loader.cpp:17):
`temp = t[1]; t[1] = t[2]; t[2] = -temp`. -/
def swizzle3 (t : Vec3) : Vec3 :=
  let temp := t.y
  let t := { t with y := t.z }
  { t with z := -temp }

/-- The function `scale3` on floats (Q3Loader.cpp:25). -/
def scale3 (t : Vec3) (scale : ℚ) : Vec3 :=
  ⟨t.x * scale, t.y * scale, t.z * scale⟩

/-- The function `fix_int_bound` (Q3Loader.cpp:40): every float is replaced
by the value of the `int` that shares its bits. `floatBits` is that
reinterpretation, which the platform defines. -/
def fix_int_bound (floatBits : ℚ → Int) (t : Vec3) : Vec3 :=
  ⟨(floatBits t.x : ℚ), (floatBits t.y : ℚ), (floatBits t.z : ℚ)⟩

/-- The function `sub3` (Q3Loader.cpp:48). -/
def sub3 (x y : Vec3) : Vec3 := ⟨x.x - y.x, x.y - y.y, x.z - y.z⟩

/-- The closing test of `parallel3` (Q3Loader.cpp:74-76) for the ratio
`m`. -/
def parallel3.close (v1 v2 : Vec3) (m : ℚ) : Bool :=
  decide (|v2.x * m - v1.x| < 1 / 100000) && decide (|v2.y * m - v1.y| < 1 / 100000)
    && decide (|v2.z * m - v1.z| < 1 / 100000)

/-- The function `parallel3` (Q3Loader.cpp:64), `epsilon` being 1e-5 and
`abs` the absolute value of a float. -/
def parallel3 (v1 v2 : Vec3) : Bool :=
  if |v2.x| ≥ 1 / 100000 then parallel3.close v1 v2 (v1.x / v2.x)
  else if |v2.y| ≥ 1 / 100000 then parallel3.close v1 v2 (v1.y / v2.y)
  else if |v2.z| ≥ 1 / 100000 then parallel3.close v1 v2 (v1.z / v2.z)
  else false

/-- The function `mix` on floats (Q3Loader.cpp:80). -/
def mix (A B t : ℚ) : ℚ := A * (1 - t) + B * t

/-- Conversion of a float to an integer type: the fraction is dropped. -/
def truncf (q : ℚ) : Int := if 0 ≤ q then Rat.floor q else -Rat.floor (-q)

/-- The function `mix` on `unsigned char` (Q3Loader.cpp:80): the float
result is converted back to a byte. -/
def mixUChar (A B : Nat) (t : ℚ) : Nat :=
  (truncf ((A : ℚ) * (1 - t) + (B : ℚ) * t) % 256).toNat

/-- The specialisation of `mix` for `TVertex` (Q3Loader.cpp:86). -/
def mixTVertex (x y : TVertex) (t : ℚ) : TVertex :=
  { mPosition := ⟨mix x.mPosition.x y.mPosition.x t, mix x.mPosition.y y.mPosition.y t,
      mix x.mPosition.z y.mPosition.z t⟩
    mTexCoord := ((mix x.mTexCoord.1.1 y.mTexCoord.1.1 t, mix x.mTexCoord.1.2 y.mTexCoord.1.2 t),
      (mix x.mTexCoord.2.1 y.mTexCoord.2.1 t, mix x.mTexCoord.2.2 y.mTexCoord.2.2 t))
    mNormal := ⟨mix x.mNormal.x y.mNormal.x t, mix x.mNormal.y y.mNormal.y t,
      mix x.mNormal.z y.mNormal.z t⟩
    mColor := (mixUChar x.mColor.1 y.mColor.1 t, mixUChar x.mColor.2.1 y.mColor.2.1 t,
      mixUChar x.mColor.2.2.1 y.mColor.2.2.1 t, mixUChar x.mColor.2.2.2 y.mColor.2.2.2 t) }

/-- The function `quadraticBezier` on vertices (Q3Loader.cpp:109). -/
def quadraticBezier (A B C : TVertex) (t : ℚ) : TVertex :=
  let D := mixTVertex A B t
  let E := mixTVertex B C t
  mixTVertex D E t

/-- The loop of `quadraticBezierSurface` that fills the three cache
entries of a column (Q3Loader.cpp:127-130): `k` iterations remain, `i` is
the loop counter, `patch` the moving pointer, `off` the offset of `cache`. -/
def quadraticBezierSurface.fill (verts : List TVertex) (stride ix : Nat) (stepX : ℚ)
    (off : Nat) : Nat → Nat → Int → List TVertex → Except Fault (List TVertex)
  | 0, _, _, cache => .ok cache
  | k + 1, i, patch, cache =>
    match lookup verts patch, lookup verts (patch + 1), lookup verts (patch + 2) with
    | .ok p0, .ok p1, .ok p2 =>
      match assign cache ((off + i : Nat) : Int) (quadraticBezier p0 p1 p2 (ix * stepX)) with
      | .error e => .error e
      | .ok cache =>
        quadraticBezierSurface.fill verts stride ix stepX off k (i + 1) (patch + stride) cache
    | _, _, _ => .error .outOfRange

/-- The function `quadraticBezierSurface` (Q3Loader.cpp:118): the vertex
returned, with the cache and `cacheFill` as the call leaves them. The
shift `1ULL << ix` is taken in 64 bits. -/
def quadraticBezierSurface (verts : List TVertex) (patch : Int) (stride ix : Nat) (stepX : ℚ)
    (iy : Nat) (stepY : ℚ) (cache : List TVertex) (cacheFill : Nat) :
    Except Fault (TVertex × List TVertex × Nat) :=
  let off := ix * 3
  let cacheFillMask := (1 <<< ix) % 18446744073709551616
  let filled : Except Fault (List TVertex × Nat) :=
    if Nat.land cacheFill cacheFillMask = 0 then
      let cacheFill := Nat.land cacheFill cacheFillMask
      match quadraticBezierSurface.fill verts stride ix stepX off 3 0 patch cache with
      | .error e => .error e
      | .ok cache => .ok (cache, cacheFill)
    else .ok (cache, cacheFill)
  match filled with
  | .error e => .error e
  | .ok (cache, cacheFill) =>
    match lookup cache (off : Nat), lookup cache ((off + 1 : Nat) : Int),
        lookup cache ((off + 2 : Nat) : Int) with
    | .ok c0, .ok c1, .ok c2 => .ok (quadraticBezier c0 c1 c2 (iy * stepY), cache, cacheFill)
    | _, _, _ => .error .outOfRange

/-! ## The loader: post-processing of the patches (Q3Loader.cpp:857-1085) -/

/-- The loop of `flipWindingOrder` (Q3Loader.cpp:859): `k` bounds the
number of iterations, `i` is the loop counter. -/
def flipWindingOrder.loop : Nat → Nat → List TMeshVert → Except Fault (List TMeshVert)
  | 0, i, mv => if i < mv.length then .error .outOfFuel else .ok mv
  | k + 1, i, mv =>
    if i < mv.length then
      match lookup mv (i : Nat), lookup mv ((i + 2 : Nat) : Int) with
      | .ok a, .ok b =>
        flipWindingOrder.loop k (i + 3) ((mv.set i b).set (i + 2) a)
      | _, _ => .error .outOfRange
    else .ok mv

/-- The function `flipWindingOrder` (Q3Loader.cpp:857). -/
def flipWindingOrder (pMap : TMapQ3) : Except Fault TMapQ3 :=
  match flipWindingOrder.loop pMap.mMeshVertices.length 0 pMap.mMeshVertices with
  | .error e => .error e
  | .ok mv => .ok { pMap with mMeshVertices := mv }

/-- The function `addPatchIndices` (Q3Loader.cpp:881): the nine indices
of a patch, row by row. -/
def addPatchIndices (baseIndex stride : Int) (outIndices : List TMeshVert) : List TMeshVert :=
  outIndices ++ (List.range 3).flatMap fun j =>
    (List.range 3).map fun i => baseIndex + (i : Int) + stride * (j : Int)

/-- The test of one pair of steps in `colinearPatchX` and `colinearPatchY`:
`sub3(a1, a0, v1); sub3(b1, b0, v2); parallel3(v1, v2)` for the vertices at
the four indices. -/
def stepsParallel (verts : List TVertex) (a1 a0 b1 b0 : Int) : Except Fault Bool :=
  match lookup verts a1, lookup verts a0, lookup verts b1, lookup verts b0 with
  | .ok pa1, .ok pa0, .ok pb1, .ok pb0 =>
    .ok (parallel3 (sub3 pa1.mPosition pa0.mPosition) (sub3 pb1.mPosition pb0.mPosition))
  | _, _, _, _ => .error .outOfRange

/-- The first loop of `colinearPatchX` (Q3Loader.cpp:900-908): `.ok false`
when the function returns false inside the loop, `.ok true` when the loop
runs to its end. -/
def colinearPatchX.rows (verts : List TVertex) (stride : Nat) : Nat → Int → Except Fault Bool
  | 0, _ => .ok true
  | k + 1, p =>
    match stepsParallel verts (p + 1) p (p + 2) (p + 1) with
    | .error e => .error e
    | .ok false => .ok false
    | .ok true => colinearPatchX.rows verts stride k (p + stride)

/-- The second loop of `colinearPatchX` (Q3Loader.cpp:911-919). -/
def colinearPatchX.pairs (verts : List TVertex) (stride : Nat) : Nat → Int → Except Fault Bool
  | 0, _ => .ok true
  | k + 1, p =>
    match stepsParallel verts (p + 1) p (p + (stride + 1 : Nat)) (p + stride) with
    | .error e => .error e
    | .ok false => .ok false
    | .ok true => colinearPatchX.pairs verts stride k (p + stride)

/-- The function `colinearPatchX` (Q3Loader.cpp:896). -/
def colinearPatchX (verts : List TVertex) (patch : Int) (stride : Nat) : Except Fault Bool :=
  match colinearPatchX.rows verts stride 3 patch with
  | .error e => .error e
  | .ok false => .ok false
  | .ok true => colinearPatchX.pairs verts stride 2 patch

/-- The first loop of `colinearPatchY` (Q3Loader.cpp:931-939). -/
def colinearPatchY.columns (verts : List TVertex) (stride : Nat) :
    Nat → Int → Except Fault Bool
  | 0, _ => .ok true
  | k + 1, p =>
    match stepsParallel verts (p + stride) p (p + (2 * stride : Nat)) (p + stride) with
    | .error e => .error e
    | .ok false => .ok false
    | .ok true => colinearPatchY.columns verts stride k (p + 1)

/-- The second loop of `colinearPatchY` (Q3Loader.cpp:942-950). -/
def colinearPatchY.pairs (verts : List TVertex) (stride : Nat) : Nat → Int → Except Fault Bool
  | 0, _ => .ok true
  | k + 1, p =>
    match stepsParallel verts (p + stride) p (p + (stride + 1 : Nat)) (p + 1) with
    | .error e => .error e
    | .ok false => .ok false
    | .ok true => colinearPatchY.pairs verts stride k (p + 1)

/-- The function `colinearPatchY` (Q3Loader.cpp:927). -/
def colinearPatchY (verts : List TVertex) (patch : Int) (stride : Nat) : Except Fault Bool :=
  match colinearPatchY.columns verts stride 3 patch with
  | .error e => .error e
  | .ok false => .ok false
  | .ok true => colinearPatchY.pairs verts stride 2 patch

/-- What the vertex loops of `addPatchTriangles` carry: the vertex array,
the cache and `cacheFill`. -/
structure PatchState where
  outVertices : List TVertex
  cache : List TVertex
  cacheFill : Nat

/-- The inner vertex loop of `addPatchTriangles` (Q3Loader.cpp:980-984) for
the row `j`: `k` iterations remain, `i` is the loop counter. -/
def addPatchTriangles.vertexRow (patch : Int) (stride : Nat) (sx : ℚ) (j : Nat) (sy : ℚ) :
    Nat → Nat → PatchState → Except Fault PatchState
  | 0, _, st => .ok st
  | k + 1, i, st =>
    match quadraticBezierSurface st.outVertices patch stride i sx j sy st.cache st.cacheFill with
    | .error e => .error e
    | .ok (newVert, cache, cacheFill) =>
      addPatchTriangles.vertexRow patch stride sx j sy k (i + 1)
        { outVertices := st.outVertices ++ [newVert], cache := cache, cacheFill := cacheFill }

/-- The outer vertex loop of `addPatchTriangles` (Q3Loader.cpp:978-985):
`k` iterations remain, `j` is the loop counter. -/
def addPatchTriangles.vertexRows (patch : Int) (stride nbVerticesX : Nat) (sx sy : ℚ) :
    Nat → Nat → PatchState → Except Fault PatchState
  | 0, _, st => .ok st
  | k + 1, j, st =>
    match addPatchTriangles.vertexRow patch stride sx j sy nbVerticesX 0 st with
    | .error e => .error e
    | .ok st => addPatchTriangles.vertexRows patch stride nbVerticesX sx sy k (j + 1) st

/-- The six indices of the cell (i, j) (Q3Loader.cpp:992-1005). -/
def addPatchTriangles.cell (nbVertexPerSide baseVertexIndex : Int) (i j : Nat) :
    List TMeshVert :=
  let ix0 := toInt32 (baseVertexIndex + i + j * nbVertexPerSide)
  let ix1 := ix0 + 1
  let ix2 := ix0 + nbVertexPerSide
  let ix3 := ix2 + 1
  [ix0, ix3, ix1, ix0, ix2, ix3]

/-- The inner index loop of `addPatchTriangles` (Q3Loader.cpp:990-1006) for
the row `j`. -/
def addPatchTriangles.indexRow (nbVertexPerSide baseVertexIndex : Int) (j : Nat) :
    Nat → Nat → List TMeshVert → List TMeshVert
  | 0, _, out => out
  | k + 1, i, out =>
    addPatchTriangles.indexRow nbVertexPerSide baseVertexIndex j k (i + 1)
      (out ++ addPatchTriangles.cell nbVertexPerSide baseVertexIndex i j)

/-- The outer index loop of `addPatchTriangles` (Q3Loader.cpp:988-1007);
`cellsX` is the bound `nbVerticesX - 1` of the inner loop. -/
def addPatchTriangles.indexRows (nbVertexPerSide baseVertexIndex : Int) (cellsX : Nat) :
    Nat → Nat → List TMeshVert → List TMeshVert
  | 0, _, out => out
  | k + 1, j, out =>
    addPatchTriangles.indexRows nbVertexPerSide baseVertexIndex cellsX k (j + 1)
      (addPatchTriangles.indexRow nbVertexPerSide baseVertexIndex j cellsX 0 out)

/-- The function `addPatchTriangles` (Q3Loader.cpp:955): the vertex and
index arrays as the call leaves them. The `unsigned` differences
`nbVerticesX - 1` and `nbVerticesY - 1` wrap to 32 bits. -/
def addPatchTriangles (patch : Int) (stride : Nat) (nbVertexPerSide baseVertexIndex : Int)
    (outVertices : List TVertex) (outIndices : List TMeshVert) :
    Except Fault (List TVertex × List TMeshVert) :=
  let baseVertexIndex := toInt32 ((outVertices.length : Int) - baseVertexIndex)
  match colinearPatchX outVertices patch stride with
  | .error e => .error e
  | .ok colinearX =>
    let nbVerticesX : Nat := if colinearX then 2 else toUInt32 nbVertexPerSide
    match colinearPatchY outVertices patch stride with
    | .error e => .error e
    | .ok colinearY =>
      let nbVerticesY : Nat := if colinearY then 2 else toUInt32 nbVertexPerSide
      let cacheFill := 0
      let cache : List TVertex := List.replicate (toUInt32 (nbVerticesX * 3)) {}
      let sx : ℚ := 1 / (toUInt32 ((nbVerticesX : Int) - 1) : ℚ)
      let sy : ℚ := 1 / (toUInt32 ((nbVerticesY : Int) - 1) : ℚ)
      match addPatchTriangles.vertexRows patch stride nbVerticesX sx sy nbVerticesY 0
          { outVertices := outVertices, cache := cache, cacheFill := cacheFill } with
      | .error e => .error e
      | .ok st =>
        .ok (st.outVertices,
          addPatchTriangles.indexRows nbVertexPerSide baseVertexIndex
            (toUInt32 ((nbVerticesX : Int) - 1)) (toUInt32 ((nbVerticesY : Int) - 1)) 0
            outIndices)

/-- The inner loop over `j` of the two patch passes (Q3Loader.cpp:1030,
1068): `body` is the call made for the patch at `basePatchIndex`. -/
def patchLoopJ {σ : Type} (body : Int → σ → Except Fault σ) (stride i : Int) :
    Nat → Int → σ → Except Fault σ
  | 0, _, st => .ok st
  | k + 1, j, st =>
    let basePatchIndex := 2 * (i + j * stride)
    match body basePatchIndex st with
    | .error e => .error e
    | .ok st => patchLoopJ body stride i k (j + 1) st

/-- The outer loop over `i` of the two patch passes (Q3Loader.cpp:1028,
1066). -/
def patchLoopI {σ : Type} (body : Int → σ → Except Fault σ) (stride : Int) (jSize : Nat) :
    Nat → Int → σ → Except Fault σ
  | 0, _, st => .ok st
  | k + 1, i, st =>
    match patchLoopJ body stride i jSize 0 st with
    | .error e => .error e
    | .ok st => patchLoopI body stride jSize k (i + 1) st

/-- The body of the loop over the faces in `triangulateBezierPatches`
(Q3Loader.cpp:1017-1043) for the face `i`. -/
def triangulateBezierPatches.face (nbVerticesPerPatchSide : Nat) (pMap : TMapQ3) (i : Nat) :
    Except Fault TMapQ3 :=
  match lookup pMap.mFaces (i : Nat) with
  | .error e => .error e
  | .ok face =>
    if face.mType ≠ 2 then .ok pMap
    else
      let baseVertex := toInt32 pMap.mVertices.length
      let baseMeshVertex := toInt32 pMap.mMeshVertices.length
      let stride := face.mPatchSize.1
      let iSize := Int.tdiv (face.mPatchSize.1 - 1) 2
      let jSize := Int.tdiv (face.mPatchSize.2 - 1) 2
      match patchLoopI
          (fun basePatchIndex (st : List TVertex × List TMeshVert) =>
            addPatchTriangles (face.mVertex + basePatchIndex) (toUInt32 stride)
              (toInt32 nbVerticesPerPatchSide) baseVertex st.1 st.2)
          stride jSize.toNat iSize.toNat 0 (pMap.mVertices, pMap.mMeshVertices) with
      | .error e => .error e
      | .ok st =>
        let face := { face with
          mVertex := baseVertex
          mMeshVertex := baseMeshVertex
          mNbVertices := toInt32 ((st.1.length : Int) - baseVertex)
          mNbMeshVertices := toInt32 ((st.2.length : Int) - baseMeshVertex) }
        .ok { pMap with
              mVertices := st.1, mMeshVertices := st.2, mFaces := pMap.mFaces.set i face }

/-- The loop over the faces of the two patch passes: `k` iterations
remain, `i` is the loop counter. -/
def faceLoop (body : TMapQ3 → Nat → Except Fault TMapQ3) :
    Nat → Nat → TMapQ3 → Except Fault TMapQ3
  | 0, _, pMap => .ok pMap
  | k + 1, i, pMap =>
    match body pMap i with
    | .error e => .error e
    | .ok pMap => faceLoop body k (i + 1) pMap

/-- The function `triangulateBezierPatches` (Q3Loader.cpp:1008); the
default of `nbVerticesPerPatchSide` is 9. The `reserve` and `resize` calls
change no element. -/
def triangulateBezierPatches (pMap : TMapQ3) (nbVerticesPerPatchSide : Nat) :
    Except Fault TMapQ3 :=
  faceLoop (triangulateBezierPatches.face nbVerticesPerPatchSide) pMap.mFaces.length 0 pMap

/-- The body of the loop over the faces in `indexBezierPatches`
(Q3Loader.cpp:1057-1077) for the face `i`. -/
def indexBezierPatches.face (pMap : TMapQ3) (i : Nat) : Except Fault TMapQ3 :=
  match lookup pMap.mFaces (i : Nat) with
  | .error e => .error e
  | .ok face =>
    if face.mType ≠ 2 then .ok pMap
    else
      let baseMeshVertex := toInt32 pMap.mMeshVertices.length
      let stride := face.mPatchSize.1
      let iSize := Int.tdiv (face.mPatchSize.1 - 1) 2
      let jSize := Int.tdiv (face.mPatchSize.2 - 1) 2
      match patchLoopI
          (fun basePatchIndex (st : List TMeshVert) =>
            .ok (addPatchIndices basePatchIndex stride st))
          stride jSize.toNat iSize.toNat 0 pMap.mMeshVertices with
      | .error e => .error e
      | .ok st =>
        let face := { face with
          mMeshVertex := baseMeshVertex
          mNbMeshVertices := toInt32 ((st.length : Int) - baseMeshVertex) }
        .ok { pMap with mMeshVertices := st, mFaces := pMap.mFaces.set i face }

/-- The function `indexBezierPatches` (Q3Loader.cpp:1049). -/
def indexBezierPatches (pMap : TMapQ3) : Except Fault TMapQ3 :=
  faceLoop indexBezierPatches.face pMap.mFaces.length 0 pMap

/-! ## The loader: header and lump readers (Q3Loader.cpp:143-631)

The record declarations, the lump indices, the magic tag, the version and
the post-processing flags are in the absent header `Q3Loader.h`. The
readers take them as parameters: a `Layout` per record type, the tag
`cMagicNumber`, the number `cVersion` and the flag masks. -/

/-- Modelled from the spec: `Q3Loader.h` is absent; the indices of the
seventeen lumps in the directory of the header, in the order in which
`readMap` reads them. -/
def cEntityLump : Fin cNbLumps := ⟨0, by decide⟩

/-- Modelled from the spec: `Q3Loader.h` is absent; see `cEntityLump`. -/
def cTextureLump : Fin cNbLumps := ⟨1, by decide⟩

/-- Modelled from the spec: `Q3Loader.h` is absent; see `cEntityLump`. -/
def cPlaneLump : Fin cNbLumps := ⟨2, by decide⟩

/-- Modelled from the spec: `Q3Loader.h` is absent; see `cEntityLump`. -/
def cNodeLump : Fin cNbLumps := ⟨3, by decide⟩

/-- Modelled from the spec: `Q3Loader.h` is absent; see `cEntityLump`. -/
def cLeafLump : Fin cNbLumps := ⟨4, by decide⟩

/-- Modelled from the spec: `Q3Loader.h` is absent; see `cEntityLump`. -/
def cLeafFaceLump : Fin cNbLumps := ⟨5, by decide⟩

/-- Modelled from the spec: `Q3Loader.h` is absent; see `cEntityLump`. -/
def cLeafBrushLump : Fin cNbLumps := ⟨6, by decide⟩

/-- Modelled from the spec: `Q3Loader.h` is absent; see `cEntityLump`. -/
def cModelLump : Fin cNbLumps := ⟨7, by decide⟩

/-- Modelled from the spec: `Q3Loader.h` is absent; see `cEntityLump`. -/
def cBrushLump : Fin cNbLumps := ⟨8, by decide⟩

/-- Modelled from the spec: `Q3Loader.h` is absent; see `cEntityLump`. -/
def cBrushSideLump : Fin cNbLumps := ⟨9, by decide⟩

/-- Modelled from the spec: `Q3Loader.h` is absent; see `cEntityLump`. -/
def cVertexLump : Fin cNbLumps := ⟨10, by decide⟩

/-- Modelled from the spec: `Q3Loader.h` is absent; see `cEntityLump`. -/
def cMeshVertLump : Fin cNbLumps := ⟨11, by decide⟩

/-- Modelled from the spec: `Q3Loader.h` is absent; see `cEntityLump`. -/
def cEffectLump : Fin cNbLumps := ⟨12, by decide⟩

/-- Modelled from the spec: `Q3Loader.h` is absent; see `cEntityLump`. -/
def cFaceLump : Fin cNbLumps := ⟨13, by decide⟩

/-- Modelled from the spec: `Q3Loader.h` is absent; see `cEntityLump`. -/
def cLightMapLump : Fin cNbLumps := ⟨14, by decide⟩

/-- Modelled from the spec: `Q3Loader.h` is absent; see `cEntityLump`. -/
def cLightVolLump : Fin cNbLumps := ⟨15, by decide⟩

/-- Modelled from the spec: `Q3Loader.h` is absent; what a reader needs of
a record type `T`: `sizeof(T)`, the record held by `sizeof(T)` bytes, and
the bytes of a local `T` that was declared and not yet written. -/
structure Layout (α : Type) where
  sizeof : Nat
  decode : List Nat → α
  uninit : List Nat

/-- Modelled from the spec: `Q3Loader.h` is absent; the layouts of the
record types of the lumps. -/
structure Layouts where
  texture : Layout TTexture
  plane : Layout TPlane
  node : Layout TNode
  leaf : Layout TLeaf
  leafFace : Layout TLeafFace
  leafBrush : Layout TLeafBrush
  model : Layout TModel
  brush : Layout TBrush
  brushSide : Layout TBrushSide
  vertex : Layout TVertex
  meshVert : Layout TMeshVert
  effect : Layout TEffect
  face : Layout TFace
  lightMap : Layout TLightMap
  lightVol : Layout TLightVol

/-- Modelled from the spec: `Q3Loader.h` is absent; the masks of the
post-processing steps in the argument `postProcessSteps` of `readMap`. -/
structure PostProcess where
  CoordSysOpenGL : Nat
  TriangulateBezierPatches : Nat
  IndexBezierPatches : Nat
  FlipWindingOrder : Nat

/-- Modelled from the spec: `Q3Loader.h` is absent; the bytes of the
header: the four characters of the tag, the version and the seventeen
(offset, length) pairs, every `int` in four bytes, least significant
first. -/
def THeader.bytes (h : THeader) : List Nat :=
  (h.mMagicNumber ++ [0, 0, 0, 0]).take 4 ++ intBytes h.mVersion ++
    (List.finRange cNbLumps).flatMap fun i =>
      intBytes (h.mLumpes i).mOffset ++ intBytes (h.mLumpes i).mLength

/-- Modelled from the spec: `Q3Loader.h` is absent; the header held by the
bytes of `THeader.bytes`. -/
def THeader.ofBytes (bs : List Nat) : THeader :=
  { mMagicNumber := (bs ++ [0, 0, 0, 0]).take 4
    mVersion := bytesInt (bs.drop 4)
    mLumpes := fun i =>
      { mOffset := bytesInt (bs.drop (8 + 8 * i.val))
        mLength := bytesInt (bs.drop (12 + 8 * i.val)) } }

/-- Modelled from the spec: `Q3Loader.h` is absent; `sizeof(THeader)`. -/
def sizeofTHeader : Nat := 8 + 8 * cNbLumps

/-- The library function `strncmp(a, b, n)`: the characters are compared
up to the first difference, the first NUL or `n` of them. A character past
the end of `b` reads as the NUL that ends a C string. -/
def strncmp : List Nat → List Nat → Nat → Int
  | _, _, 0 => 0
  | a, b, n + 1 =>
    if a.headD 0 ≠ b.headD 0 then (a.headD 0 : Int) - (b.headD 0 : Int)
    else if a.headD 0 = 0 then 0
    else strncmp a.tail b.tail n

/-- The function `isValid` (Q3Loader.cpp:144). -/
def isValid (cMagicNumber : List Nat) (cVersion : Int) (pMap : TMapQ3) : Bool :=
  if strncmp pMap.mHeader.mMagicNumber cMagicNumber 4 ≠ 0 then false
  else if pMap.mHeader.mVersion ≠ cVersion then false
  else true

/-- The function `readHeader` (Q3Loader.cpp:169): the characters read are
written over the header of the map. -/
def readHeader (cMagicNumber : List Nat) (cVersion : Int) (bspData : IStream)
    (pMap : TMapQ3) : Bool × IStream × TMapQ3 :=
  let r := bspData.read sizeofTHeader
  let pMap := { pMap with mHeader := THeader.ofBytes (overlay r.2 pMap.mHeader.bytes) }
  (isValid cMagicNumber cVersion pMap, r.1, pMap)

/-- The record count `mLength / sizeof(T)` of a lump as the `int` the
readers keep: the division is made in `size_t` (64 bits). -/
def lumpCount (mLength : Int) (sizeof : Nat) : Int :=
  toInt32 (((mLength % 18446744073709551616).toNat / sizeof : Nat) : Int)

/-- The loop shared by the lump readers: `k` records remain; each is read
over a fresh local, post-processed by `post` and pushed on the array. -/
def readRecords {α : Type} (layout : Layout α) (post : α → α) :
    Nat → IStream → List α → IStream × List α
  | 0, bspData, out => (bspData, out)
  | k + 1, bspData, out =>
    let r := bspData.read layout.sizeof
    let l := layout.decode (overlay r.2 layout.uninit)
    readRecords layout post k r.1 (out ++ [post l])

/-- The start shared by the lump readers: the record count, the seek to
the start of the lump, and the loop. -/
def readLump {α : Type} (layout : Layout α) (post : α → α) (lump : TLump)
    (bspData : IStream) (out : List α) : IStream × List α :=
  let lNb := lumpCount lump.mLength layout.sizeof
  let bspData := bspData.seekg lump.mOffset
  readRecords layout post lNb.toNat bspData out

/-- The function `readTexture` (Q3Loader.cpp:182), which seeks twice. -/
def readTexture (L : Layouts) (bspData : IStream) (pMap : TMapQ3) : IStream × TMapQ3 :=
  let bspData := bspData.seekg (pMap.mHeader.mLumpes cTextureLump).mOffset
  let r := readLump L.texture id (pMap.mHeader.mLumpes cTextureLump) bspData pMap.mTextures
  (r.1, { pMap with mTextures := r.2 })

/-- The function `readEntity` (Q3Loader.cpp:207): `assign` with a negative
count throws. -/
def readEntity (bspData : IStream) (pMap : TMapQ3) : Except Fault (IStream × TMapQ3) :=
  let mSize := (pMap.mHeader.mLumpes cEntityLump).mLength
  if mSize < 0 then .error .lengthError
  else
    let bspData := bspData.seekg (pMap.mHeader.mLumpes cEntityLump).mOffset
    let r := bspData.read mSize.toNat
    .ok (r.1, { pMap with
      mEntity := { mSize := mSize, mBuffer := overlay r.2 (List.replicate mSize.toNat 0) } })

/-- The post-processing of a plane record (Q3Loader.cpp:241-246). -/
def readPlane.post (scale : ℚ) (coordSysOpenGL : Bool) (lPlane : TPlane) : TPlane :=
  let lPlane := { lPlane with mDistance := lPlane.mDistance * scale }
  if coordSysOpenGL then { lPlane with mNormal := swizzle3 lPlane.mNormal } else lPlane

/-- The function `readPlane` (Q3Loader.cpp:228). -/
def readPlane (L : Layouts) (bspData : IStream) (pMap : TMapQ3) (scale : ℚ)
    (coordSysOpenGL : Bool) : IStream × TMapQ3 :=
  let r := readLump L.plane (readPlane.post scale coordSysOpenGL)
    (pMap.mHeader.mLumpes cPlaneLump) bspData pMap.mPlanes
  (r.1, { pMap with mPlanes := r.2 })

/-- The post-processing of the bounds of a node or leaf record
(Q3Loader.cpp:271-281, 306-316): the pair (mMins, mMaxs) as it is pushed. -/
def fixBounds (floatBits : ℚ → Int) (scale : ℚ) (coordSysOpenGL : Bool)
    (mMins mMaxs : Vec3) : Vec3 × Vec3 :=
  let mMaxs := fix_int_bound floatBits mMaxs
  let mMins := fix_int_bound floatBits mMins
  let mMaxs := scale3 mMaxs scale
  let mMins := scale3 mMins scale
  if coordSysOpenGL then
    let mMaxs := swizzle3 mMaxs
    let mMins := swizzle3 mMins
    -- swap(mMaxs[2], mMins[2])
    ({ mMins with z := mMaxs.z }, { mMaxs with z := mMins.z })
  else (mMins, mMaxs)

/-- The post-processing of a node record (Q3Loader.cpp:271-281). -/
def readNode.post (floatBits : ℚ → Int) (scale : ℚ) (coordSysOpenGL : Bool)
    (lNode : TNode) : TNode :=
  { lNode with
    mMins := (fixBounds floatBits scale coordSysOpenGL lNode.mMins lNode.mMaxs).1
    mMaxs := (fixBounds floatBits scale coordSysOpenGL lNode.mMins lNode.mMaxs).2 }

/-- The function `readNode` (Q3Loader.cpp:258). -/
def readNode (floatBits : ℚ → Int) (L : Layouts) (bspData : IStream) (pMap : TMapQ3)
    (scale : ℚ) (coordSysOpenGL : Bool) : IStream × TMapQ3 :=
  let r := readLump L.node (readNode.post floatBits scale coordSysOpenGL)
    (pMap.mHeader.mLumpes cNodeLump) bspData pMap.mNodes
  (r.1, { pMap with mNodes := r.2 })

/-- The post-processing of a leaf record (Q3Loader.cpp:306-316). -/
def readLeaf.post (floatBits : ℚ → Int) (scale : ℚ) (coordSysOpenGL : Bool)
    (lLeaf : TLeaf) : TLeaf :=
  { lLeaf with
    mMins := (fixBounds floatBits scale coordSysOpenGL lLeaf.mMins lLeaf.mMaxs).1
    mMaxs := (fixBounds floatBits scale coordSysOpenGL lLeaf.mMins lLeaf.mMaxs).2 }

/-- The function `readLeaf` (Q3Loader.cpp:293). -/
def readLeaf (floatBits : ℚ → Int) (L : Layouts) (bspData : IStream) (pMap : TMapQ3)
    (scale : ℚ) (coordSysOpenGL : Bool) : IStream × TMapQ3 :=
  let r := readLump L.leaf (readLeaf.post floatBits scale coordSysOpenGL)
    (pMap.mHeader.mLumpes cLeafLump) bspData pMap.mLeaves
  (r.1, { pMap with mLeaves := r.2 })

/-- The function `readLeafFace` (Q3Loader.cpp:328). -/
def readLeafFace (L : Layouts) (bspData : IStream) (pMap : TMapQ3) : IStream × TMapQ3 :=
  let r := readLump L.leafFace id (pMap.mHeader.mLumpes cLeafFaceLump) bspData pMap.mLeafFaces
  (r.1, { pMap with mLeafFaces := r.2 })

/-- The function `readLeafBrush` (Q3Loader.cpp:351). -/
def readLeafBrush (L : Layouts) (bspData : IStream) (pMap : TMapQ3) : IStream × TMapQ3 :=
  let r := readLump L.leafBrush id (pMap.mHeader.mLumpes cLeafBrushLump) bspData
    pMap.mLeafBrushes
  (r.1, { pMap with mLeafBrushes := r.2 })

/-- The post-processing of a model record (Q3Loader.cpp:387-394). -/
def readModel.post (scale : ℚ) (coordSysOpenGL : Bool) (lModel : TModel) : TModel :=
  let lModel := { lModel with mMaxs := scale3 lModel.mMaxs scale }
  let lModel := { lModel with mMins := scale3 lModel.mMins scale }
  if coordSysOpenGL then
    let lModel := { lModel with mMaxs := swizzle3 lModel.mMaxs }
    { lModel with mMins := swizzle3 lModel.mMins }
  else lModel

/-- The function `readModel` (Q3Loader.cpp:374). -/
def readModel (L : Layouts) (bspData : IStream) (pMap : TMapQ3) (scale : ℚ)
    (coordSysOpenGL : Bool) : IStream × TMapQ3 :=
  let r := readLump L.model (readModel.post scale coordSysOpenGL)
    (pMap.mHeader.mLumpes cModelLump) bspData pMap.mModels
  (r.1, { pMap with mModels := r.2 })

/-- The function `readBrush` (Q3Loader.cpp:406). -/
def readBrush (L : Layouts) (bspData : IStream) (pMap : TMapQ3) : IStream × TMapQ3 :=
  let r := readLump L.brush id (pMap.mHeader.mLumpes cBrushLump) bspData pMap.mBrushes
  (r.1, { pMap with mBrushes := r.2 })

/-- The function `readBrushSide` (Q3Loader.cpp:429). -/
def readBrushSide (L : Layouts) (bspData : IStream) (pMap : TMapQ3) : IStream × TMapQ3 :=
  let r := readLump L.brushSide id (pMap.mHeader.mLumpes cBrushSideLump) bspData
    pMap.mBrushSides
  (r.1, { pMap with mBrushSides := r.2 })

/-- The post-processing of a vertex record (Q3Loader.cpp:465-471). -/
def readVertex.post (scale : ℚ) (coordSysOpenGL : Bool) (lVertex : TVertex) : TVertex :=
  let lVertex := { lVertex with mPosition := scale3 lVertex.mPosition scale }
  if coordSysOpenGL then
    let lVertex := { lVertex with mPosition := swizzle3 lVertex.mPosition }
    { lVertex with mNormal := swizzle3 lVertex.mNormal }
  else lVertex

/-- The function `readVertex` (Q3Loader.cpp:452). -/
def readVertex (L : Layouts) (bspData : IStream) (pMap : TMapQ3) (scale : ℚ)
    (coordSysOpenGL : Bool) : IStream × TMapQ3 :=
  let r := readLump L.vertex (readVertex.post scale coordSysOpenGL)
    (pMap.mHeader.mLumpes cVertexLump) bspData pMap.mVertices
  (r.1, { pMap with mVertices := r.2 })

/-- The function `readMeshVert` (Q3Loader.cpp:483). -/
def readMeshVert (L : Layouts) (bspData : IStream) (pMap : TMapQ3) : IStream × TMapQ3 :=
  let r := readLump L.meshVert id (pMap.mHeader.mLumpes cMeshVertLump) bspData
    pMap.mMeshVertices
  (r.1, { pMap with mMeshVertices := r.2 })

/-- The function `readEffect` (Q3Loader.cpp:506). -/
def readEffect (L : Layouts) (bspData : IStream) (pMap : TMapQ3) : IStream × TMapQ3 :=
  let r := readLump L.effect id (pMap.mHeader.mLumpes cEffectLump) bspData pMap.mEffects
  (r.1, { pMap with mEffects := r.2 })

/-- The post-processing of a face record (Q3Loader.cpp:542-553). -/
def readFace.post (scale : ℚ) (coordSysOpenGL : Bool) (lFace : TFace) : TFace :=
  let lFace := if lFace.mLightmapIndex < 0 then { lFace with mLightmapIndex := -1 } else lFace
  let lFace := if lFace.mTextureIndex < 0 then { lFace with mTextureIndex := -1 } else lFace
  let lFace := { lFace with mLightmapOrigin := scale3 lFace.mLightmapOrigin scale }
  let lFace := { lFace with
    mLightmapVecs := (scale3 lFace.mLightmapVecs.1 scale, lFace.mLightmapVecs.2) }
  let lFace := { lFace with
    mLightmapVecs := (lFace.mLightmapVecs.1, scale3 lFace.mLightmapVecs.2 scale) }
  if coordSysOpenGL then { lFace with mNormal := swizzle3 lFace.mNormal } else lFace

/-- The function `readFace` (Q3Loader.cpp:529). -/
def readFace (L : Layouts) (bspData : IStream) (pMap : TMapQ3) (scale : ℚ)
    (coordSysOpenGL : Bool) : IStream × TMapQ3 :=
  let r := readLump L.face (readFace.post scale coordSysOpenGL)
    (pMap.mHeader.mLumpes cFaceLump) bspData pMap.mFaces
  (r.1, { pMap with mFaces := r.2 })

/-- The function `readLightMap` (Q3Loader.cpp:564). -/
def readLightMap (L : Layouts) (bspData : IStream) (pMap : TMapQ3) : IStream × TMapQ3 :=
  let r := readLump L.lightMap id (pMap.mHeader.mLumpes cLightMapLump) bspData pMap.mLightMaps
  (r.1, { pMap with mLightMaps := r.2 })

/-- The function `readLightVol` (Q3Loader.cpp:587). -/
def readLightVol (L : Layouts) (bspData : IStream) (pMap : TMapQ3) : IStream × TMapQ3 :=
  let r := readLump L.lightVol id (pMap.mHeader.mLumpes cLightVolLump) bspData pMap.mLightVols
  (r.1, { pMap with mLightVols := r.2 })

/-- The function `readMap` (Q3Loader.cpp:1087): the returned `bool`, with
the stream and the map as the call leaves them. -/
def readMap (cMagicNumber : List Nat) (cVersion : Int) (floatBits : ℚ → Int) (L : Layouts)
    (pp : PostProcess) (bspData : IStream) (pMap : TMapQ3) (scale : ℚ)
    (postProcessSteps : Nat) : Except Fault (Bool × IStream × TMapQ3) :=
  let h := readHeader cMagicNumber cVersion bspData pMap
  if !h.1 then .ok (false, h.2.1, h.2.2)
  else
    let coordSysOpenGL := Nat.land postProcessSteps pp.CoordSysOpenGL != 0
    match readEntity h.2.1 h.2.2 with
    | .error e => .error e
    | .ok r =>
      let r := readTexture L r.1 r.2
      let r := readPlane L r.1 r.2 scale coordSysOpenGL
      let r := readNode floatBits L r.1 r.2 scale coordSysOpenGL
      let r := readLeaf floatBits L r.1 r.2 scale coordSysOpenGL
      let r := readLeafFace L r.1 r.2
      let r := readLeafBrush L r.1 r.2
      let r := readModel L r.1 r.2 scale coordSysOpenGL
      let r := readBrush L r.1 r.2
      let r := readBrushSide L r.1 r.2
      let r := readVertex L r.1 r.2 scale coordSysOpenGL
      let r := readMeshVert L r.1 r.2
      let r := readEffect L r.1 r.2
      let r := readFace L r.1 r.2 scale coordSysOpenGL
      let r := readLightMap L r.1 r.2
      let r := readLightVol L r.1 r.2
      match readVisData r.1 r.2 with
      | .error e => .error e
      | .ok r =>
        let patched : Except Fault TMapQ3 :=
          if Nat.land postProcessSteps pp.TriangulateBezierPatches ≠ 0 then
            triangulateBezierPatches r.2 9
          else if Nat.land postProcessSteps pp.IndexBezierPatches ≠ 0 then
            indexBezierPatches r.2
          else .ok r.2
        match patched with
        | .error e => .error e
        | .ok pMap =>
          let flipped : Except Fault TMapQ3 :=
            if Nat.land postProcessSteps pp.FlipWindingOrder ≠ 0 then flipWindingOrder pMap
            else .ok pMap
          match flipped with
          | .error e => .error e
          | .ok pMap => .ok (true, r.1, pMap)

/-! ## Notions and instances used by the statements on the loader -/

/-- The records of a lump as the file holds them: what the shared loop
reads when nothing is done to a record. -/
def rawRecords {α : Type} (layout : Layout α) (lump : TLump) (bspData : IStream) : List α :=
  (readLump layout id lump bspData []).2

/-- Component-wise order of two vectors. -/
def Vec3.le (a b : Vec3) : Prop := a.x ≤ b.x ∧ a.y ≤ b.y ∧ a.z ≤ b.z

instance (a b : Vec3) : Decidable (Vec3.le a b) := by
  unfold Vec3.le; infer_instance

/-- The float held by four bytes, least significant first (IEEE 754 single
precision); the infinities and not-a-number read as 0. -/
def floatOfBytes (bs : List Nat) : ℚ :=
  let u := (bytesInt bs % 4294967296).toNat
  let sign : ℚ := if u / 2147483648 = 1 then -1 else 1
  let e := u / 8388608 % 256
  let f := u % 8388608
  if e = 255 then 0
  else if e = 0 then sign * f / 2 ^ 149
  else if e ≥ 150 then sign * ((8388608 + f) * 2 ^ (e - 150))
  else sign * (8388608 + f) / 2 ^ (150 - e)

/-- The `int` that shares its bits with a float, for a non-negative
subnormal float: an instance of the parameter `floatBits`. -/
def subnormalBits (q : ℚ) : Int := Rat.floor (q * 2 ^ 149)

/-- The `int` in the word `k` of a record. -/
def wordAt (bs : List Nat) (k : Nat) : Int := bytesInt (bs.drop (4 * k))

/-- The three floats from the word `k` of a record on. -/
def vecAt (bs : List Nat) (k : Nat) : Vec3 :=
  ⟨floatOfBytes (bs.drop (4 * k)), floatOfBytes (bs.drop (4 * k + 4)),
   floatOfBytes (bs.drop (4 * k + 8))⟩

/-- Modelled from the spec: `Q3Loader.h` is absent; an instance of the
parameter `Layouts`: the records of the Quake 3 map format, packed, every
`int` and `float` in four bytes, least significant first. -/
def q3Layouts : Layouts :=
  { texture :=
      { sizeof := 72, uninit := List.replicate 72 0
        decode := fun bs =>
          { mName := bs.take 64, mFlags := wordAt bs 16, mContents := wordAt bs 17 } }
    plane :=
      { sizeof := 16, uninit := List.replicate 16 0
        decode := fun bs => ⟨vecAt bs 0, floatOfBytes (bs.drop 12)⟩ }
    node :=
      { sizeof := 36, uninit := List.replicate 36 0
        decode := fun bs =>
          { mPlane := wordAt bs 0, mChildren := (wordAt bs 1, wordAt bs 2)
            mMins := vecAt bs 3, mMaxs := vecAt bs 6 } }
    leaf :=
      { sizeof := 48, uninit := List.replicate 48 0
        decode := fun bs =>
          { mCluster := wordAt bs 0, mArea := wordAt bs 1
            mMins := vecAt bs 2, mMaxs := vecAt bs 5
            mLeafFace := wordAt bs 8, mNbLeafFaces := wordAt bs 9
            mLeafBrush := wordAt bs 10, mNbLeafBrushes := wordAt bs 11 } }
    leafFace :=
      { sizeof := 4, uninit := List.replicate 4 0
        decode := fun bs => { mFaceIndex := wordAt bs 0 } }
    leafBrush :=
      { sizeof := 4, uninit := List.replicate 4 0
        decode := fun bs => { mBrushIndex := wordAt bs 0 } }
    model :=
      { sizeof := 40, uninit := List.replicate 40 0
        decode := fun bs =>
          { mMins := vecAt bs 0, mMaxs := vecAt bs 3
            mFace := wordAt bs 6, mNbFaces := wordAt bs 7
            mBrush := wordAt bs 8, mNbBrushes := wordAt bs 9 } }
    brush :=
      { sizeof := 12, uninit := List.replicate 12 0
        decode := fun bs =>
          { mBrushSide := wordAt bs 0, mNbBrushSides := wordAt bs 1
            mTextureIndex := wordAt bs 2 } }
    brushSide :=
      { sizeof := 8, uninit := List.replicate 8 0
        decode := fun bs => { mPlaneIndex := wordAt bs 0, mTextureIndex := wordAt bs 1 } }
    vertex :=
      { sizeof := 44, uninit := List.replicate 44 0
        decode := fun bs =>
          { mPosition := vecAt bs 0
            mTexCoord := ((floatOfBytes (bs.drop 12), floatOfBytes (bs.drop 16)),
              (floatOfBytes (bs.drop 20), floatOfBytes (bs.drop 24)))
            mNormal := vecAt bs 7
            mColor := (bs.getD 40 0, bs.getD 41 0, bs.getD 42 0, bs.getD 43 0) } }
    meshVert :=
      { sizeof := 4, uninit := List.replicate 4 0, decode := fun bs => wordAt bs 0 }
    effect :=
      { sizeof := 72, uninit := List.replicate 72 0
        decode := fun bs =>
          { mName := bs.take 64, mBrush := wordAt bs 16, mUnknown := wordAt bs 17 } }
    face :=
      { sizeof := 104, uninit := List.replicate 104 0
        decode := fun bs =>
          { mTextureIndex := wordAt bs 0, mEffectIndex := wordAt bs 1, mType := wordAt bs 2
            mVertex := wordAt bs 3, mNbVertices := wordAt bs 4
            mMeshVertex := wordAt bs 5, mNbMeshVertices := wordAt bs 6
            mLightmapIndex := wordAt bs 7
            mLightmapCorner := (wordAt bs 8, wordAt bs 9)
            mLightmapSize := (wordAt bs 10, wordAt bs 11)
            mLightmapOrigin := vecAt bs 12
            mLightmapVecs := (vecAt bs 15, vecAt bs 18)
            mNormal := vecAt bs 21
            mPatchSize := (wordAt bs 24, wordAt bs 25) } }
    lightMap :=
      { sizeof := 49152, uninit := List.replicate 49152 0
        decode := fun bs => { mMapData := bs.take 49152 } }
    lightVol :=
      { sizeof := 8, uninit := List.replicate 8 0
        decode := fun bs =>
          { mAmbient := bs.take 3, mDirectional := (bs.drop 3).take 3
            mDir := (bs.drop 6).take 2 } } }

/-- A fresh map whose lump directory has the one entry `lump`, of offset
0 and the given length. -/
def lumpOnly (lump : Fin cNbLumps) (mLength : Int) : TMapQ3 :=
  { mHeader := { mLumpes := fun i => if i = lump then ⟨0, mLength⟩ else {} } }

/-- The sixteen bytes of the plane record with the normal (0, 1, 0) and
the distance 2. -/
def planeRecord : IStream :=
  { chars := [0, 0, 0, 0, 0, 0, 128, 63, 0, 0, 0, 0, 0, 0, 0, 64] }

/-- An instance of the parameter `PostProcess`: one bit per step. -/
def stepBits : PostProcess :=
  { CoordSysOpenGL := 1, TriangulateBezierPatches := 2, IndexBezierPatches := 4
    FlipWindingOrder := 8 }

/-- A file that starts with the tag "IBSP" and the version 47 and ends
there. -/
def badVersionFile : IStream := { chars := [73, 66, 83, 80, 47, 0, 0, 0] }

/-- The nine control points of the 3x3 patch at the index `patch` with the
row stride `stride` are elements of the vertex array. -/
def PatchInRange (verts : List TVertex) (patch : Int) (stride : Nat) : Prop :=
  0 ≤ patch ∧ patch + ((2 * stride + 2 : Nat) : Int) < verts.length

instance (verts : List TVertex) (patch : Int) (stride : Nat) :
    Decidable (PatchInRange verts patch stride) := by
  unfold PatchInRange; infer_instance

/-- The function `cross3` (Q3Loader.cpp:56). -/
def cross3 (x y : Vec3) : Vec3 :=
  ⟨x.y * y.z - x.z * y.y, x.z * y.x - x.x * y.z, x.x * y.y - x.y * y.x⟩

/-- The points a, b, c lie on one line: the steps from a to b and from b
to c have the cross product 0. -/
def Collinear (a b c : TVertex) : Prop :=
  cross3 (sub3 b.mPosition a.mPosition) (sub3 c.mPosition b.mPosition) = ⟨0, 0, 0⟩

instance (a b c : TVertex) : Decidable (Collinear a b c) := by
  unfold Collinear; infer_instance

/-- A control point at (x, y, z), every other field zero. -/
def controlPoint (x y z : ℚ) : TVertex := { mPosition := ⟨x, y, z⟩ }

/-- A flat 3x3 patch, row by row: the evenly spaced grid of the points
(i, j, 0). -/
def flatGrid : List TVertex :=
  [controlPoint 0 0 0, controlPoint 1 0 0, controlPoint 2 0 0,
   controlPoint 0 1 0, controlPoint 1 1 0, controlPoint 2 1 0,
   controlPoint 0 2 0, controlPoint 1 2 0, controlPoint 2 2 0]

/-- A flat 3x3 patch, row by row, whose rows are evenly spaced points of
the lines y = 0, y = 1 and y = 2 with the steps 1, 2 and 3: its columns
lie on three lines through the points of the first row that are not
parallel. -/
def trapezoidPatch : List TVertex :=
  [controlPoint 0 0 0, controlPoint 1 0 0, controlPoint 2 0 0,
   controlPoint 0 1 0, controlPoint 2 1 0, controlPoint 4 1 0,
   controlPoint 0 2 0, controlPoint 3 2 0, controlPoint 6 2 0]

/-- A curved 3x3 patch, row by row: the grid `flatGrid` with its middle
point raised to z = 1. -/
def curvedPatch : List TVertex :=
  [controlPoint 0 0 0, controlPoint 1 0 0, controlPoint 2 0 0,
   controlPoint 0 1 0, controlPoint 1 1 1, controlPoint 2 1 0,
   controlPoint 0 2 0, controlPoint 1 2 0, controlPoint 2 2 0]

/-- A map with the nine vertices of `flatGrid` and one patch face of 3x3
control points on them. -/
def flatPatchMap : TMapQ3 :=
  { mVertices := flatGrid
    mFaces := [{ mType := 2, mVertex := 0, mNbVertices := 9, mPatchSize := (3, 3) }] }

/-- The vertices of the array at the indices i, j, k lie on one line. -/
def CollinearAt (verts : List TVertex) (i j k : Int) : Prop :=
  match lookup verts i, lookup verts j, lookup verts k with
  | .ok a, .ok b, .ok c => Collinear a b c
  | _, _, _ => False

instance (verts : List TVertex) (i j k : Int) : Decidable (CollinearAt verts i j k) := by
  unfold CollinearAt; split <;> infer_instance

/-! ## Frustum culling (camera_utils.cpp:25-151)

The square root of `CalcFrustumPlanes` comes from the C library and is a
parameter. -/

/-- Four floats: `glm::vec4`, here a plane as normal (x, y, z) and
offset w. -/
structure Vec4 where
  x : ℚ
  y : ℚ
  z : ℚ
  w : ℚ
deriving DecidableEq, Repr

/-- A 4x4 matrix `glm::mat4`, read as `matrix[i][j]`. -/
abbrev Mat4 := Fin 4 → Fin 4 → ℚ

/-- The function `VectorToIndex` (camera_utils.cpp:25). -/
def VectorToIndex (v : Vec3) : Nat :=
  let idx := 0
  let idx := if v.z ≥ 0 then Nat.lor idx 1 else idx
  let idx := if v.y ≥ 0 then Nat.lor idx 2 else idx
  if v.x ≥ 0 then Nat.lor idx 4 else idx

/-- The function `HalfPlaneTest` (camera_utils.cpp:41): 0 behind the
plane, 1 in front of it, 2 on it. -/
def HalfPlaneTest (p normal : Vec3) (offset : ℚ) : Nat :=
  let dist := Vec3.dot p normal + offset
  if dist > 1 / 1000 then 1
  else if dist < -(1 / 1000) then 0
  else 2

/-- The table `cornerOffsets` of `IsBoxInFrustum` (camera_utils.cpp:57). -/
def cornerOffsets : List Vec3 :=
  [⟨-1, -1, -1⟩, ⟨-1, -1, 1⟩, ⟨-1, 1, -1⟩, ⟨-1, 1, 1⟩,
   ⟨1, -1, -1⟩, ⟨1, -1, 1⟩, ⟨1, 1, -1⟩, ⟨1, 1, 1⟩]

/-- The corner `origin + halfDim * cornerOffsets[idx]`. -/
def boxTestPoint (origin halfDim : Vec3) (idx : Nat) : Except Fault Vec3 :=
  match lookup cornerOffsets (idx : Nat) with
  | .error e => .error e
  | .ok c => .ok ⟨origin.x + halfDim.x * c.x, origin.y + halfDim.y * c.y,
      origin.z + halfDim.z * c.z⟩

/-- The loop of `IsBoxInFrustum` (camera_utils.cpp:69-93): `k` planes
remain, `i` is the loop counter, `ret` the result so far. -/
def IsBoxInFrustum.loop (origin halfDim : Vec3) (planes : List Vec4) :
    Nat → Nat → Nat → Except Fault Nat
  | 0, _, ret => .ok ret
  | k + 1, i, ret =>
    match lookup planes (i : Nat) with
    | .error e => .error e
    | .ok plane =>
      let planeNormal : Vec3 := ⟨plane.x, plane.y, plane.z⟩
      match boxTestPoint origin halfDim (VectorToIndex planeNormal) with
      | .error e => .error e
      | .ok testPoint =>
        if HalfPlaneTest testPoint planeNormal plane.w = 0 then .ok 0
        else
          match boxTestPoint origin halfDim (VectorToIndex (Vec3.neg planeNormal)) with
          | .error e => .error e
          | .ok testPoint =>
            let ret := if HalfPlaneTest testPoint planeNormal plane.w = 0 then Nat.lor ret 2
              else ret
            IsBoxInFrustum.loop origin halfDim planes k (i + 1) ret

/-- The function `IsBoxInFrustum` (camera_utils.cpp:55): 0 outside, 1
inside, 3 partly inside. -/
def IsBoxInFrustum (origin halfDim : Vec3) (planes : List Vec4) : Except Fault Nat :=
  IsBoxInFrustum.loop origin halfDim planes 6 0 1

/-- One plane of `CalcFrustumPlanes`: row 3 of the matrix plus `sgn` times
row `r`. -/
def frustumPlane (matrix : Mat4) (sgn : ℚ) (r : Fin 4) : Vec4 :=
  ⟨matrix 0 3 + sgn * matrix 0 r, matrix 1 3 + sgn * matrix 1 r,
   matrix 2 3 + sgn * matrix 2 r, matrix 3 3 + sgn * matrix 3 r⟩

/-- The normalisation of a plane in `CalcFrustumPlanes`
(camera_utils.cpp:140-148). -/
def normalizePlane (sqrt : ℚ → ℚ) (p : Vec4) : Vec4 :=
  let invl := sqrt (p.x * p.x + p.y * p.y + p.z * p.z)
  ⟨p.x / invl, p.y / invl, p.z / invl, p.w / invl⟩

/-- The function `CalcFrustumPlanes` (camera_utils.cpp:97): the planes
right, left, bottom, top, far, near. -/
def CalcFrustumPlanes (sqrt : ℚ → ℚ) (matrix : Mat4) : List Vec4 :=
  [frustumPlane matrix (-1) 0, frustumPlane matrix 1 0, frustumPlane matrix 1 1,
   frustumPlane matrix (-1) 1, frustumPlane matrix (-1) 2, frustumPlane matrix 1 2].map
    (normalizePlane sqrt)

/-! ## The visible faces (`Q3Map::FindVisibleFaces`, Q3Map.cpp:38-86, 529-600)

The member `mTexturesTypeBits` of `Q3Map`, filled when the textures are
loaded, is a parameter. -/

/-- The function `GetTexType` (Q3Map.cpp:59): the two bits of the texture
`texIx`, a `uint32_t`. -/
def GetTexType (texIx : Nat) (texTypeBits : List Nat) : Except Fault Nat :=
  if texIx < texTypeBits.length * 32 then
    match lookup texTypeBits ((texIx / 32 : Nat) : Int) with
    | .error e => .error e
    | .ok word => .ok (Nat.land (word >>> (texIx % 32 * 2)) 3)
  else .error .assertFailed

/-- The function `SetBit` (Q3Map.cpp:68). -/
def SetBit (ix : Nat) (mask : List Nat) : Except Fault (List Nat) :=
  if ix < mask.length * 64 then
    match lookup mask ((ix / 64 : Nat) : Int) with
    | .error e => .error e
    | .ok word =>
      .ok (mask.set (ix / 64) (Nat.lor word ((1 <<< (ix % 64)) % 18446744073709551616)))
  else .error .assertFailed

/-- The function `IsBitSet` (Q3Map.cpp:75). -/
def IsBitSet (ix : Nat) (mask : List Nat) : Except Fault Bool :=
  if ix < mask.length * 64 then
    match lookup mask ((ix / 64 : Nat) : Int) with
    | .error e => .error e
    | .ok word => .ok (Nat.land word ((1 <<< (ix % 64)) % 18446744073709551616) != 0)
  else .error .assertFailed

/-- The function `GetFaceHash` (Q3Map.cpp:82), the `int` result converted
to `uint32_t`. -/
def GetFaceHash (face : TFace) : Nat :=
  toUInt32 (Int.lor (face.mTextureIndex + 1) ((face.mLightmapIndex + 1) * 65536))

/-- What the loops of `FindVisibleFaces` carry: the lists of faces by
technique and the mask of the faces already listed. -/
structure VisibleState where
  visibleFaces : List (List (Nat × Nat))
  visFaceMask : List Nat

/-- The body of the loop over the faces of a leaf (Q3Map.cpp:568-591) for
the entry `k` of the leaf. -/
def FindVisibleFaces.face (m : TMapQ3) (mTexturesTypeBits : List Nat) (leaf : TLeaf) (k : Int)
    (st : VisibleState) : Except Fault VisibleState :=
  match lookup m.mLeafFaces (leaf.mLeafFace + k) with
  | .error e => .error e
  | .ok leafFace =>
    let faceindex := toUInt32 leafFace.mFaceIndex
    match IsBitSet faceindex st.visFaceMask with
    | .error e => .error e
    | .ok true => .ok st
    | .ok false =>
      match SetBit faceindex st.visFaceMask with
      | .error e => .error e
      | .ok visFaceMask =>
        match lookup m.mFaces (faceindex : Nat) with
        | .error e => .error e
        | .ok face =>
          let faceType := toUInt32 face.mType
          if faceType > 0 ∧ faceType < 5 then
            match GetTexType (toUInt32 face.mTextureIndex) mTexturesTypeBits with
            | .error e => .error e
            | .ok texType =>
              let faceType :=
                if texType = 1 then 0 else if texType = 2 then 5 else if texType = 3 then 6
                else faceType
              match lookup st.visibleFaces (faceType : Nat) with
              | .error e => .error e
              | .ok faces =>
                .ok { visibleFaces :=
                        st.visibleFaces.set faceType (faces ++ [(faceindex, GetFaceHash face)])
                      visFaceMask := visFaceMask }
          else .error .assertFailed

/-- The loop over the faces of a leaf (Q3Map.cpp:566): `n` iterations
remain, `k` is the loop counter. -/
def FindVisibleFaces.faces (m : TMapQ3) (mTexturesTypeBits : List Nat) (leaf : TLeaf) :
    Nat → Int → VisibleState → Except Fault VisibleState
  | 0, _, st => .ok st
  | n + 1, k, st =>
    match FindVisibleFaces.face m mTexturesTypeBits leaf k st with
    | .error e => .error e
    | .ok st => FindVisibleFaces.faces m mTexturesTypeBits leaf n (k + 1) st

/-- The body of the loop over the leaves (Q3Map.cpp:553-592) for the
leaf `i`. -/
def FindVisibleFaces.leaf (m : TMapQ3) (mTexturesTypeBits : List Nat) (visCluster : Int)
    (planes : List Vec4) (i : Nat) (st : VisibleState) : Except Fault VisibleState :=
  match lookup m.mLeaves (i : Nat) with
  | .error e => .error e
  | .ok leaf =>
    match IsClusterVisible m visCluster leaf.mCluster with
    | .error e => .error e
    | .ok false => .ok st
    | .ok true =>
      let minS := leaf.mMins
      let maxS := leaf.mMaxs
      let halfSize := Vec3.scale (Vec3.sub maxS minS) (1 / 2)
      match IsBoxInFrustum (Vec3.add minS halfSize) halfSize planes with
      | .error e => .error e
      | .ok inFrustum =>
        if inFrustum = 0 then .ok st
        else FindVisibleFaces.faces m mTexturesTypeBits leaf leaf.mNbLeafFaces.toNat 0 st

/-- The loop over the leaves (Q3Map.cpp:551): `n` iterations remain, `i`
is the loop counter. -/
def FindVisibleFaces.leaves (m : TMapQ3) (mTexturesTypeBits : List Nat) (visCluster : Int)
    (planes : List Vec4) : Nat → Nat → VisibleState → Except Fault VisibleState
  | 0, _, st => .ok st
  | n + 1, i, st =>
    match FindVisibleFaces.leaf m mTexturesTypeBits visCluster planes i st with
    | .error e => .error e
    | .ok st => FindVisibleFaces.leaves m mTexturesTypeBits visCluster planes n (i + 1) st

/-- The function `Q3Map::FindVisibleFaces` (Q3Map.cpp:529); `fuel` bounds
the descent of `FindLeaf`. The order that `std::sort` leaves among faces
of equal hash is not specified; here they keep their order. -/
def FindVisibleFaces (sqrt : ℚ → ℚ) (m : TMapQ3) (mTexturesTypeBits : List Nat) (fuel : Nat)
    (camPos : Vec3) (mvpMat : Mat4) : Except Fault (List (List (Nat × Nat))) :=
  let visibleFaces : List (List (Nat × Nat)) := List.replicate 7 []
  let visFaceMask : List Nat := List.replicate (m.mFaces.length / 64 + 1) 0
  if m.mLeaves.isEmpty then .ok []
  else
    match FindLeaf m fuel camPos with
    | .error e => .error e
    | .ok leaf =>
      match lookup m.mLeaves leaf with
      | .error e => .error e
      | .ok cameraLeaf =>
        let visCluster := cameraLeaf.mCluster
        if visCluster < 0 then .ok []
        else
          let planes := CalcFrustumPlanes sqrt mvpMat
          match FindVisibleFaces.leaves m mTexturesTypeBits visCluster planes
              m.mLeaves.length 0
              { visibleFaces := visibleFaces, visFaceMask := visFaceMask } with
          | .error e => .error e
          | .ok st =>
            .ok (st.visibleFaces.map fun faces =>
              faces.insertionSort fun f1 f2 => f1.2 ≤ f2.2)

/-- A map without visibility data whose one leaf has no cluster: one node
on the plane x = 0 with both children the leaf 0, which has the cluster id
-1 and lists the face 0. -/
def noClusterMap : TMapQ3 :=
  { mPlanes := [⟨⟨1, 0, 0⟩, 0⟩]
    mNodes := [{ mPlane := 0, mChildren := (-1, -1) }]
    mLeaves := [{ mCluster := -1, mMins := ⟨-1, -1, -1⟩, mMaxs := ⟨1, 1, 1⟩
                  mLeafFace := 0, mNbLeafFaces := 1 }]
    mLeafFaces := [{ mFaceIndex := 0 }]
    mFaces := [{ mType := 1 }] }

/-- The identity matrix. -/
def identityMat : Mat4 := fun i j => if i = j then 1 else 0

/-! ## Notions used by the statements on the visible faces -/

/-- The point `p` is a point of the box with the centre `origin` and the
half diagonal `halfDim`. -/
def InBox (origin halfDim p : Vec3) : Prop :=
  Vec3.le (Vec3.sub origin halfDim) p ∧ Vec3.le p (Vec3.add origin halfDim)

/-- The value dot(n, p) + w of the plane (n, w) at the point `p`, as
`HalfPlaneTest` computes it. -/
def planeValue (plane : Vec4) (p : Vec3) : ℚ :=
  Vec3.dot p ⟨plane.x, plane.y, plane.z⟩ + plane.w

/-- The corner of the box that `IsBoxInFrustum` tests first for a plane:
on every axis the end of the box towards which the normal points. -/
def farCorner (origin halfDim : Vec3) (plane : Vec4) : Vec3 :=
  ⟨origin.x + halfDim.x * (if plane.x ≥ 0 then 1 else -1),
   origin.y + halfDim.y * (if plane.y ≥ 0 then 1 else -1),
   origin.z + halfDim.z * (if plane.z ≥ 0 then 1 else -1)⟩

/-- Six planes around the cube of half side 2 at the origin, the normals
pointing inwards: the value of each is 2 at the origin. -/
def cubeFrustum : List Vec4 :=
  [⟨-1, 0, 0, 2⟩, ⟨1, 0, 0, 2⟩, ⟨0, 1, 0, 2⟩, ⟨0, -1, 0, 2⟩, ⟨0, 0, -1, 2⟩, ⟨0, 0, 1, 2⟩]

/-! ## Notions used by the statements on the patch samples -/

/-- The element of the vertex array at an index; the zero vertex outside
the array. -/
def controlAt (verts : List TVertex) (i : Int) : TVertex :=
  match lookup verts i with
  | .ok v => v
  | .error _ => {}

/-- The curve of the specification, by de Casteljau:
Q(A, B, C, t) = mix(mix(A, B, t), mix(B, C, t), t). -/
def deCasteljau (A B C : TVertex) (t : ℚ) : TVertex :=
  mixTVertex (mixTVertex A B t) (mixTVertex B C t) t

/-- The control curve Q(rk, u) of the row that starts at the index `row`. -/
def controlCurve (verts : List TVertex) (row : Int) (u : ℚ) : TVertex :=
  deCasteljau (controlAt verts row) (controlAt verts (row + 1)) (controlAt verts (row + 2)) u

/-- The uncached surface value of the specification,
Q(Q(r0, u), Q(r1, u), Q(r2, u), v), for the 3x3 patch at the index `patch`
with the row stride `stride`. -/
def uncachedSurface (verts : List TVertex) (patch : Int) (stride : Nat) (u v : ℚ) : TVertex :=
  deCasteljau (controlCurve verts patch u) (controlCurve verts (patch + stride) u)
    (controlCurve verts (patch + stride + stride) u) v

/-- The samples of a patch in the order in which `addPatchTriangles` appends
them: row by row, `nx` samples to a row and `ny` rows, the sample (i, j) at
the parameters (i * sx, j * sy). -/
def sampleGrid (verts : List TVertex) (patch : Int) (stride nx ny : Nat) (sx sy : ℚ) :
    List TVertex :=
  (List.range (ny * nx)).map fun t =>
    uncachedSurface verts patch stride ((t % nx : Nat) * sx) ((t / nx : Nat) * sy)

/-- A cache of nine columns whose every entry is the point (9, 9, 9), which
no control curve of `curvedPatch` passes through. -/
def staleCache : List TVertex := List.replicate 27 (controlPoint 9 9 9)

/-- The bit of the face `f` in the mask of the faces already listed. -/
def maskHas (mask : List Nat) (f : Nat) : Bool := (mask.getD (f / 64) 0).testBit (f % 64)

/-- The leaf passes the two tests of the loop over the leaves: its cluster
is visible from the cluster `visCluster` and its box is not outside the
frustum of the matrix. -/
def LeafShown (sqrt : ℚ → ℚ) (m : TMapQ3) (visCluster : Int) (mvpMat : Mat4) (leaf : TLeaf) :
    Prop :=
  IsClusterVisible m visCluster leaf.mCluster = .ok true ∧
  ∃ r, IsBoxInFrustum
      (Vec3.add leaf.mMins (Vec3.scale (Vec3.sub leaf.mMaxs leaf.mMins) (1 / 2)))
      (Vec3.scale (Vec3.sub leaf.mMaxs leaf.mMins) (1 / 2))
      (CalcFrustumPlanes sqrt mvpMat) = .ok r ∧ r ≠ 0

/-- The face index `f` (a `uint32_t`) is listed by the leaf: it is the
entry `k` of the leaf face array for one of the entries of the leaf. -/
def LeafLists (m : TMapQ3) (leaf : TLeaf) (f : Nat) : Prop :=
  ∃ (k : Int) (leafFace : TLeafFace), 0 ≤ k ∧ k < leaf.mNbLeafFaces ∧
    lookup m.mLeafFaces (leaf.mLeafFace + k) = .ok leafFace ∧
    toUInt32 leafFace.mFaceIndex = f

/-- The face index `f` is referenced by at least one leaf of the map that
passes the two tests. -/
def FaceReferenced (sqrt : ℚ → ℚ) (m : TMapQ3) (visCluster : Int) (mvpMat : Mat4) (f : Nat) :
    Prop :=
  ∃ (i : Nat) (leaf : TLeaf), lookup m.mLeaves (i : Int) = .ok leaf ∧
    LeafShown sqrt m visCluster mvpMat leaf ∧ LeafLists m leaf f

/-- The pair (f, h) stands in the technique list `t` as the code places it:
`f` is the index of a face of the map, `h` its hash, and `t` is 0, 5 or 6
for the texture types 1 (transparent), 2 (flame) and 3 (swirl) and the
stored type of the face otherwise. -/
def PlacedAt (m : TMapQ3) (mTexturesTypeBits : List Nat) (t f h : Nat) : Prop :=
  ∃ (face : TFace) (texType : Nat), lookup m.mFaces (f : Int) = .ok face ∧
    GetTexType (toUInt32 face.mTextureIndex) mTexturesTypeBits = .ok texType ∧
    h = GetFaceHash face ∧
    0 < toUInt32 face.mType ∧ toUInt32 face.mType < 5 ∧
    t = (if texType = 1 then 0 else if texType = 2 then 5 else if texType = 3 then 6
      else toUInt32 face.mType)

/-- The face indices in the technique lists, list after list. -/
def listedFaces (lists : List (List (Nat × Nat))) : List Nat := lists.flatten.map Prod.fst

/-- What holds of the state of the loops of `FindVisibleFaces` when the
face indices met so far are those of `seen`: seven lists and a mask of `W`
words; the bit of a face is set exactly when it was met; the faces in the
lists are those met, each once; and every pair stands where the code
places it. -/
def VisibleInv (m : TMapQ3) (mTexturesTypeBits : List Nat) (W : Nat) (st : VisibleState)
    (seen : Nat → Prop) : Prop :=
  st.visibleFaces.length = 7 ∧
  st.visFaceMask.length = W ∧
  (∀ f, seen f → f < W * 64) ∧
  (∀ f, maskHas st.visFaceMask f = true ↔ seen f) ∧
  (listedFaces st.visibleFaces).Nodup ∧
  (∀ f, f ∈ listedFaces st.visibleFaces ↔ seen f) ∧
  (∀ (t : Nat) (faces : List (Nat × Nat)) (f h : Nat), st.visibleFaces[t]? = some faces →
    (f, h) ∈ faces → PlacedAt m mTexturesTypeBits t f h)

/-- A map without visibility data, with one node on the plane x = 0 and two
leaves of cluster 0. The front leaf 0, the box 0 <= x <= 1 of the unit
cube, lists the faces 0, 1, 3 and 0 again; the back leaf 1, a box far out
at -5 <= x <= -3, lists the faces 1 and 2. The faces 0 and 3 are polygons
with the textures 3 and 0, the face 1 is a mesh with the texture 1, the
face 2 a polygon with the texture 2. -/
def faceMap : TMapQ3 :=
  { mPlanes := [⟨⟨1, 0, 0⟩, 0⟩]
    mNodes := [{ mPlane := 0, mChildren := (-1, -2) }]
    mLeaves := [{ mCluster := 0, mMins := ⟨0, -1, -1⟩, mMaxs := ⟨1, 1, 1⟩
                  mLeafFace := 0, mNbLeafFaces := 4 },
                { mCluster := 0, mMins := ⟨-5, -1, -1⟩, mMaxs := ⟨-3, 1, 1⟩
                  mLeafFace := 4, mNbLeafFaces := 2 }]
    mLeafFaces := [⟨0⟩, ⟨1⟩, ⟨3⟩, ⟨0⟩, ⟨1⟩, ⟨2⟩]
    mFaces := [{ mType := 1, mTextureIndex := 3, mLightmapIndex := 0 },
               { mType := 3, mTextureIndex := 1, mLightmapIndex := -1 },
               { mType := 1, mTextureIndex := 2, mLightmapIndex := 0 },
               { mType := 1, mTextureIndex := 0, mLightmapIndex := 0 }] }

/-- The texture types for `faceMap`, two bits a texture: the texture 1 is
transparent (1), the texture 2 a flame (2), the others normal (0). -/
def faceMapTexTypes : List Nat := [36]

/-- The texture index and the light map index of the face are in
[-1, 65534]. -/
def KeyRange (face : TFace) : Prop :=
  -1 ≤ face.mTextureIndex ∧ face.mTextureIndex ≤ 65534 ∧
  -1 ≤ face.mLightmapIndex ∧ face.mLightmapIndex ≤ 65534

instance (face : TFace) : Decidable (KeyRange face) := by
  unfold KeyRange; infer_instance

/-! ## The descent with a record of its calls (Q3Map.cpp:709-768)

`CheckLeaf` and `CheckNode` once more, statement for statement, carrying
beside the trace data the leaf indices `CheckLeaf` was called with and the
brush indices `CheckBrush` was called with, the latest call first. -/

/-- The calls made so far during a descent, the latest first. -/
structure Calls where
  leaves : List Int := []
  brushes : List Int := []
deriving DecidableEq, Repr

/-- The loop of `CheckLeaf`, recording each call of `CheckBrush`. -/
def CheckLeaf.loopCalls (normalize : Vec3 → Vec3) (CONTENTS_SOLID : Int) (m : TMapQ3)
    (leaf : TLeaf) : Nat → Int → TraceData → Calls → Except Fault (TraceData × Calls)
  | 0, _, data, calls => .ok (data, calls)
  | k + 1, i, data, calls =>
    match lookup m.mLeafBrushes (leaf.mLeafBrush + i) with
    | .error e => .error e
    | .ok leafBrush =>
      let brushIndex := leafBrush.mBrushIndex
      if toUInt32 brushIndex ∈ data.mCheckedBrushes then
        CheckLeaf.loopCalls normalize CONTENTS_SOLID m leaf k (i + 1) data calls
      else
        match CheckBrush normalize CONTENTS_SOLID m brushIndex
            { data with mCheckedBrushes := toUInt32 brushIndex :: data.mCheckedBrushes } with
        | .error e => .error e
        | .ok data =>
          CheckLeaf.loopCalls normalize CONTENTS_SOLID m leaf k (i + 1) data
            { calls with brushes := brushIndex :: calls.brushes }

/-- The function `Q3Map::CheckLeaf`, recording its own call. -/
def CheckLeafCalls (normalize : Vec3 → Vec3) (CONTENTS_SOLID : Int) (m : TMapQ3)
    (leafIndex : Int) (data : TraceData) (calls : Calls) : Except Fault (TraceData × Calls) :=
  match lookup m.mLeaves leafIndex with
  | .error e => .error e
  | .ok leaf =>
    CheckLeaf.loopCalls normalize CONTENTS_SOLID m leaf leaf.mNbLeafBrushes.toNat 0 data
      { calls with leaves := leafIndex :: calls.leaves }

/-- The function `Q3Map::CheckNode` over `CheckLeafCalls`. -/
def CheckNodeCalls (normalize : Vec3 → Vec3) (CONTENTS_SOLID : Int) (m : TMapQ3) :
    Nat → Int → TraceData → Calls → Except Fault (TraceData × Calls)
  | 0, _, _, _ => .error .outOfFuel
  | fuel + 1, nodeIndex, data, calls =>
    if nodeIndex < 0 then
      CheckLeafCalls normalize CONTENTS_SOLID m (-(nodeIndex + 1)) data calls
    else
      match lookup m.mNodes nodeIndex with
      | .error e => .error e
      | .ok node =>
        match lookup m.mPlanes node.mPlane with
        | .error e => .error e
        | .ok plane =>
          let planeNormal := plane.mNormal
          let offset := nodeOffset data planeNormal
          let startDistance := Vec3.dot data.mStart planeNormal - plane.mDistance
          let endDistance := Vec3.dot data.mEnd planeNormal - plane.mDistance
          if startDistance ≥ offset ∧ endDistance ≥ offset then
            CheckNodeCalls normalize CONTENTS_SOLID m fuel node.mChildren.1 data calls
          else if startDistance < -offset ∧ endDistance < -offset then
            CheckNodeCalls normalize CONTENTS_SOLID m fuel node.mChildren.2 data calls
          else
            let side : Nat := if startDistance < endDistance then 1 else 0
            match CheckNodeCalls normalize CONTENTS_SOLID m fuel (node.child side) data calls with
            | .error e => .error e
            | .ok (data, calls) =>
              CheckNodeCalls normalize CONTENTS_SOLID m fuel (node.child (1 - side)) data calls

/-- The brush index `b`, as the set of tested brushes keeps it, is listed
by one of the leaves: for a leaf index of the list, the leaf brush array
holds it at one of the positions mLeafBrush .. mLeafBrush + mNbLeafBrushes - 1
of that leaf. -/
def ListedBy (m : TMapQ3) (leaves : List Int) (b : Nat) : Prop :=
  ∃ leafIndex ∈ leaves, ∃ leaf : TLeaf, lookup m.mLeaves leafIndex = .ok leaf ∧
    ∃ (k : Int) (leafBrush : TLeafBrush), 0 ≤ k ∧ k < leaf.mNbLeafBrushes ∧
      lookup m.mLeafBrushes (leaf.mLeafBrush + k) = .ok leafBrush ∧
      toUInt32 leafBrush.mBrushIndex = b

/-- What the record of the calls says about the set of tested brushes: the
set holds the brush indices `CheckBrush` was called with, each once, and
they are the brush indices listed by the leaves `CheckLeaf` was called
with. -/
def CallsInv (m : TMapQ3) (d : TraceData) (c : Calls) : Prop :=
  d.mCheckedBrushes = c.brushes.map toUInt32 ∧ d.mCheckedBrushes.Nodup ∧
  ∀ b : Nat, b ∈ d.mCheckedBrushes ↔ ListedBy m c.leaves b

/-! ## The trace in binary32 arithmetic (Q3Map.cpp:664-869)

The functions above compute over the rationals. The source computes in
`float`: each `+`, `-`, `*` and `/` gives the binary32 value nearest to the
exact result, ties to even. The definitions below are the trace functions
once more, statement for statement, with a rounding `fl` applied to the
result of every arithmetic operation (comparisons, negation, `abs` and the
choice of a bound are exact); with `fl = id` they are the functions above.
`roundF32` is the rounding of binary32; overflow to infinity is not
modelled. -/

/-- The spacing of the binary32 values at the magnitude `a`: starting from
`q` = 2^-149, the first 2^k with a < 2^24 * 2^k, at most `fuel` doublings
on. -/
def f32Quantum : Nat → ℚ → ℚ → ℚ
  | 0, _, q => q
  | fuel + 1, a, q => if a < 16777216 * q then q else f32Quantum fuel a (2 * q)

/-- The integer nearest to `x`, the even one of two equally near. -/
def roundEven (x : ℚ) : Int :=
  let f := Rat.floor x
  let r := x - f
  if r < 1 / 2 then f else if 1 / 2 < r then f + 1 else if f % 2 = 0 then f else f + 1

/-- Rounding to binary32, to nearest, ties to even: the multiple of the
spacing at the magnitude of `x` that is nearest to `x`. Subnormal values
have the spacing 2^-149; the largest spacing is 2^104. -/
def roundF32 (x : ℚ) : ℚ :=
  let q := f32Quantum 253 |x| (1 / 2 ^ 149)
  roundEven (x / q) * q

/-- The value is a binary32 value. -/
def IsF32 (x : ℚ) : Prop := roundF32 x = x

instance (x : ℚ) : Decidable (IsF32 x) := by
  unfold IsF32; infer_instance

/-- The three components are binary32 values. -/
def Vec3.IsF32 (v : Vec3) : Prop := Q3.IsF32 v.x ∧ Q3.IsF32 v.y ∧ Q3.IsF32 v.z

instance (v : Vec3) : Decidable v.IsF32 := by
  unfold Vec3.IsF32; infer_instance

/-- Scalar product as `glm::dot` computes it: the three products, summed
from the left. -/
def Vec3.dotFl (fl : ℚ → ℚ) (a b : Vec3) : ℚ :=
  fl (fl (fl (a.x * b.x) + fl (a.y * b.y)) + fl (a.z * b.z))

/-- Component-wise difference, each component rounded. -/
def Vec3.subFl (fl : ℚ → ℚ) (a b : Vec3) : Vec3 :=
  ⟨fl (a.x - b.x), fl (a.y - b.y), fl (a.z - b.z)⟩

/-- Product with a scalar, each component rounded. -/
def Vec3.scaleFl (fl : ℚ → ℚ) (a : Vec3) (s : ℚ) : Vec3 :=
  ⟨fl (a.x * s), fl (a.y * s), fl (a.z * s)⟩

/-- The function `proj` (Q3Map.cpp:88) with rounding. -/
def projFl (fl : ℚ → ℚ) (planeNorm v : Vec3) : Vec3 :=
  Vec3.subFl fl v (Vec3.scaleFl fl planeNorm (Vec3.dotFl fl v planeNorm))

/-- The offset `dist` of a side plane (Q3Map.cpp:789-806) with rounding. -/
def sideOffsetFl (fl : ℚ → ℚ) (data : TraceData) (planeNormal : Vec3) : ℚ :=
  if data.mTraceType = .TraceBox then
    -(Vec3.dotFl fl (boxCorner planeNormal data.mMinBounds data.mMaxBounds) planeNormal)
  else data.mRadius

/-- First part of the loop body of `CheckBrush` (Q3Map.cpp:785-809) with
rounding. -/
def sideDistancesFl (fl : ℚ → ℚ) (normalize : Vec3 → Vec3) (m : TMapQ3) (data : TraceData)
    (brush : TBrush) (i : Int) : Except Fault SideDist :=
  match lookup m.mBrushSides (brush.mBrushSide + i) with
  | .error e => .error e
  | .ok brushSide =>
    match lookup m.mPlanes brushSide.mPlaneIndex with
    | .error e => .error e
    | .ok plane =>
      let planeNormal := normalize plane.mNormal
      let dist := sideOffsetFl fl data planeNormal
      .ok { mPlaneIndex := brushSide.mPlaneIndex
            startDistance :=
              fl (Vec3.dotFl fl data.mStart planeNormal - fl (plane.mDistance + dist))
            endDistance :=
              fl (Vec3.dotFl fl data.mEnd planeNormal - fl (plane.mDistance + dist)) }

/-- Second part of the loop body (Q3Map.cpp:811-841) with rounding; the
literal `0.0001f` is the decimal rounded. -/
def clipSideFl (fl : ℚ → ℚ) (s : BrushScan) (sd : SideDist) : Option BrushScan :=
  let startDistance := sd.startDistance
  let endDistance := sd.endDistance
  let s := if startDistance > 0 then { s with startsOut := true } else s
  let s := if endDistance > 0 then { s with endsOut := true } else s
  if startDistance > 0 ∧ endDistance ≥ startDistance then none
  else if startDistance ≤ 0 ∧ endDistance ≤ 0 then some s
  else if startDistance > endDistance then
    let fraction := fl (fl (startDistance - fl (1 / 10000)) / fl (startDistance - endDistance))
    if fraction > s.enterFraction then
      some { s with enterFraction := fraction, startPlaneIndex := sd.mPlaneIndex }
    else some s
  else
    let fraction := fl (fl (startDistance + fl (1 / 10000)) / fl (startDistance - endDistance))
    if fraction < s.leaveFraction then some { s with leaveFraction := fraction }
    else some s

/-- The loop over the sides with rounding. -/
def CheckBrush.sidesFl (fl : ℚ → ℚ) (normalize : Vec3 → Vec3) (m : TMapQ3) (data : TraceData)
    (brush : TBrush) : Nat → Int → BrushScan → Except Fault (Option BrushScan)
  | 0, _, s => .ok (some s)
  | k + 1, i, s =>
    match sideDistancesFl fl normalize m data brush i with
    | .error e => .error e
    | .ok sd =>
      match clipSideFl fl s sd with
      | none => .ok none
      | some s => CheckBrush.sidesFl fl normalize m data brush k (i + 1) s

/-- The start of `CheckBrush` up to the end of the loop with rounding. -/
def CheckBrush.scanFl (fl : ℚ → ℚ) (normalize : Vec3 → Vec3) (CONTENTS_SOLID : Int)
    (m : TMapQ3) (brushIndex : Int) (data : TraceData) :
    Except Fault (Option (Int × BrushScan)) :=
  match lookup m.mBrushes brushIndex with
  | .error e => .error e
  | .ok brush =>
    match lookup m.mTextures brush.mTextureIndex with
    | .error e => .error e
    | .ok texture =>
      let contents := texture.mContents
      if brush.mNbBrushSides ≤ 0 ∨ Int.land contents CONTENTS_SOLID = 0 then .ok none
      else
        match CheckBrush.sidesFl fl normalize m data brush brush.mNbBrushSides.toNat 0
            BrushScan.init with
        | .error e => .error e
        | .ok none => .ok none
        | .ok (some s) => .ok (some (contents, s))

/-- The function `Q3Map::CheckBrush` with rounding; its end compares and
assigns only. -/
def CheckBrushFl (fl : ℚ → ℚ) (normalize : Vec3 → Vec3) (CONTENTS_SOLID : Int) (m : TMapQ3)
    (brushIndex : Int) (data : TraceData) : Except Fault TraceData :=
  match CheckBrush.scanFl fl normalize CONTENTS_SOLID m brushIndex data with
  | .error e => .error e
  | .ok none => .ok data
  | .ok (some (contents, s)) => CheckBrush.finish contents s data

/-- The loop of `CheckLeaf` over `CheckBrushFl`. -/
def CheckLeaf.loopFl (fl : ℚ → ℚ) (normalize : Vec3 → Vec3) (CONTENTS_SOLID : Int)
    (m : TMapQ3) (leaf : TLeaf) : Nat → Int → TraceData → Except Fault TraceData
  | 0, _, data => .ok data
  | k + 1, i, data =>
    match lookup m.mLeafBrushes (leaf.mLeafBrush + i) with
    | .error e => .error e
    | .ok leafBrush =>
      let brushIndex := leafBrush.mBrushIndex
      if toUInt32 brushIndex ∈ data.mCheckedBrushes then
        CheckLeaf.loopFl fl normalize CONTENTS_SOLID m leaf k (i + 1) data
      else
        match CheckBrushFl fl normalize CONTENTS_SOLID m brushIndex
            { data with mCheckedBrushes := toUInt32 brushIndex :: data.mCheckedBrushes } with
        | .error e => .error e
        | .ok data => CheckLeaf.loopFl fl normalize CONTENTS_SOLID m leaf k (i + 1) data

/-- The function `Q3Map::CheckLeaf` over `CheckBrushFl`. -/
def CheckLeafFl (fl : ℚ → ℚ) (normalize : Vec3 → Vec3) (CONTENTS_SOLID : Int) (m : TMapQ3)
    (leafIndex : Int) (data : TraceData) : Except Fault TraceData :=
  match lookup m.mLeaves leafIndex with
  | .error e => .error e
  | .ok leaf =>
    CheckLeaf.loopFl fl normalize CONTENTS_SOLID m leaf leaf.mNbLeafBrushes.toNat 0 data

/-- The `offset` of `CheckNode` (Q3Map.cpp:722-726) with rounding. -/
def nodeOffsetFl (fl : ℚ → ℚ) (data : TraceData) (planeNormal : Vec3) : ℚ :=
  if data.mTraceType = .TraceBox then Vec3.dotFl fl data.mExtends (Vec3.abs planeNormal)
  else data.mRadius

/-- The function `Q3Map::CheckNode` with rounding. -/
def CheckNodeFl (fl : ℚ → ℚ) (normalize : Vec3 → Vec3) (CONTENTS_SOLID : Int) (m : TMapQ3) :
    Nat → Int → TraceData → Except Fault TraceData
  | 0, _, _ => .error .outOfFuel
  | fuel + 1, nodeIndex, data =>
    if nodeIndex < 0 then
      CheckLeafFl fl normalize CONTENTS_SOLID m (-(nodeIndex + 1)) data
    else
      match lookup m.mNodes nodeIndex with
      | .error e => .error e
      | .ok node =>
        match lookup m.mPlanes node.mPlane with
        | .error e => .error e
        | .ok plane =>
          let planeNormal := plane.mNormal
          let offset := nodeOffsetFl fl data planeNormal
          let startDistance := fl (Vec3.dotFl fl data.mStart planeNormal - plane.mDistance)
          let endDistance := fl (Vec3.dotFl fl data.mEnd planeNormal - plane.mDistance)
          if startDistance ≥ offset ∧ endDistance ≥ offset then
            CheckNodeFl fl normalize CONTENTS_SOLID m fuel node.mChildren.1 data
          else if startDistance < -offset ∧ endDistance < -offset then
            CheckNodeFl fl normalize CONTENTS_SOLID m fuel node.mChildren.2 data
          else
            let side : Nat := if startDistance < endDistance then 1 else 0
            match CheckNodeFl fl normalize CONTENTS_SOLID m fuel (node.child side) data with
            | .error e => .error e
            | .ok data =>
              CheckNodeFl fl normalize CONTENTS_SOLID m fuel (node.child (1 - side)) data

/-- The function `Q3Map::Trace` with rounding. -/
def TraceFl (fl : ℚ → ℚ) (normalize : Vec3 → Vec3) (CONTENTS_SOLID : Int) (m : TMapQ3)
    (fuel : Nat) (data : TraceData) : Except Fault TraceData :=
  match CheckNodeFl fl normalize CONTENTS_SOLID m fuel 0 data with
  | .error e => .error e
  | .ok data =>
    if data.mCollision then
      match lookup m.mPlanes data.mPlaneIndex with
      | .error e => .error e
      | .ok plane =>
        let innerBrushVec :=
          Vec3.scaleFl fl (Vec3.subFl fl data.mEnd data.mStart) (fl (1 - data.mFraction))
        .ok { data with mPlaneProj := some (projFl fl plane.mNormal innerBrushVec) }
    else .ok data

/-- A wall askew to the axes: one solid brush, the slab between the planes
at the distances 2 and 3 along the normal (0.6f, 0.8f, 0), whose components
are the binary32 values nearest to 0.6 and 0.8. The node splits at the
front plane of the wall and both its children are the leaf 0, which lists
the brush. -/
def wallMap : TMapQ3 :=
  { mTextures := [{ mContents := 1 }]
    mPlanes := [⟨⟨5033165 / 8388608, 13421773 / 16777216, 0⟩, 3⟩,
                ⟨⟨-5033165 / 8388608, -13421773 / 16777216, 0⟩, -2⟩]
    mNodes := [{ mPlane := 0, mChildren := (-1, -1) }]
    mLeaves := [{ mLeafBrush := 0, mNbLeafBrushes := 1 }]
    mLeafBrushes := [⟨0⟩]
    mBrushes := [⟨0, 2, 0⟩]
    mBrushSides := [⟨0, 0⟩, ⟨1, 0⟩] }

/-- A point a little more than 1e-4 in front of the wall of `wallMap`. -/
def wallStart : Vec3 := ⟨-21 / 4, 8061059 / 1048576, 0⟩

/-- A direction along the wall of `wallMap`, by 2^-27 away from it. -/
def wallDir : Vec3 := ⟨1 / 2, -3 / 8, 0⟩
/-! ## Array reads -/

theorem lookup_ok {α : Type} {xs : List α} {i : Int} {a : α}
    (h : lookup xs i = .ok a) : 0 ≤ i ∧ a ∈ xs ∧ xs.get? i.toNat = some a := by
  unfold lookup at h
  split at h
  · cases h
  · rename_i hi
    split at h
    · rename_i b hb
      cases h
      exact ⟨not_lt.mp hi, List.get?_mem hb, hb⟩
    · cases h

/-! ## The brush test reads the input fields only and writes the output fields only -/

theorem TraceData.SameInput.refl (d : TraceData) : d.SameInput d :=
  ⟨rfl, rfl, rfl, rfl, rfl, rfl, rfl⟩

theorem TraceData.SameInput.trans {a b c : TraceData} (h1 : a.SameInput b)
    (h2 : b.SameInput c) : a.SameInput c := by
  obtain ⟨h11, h12, h13, h14, h15, h16, h17⟩ := h1
  obtain ⟨h21, h22, h23, h24, h25, h26, h27⟩ := h2
  exact ⟨h21.trans h11, h22.trans h12, h23.trans h13, h24.trans h14, h25.trans h15,
    h26.trans h16, h27.trans h17⟩

theorem sideDistances_congr (normalize : Vec3 → Vec3) (m : TMapQ3) {d d' : TraceData}
    (h : d.SameInput d') (brush : TBrush) (i : Int) :
    sideDistances normalize m d' brush i = sideDistances normalize m d brush i := by
  obtain ⟨h1, h2, h3, h4, h5, h6, _⟩ := h
  simp only [sideDistances, sideOffset, h1, h2, h3, h4, h5, h6]

theorem sides_congr (normalize : Vec3 → Vec3) (m : TMapQ3) {d d' : TraceData}
    (h : d.SameInput d') (brush : TBrush) (k : Nat) :
    ∀ (i : Int) (s : BrushScan),
      CheckBrush.sides normalize m d' brush k i s = CheckBrush.sides normalize m d brush k i s := by
  induction k with
  | zero => intro i s; rfl
  | succ k ih =>
    intro i s
    simp only [CheckBrush.sides, sideDistances_congr normalize m h, ih]

theorem scan_congr (normalize : Vec3 → Vec3) (solid : Int) (m : TMapQ3) {d d' : TraceData}
    (h : d.SameInput d') (brushIndex : Int) :
    CheckBrush.scan normalize solid m brushIndex d' =
      CheckBrush.scan normalize solid m brushIndex d := by
  simp only [CheckBrush.scan, sides_congr normalize m h]

theorem finish_frame {contents : Int} {s : BrushScan} {d d' : TraceData}
    (h : CheckBrush.finish contents s d = .ok d') :
    d.SameInput d' ∧ d'.mCheckedBrushes = d.mCheckedBrushes ∧ d'.mPlaneProj = d.mPlaneProj := by
  unfold CheckBrush.finish at h
  split_ifs at h <;>
    (cases h; exact ⟨⟨rfl, rfl, rfl, rfl, rfl, rfl, rfl⟩, rfl, rfl⟩)

theorem CheckBrush_frame {normalize : Vec3 → Vec3} {solid : Int} {m : TMapQ3}
    {brushIndex : Int} {d d' : TraceData}
    (h : CheckBrush normalize solid m brushIndex d = .ok d') :
    d.SameInput d' ∧ d'.mCheckedBrushes = d.mCheckedBrushes ∧ d'.mPlaneProj = d.mPlaneProj := by
  unfold CheckBrush at h
  split at h
  · cases h
  · cases h
    exact ⟨TraceData.SameInput.refl _, rfl, rfl⟩
  · exact finish_frame h

/-! ## Invariants of the descent

A property of the trace data that every brush test of a not yet tested
brush listed by a leaf preserves is preserved by `CheckLeaf`, `CheckNode`. -/

theorem CheckLeaf_loop_invariant {normalize : Vec3 → Vec3} {solid : Int} {m : TMapQ3}
    {I : TraceData → Prop} (hstep : BrushStep normalize solid m I) (leaf : TLeaf) (k : Nat) :
    ∀ (i : Int) (d d' : TraceData), I d →
      CheckLeaf.loop normalize solid m leaf k i d = .ok d' → I d' := by
  induction k with
  | zero =>
    intro i d d' hI h
    simp only [CheckLeaf.loop] at h
    cases h
    exact hI
  | succ k ih =>
    intro i d d' hI h
    simp only [CheckLeaf.loop] at h
    split at h
    · cases h
    · rename_i leafBrush hlb
      split at h
      · exact ih _ _ _ hI h
      · rename_i hnot
        split at h
        · cases h
        · rename_i d1 hd1
          exact ih _ _ _ (hstep d d1 leafBrush hI (lookup_ok hlb).2.1 hnot hd1) h

theorem CheckLeaf_invariant {normalize : Vec3 → Vec3} {solid : Int} {m : TMapQ3}
    {I : TraceData → Prop} (hstep : BrushStep normalize solid m I) {leafIndex : Int}
    {d d' : TraceData} (hI : I d)
    (h : CheckLeaf normalize solid m leafIndex d = .ok d') : I d' := by
  unfold CheckLeaf at h
  split at h
  · cases h
  · exact CheckLeaf_loop_invariant hstep _ _ _ _ _ hI h

theorem CheckNode_invariant {normalize : Vec3 → Vec3} {solid : Int} {m : TMapQ3}
    {I : TraceData → Prop} (hstep : BrushStep normalize solid m I) (fuel : Nat) :
    ∀ (nodeIndex : Int) (d d' : TraceData), I d →
      CheckNode normalize solid m fuel nodeIndex d = .ok d' → I d' := by
  induction fuel with
  | zero =>
    intro nodeIndex d d' _ h
    simp only [CheckNode] at h
    cases h
  | succ fuel ih =>
    intro nodeIndex d d' hI h
    simp only [CheckNode] at h
    split at h
    · exact CheckLeaf_invariant hstep hI h
    · split at h
      · cases h
      · split at h
        · cases h
        · split at h
          · exact ih _ _ _ hI h
          · split at h
            · exact ih _ _ _ hI h
            · split at h
              · cases h
              · rename_i d1 hd1
                exact ih _ _ _ (ih _ _ _ hI hd1) h

/-! ## Frame of the descent: inputs, fraction bounds, fields never written -/

/-- The three ways `CheckBrush` ends after its loop. -/
theorem finish_cases {contents : Int} {s : BrushScan} {d d' : TraceData}
    (h : CheckBrush.finish contents s d = .ok d') :
    (s.startsOut = false ∧
      d' = { d with mStartsOut := false
                    mAllSolid := if s.endsOut = false then true else d.mAllSolid }) ∨
    (s.startsOut = true ∧ s.enterFraction < s.leaveFraction ∧ -1 < s.enterFraction ∧
      s.enterFraction ≤ d.mFraction ∧ 0 ≤ s.startPlaneIndex ∧
      d' = { d with mPlaneIndex := s.startPlaneIndex
                    mFraction := if s.enterFraction < 0 then 0 else s.enterFraction
                    mContents := some contents
                    mCollision := true }) ∨
    (s.startsOut = true ∧
      ¬ (s.enterFraction < s.leaveFraction ∧ -1 < s.enterFraction ∧
          s.enterFraction ≤ d.mFraction) ∧ d' = d) := by
  unfold CheckBrush.finish at h
  by_cases h1 : s.startsOut = false
  · rw [if_pos h1] at h
    cases h
    exact Or.inl ⟨h1, rfl⟩
  · rw [if_neg h1] at h
    have h1' : s.startsOut = true := by simpa using h1
    by_cases h2 : s.enterFraction < s.leaveFraction
    · rw [if_pos h2] at h
      by_cases h3 : s.enterFraction > -1 ∧ s.enterFraction ≤ d.mFraction
      · rw [if_pos h3] at h
        by_cases h4 : s.startPlaneIndex ≥ 0
        · simp only [if_pos h4] at h
          cases h
          exact Or.inr (Or.inl ⟨h1', h2, h3.1, h3.2, h4, rfl⟩)
        · simp only [if_neg h4] at h
          cases h
      · rw [if_neg h3] at h
        cases h
        exact Or.inr (Or.inr ⟨h1', fun hc => h3 ⟨hc.2.1, hc.2.2⟩, rfl⟩)
    · rw [if_neg h2] at h
      cases h
      exact Or.inr (Or.inr ⟨h1', fun hc => h2 hc.1, rfl⟩)

/-- A returning `CheckBrush` in terms of its two halves. -/
theorem CheckBrush_ok {normalize : Vec3 → Vec3} {solid : Int} {m : TMapQ3}
    {brushIndex : Int} {d d' : TraceData}
    (h : CheckBrush normalize solid m brushIndex d = .ok d') :
    (CheckBrush.scan normalize solid m brushIndex d = .ok none ∧ d' = d) ∨
    ∃ contents s, CheckBrush.scan normalize solid m brushIndex d = .ok (some (contents, s)) ∧
      CheckBrush.finish contents s d = .ok d' := by
  unfold CheckBrush at h
  split at h
  · cases h
  · rename_i hs
    cases h
    exact Or.inl ⟨hs, rfl⟩
  · rename_i contents s hs
    exact Or.inr ⟨contents, s, hs, h⟩

theorem CheckBrush_fraction {normalize : Vec3 → Vec3} {solid : Int} {m : TMapQ3}
    {brushIndex : Int} {d d' : TraceData} (h0 : 0 ≤ d.mFraction)
    (h : CheckBrush normalize solid m brushIndex d = .ok d') :
    0 ≤ d'.mFraction ∧ d'.mFraction ≤ d.mFraction := by
  rcases CheckBrush_ok h with ⟨_, rfl⟩ | ⟨contents, s, _, hf⟩
  · exact ⟨h0, le_refl _⟩
  · rcases finish_cases hf with ⟨_, rfl⟩ | ⟨_, _, _, hle, _, rfl⟩ | ⟨_, _, rfl⟩
    · exact ⟨h0, le_refl _⟩
    · dsimp only
      split_ifs with hneg
      · exact ⟨le_refl _, h0⟩
      · exact ⟨not_lt.mp hneg, hle⟩
    · exact ⟨h0, le_refl _⟩

theorem CheckNode_fraction {normalize : Vec3 → Vec3} {solid : Int} {m : TMapQ3}
    {fuel : Nat} {nodeIndex : Int} {d d' : TraceData} (h0 : 0 ≤ d.mFraction)
    (h : CheckNode normalize solid m fuel nodeIndex d = .ok d') :
    0 ≤ d'.mFraction ∧ d'.mFraction ≤ d.mFraction := by
  have hstep : BrushStep normalize solid m
      (fun x => 0 ≤ x.mFraction ∧ x.mFraction ≤ d.mFraction) := by
    intro x x' leafBrush hx _ _ hx'
    have := CheckBrush_fraction (d := { x with mCheckedBrushes := _ }) (by exact hx.1) hx'
    exact ⟨this.1, le_trans this.2 hx.2⟩
  exact CheckNode_invariant hstep fuel nodeIndex d d' ⟨h0, le_refl _⟩ h

theorem CheckNode_frame {normalize : Vec3 → Vec3} {solid : Int} {m : TMapQ3}
    {fuel : Nat} {nodeIndex : Int} {d d' : TraceData}
    (h : CheckNode normalize solid m fuel nodeIndex d = .ok d') :
    d.SameInput d' ∧ d'.mPlaneProj = d.mPlaneProj := by
  have hstep : BrushStep normalize solid m
      (fun x => d.SameInput x ∧ x.mPlaneProj = d.mPlaneProj) := by
    intro x x' leafBrush hx _ _ hx'
    have hf := CheckBrush_frame hx'
    exact ⟨TraceData.SameInput.trans hx.1 hf.1, hf.2.2.trans hx.2⟩
  exact CheckNode_invariant hstep fuel nodeIndex d d' ⟨TraceData.SameInput.refl _, rfl⟩ h

/-- What `Trace` returns in terms of what `CheckNode` returns. -/
theorem Trace_ok {normalize : Vec3 → Vec3} {solid : Int} {m : TMapQ3} {fuel : Nat}
    {d d' : TraceData} (h : Trace normalize solid m fuel d = .ok d') :
    ∃ d1, CheckNode normalize solid m fuel 0 d = .ok d1 ∧
      ((d1.mCollision = false ∧ d' = d1) ∨
       (d1.mCollision = true ∧ ∃ plane, lookup m.mPlanes d1.mPlaneIndex = .ok plane ∧
          d' = { d1 with mPlaneProj := some (proj plane.mNormal
            (Vec3.scale (Vec3.sub d1.mEnd d1.mStart) (1 - d1.mFraction))) })) := by
  unfold Trace at h
  split at h
  · cases h
  · rename_i d1 hd1
    refine ⟨d1, hd1, ?_⟩
    split at h
    · rename_i hc
      split at h
      · cases h
      · rename_i plane hp
        cases h
        exact Or.inr ⟨hc, plane, hp, rfl⟩
    · rename_i hc
      cases h
      exact Or.inl ⟨by simpa using hc, rfl⟩

/-! ## The loop over the sides -/

/-- A side with both points behind its offset plane leaves the locals as
they are. -/
theorem clipSide_behind (s : BrushScan) {sd : SideDist} (h1 : sd.startDistance ≤ 0)
    (h2 : sd.endDistance ≤ 0) : clipSide s sd = some s := by
  unfold clipSide
  simp only [gt_iff_lt, not_lt.mpr h1, not_lt.mpr h2, if_false, false_and, h1, h2, and_self,
    if_true]

/-- Sides that all have both points behind them are passed without any
change of the locals. -/
theorem sides_all_behind (normalize : Vec3 → Vec3) (m : TMapQ3) (d : TraceData)
    (brush : TBrush) (k : Nat) :
    ∀ (i : Int) (s : BrushScan),
      (∀ j : Int, i ≤ j → j < i + k →
        ∃ sd, sideDistances normalize m d brush j = .ok sd ∧
          sd.startDistance ≤ 0 ∧ sd.endDistance ≤ 0) →
      CheckBrush.sides normalize m d brush k i s = .ok (some s) := by
  induction k with
  | zero => intro i s _; rfl
  | succ k ih =>
    intro i s hall
    obtain ⟨sd, hsd, h1, h2⟩ := hall i (le_refl _) (by push_cast; linarith)
    simp only [CheckBrush.sides, hsd, clipSide_behind s h1 h2]
    apply ih
    intro j hj1 hj2
    exact hall j (by linarith) (by push_cast; linarith)

/-- The scan of a brush whose two records are read and which is solid with
at least one side is its loop. -/
theorem scan_solid (normalize : Vec3 → Vec3) {solid : Int} {m : TMapQ3}
    {brushIndex : Int} {brush : TBrush} {texture : TTexture} (d : TraceData)
    (hb : lookup m.mBrushes brushIndex = .ok brush)
    (ht : lookup m.mTextures brush.mTextureIndex = .ok texture)
    (hsolid : Int.land texture.mContents solid ≠ 0) (hn : 0 < brush.mNbBrushSides) :
    CheckBrush.scan normalize solid m brushIndex d =
      match CheckBrush.sides normalize m d brush brush.mNbBrushSides.toNat 0
          BrushScan.init with
      | .error e => .error e
      | .ok none => .ok none
      | .ok (some s) => .ok (some (texture.mContents, s)) := by
  unfold CheckBrush.scan
  simp only [hb, ht]
  rw [if_neg]
  rintro (h | h)
  · exact absurd hn (not_lt.mpr h)
  · exact hsolid h

/-! ## Point location -/

/-- What is reached from a node is reached through one of its two
children. -/
theorem Reaches.through_child {m : TMapQ3} {a c : Int} (h : Reaches m a c) :
    ∃ node, lookup m.mNodes a = .ok node ∧
      ((c = node.mChildren.1 ∨ Reaches m node.mChildren.1 c) ∨
       (c = node.mChildren.2 ∨ Reaches m node.mChildren.2 c)) := by
  induction h with
  | front index node hnode => exact ⟨node, hnode, Or.inl (Or.inl rfl)⟩
  | back index node hnode => exact ⟨node, hnode, Or.inr (Or.inl rfl)⟩
  | trans a b c _ hbc ihab _ =>
    obtain ⟨node, hnode, hcase⟩ := ihab
    refine ⟨node, hnode, ?_⟩
    rcases hcase with (h | h) | (h | h)
    · exact Or.inl (Or.inr (h ▸ hbc))
    · exact Or.inl (Or.inr (Reaches.trans _ _ _ h hbc))
    · exact Or.inr (Or.inr (h ▸ hbc))
    · exact Or.inr (Or.inr (Reaches.trans _ _ _ h hbc))

/-- The root of a finite tree is not reached from itself. -/
theorem WellFormedAt.acyclic {m : TMapQ3} {index : Int} (hwf : WellFormedAt m index) :
    ¬ Reaches m index index := by
  induction hwf with
  | leaf c hc =>
    intro h
    obtain ⟨node, hnode, _⟩ := h.through_child
    exact absurd (lookup_ok hnode).1 (not_le.mpr hc)
  | node index node plane hindex hnode hplane _ _ ihfront ihback =>
    intro h
    obtain ⟨node', hnode', hcase⟩ := h.through_child
    rw [hnode] at hnode'
    cases hnode'
    rcases hcase with (h1 | h1) | (h1 | h1)
    · apply ihfront
      rw [← h1]
      exact h1 ▸ Reaches.front index node hnode
    · exact ihfront (Reaches.trans _ _ _ h1 (Reaches.front index node hnode))
    · apply ihback
      rw [← h1]
      exact h1 ▸ Reaches.back index node hnode
    · exact ihback (Reaches.trans _ _ _ h1 (Reaches.back index node hnode))

/-- A list without repetition of node indices of the map that is as long
as the node array holds every node index. -/
theorem nodup_covers {n : Nat} {vis : List Int} (hnodup : vis.Nodup)
    (hrange : ∀ v ∈ vis, 0 ≤ v ∧ v < n) (hlen : n ≤ vis.length) {index : Int}
    (h0 : 0 ≤ index) (hn : index < n) : index ∈ vis := by
  have hsub : vis.toFinset ⊆ Finset.Ico (0 : Int) n := by
    intro v hv
    rw [List.mem_toFinset] at hv
    rw [Finset.mem_Ico]
    exact hrange v hv
  have hcard : (Finset.Ico (0 : Int) n).card ≤ vis.toFinset.card := by
    rw [List.toFinset_card_of_nodup hnodup, Int.card_Ico]
    simpa using hlen
  have heq := Finset.eq_of_subset_of_card_le hsub hcard
  rw [← List.mem_toFinset, heq, Finset.mem_Ico]
  exact ⟨h0, hn⟩

/-- From a reference that is the root of a finite tree, with `vis` the
distinct nodes passed on the way to it, the loop of `FindLeaf` follows the
described descent and returns the decoded leaf when its fuel covers the
nodes not yet passed. -/
theorem FindLeaf_loop_descent (m : TMapQ3) (p : Vec3) (fuel : Nat) :
    ∀ (index : Int) (vis : List Int), WellFormedAt m index → vis.Nodup →
      (∀ v ∈ vis, (0 ≤ v ∧ v < m.mNodes.length) ∧ Reaches m v index) →
      m.mNodes.length ≤ vis.length + fuel →
      ∃ c : Int, c < 0 ∧ Descent m p index c ∧
        FindLeaf.loop m p fuel index = .ok (-c - 1) := by
  induction fuel with
  | zero =>
    intro index vis hwf hnodup hvis hlen
    cases hwf with
    | leaf c hc =>
      exact ⟨index, hc, Descent.stop index hc, by
        simp only [FindLeaf.loop, ge_iff_le, not_le.mpr hc, if_false]⟩
    | node index node plane hindex hnode hplane hfront hback =>
      exfalso
      have hlt : index < m.mNodes.length := by
        have hget := (lookup_ok hnode).2.2
        have : index.toNat < m.mNodes.length := by
          by_contra hc
          rw [List.get?_eq_none.mpr (not_lt.mp hc)] at hget
          cases hget
        omega
      have hmem := nodup_covers hnodup (fun v hv => (hvis v hv).1) (by simpa using hlen)
        hindex hlt
      exact (WellFormedAt.node index node plane hindex hnode hplane hfront hback).acyclic
        (hvis index hmem).2
  | succ fuel ih =>
    intro index vis hwf hnodup hvis hlen
    cases hwf with
    | leaf c hc =>
      exact ⟨index, hc, Descent.stop index hc, by
        simp only [FindLeaf.loop, ge_iff_le, not_le.mpr hc, if_false]⟩
    | node index node plane hindex hnode hplane hfront hback =>
      have hwf := WellFormedAt.node index node plane hindex hnode hplane hfront hback
      have hlt : index < m.mNodes.length := by
        have hget := (lookup_ok hnode).2.2
        have : index.toNat < m.mNodes.length := by
          by_contra hc
          rw [List.get?_eq_none.mpr (not_lt.mp hc)] at hget
          cases hget
        omega
      have hnot : index ∉ vis := fun hmem => hwf.acyclic (hvis index hmem).2
      have hnodup' : (index :: vis).Nodup := List.nodup_cons.mpr ⟨hnot, hnodup⟩
      have hlen' : m.mNodes.length ≤ (index :: vis).length + fuel := by
        simp only [List.length_cons]
        omega
      by_cases hside : Vec3.dot plane.mNormal p - plane.mDistance ≥ 0
      · have hvis' : ∀ v ∈ index :: vis,
            (0 ≤ v ∧ v < m.mNodes.length) ∧ Reaches m v node.mChildren.1 := by
          intro v hv
          rcases List.mem_cons.mp hv with rfl | hv
          · exact ⟨⟨hindex, hlt⟩, Reaches.front _ node hnode⟩
          · exact ⟨(hvis v hv).1,
              Reaches.trans _ _ _ (hvis v hv).2 (Reaches.front index node hnode)⟩
        obtain ⟨c, hc, hdesc, hrun⟩ := ih node.mChildren.1 (index :: vis) hfront hnodup'
          hvis' hlen'
        refine ⟨c, hc, Descent.front index node plane c hindex hnode hplane hside hdesc, ?_⟩
        simp only [FindLeaf.loop, ge_iff_le, hindex, if_true, hnode, hplane]
        rw [if_pos hside]
        exact hrun
      · have hvis' : ∀ v ∈ index :: vis,
            (0 ≤ v ∧ v < m.mNodes.length) ∧ Reaches m v node.mChildren.2 := by
          intro v hv
          rcases List.mem_cons.mp hv with rfl | hv
          · exact ⟨⟨hindex, hlt⟩, Reaches.back _ node hnode⟩
          · exact ⟨(hvis v hv).1,
              Reaches.trans _ _ _ (hvis v hv).2 (Reaches.back index node hnode)⟩
        obtain ⟨c, hc, hdesc, hrun⟩ := ih node.mChildren.2 (index :: vis) hback hnodup'
          hvis' hlen'
        refine ⟨c, hc, Descent.back index node plane c hindex hnode hplane hside hdesc, ?_⟩
        simp only [FindLeaf.loop, ge_iff_le, hindex, if_true, hnode, hplane]
        rw [if_neg hside]
        exact hrun

/-- The descent the specification describes ends in one place only. -/
theorem Descent.unique {m : TMapQ3} {p : Vec3} {index c c' : Int}
    (h : Descent m p index c) (h' : Descent m p index c') : c = c' := by
  induction h with
  | stop c hc =>
    cases h' with
    | stop _ _ => rfl
    | front _ node plane _ hindex _ _ _ _ => exact absurd hindex (not_le.mpr hc)
    | back _ node plane _ hindex _ _ _ _ => exact absurd hindex (not_le.mpr hc)
  | front index node plane c hindex hnode hplane hside _ ih =>
    cases h' with
    | stop _ hc => exact absurd hindex (not_le.mpr hc)
    | front _ node' plane' _ _ hnode' hplane' _ hrest' =>
      rw [hnode] at hnode'
      cases hnode'
      exact ih hrest'
    | back _ node' plane' _ _ hnode' hplane' hside' _ =>
      rw [hnode] at hnode'
      cases hnode'
      rw [hplane] at hplane'
      cases hplane'
      exact absurd hside hside'
  | back index node plane c hindex hnode hplane hside _ ih =>
    cases h' with
    | stop _ hc => exact absurd hindex (not_le.mpr hc)
    | front _ node' plane' _ _ hnode' hplane' hside' _ =>
      rw [hnode] at hnode'
      cases hnode'
      rw [hplane] at hplane'
      cases hplane'
      exact absurd hside' hside
    | back _ node' plane' _ _ hnode' hplane' _ hrest' =>
      rw [hnode] at hnode'
      cases hnode'
      exact ih hrest'

/-! ## What the loop over the sides records -/

/-- One side keeps the entry or replaces it by the larger biased fraction
of a side entered from the front. -/
theorem clipSide_entry {s s' : BrushScan} {sd : SideDist} (h : clipSide s sd = some s') :
    (s'.enterFraction = s.enterFraction ∧ s'.startPlaneIndex = s.startPlaneIndex) ∨
    (s.enterFraction < s'.enterFraction ∧ s'.startPlaneIndex = sd.mPlaneIndex ∧
      sd.endDistance < sd.startDistance ∧ 0 < sd.startDistance ∧
      s'.enterFraction =
        (sd.startDistance - 1 / 10000) / (sd.startDistance - sd.endDistance)) := by
  unfold clipSide at h
  by_cases h1 : sd.startDistance > 0 ∧ sd.endDistance ≥ sd.startDistance
  · simp only [h1, and_self, if_true] at h
    cases h
  · rw [if_neg h1] at h
    by_cases h2 : sd.startDistance ≤ 0 ∧ sd.endDistance ≤ 0
    · rw [if_pos h2] at h
      cases h
      left
      split_ifs <;> exact ⟨rfl, rfl⟩
    · rw [if_neg h2] at h
      by_cases h3 : sd.startDistance > sd.endDistance
      · rw [if_pos h3] at h
        have hpos : 0 < sd.startDistance := by
          by_contra hc
          exact h2 ⟨not_lt.mp hc, by linarith [not_lt.mp hc]⟩
        dsimp only at h
        split_ifs at h <;> cases h <;>
          first
          | exact Or.inl ⟨rfl, rfl⟩
          | exact Or.inr ⟨by assumption, rfl, h3, hpos, rfl⟩
      · rw [if_neg h3] at h
        dsimp only at h
        split_ifs at h <;> cases h <;> exact Or.inl ⟨rfl, rfl⟩

theorem sides_entry (normalize : Vec3 → Vec3) (m : TMapQ3) (d : TraceData) (brush : TBrush)
    (nb : Int) (k : Nat) :
    ∀ (i : Int) (s s' : BrushScan), 0 ≤ i → i + k ≤ nb →
      EntrySide normalize m d brush nb s →
      CheckBrush.sides normalize m d brush k i s = .ok (some s') →
      EntrySide normalize m d brush nb s' := by
  induction k with
  | zero =>
    intro i s s' _ _ hs h
    simp only [CheckBrush.sides] at h
    cases h
    exact hs
  | succ k ih =>
    intro i s s' hi hik hs h
    simp only [CheckBrush.sides] at h
    split at h
    · cases h
    · rename_i sd hsd
      split at h
      · cases h
      · rename_i s1 hs1
        refine ih (i + 1) s1 s' (by linarith) (by push_cast at hik ⊢; linarith) ?_ h
        rcases clipSide_entry hs1 with ⟨he, hp⟩ | ⟨hlt, hp, hcross, hpos, he⟩
        · refine ⟨by rw [he]; exact hs.1, fun hgt => ?_⟩
          rw [he] at hgt
          obtain ⟨j, sdj, h1, h2, h3, h4, h5⟩ := hs.2 hgt
          exact ⟨j, sdj, h1, h2, h3, by rw [hp]; exact h4, by rw [he]; exact h5⟩
        · refine ⟨by linarith [hs.1], fun _ => ?_⟩
          exact ⟨i, sd, hi, by push_cast at hik; linarith, hsd, hp.symm, hcross, hpos, he⟩

theorem EntrySide_init (normalize : Vec3 → Vec3) (m : TMapQ3) (d : TraceData)
    (brush : TBrush) (nb : Int) : EntrySide normalize m d brush nb BrushScan.init :=
  ⟨le_refl _, fun h => absurd h (lt_irrefl _)⟩

/-- A result of the first half of `CheckBrush` with locals: the two records
of the brush, and what the locals say. -/
theorem scan_some {normalize : Vec3 → Vec3} {solid : Int} {m : TMapQ3} {brushIndex : Int}
    {d : TraceData} {contents : Int} {s : BrushScan}
    (h : CheckBrush.scan normalize solid m brushIndex d = .ok (some (contents, s))) :
    ∃ brush texture, lookup m.mBrushes brushIndex = .ok brush ∧
      lookup m.mTextures brush.mTextureIndex = .ok texture ∧
      contents = texture.mContents ∧ 0 < brush.mNbBrushSides ∧
      Int.land texture.mContents solid ≠ 0 ∧
      CheckBrush.sides normalize m d brush brush.mNbBrushSides.toNat 0 BrushScan.init
        = .ok (some s) ∧
      EntrySide normalize m d brush brush.mNbBrushSides s := by
  unfold CheckBrush.scan at h
  split at h
  · cases h
  · rename_i brush hb
    split at h
    · cases h
    · rename_i texture ht
      dsimp only at h
      split at h
      · cases h
      · rename_i hcond
        have hn : 0 < brush.mNbBrushSides := by
          by_contra hc
          exact hcond (Or.inl (not_lt.mp hc))
        have hsolid : Int.land texture.mContents solid ≠ 0 := fun hc => hcond (Or.inr hc)
        split at h
        · cases h
        · cases h
        · rename_i s1 hs1
          cases h
          refine ⟨brush, texture, hb, ht, rfl, hn, hsolid, hs1, ?_⟩
          refine sides_entry normalize m d brush _ _ 0 _ _ (le_refl _) ?_
            (EntrySide_init normalize m d brush _) hs1
          rw [Int.toNat_of_nonneg (le_of_lt hn)]
          linarith

/-- The plane index recorded with an entry above -1 is not negative: the
assertion of `CheckBrush` holds whenever it is reached. -/
theorem EntrySide.planeIndex_nonneg {normalize : Vec3 → Vec3} {m : TMapQ3} {d : TraceData}
    {brush : TBrush} {nb : Int} {s : BrushScan} (h : EntrySide normalize m d brush nb s)
    (hgt : -1 < s.enterFraction) : 0 ≤ s.startPlaneIndex := by
  obtain ⟨i, sd, _, _, hsd, hp, _⟩ := h.2 hgt
  unfold sideDistances at hsd
  split at hsd
  · cases hsd
  · rename_i side _
    split at hsd
    · cases hsd
    · rename_i plane hplane
      cases hsd
      rw [← hp]
      exact (lookup_ok hplane).1

/-- With the first half done, `CheckBrush` returns and its result is the
one of `applyScan`. -/
theorem CheckBrush_eq_applyScan {normalize : Vec3 → Vec3} {solid : Int} {m : TMapQ3}
    {brushIndex : Int} {d : TraceData} {r : Option (Int × BrushScan)}
    (h : CheckBrush.scan normalize solid m brushIndex d = .ok r) :
    CheckBrush normalize solid m brushIndex d = .ok (applyScan r d) := by
  unfold CheckBrush
  rw [h]
  cases r with
  | none => rfl
  | some cs =>
    obtain ⟨contents, s⟩ := cs
    obtain ⟨brush, texture, _, _, _, _, _, _, hentry⟩ := scan_some h
    have hnn : -1 < s.enterFraction → 0 ≤ s.startPlaneIndex := hentry.planeIndex_nonneg
    simp only [CheckBrush.finish, applyScan, gt_iff_lt, ge_iff_le]
    split_ifs <;> first | rfl | (exfalso; tauto)

/-- A `CheckBrush` call that returns has its first half returning, and the
result is the one of `applyScan`. -/
theorem CheckBrush_ok_applyScan {normalize : Vec3 → Vec3} {solid : Int} {m : TMapQ3}
    {brushIndex : Int} {d d' : TraceData}
    (h : CheckBrush normalize solid m brushIndex d = .ok d') :
    ∃ r, CheckBrush.scan normalize solid m brushIndex d = .ok r ∧ d' = applyScan r d := by
  cases hs : CheckBrush.scan normalize solid m brushIndex d with
  | error e =>
    unfold CheckBrush at h
    rw [hs] at h
    cases h
  | ok r =>
    have := CheckBrush_eq_applyScan hs
    rw [h] at this
    cases this
    exact ⟨r, rfl, rfl⟩

/-! ## The effect of one brush on the output fields -/

theorem applyScan_sameInput (r : Option (Int × BrushScan)) (d : TraceData) :
    d.SameInput (applyScan r d) := by
  unfold applyScan
  split
  · exact TraceData.SameInput.refl d
  · split_ifs <;> exact ⟨rfl, rfl, rfl, rfl, rfl, rfl, rfl⟩

/-- The fraction after a brush is the minimum of the fraction before and the
entry into the brush. -/
theorem applyScan_fraction (r : Option (Int × BrushScan)) (d : TraceData)
    (h0 : 0 ≤ d.mFraction) :
    (applyScan r d).mFraction = minEntry d.mFraction (scanEntry r) := by
  rcases r with _ | ⟨contents, s⟩
  · rfl
  · simp only [applyScan, scanEntry]
    by_cases h1 : s.startsOut = false
    · have h1' : ¬ (s.startsOut = true ∧ -1 < s.enterFraction ∧
          s.enterFraction < s.leaveFraction) := by
        rintro ⟨hc, _⟩
        rw [h1] at hc
        cases hc
      rw [if_pos h1, if_neg h1']
      rfl
    · have hso : s.startsOut = true := by simpa using h1
      rw [if_neg h1]
      by_cases h2 : s.enterFraction < s.leaveFraction ∧ -1 < s.enterFraction ∧
          s.enterFraction ≤ d.mFraction
      · have h3 : s.startsOut = true ∧ -1 < s.enterFraction ∧
            s.enterFraction < s.leaveFraction := ⟨hso, h2.2.1, h2.1⟩
        rw [if_pos h2, if_pos h3]
        simp only [minEntry]
        by_cases hneg : s.enterFraction < 0
        · rw [if_pos hneg, max_eq_right (le_of_lt hneg), min_eq_right h0]
        · rw [if_neg hneg, max_eq_left (not_lt.mp hneg), min_eq_right h2.2.2]
      · rw [if_neg h2]
        by_cases h3 : s.startsOut = true ∧ -1 < s.enterFraction ∧
            s.enterFraction < s.leaveFraction
        · rw [if_pos h3]
          simp only [minEntry]
          have hgt : d.mFraction < s.enterFraction := by
            by_contra hc
            exact h2 ⟨h3.2.2, h3.2.1, not_lt.mp hc⟩
          rw [min_eq_left]
          exact le_trans (le_of_lt hgt) (le_max_left _ _)
        · rw [if_neg h3]
          rfl

/-- A collision is reported after a brush exactly when one was reported
before or the entry into the brush is not beyond the fraction before. -/
theorem applyScan_collision (r : Option (Int × BrushScan)) (d : TraceData)
    (h0 : 0 ≤ d.mFraction) :
    (applyScan r d).mCollision = true ↔
      d.mCollision = true ∨ ∃ x, scanEntry r = some x ∧ x ≤ d.mFraction := by
  rcases r with _ | ⟨contents, s⟩
  · simp only [applyScan, scanEntry]
    constructor
    · exact Or.inl
    · rintro (h | ⟨x, hx, _⟩)
      · exact h
      · cases hx
  · simp only [applyScan, scanEntry]
    by_cases h1 : s.startsOut = false
    · have h1' : ¬ (s.startsOut = true ∧ -1 < s.enterFraction ∧
          s.enterFraction < s.leaveFraction) := by
        rintro ⟨hc, _⟩
        rw [h1] at hc
        cases hc
      rw [if_pos h1, if_neg h1']
      constructor
      · exact Or.inl
      · rintro (h | ⟨x, hx, _⟩)
        · exact h
        · cases hx
    · have hso : s.startsOut = true := by simpa using h1
      rw [if_neg h1]
      by_cases h2 : s.enterFraction < s.leaveFraction ∧ -1 < s.enterFraction ∧
          s.enterFraction ≤ d.mFraction
      · have h3 : s.startsOut = true ∧ -1 < s.enterFraction ∧
            s.enterFraction < s.leaveFraction := ⟨hso, h2.2.1, h2.1⟩
        rw [if_pos h2, if_pos h3]
        constructor
        · intro _
          exact Or.inr ⟨_, rfl, max_le h2.2.2 h0⟩
        · intro _
          rfl
      · rw [if_neg h2]
        by_cases h3 : s.startsOut = true ∧ -1 < s.enterFraction ∧
            s.enterFraction < s.leaveFraction
        · rw [if_pos h3]
          constructor
          · exact Or.inl
          · rintro (h | ⟨x, hx, hle⟩)
            · exact h
            · exfalso
              cases hx
              exact h2 ⟨h3.2.2, h3.2.1, le_trans (le_max_left _ _) hle⟩
        · rw [if_neg h3]
          constructor
          · exact Or.inl
          · rintro (h | ⟨x, hx, _⟩)
            · exact h
            · cases hx

/-- The two flags after a brush depend on the flags before and on the brush
only. -/
theorem applyScan_flags (r : Option (Int × BrushScan)) (d : TraceData) :
    (applyScan r d).mStartsOut =
      (match r with
       | some (_, s) => if s.startsOut = false then false else d.mStartsOut
       | none => d.mStartsOut) ∧
    (applyScan r d).mAllSolid =
      (match r with
       | some (_, s) =>
         if s.startsOut = false ∧ s.endsOut = false then true else d.mAllSolid
       | none => d.mAllSolid) := by
  rcases r with _ | ⟨contents, s⟩
  · exact ⟨rfl, rfl⟩
  · simp only [applyScan]
    split_ifs <;> simp_all

theorem applyScan_fraction_nonneg (r : Option (Int × BrushScan)) (d : TraceData)
    (h0 : 0 ≤ d.mFraction) : 0 ≤ (applyScan r d).mFraction := by
  rw [applyScan_fraction r d h0]
  rcases hr : scanEntry r with _ | x
  · exact h0
  · simp only [minEntry]
    refine le_min h0 ?_
    rcases r with _ | ⟨contents, s⟩
    · cases hr
    · simp only [scanEntry] at hr
      split_ifs at hr
      cases hr
      exact le_max_right _ _

/-- Two brushes applied in either order give the same fraction, collision
flag, starts-out flag and all-solid flag. -/
theorem applyScan_comm (rA rB : Option (Int × BrushScan)) (d : TraceData)
    (h0 : 0 ≤ d.mFraction) :
    (applyScan rA (applyScan rB d)).mFraction = (applyScan rB (applyScan rA d)).mFraction ∧
    (applyScan rA (applyScan rB d)).mCollision = (applyScan rB (applyScan rA d)).mCollision ∧
    (applyScan rA (applyScan rB d)).mStartsOut = (applyScan rB (applyScan rA d)).mStartsOut ∧
    (applyScan rA (applyScan rB d)).mAllSolid = (applyScan rB (applyScan rA d)).mAllSolid ∧
    (applyScan rB (applyScan rA d)).mFraction =
      minEntry (minEntry d.mFraction (scanEntry rA)) (scanEntry rB) := by
  have hA := applyScan_fraction_nonneg rA d h0
  have hB := applyScan_fraction_nonneg rB d h0
  have hfAB : (applyScan rB (applyScan rA d)).mFraction =
      minEntry (minEntry d.mFraction (scanEntry rA)) (scanEntry rB) := by
    rw [applyScan_fraction rB _ hA, applyScan_fraction rA d h0]
  have hfBA : (applyScan rA (applyScan rB d)).mFraction =
      minEntry (minEntry d.mFraction (scanEntry rB)) (scanEntry rA) := by
    rw [applyScan_fraction rA _ hB, applyScan_fraction rB d h0]
  refine ⟨?_, ?_, ?_, ?_, hfAB⟩
  · rw [hfAB, hfBA]
    rcases scanEntry rA with _ | xA <;> rcases scanEntry rB with _ | xB <;>
      simp only [minEntry]
    rw [min_assoc, min_assoc, min_comm xA xB]
  · rw [Bool.eq_iff_iff, applyScan_collision rA _ hB, applyScan_collision rB _ hA,
      applyScan_collision rA d h0, applyScan_collision rB d h0,
      applyScan_fraction rA d h0, applyScan_fraction rB d h0]
    rcases scanEntry rA with _ | xA <;> rcases scanEntry rB with _ | xB <;>
      simp only [minEntry, Option.some.injEq, exists_eq_left', le_min_iff, false_and,
        exists_false, or_false, reduceCtorEq]
    · rcases le_total xA xB with hle | hle
      · constructor
        · rintro ((h | h) | ⟨h1, _⟩)
          · exact Or.inl (Or.inl h)
          · by_cases hA' : xA ≤ d.mFraction
            · exact Or.inl (Or.inr hA')
            · exact Or.inl (Or.inr (le_trans hle h))
          · exact Or.inl (Or.inr h1)
        · rintro ((h | h) | ⟨h1, h2⟩)
          · exact Or.inl (Or.inl h)
          · exact Or.inr ⟨h, hle⟩
          · exact Or.inl (Or.inr h1)
      · constructor
        · rintro ((h | h) | ⟨h1, h2⟩)
          · exact Or.inl (Or.inl h)
          · exact Or.inr ⟨h, hle⟩
          · exact Or.inl (Or.inr h1)
        · rintro ((h | h) | ⟨h1, _⟩)
          · exact Or.inl (Or.inl h)
          · exact Or.inl (Or.inr (le_trans hle h))
          · exact Or.inl (Or.inr h1)
  · have hflag := fun r x => (applyScan_flags r x).1
    simp only [hflag]
    rcases rA with _ | ⟨cA, sA⟩ <;> rcases rB with _ | ⟨cB, sB⟩ <;> dsimp only
    split_ifs <;> rfl
  · have hflag := fun r x => (applyScan_flags r x).2
    simp only [hflag]
    rcases rA with _ | ⟨cA, sA⟩ <;> rcases rB with _ | ⟨cB, sB⟩ <;> dsimp only
    split_ifs <;> rfl

/-- The loop over `a + b` sides is the loop over the first `a` followed by
the loop over the next `b`. -/
theorem sides_add (normalize : Vec3 → Vec3) (m : TMapQ3) (d : TraceData) (brush : TBrush)
    (a b : Nat) :
    ∀ (i : Int) (s : BrushScan),
      CheckBrush.sides normalize m d brush (a + b) i s =
        match CheckBrush.sides normalize m d brush a i s with
        | .error e => .error e
        | .ok none => .ok none
        | .ok (some s') => CheckBrush.sides normalize m d brush b (i + a) s' := by
  induction a with
  | zero =>
    intro i s
    simp only [Nat.zero_add, CheckBrush.sides, Nat.cast_zero, add_zero]
  | succ a ih =>
    intro i s
    rw [Nat.add_right_comm]
    simp only [CheckBrush.sides]
    split
    · rfl
    · split
      · rfl
      · rw [ih]
        push_cast
        rw [add_assoc, add_comm 1 (a : Int)]

/-- The side entered from more than the bias in front as the only side
crossed: what it leaves in the fresh locals. -/
theorem clipSide_init_entering {sd : SideDist} (hstart : 1 / 10000 < sd.startDistance)
    (hend : sd.endDistance < 0) :
    clipSide BrushScan.init sd = some
      { enterFraction := (sd.startDistance - 1 / 10000) / (sd.startDistance - sd.endDistance)
        leaveFraction := 1, startPlaneIndex := sd.mPlaneIndex
        startsOut := true, endsOut := false } := by
  have hpos : 0 < sd.startDistance := by linarith
  have hden : 0 < sd.startDistance - sd.endDistance := by linarith
  have hfrac : (-1 : ℚ) <
      (sd.startDistance - 1 / 10000) / (sd.startDistance - sd.endDistance) := by
    have : 0 < (sd.startDistance - 1 / 10000) / (sd.startDistance - sd.endDistance) :=
      div_pos (by linarith) hden
    linarith
  unfold clipSide
  simp only [gt_iff_lt, hpos, if_true, not_lt.mpr (le_of_lt hend), if_false, ge_iff_le,
    not_le.mpr (lt_trans hend hpos), and_false, not_le.mpr hpos, false_and,
    lt_trans hend hpos, BrushScan.init, hfrac]

/-- The loop over a brush of which side `k` is entered from more than the
bias in front and all the other sides have both points behind them. -/
theorem sides_single_crossing (normalize : Vec3 → Vec3) (m : TMapQ3) (d : TraceData)
    (brush : TBrush) (k : Int) (sd : SideDist) (hk0 : 0 ≤ k)
    (hk : k < brush.mNbBrushSides)
    (hside : sideDistances normalize m d brush k = .ok sd)
    (hstart : 1 / 10000 < sd.startDistance) (hend : sd.endDistance < 0)
    (hothers : ∀ i : Int, 0 ≤ i → i < brush.mNbBrushSides → i ≠ k →
      ∃ sdi, sideDistances normalize m d brush i = .ok sdi ∧
        sdi.startDistance ≤ 0 ∧ sdi.endDistance ≤ 0) :
    CheckBrush.sides normalize m d brush brush.mNbBrushSides.toNat 0 BrushScan.init =
      .ok (some
        { enterFraction :=
            (sd.startDistance - 1 / 10000) / (sd.startDistance - sd.endDistance)
          leaveFraction := 1, startPlaneIndex := sd.mPlaneIndex
          startsOut := true, endsOut := false }) := by
  have hsplit : brush.mNbBrushSides.toNat =
      k.toNat + ((brush.mNbBrushSides - k - 1).toNat + 1) := by omega
  have hkn : ((k.toNat : Nat) : Int) = k := Int.toNat_of_nonneg hk0
  have hrest : (((brush.mNbBrushSides - k - 1).toNat : Nat) : Int) =
      brush.mNbBrushSides - k - 1 := Int.toNat_of_nonneg (by linarith)
  rw [hsplit, sides_add]
  have hfirst : CheckBrush.sides normalize m d brush k.toNat 0 BrushScan.init =
      .ok (some BrushScan.init) := by
    apply sides_all_behind
    intro j hj1 hj2
    rw [hkn] at hj2
    exact hothers j hj1 (by linarith) (by linarith)
  rw [hfirst]
  dsimp only
  rw [Nat.add_comm, sides_add]
  simp only [CheckBrush.sides, zero_add, hkn, hside, clipSide_init_entering hstart hend]
  apply sides_all_behind
  intro j hj1 hj2
  rw [hrest] at hj2
  push_cast at hj1 hj2
  exact hothers j (by linarith) (by linarith) (by linarith)

/-! ## What a side read says about the map -/

/-- A side read that returns: the side and plane records it read, and the
two distances it computed. -/
theorem sideDistances_ok {normalize : Vec3 → Vec3} {m : TMapQ3} {d : TraceData}
    {brush : TBrush} {i : Int} {sd : SideDist}
    (h : sideDistances normalize m d brush i = .ok sd) :
    ∃ side plane, lookup m.mBrushSides (brush.mBrushSide + i) = .ok side ∧
      lookup m.mPlanes side.mPlaneIndex = .ok plane ∧
      sd.mPlaneIndex = side.mPlaneIndex ∧
      sd.startDistance = Vec3.dot d.mStart (normalize plane.mNormal) -
        (plane.mDistance + sideOffset d (normalize plane.mNormal)) ∧
      sd.endDistance = Vec3.dot d.mEnd (normalize plane.mNormal) -
        (plane.mDistance + sideOffset d (normalize plane.mNormal)) := by
  unfold sideDistances at h
  split at h
  · cases h
  · rename_i side hside
    split at h
    · cases h
    · rename_i plane hplane
      cases h
      exact ⟨side, plane, hside, hplane, rfl, rfl, rfl⟩

/-- One brush either keeps the collision flag, the plane index and the
contents, or records a collision with the plane index and contents of an
entry above -1 found with the start outside. -/
theorem applyScan_hit_cases (r : Option (Int × BrushScan)) (d : TraceData) :
    ((applyScan r d).mCollision = d.mCollision ∧
      (applyScan r d).mPlaneIndex = d.mPlaneIndex ∧
      (applyScan r d).mContents = d.mContents) ∨
    ∃ contents s, r = some (contents, s) ∧ -1 < s.enterFraction ∧ s.startsOut = true ∧
      s.enterFraction < s.leaveFraction ∧ s.enterFraction ≤ d.mFraction ∧
      (applyScan r d).mCollision = true ∧
      (applyScan r d).mPlaneIndex = s.startPlaneIndex ∧
      (applyScan r d).mContents = some contents := by
  rcases r with _ | ⟨contents, s⟩
  · exact Or.inl ⟨rfl, rfl, rfl⟩
  · simp only [applyScan]
    by_cases h1 : s.startsOut = false
    · rw [if_pos h1]
      exact Or.inl ⟨rfl, rfl, rfl⟩
    · rw [if_neg h1]
      by_cases h2 : s.enterFraction < s.leaveFraction ∧ -1 < s.enterFraction ∧
          s.enterFraction ≤ d.mFraction
      · rw [if_pos h2]
        exact Or.inr ⟨contents, s, rfl, h2.2.1, by simpa using h1, h2.1, h2.2.2, rfl, rfl, rfl⟩
      · rw [if_neg h2]
        exact Or.inl ⟨rfl, rfl, rfl⟩

/-! ## The plane recorded with a collision -/

/-- Through the descent from a fresh state: without collision the plane
index is still -1, with a collision it is the one of a side of a solid
brush entered from the front. -/
theorem CheckNode_struck {normalize : Vec3 → Vec3} {solid : Int} {m : TMapQ3}
    {fuel : Nat} {nodeIndex : Int} {d d' : TraceData} (hfresh : d.Fresh)
    (h : CheckNode normalize solid m fuel nodeIndex d = .ok d') :
    d.SameInput d' ∧ (d'.mCollision = false → d'.mPlaneIndex = -1) ∧
      (d'.mCollision = true → StruckSide normalize solid m d d') := by
  have hstep : BrushStep normalize solid m
      (fun x => d.SameInput x ∧ (x.mCollision = false → x.mPlaneIndex = -1) ∧
        (x.mCollision = true → StruckSide normalize solid m d x)) := by
    intro x x' leafBrush hx _ _ hx'
    obtain ⟨hin, hno, hyes⟩ := hx
    have hins : d.SameInput
        { x with mCheckedBrushes := toUInt32 leafBrush.mBrushIndex :: x.mCheckedBrushes } :=
      hin
    obtain ⟨r, hscan, rfl⟩ := CheckBrush_ok_applyScan hx'
    refine ⟨TraceData.SameInput.trans hins (applyScan_sameInput r _), ?_⟩
    rcases applyScan_hit_cases r
        { x with mCheckedBrushes := toUInt32 leafBrush.mBrushIndex :: x.mCheckedBrushes } with
      ⟨hc, hp, _⟩ | ⟨contents, s, rfl, hgt, _, _, _, hc, hp, _⟩
    · rw [hc, hp]
      refine ⟨hno, fun hcol => ?_⟩
      obtain ⟨bi, brush, texture, i, sd, h1, h2, h3, h4, h5, h6, h7, h8⟩ := hyes hcol
      exact ⟨bi, brush, texture, i, sd, h1, h2, h3, h4, h5, h6, by rw [hp]; exact h7, h8⟩
    · rw [hc, hp]
      refine ⟨fun hcol => Bool.noConfusion hcol, fun _ => ?_⟩
      obtain ⟨brush, texture, hb, ht, _, _, hsolid, _, hentry⟩ := scan_some hscan
      obtain ⟨i, sd, hi0, hi1, hsd, hpi, hcross, hpos, _⟩ := hentry.2 hgt
      rw [sideDistances_congr normalize m hins] at hsd
      exact ⟨_, brush, texture, i, sd, hb, ht, hsolid, hi0, hi1, hsd, hpi.trans hp.symm,
        hcross, hpos⟩
  exact CheckNode_invariant hstep fuel nodeIndex d d'
    ⟨TraceData.SameInput.refl d, fun _ => hfresh.1, fun hc => by
      rw [hfresh.2.2.2.2.1] at hc
      cases hc⟩ h

/-! ## Faults: the assertion is never the one -/

theorem lookup_error {α : Type} {xs : List α} {i : Int} {e : Fault}
    (h : lookup xs i = .error e) : e = .outOfRange := by
  unfold lookup at h
  split at h
  · cases h
    rfl
  · split at h
    · cases h
    · cases h
      rfl

theorem sides_error (normalize : Vec3 → Vec3) (m : TMapQ3) (d : TraceData) (brush : TBrush)
    (k : Nat) :
    ∀ (i : Int) (s : BrushScan) (e : Fault),
      CheckBrush.sides normalize m d brush k i s = .error e → e = .outOfRange := by
  induction k with
  | zero =>
    intro i s e h
    simp only [CheckBrush.sides] at h
    cases h
  | succ k ih =>
    intro i s e h
    simp only [CheckBrush.sides] at h
    split at h
    · rename_i e' hsd
      cases h
      unfold sideDistances at hsd
      split at hsd
      · rename_i e1 h1
        cases hsd
        exact lookup_error h1
      · split at hsd
        · rename_i e2 h2
          cases hsd
          exact lookup_error h2
        · cases hsd
    · split at h
      · cases h
      · exact ih _ _ _ h

theorem CheckBrush_error {normalize : Vec3 → Vec3} {solid : Int} {m : TMapQ3}
    {brushIndex : Int} {d : TraceData} {e : Fault}
    (h : CheckBrush normalize solid m brushIndex d = .error e) : e = .outOfRange := by
  cases hs : CheckBrush.scan normalize solid m brushIndex d with
  | ok r =>
    rw [CheckBrush_eq_applyScan hs] at h
    cases h
  | error e' =>
    unfold CheckBrush at h
    rw [hs] at h
    cases h
    unfold CheckBrush.scan at hs
    split at hs
    · rename_i e1 h1
      cases hs
      exact lookup_error h1
    · split at hs
      · rename_i e2 h2
        cases hs
        exact lookup_error h2
      · dsimp only at hs
        split at hs
        · cases hs
        · split at hs
          · rename_i e3 h3
            cases hs
            exact sides_error normalize m d _ _ _ _ _ h3
          · cases hs
          · cases hs

theorem CheckLeaf_loop_error (normalize : Vec3 → Vec3) (solid : Int) (m : TMapQ3)
    (leaf : TLeaf) (k : Nat) :
    ∀ (i : Int) (d : TraceData) (e : Fault),
      CheckLeaf.loop normalize solid m leaf k i d = .error e → e = .outOfRange := by
  induction k with
  | zero =>
    intro i d e h
    simp only [CheckLeaf.loop] at h
    cases h
  | succ k ih =>
    intro i d e h
    simp only [CheckLeaf.loop] at h
    split at h
    · rename_i e1 h1
      cases h
      exact lookup_error h1
    · split at h
      · exact ih _ _ _ h
      · split at h
        · rename_i e2 h2
          cases h
          exact CheckBrush_error h2
        · exact ih _ _ _ h

theorem CheckNode_error (normalize : Vec3 → Vec3) (solid : Int) (m : TMapQ3) (fuel : Nat) :
    ∀ (nodeIndex : Int) (d : TraceData) (e : Fault),
      CheckNode normalize solid m fuel nodeIndex d = .error e →
      e = .outOfRange ∨ e = .outOfFuel := by
  induction fuel with
  | zero =>
    intro nodeIndex d e h
    simp only [CheckNode] at h
    cases h
    exact Or.inr rfl
  | succ fuel ih =>
    intro nodeIndex d e h
    simp only [CheckNode] at h
    split at h
    · unfold CheckLeaf at h
      split at h
      · rename_i e1 h1
        cases h
        exact Or.inl (lookup_error h1)
      · exact Or.inl (CheckLeaf_loop_error normalize solid m _ _ _ _ _ h)
    · split at h
      · rename_i e1 h1
        cases h
        exact Or.inl (lookup_error h1)
      · split at h
        · rename_i e2 h2
          cases h
          exact Or.inl (lookup_error h2)
        · split at h
          · exact ih _ _ _ h
          · split at h
            · exact ih _ _ _ h
            · split at h
              · rename_i e3 h3
                cases h
                exact ih _ _ _ h3
              · exact ih _ _ _ h

theorem Trace_error {normalize : Vec3 → Vec3} {solid : Int} {m : TMapQ3} {fuel : Nat}
    {d : TraceData} {e : Fault} (h : Trace normalize solid m fuel d = .error e) :
    e = .outOfRange ∨ e = .outOfFuel := by
  unfold Trace at h
  split at h
  · rename_i e1 h1
    cases h
    exact CheckNode_error normalize solid m fuel _ _ _ h1
  · split at h
    · split at h
      · rename_i e2 h2
        cases h
        exact Or.inl (lookup_error h2)
      · cases h
    · cases h

/-! ## Two traces from one start along one ray -/

/-- The side distances of two traces that differ in the end point only,
the end points being start + t1 * dir and start + t2 * dir: the start
distances agree and the end distances are affine in t with one slope. -/
theorem sideDistances_ray (normalize : Vec3 → Vec3) (m : TMapQ3) (d : TraceData)
    (dir : Vec3) (t1 t2 : ℚ) (brush : TBrush) (i : Int) (sd2 : SideDist)
    (h : sideDistances normalize m
      { d with mEnd := Vec3.add d.mStart (Vec3.scale dir t2) } brush i = .ok sd2) :
    ∃ (sd1 : SideDist) (g : ℚ),
      sideDistances normalize m
        { d with mEnd := Vec3.add d.mStart (Vec3.scale dir t1) } brush i = .ok sd1 ∧
      sd1.startDistance = sd2.startDistance ∧
      sd1.endDistance = sd1.startDistance + t1 * g ∧
      sd2.endDistance = sd2.startDistance + t2 * g := by
  unfold sideDistances at h ⊢
  split at h
  · cases h
  · rename_i side hside
    split at h
    · cases h
    · rename_i plane hplane
      cases h
      refine ⟨_, Vec3.dot dir (normalize plane.mNormal), rfl, rfl, ?_, ?_⟩
      · simp only [Vec3.dot, Vec3.add, Vec3.scale, sideOffset]
        ring
      · simp only [Vec3.dot, Vec3.add, Vec3.scale, sideOffset]
        ring

/-- One side never lowers the entry. -/
theorem clipSide_enter_mono {s s' : BrushScan} {sd : SideDist}
    (h : clipSide s sd = some s') : s.enterFraction ≤ s'.enterFraction := by
  rcases clipSide_entry h with ⟨he, _⟩ | ⟨hlt, _⟩
  · rw [he]
  · exact le_of_lt hlt

/-- A side entered from the front raises the entry at least to its biased
fraction. -/
theorem clipSide_enter_ge {s s' : BrushScan} {sd : SideDist}
    (h : clipSide s sd = some s') (hcross : sd.endDistance < sd.startDistance)
    (hpos : 0 < sd.startDistance) :
    (sd.startDistance - 1 / 10000) / (sd.startDistance - sd.endDistance) ≤
      s'.enterFraction := by
  unfold clipSide at h
  have h1 : ¬ (sd.startDistance > 0 ∧ sd.endDistance ≥ sd.startDistance) :=
    fun hc => absurd hcross (not_lt.mpr hc.2)
  have h2 : ¬ (sd.startDistance ≤ 0 ∧ sd.endDistance ≤ 0) :=
    fun hc => absurd hpos (not_lt.mpr hc.1)
  rw [if_neg h1, if_neg h2, if_pos hcross] at h
  dsimp only at h
  split_ifs at h <;> cases h <;> dsimp only <;> first
    | exact le_refl _
    | (apply le_of_not_lt; assumption)

/-- The relation kept between the locals of the shorter trace and those of
the longer one along the loop over the sides: the entry of the longer trace
is at most the entry of the shorter one clamped at 0. -/
theorem clipSide_ray {s1 s2 s2' : BrushScan} {sd1 sd2 : SideDist} {t1 t2 g : ℚ}
    (ht1 : 0 ≤ t1) (ht : t1 ≤ t2)
    (hstart : sd1.startDistance = sd2.startDistance)
    (he1 : sd1.endDistance = sd1.startDistance + t1 * g)
    (he2 : sd2.endDistance = sd2.startDistance + t2 * g)
    (hR : s2.enterFraction ≤ max s1.enterFraction 0)
    (h2 : clipSide s2 sd2 = some s2') :
    clipSide s1 sd1 = none ∨
      ∃ s1', clipSide s1 sd1 = some s1' ∧ s2'.enterFraction ≤ max s1'.enterFraction 0 := by
  cases h1 : clipSide s1 sd1 with
  | none => exact Or.inl rfl
  | some s1' =>
    refine Or.inr ⟨s1', rfl, ?_⟩
    have hmono := clipSide_enter_mono h1
    rcases clipSide_entry h2 with ⟨he, _⟩ | ⟨_, _, hcross, hpos, he⟩
    · rw [he]
      exact le_trans hR (max_le_max hmono (le_refl _))
    · rw [he]
      have hg : t2 * g < 0 := by linarith
      have ht2 : 0 < t2 := by
        rcases lt_or_eq_of_le (le_trans ht1 ht) with h | h
        · exact h
        · rw [← h] at hg
          simp at hg
      have hgneg : g < 0 := by
        by_contra hc
        have := mul_nonneg (le_of_lt ht2) (not_lt.mp hc)
        linarith
      by_cases hbias : sd2.startDistance - 1 / 10000 ≤ 0
      · refine le_trans ?_ (le_max_right _ _)
        exact div_nonpos_of_nonpos_of_nonneg hbias (by linarith)
      · have hnum : 0 < sd2.startDistance - 1 / 10000 := not_le.mp hbias
        rcases lt_or_eq_of_le ht1 with ht1pos | ht1zero
        · have hcross1 : sd1.endDistance < sd1.startDistance := by
            have := mul_neg_of_pos_of_neg ht1pos hgneg
            linarith
          have hge := clipSide_enter_ge h1 hcross1 (by rw [hstart]; exact hpos)
          refine le_trans ?_ (le_trans hge (le_max_left _ _))
          rw [hstart]
          have hd1 : 0 < sd2.startDistance - sd1.endDistance := by
            rw [← hstart]
            linarith
          have hd2 : 0 < sd2.startDistance - sd2.endDistance := by linarith
          have hle : sd2.startDistance - sd1.endDistance ≤
              sd2.startDistance - sd2.endDistance := by
            rw [he1, he2, hstart]
            have := mul_le_mul_of_nonpos_right ht (le_of_lt hgneg)
            linarith
          exact div_le_div_of_nonneg_left (le_of_lt hnum) hd1 hle
        · exfalso
          have hend1 : sd1.endDistance = sd1.startDistance := by
            rw [he1, ← ht1zero]
            ring
          unfold clipSide at h1
          rw [if_pos ⟨by rw [hstart]; exact hpos, by rw [hend1]⟩] at h1
          cases h1

/-- The loops of the two traces over the same sides: when the loop of the
longer trace ends with locals, the loop of the shorter one returns early or
ends with locals whose entry, clamped at 0, is at least the other entry. -/
theorem sides_ray (normalize : Vec3 → Vec3) (m : TMapQ3) (d : TraceData) (dir : Vec3)
    (t1 t2 : ℚ) (ht1 : 0 ≤ t1) (ht : t1 ≤ t2) (brush : TBrush) (k : Nat) :
    ∀ (i : Int) (s1 s2 s2' : BrushScan),
      s2.enterFraction ≤ max s1.enterFraction 0 →
      CheckBrush.sides normalize m
        { d with mEnd := Vec3.add d.mStart (Vec3.scale dir t2) } brush k i s2 = .ok (some s2') →
      CheckBrush.sides normalize m
        { d with mEnd := Vec3.add d.mStart (Vec3.scale dir t1) } brush k i s1 = .ok none ∨
      ∃ s1', CheckBrush.sides normalize m
          { d with mEnd := Vec3.add d.mStart (Vec3.scale dir t1) } brush k i s1
            = .ok (some s1') ∧
        s2'.enterFraction ≤ max s1'.enterFraction 0 := by
  induction k with
  | zero =>
    intro i s1 s2 s2' hR h
    simp only [CheckBrush.sides] at h
    cases h
    exact Or.inr ⟨s1, rfl, hR⟩
  | succ k ih =>
    intro i s1 s2 s2' hR h
    simp only [CheckBrush.sides] at h
    split at h
    · cases h
    · rename_i sd2 hsd2
      obtain ⟨sd1, g, hsd1, hstart, he1, he2⟩ :=
        sideDistances_ray normalize m d dir t1 t2 brush i sd2 hsd2
      split at h
      · cases h
      · rename_i s2mid hclip2
        simp only [CheckBrush.sides, hsd1]
        rcases clipSide_ray ht1 ht hstart he1 he2 hR hclip2 with hnone | ⟨s1mid, hclip1, hR'⟩
        · rw [hnone]
          exact Or.inl rfl
        · rw [hclip1]
          exact ih (i + 1) s1mid s2mid s2' hR' h

/-- The brush test of the two traces: when the first half for the longer
trace ends with locals, the first half for the shorter one returns too, and
either leaves the brush without any change or ends with locals whose entry,
clamped at 0, is at least the other entry. -/
theorem scan_ray (normalize : Vec3 → Vec3) (solid : Int) (m : TMapQ3) (d : TraceData)
    (dir : Vec3) (t1 t2 : ℚ) (ht1 : 0 ≤ t1) (ht : t1 ≤ t2) (brushIndex : Int)
    (contents : Int) (s2 : BrushScan)
    (h : CheckBrush.scan normalize solid m brushIndex
      { d with mEnd := Vec3.add d.mStart (Vec3.scale dir t2) } = .ok (some (contents, s2))) :
    CheckBrush.scan normalize solid m brushIndex
      { d with mEnd := Vec3.add d.mStart (Vec3.scale dir t1) } = .ok none ∨
    ∃ s1, CheckBrush.scan normalize solid m brushIndex
        { d with mEnd := Vec3.add d.mStart (Vec3.scale dir t1) } = .ok (some (contents, s1)) ∧
      s2.enterFraction ≤ max s1.enterFraction 0 := by
  obtain ⟨brush, texture, hb, htex, hcont, hn, hsolid, hsides, _⟩ := scan_some h
  have hscan1 := scan_solid normalize
    { d with mEnd := Vec3.add d.mStart (Vec3.scale dir t1) } hb htex hsolid hn
  rcases sides_ray normalize m d dir t1 t2 ht1 ht brush _ 0 BrushScan.init BrushScan.init s2
      (by simp [BrushScan.init]) hsides with hnone | ⟨s1, hs1, hR⟩
  · rw [hnone] at hscan1
    exact Or.inl hscan1
  · rw [hs1] at hscan1
    rw [hcont]
    exact Or.inr ⟨s1, hscan1, hR⟩

/-- The fraction and the collision flag after a brush depend on the data
through the fraction and the collision flag only. -/
theorem applyScan_congr (r : Option (Int × BrushScan)) {x d : TraceData}
    (hf : x.mFraction = d.mFraction) (hc : x.mCollision = d.mCollision) :
    (applyScan r x).mFraction = (applyScan r d).mFraction ∧
    (applyScan r x).mCollision = (applyScan r d).mCollision := by
  rcases r with _ | ⟨contents, s⟩
  · exact ⟨hf, hc⟩
  · simp only [applyScan, hf]
    split_ifs <;> exact ⟨by first | rfl | exact hf, by first | rfl | exact hc⟩

theorem applyScan_checked (r : Option (Int × BrushScan)) (x : TraceData) :
    (applyScan r x).mCheckedBrushes = x.mCheckedBrushes := by
  rcases r with _ | ⟨contents, s⟩
  · rfl
  · simp only [applyScan]
    split_ifs <;> rfl

/-- On a map whose leaves list the one brush `b`, the descent from a fresh
state either tests no brush and keeps the fraction and the collision flag,
or tests `b` once, with the fraction and flag the test of `b` gives on the
fresh state. -/
theorem CheckNode_single_brush {normalize : Vec3 → Vec3} {solid : Int} {m : TMapQ3}
    {b : Int} (hsingle : ∀ leafBrush ∈ m.mLeafBrushes, leafBrush.mBrushIndex = b)
    {fuel : Nat} {nodeIndex : Int} {d d' : TraceData} (hfresh : d.Fresh)
    (h : CheckNode normalize solid m fuel nodeIndex d = .ok d') :
    (d'.mFraction = d.mFraction ∧ d'.mCollision = d.mCollision) ∨
    ∃ r, CheckBrush.scan normalize solid m b d = .ok r ∧
      d'.mFraction = (applyScan r d).mFraction ∧
      d'.mCollision = (applyScan r d).mCollision := by
  have hstep : BrushStep normalize solid m
      (fun x => d.SameInput x ∧
        ((toUInt32 b ∉ x.mCheckedBrushes ∧ x.mFraction = d.mFraction ∧
            x.mCollision = d.mCollision) ∨
          (toUInt32 b ∈ x.mCheckedBrushes ∧
            ∃ r, CheckBrush.scan normalize solid m b d = .ok r ∧
              x.mFraction = (applyScan r d).mFraction ∧
              x.mCollision = (applyScan r d).mCollision))) := by
    intro x x' leafBrush hx hmem hnot hx'
    obtain ⟨hin, hcase⟩ := hx
    have hb := hsingle leafBrush hmem
    rw [hb] at hnot hx'
    have hins : d.SameInput
        { x with mCheckedBrushes := toUInt32 b :: x.mCheckedBrushes } := hin
    obtain ⟨r, hscan, rfl⟩ := CheckBrush_ok_applyScan hx'
    refine ⟨TraceData.SameInput.trans hins (applyScan_sameInput r _), Or.inr ⟨?_, ?_⟩⟩
    · rw [applyScan_checked]
      exact List.mem_cons_self _ _
    · rcases hcase with ⟨_, hf, hc⟩ | ⟨hmem', _⟩
      · rw [scan_congr normalize solid m hins] at hscan
        exact ⟨r, hscan, applyScan_congr r (x := { x with mCheckedBrushes := _ }) hf hc⟩
      · exact absurd hmem' hnot
  have hres := CheckNode_invariant hstep fuel nodeIndex d d'
    ⟨TraceData.SameInput.refl d, Or.inl ⟨by rw [hfresh.2.2.2.2.2]; exact List.not_mem_nil _,
      rfl, rfl⟩⟩ h
  rcases hres.2 with ⟨_, hf, hc⟩ | ⟨_, r, hr, hf, hc⟩
  · exact Or.inl ⟨hf, hc⟩
  · exact Or.inr ⟨r, hr, hf, hc⟩

/-- The fraction and the collision flag `Trace` returns are those its
descent returns. -/
theorem Trace_fraction_collision {normalize : Vec3 → Vec3} {solid : Int} {m : TMapQ3}
    {fuel : Nat} {d d' : TraceData} (h : Trace normalize solid m fuel d = .ok d') :
    ∃ d1, CheckNode normalize solid m fuel 0 d = .ok d1 ∧
      d'.mFraction = d1.mFraction ∧ d'.mCollision = d1.mCollision := by
  obtain ⟨d1, hd1, hcase⟩ := Trace_ok h
  rcases hcase with ⟨_, rfl⟩ | ⟨_, plane, _, rfl⟩
  · exact ⟨d', hd1, rfl, rfl⟩
  · exact ⟨d1, hd1, rfl, rfl⟩

/-- The brush test of two fresh traces from one start along one ray: when
the longer trace collides with the brush, its fraction is at most the
fraction the shorter trace gets from the brush. -/
theorem applyScan_ray (normalize : Vec3 → Vec3) (solid : Int) (m : TMapQ3) (d : TraceData)
    (hfresh : d.Fresh) (dir : Vec3) (t1 t2 : ℚ) (ht1 : 0 ≤ t1) (ht : t1 ≤ t2)
    (brushIndex : Int) (rr1 rr2 : Option (Int × BrushScan))
    (h1 : CheckBrush.scan normalize solid m brushIndex
      { d with mEnd := Vec3.add d.mStart (Vec3.scale dir t1) } = .ok rr1)
    (h2 : CheckBrush.scan normalize solid m brushIndex
      { d with mEnd := Vec3.add d.mStart (Vec3.scale dir t2) } = .ok rr2)
    (hcol : (applyScan rr2
      { d with mEnd := Vec3.add d.mStart (Vec3.scale dir t2) }).mCollision = true) :
    (applyScan rr2 { d with mEnd := Vec3.add d.mStart (Vec3.scale dir t2) }).mFraction ≤
      (applyScan rr1 { d with mEnd := Vec3.add d.mStart (Vec3.scale dir t1) }).mFraction := by
  have hf : d.mFraction = 1 := hfresh.2.1
  have hc : d.mCollision = false := hfresh.2.2.2.2.1
  have h01 : (0 : ℚ) ≤ ({ d with mEnd := Vec3.add d.mStart (Vec3.scale dir t1) } :
      TraceData).mFraction := by
    show 0 ≤ d.mFraction
    rw [hf]
    exact zero_le_one
  have h02 : (0 : ℚ) ≤ ({ d with mEnd := Vec3.add d.mStart (Vec3.scale dir t2) } :
      TraceData).mFraction := h01
  rw [applyScan_fraction rr2 _ h02, applyScan_fraction rr1 _ h01]
  show minEntry d.mFraction (scanEntry rr2) ≤ minEntry d.mFraction (scanEntry rr1)
  rw [hf]
  rcases applyScan_hit_cases rr2 { d with mEnd := Vec3.add d.mStart (Vec3.scale dir t2) } with
    ⟨hsame, _, _⟩ | ⟨contents, s2, rfl, hgt, hso, hlt, _, _, _, _⟩
  · rw [hsame] at hcol
    rw [show ({ d with mEnd := Vec3.add d.mStart (Vec3.scale dir t2) } :
      TraceData).mCollision = d.mCollision from rfl, hc] at hcol
    cases hcol
  · have hentry2 : scanEntry (some (contents, s2)) = some (max s2.enterFraction 0) := by
      simp only [scanEntry]
      rw [if_pos ⟨hso, hgt, hlt⟩]
    rw [hentry2]
    rcases scan_ray normalize solid m d dir t1 t2 ht1 ht brushIndex contents s2 h2 with
      hnone | ⟨s1, hs1, hR⟩
    · rw [hnone] at h1
      cases h1
      exact min_le_left _ _
    · rw [hs1] at h1
      cases h1
      simp only [scanEntry]
      split_ifs
      · simp only [minEntry]
        exact min_le_min (le_refl _) (max_le hR (le_max_right _ _))
      · exact min_le_left _ _

/-! ## Bits of a visibility byte -/

/-- The test of `IsClusterVisible` on a byte is the test of one bit. -/
theorem land_shift_ne_zero (v k : Nat) :
    (Nat.land v (1 <<< k) != 0) = v.testBit k := by
  show ((v &&& 1 <<< k) != 0) = v.testBit k
  rw [Nat.one_shiftLeft, Nat.and_two_pow]
  cases h : v.testBit k
  · simp
  · simp [Nat.pos_iff_ne_zero.mp (Nat.two_pow_pos k)]

/-- For a cluster id that is not negative, the shift by 3 and the mask 7
are the quotient and the remainder by 8. -/
theorem cluster_shift_mask {b : Int} (hb : 0 ≤ b) :
    b >>> 3 = b / 8 ∧ Int.land b 7 = b % 8 := by
  obtain ⟨n, rfl⟩ := Int.eq_ofNat_of_zero_le hb
  refine ⟨?_, ?_⟩
  · have h := Int.shiftRight_coe_nat n 3
    rw [Nat.shiftRight_eq_div_pow] at h
    exact h
  show ((n &&& 7 : Nat) : Int) = (n : Int) % 8
  have : n &&& 7 = n % 8 := Nat.and_pow_two_sub_one_eq_mod n 3
  rw [this]
  rfl


/-! ## The shared loop of the lump readers -/

theorem readRecords_acc {α : Type} (layout : Layout α) (k : Nat) :
    ∀ (bspData : IStream) (out : List α),
      readRecords layout id k bspData out =
        ((readRecords layout id k bspData []).1,
          out ++ (readRecords layout id k bspData []).2) := by
  induction k with
  | zero =>
    intro bspData out
    simp [readRecords]
  | succ k ih =>
    intro bspData out
    simp only [readRecords]
    rw [ih _ (out ++ _), ih _ ([] ++ _)]
    simp

theorem readRecords_post {α : Type} (layout : Layout α) (post : α → α) (k : Nat) :
    ∀ (bspData : IStream) (out : List α),
      readRecords layout post k bspData out =
        ((readRecords layout id k bspData []).1,
          out ++ (readRecords layout id k bspData []).2.map post) := by
  induction k with
  | zero =>
    intro bspData out
    simp [readRecords]
  | succ k ih =>
    intro bspData out
    simp only [readRecords]
    rw [ih, readRecords_acc layout k _ ([] ++ _)]
    simp

theorem readLump_post {α : Type} (layout : Layout α) (post : α → α) (lump : TLump)
    (bspData : IStream) (out : List α) :
    (readLump layout post lump bspData out).2 =
      out ++ (rawRecords layout lump bspData).map post := by
  have h := readRecords_post layout post (lumpCount lump.mLength layout.sizeof).toNat
    (bspData.seekg lump.mOffset) out
  have e1 : readLump layout post lump bspData out =
      readRecords layout post (lumpCount lump.mLength layout.sizeof).toNat
        (bspData.seekg lump.mOffset) out := rfl
  have e2 : rawRecords layout lump bspData =
      (readRecords layout id (lumpCount lump.mLength layout.sizeof).toNat
        (bspData.seekg lump.mOffset) []).2 := rfl
  rw [e1, e2, h]

/-! ## The tag comparison of `isValid` -/

theorem strncmp_tag (a b : List Nat) (ha : a.length = 4) (hb : b.length = 4)
    (hnul : 0 ∉ b) : strncmp a b 4 = 0 ↔ a = b := by
  match a, ha with
  | [a0, a1, a2, a3], _ =>
    match b, hb with
    | [b0, b1, b2, b3], _ =>
      simp only [List.mem_cons, List.mem_singleton, List.not_mem_nil, or_false, not_or] at hnul
      obtain ⟨h0, h1, h2, h3⟩ := hnul
      have e : ∀ x y : Nat, ((x : Int) - (y : Int) = 0) ↔ x = y := by
        intro x y
        omega
      simp only [strncmp, List.headD_cons, List.tail_cons, ne_eq, List.cons.injEq, and_true]
      by_cases c0 : a0 = b0
      · subst c0
        by_cases c1 : a1 = b1
        · subst c1
          by_cases c2 : a2 = b2
          · subst c2
            by_cases c3 : a3 = b3
            · subst c3
              simp [Ne.symm h0, Ne.symm h1, Ne.symm h2, Ne.symm h3]
            · simp [Ne.symm h0, Ne.symm h1, Ne.symm h2, c3, e]
          · simp [Ne.symm h0, Ne.symm h1, c2, e]
        · simp [Ne.symm h0, c1, e]
      · simp [c0, e]

/-! ## The bounds of a node or leaf record -/

theorem isValid_iff (cMagicNumber : List Nat) (cVersion : Int) (pMap : TMapQ3)
    (hmagic : pMap.mHeader.mMagicNumber.length = 4)
    (hlen : cMagicNumber.length = 4) (hnul : 0 ∉ cMagicNumber) :
    isValid cMagicNumber cVersion pMap = false ↔
      (pMap.mHeader.mMagicNumber ≠ cMagicNumber ∨ pMap.mHeader.mVersion ≠ cVersion) := by
  have ht := strncmp_tag pMap.mHeader.mMagicNumber cMagicNumber hmagic hlen hnul
  unfold isValid
  by_cases h1 : strncmp pMap.mHeader.mMagicNumber cMagicNumber 4 = 0
  · have e := ht.mp h1
    by_cases h2 : pMap.mHeader.mVersion = cVersion
    · rw [if_neg (not_not.mpr h1), if_neg (not_not.mpr h2)]
      simp [e, h2]
    · rw [if_neg (not_not.mpr h1), if_pos h2]
      simp [h2]
  · have e : pMap.mHeader.mMagicNumber ≠ cMagicNumber := fun e => h1 (ht.mpr e)
    rw [if_pos h1]
    simp [e]

theorem ofBytes_magic_length (bs : List Nat) : (THeader.ofBytes bs).mMagicNumber.length = 4 := by
  simp [THeader.ofBytes]

theorem readMap_true_or_false (cMagicNumber : List Nat) (cVersion : Int) (floatBits : ℚ → Int)
    (L : Layouts) (pp : PostProcess) (bspData : IStream) (pMap : TMapQ3) (scale : ℚ)
    (postProcessSteps : Nat) (b : Bool) (s : IStream) (m : TMapQ3)
    (hres : readMap cMagicNumber cVersion floatBits L pp bspData pMap scale postProcessSteps
      = .ok (b, s, m)) :
    b = (readHeader cMagicNumber cVersion bspData pMap).1 := by
  unfold readMap at hres
  dsimp only at hres
  cases hv : (readHeader cMagicNumber cVersion bspData pMap).1
  · rw [hv] at hres
    simp only [Bool.not_false, if_true] at hres
    cases hres
    rfl
  · rw [hv] at hres
    simp only [Bool.not_true, Bool.false_eq_true, if_false] at hres
    split at hres
    · cases hres
    · split at hres
      · cases hres
      · split at hres
        · cases hres
        · split at hres
          · cases hres
          · cases hres
            rfl

/-! ## The vertex and index counts of `addPatchTriangles` -/

theorem lookup_in_range {α : Type} (xs : List α) (i : Int) (h0 : 0 ≤ i)
    (h1 : i < xs.length) : ∃ a, lookup xs i = .ok a := by
  have hn : i.toNat < xs.length := by omega
  refine ⟨xs.get ⟨i.toNat, hn⟩, ?_⟩
  unfold lookup
  rw [if_neg (not_lt.mpr h0), List.get?_eq_get hn]

theorem assign_in_range {α : Type} (xs : List α) (i : Int) (a : α) (h0 : 0 ≤ i)
    (h1 : i < xs.length) : assign xs i a = .ok (xs.set i.toNat a) := by
  unfold assign
  rw [if_pos ⟨h0, h1⟩]

theorem fill_succ (verts : List TVertex) (stride ix : Nat) (stepX : ℚ) (off k i : Nat)
    (patch : Int) (cache : List TVertex)
    (h0 : 0 ≤ patch) (h2 : patch + 2 < verts.length) (hc : off + i < cache.length) :
    ∃ v, quadraticBezierSurface.fill verts stride ix stepX off (k + 1) i patch cache =
      quadraticBezierSurface.fill verts stride ix stepX off k (i + 1) (patch + stride)
        (cache.set (off + i) v) := by
  obtain ⟨p0, hp0⟩ := lookup_in_range verts patch h0 (by omega)
  obtain ⟨p1, hp1⟩ := lookup_in_range verts (patch + 1) (by omega) (by omega)
  obtain ⟨p2, hp2⟩ := lookup_in_range verts (patch + 2) (by omega) (by omega)
  refine ⟨quadraticBezier p0 p1 p2 (ix * stepX), ?_⟩
  rw [quadraticBezierSurface.fill]
  simp only [hp0, hp1, hp2]
  rw [assign_in_range cache ((off + i : Nat) : Int) _ (by omega) (by omega)]
  rfl

theorem fill_three (verts : List TVertex) (stride ix : Nat) (stepX : ℚ) (off : Nat)
    (patch : Int) (cache : List TVertex)
    (hp : PatchInRange verts patch stride) (hc : off + 3 ≤ cache.length) :
    ∃ cache2, quadraticBezierSurface.fill verts stride ix stepX off 3 0 patch cache
        = .ok cache2 ∧ cache2.length = cache.length := by
  obtain ⟨h0, h1⟩ := hp
  push_cast at h1
  obtain ⟨v0, e0⟩ := fill_succ verts stride ix stepX off 2 0 patch cache h0 (by omega)
    (by omega)
  obtain ⟨v1, e1⟩ := fill_succ verts stride ix stepX off 1 1 (patch + stride)
    (cache.set (off + 0) v0) (by omega) (by omega) (by rw [List.length_set]; omega)
  obtain ⟨v2, e2⟩ := fill_succ verts stride ix stepX off 0 2 (patch + stride + stride)
    ((cache.set (off + 0) v0).set (off + 1) v1) (by omega) (by omega)
    (by rw [List.length_set, List.length_set]; omega)
  refine ⟨((cache.set (off + 0) v0).set (off + 1) v1).set (off + 2) v2, ?_, ?_⟩
  · have e3 : quadraticBezierSurface.fill verts stride ix stepX off 3 0 patch cache =
        quadraticBezierSurface.fill verts stride ix stepX off 0 (2 + 1)
          (patch + stride + stride + stride)
          (((cache.set (off + 0) v0).set (off + 1) v1).set (off + 2) v2) :=
      e0.trans (e1.trans e2)
    rw [e3, quadraticBezierSurface.fill]
  · simp only [List.length_set]

theorem quadraticBezierSurface_ok (verts : List TVertex) (patch : Int) (stride ix : Nat)
    (stepX : ℚ) (iy : Nat) (stepY : ℚ) (cache : List TVertex) (cacheFill : Nat)
    (hp : PatchInRange verts patch stride) (hc : ix * 3 + 3 ≤ cache.length) :
    ∃ v cache2 fill2, quadraticBezierSurface verts patch stride ix stepX iy stepY cache cacheFill
        = .ok (v, cache2, fill2) ∧ cache2.length = cache.length := by
  have key : ∀ (c : List TVertex) (f : Nat), c.length = cache.length →
      ∃ v, (match lookup c ((ix * 3 : Nat) : Int), lookup c ((ix * 3 + 1 : Nat) : Int),
          lookup c ((ix * 3 + 2 : Nat) : Int) with
        | .ok c0, .ok c1, .ok c2 =>
          (.ok (quadraticBezier c0 c1 c2 (iy * stepY), c, f) :
            Except Fault (TVertex × List TVertex × Nat))
        | _, _, _ => .error .outOfRange) = .ok (v, c, f) := by
    intro c f hlen
    obtain ⟨c0, hc0⟩ := lookup_in_range c ((ix * 3 : Nat) : Int) (by omega) (by omega)
    obtain ⟨c1, hc1⟩ := lookup_in_range c ((ix * 3 + 1 : Nat) : Int) (by omega) (by omega)
    obtain ⟨c2, hc2⟩ := lookup_in_range c ((ix * 3 + 2 : Nat) : Int) (by omega) (by omega)
    exact ⟨quadraticBezier c0 c1 c2 (iy * stepY), by simp only [hc0, hc1, hc2]⟩
  unfold quadraticBezierSurface
  dsimp only
  by_cases hm : Nat.land cacheFill ((1 <<< ix) % 18446744073709551616) = 0
  · rw [if_pos hm]
    obtain ⟨cache2, hfill, hlen⟩ := fill_three verts stride ix stepX (ix * 3) patch cache hp hc
    rw [hfill]
    dsimp only
    obtain ⟨v, hv⟩ := key cache2 (Nat.land cacheFill ((1 <<< ix) % 18446744073709551616)) hlen
    exact ⟨v, cache2, _, hv, hlen⟩
  · rw [if_neg hm]
    dsimp only
    obtain ⟨v, hv⟩ := key cache cacheFill rfl
    exact ⟨v, cache, _, hv, rfl⟩

theorem PatchInRange.mono {verts verts2 : List TVertex} {patch : Int} {stride : Nat}
    (hp : PatchInRange verts patch stride) (hlen : verts.length ≤ verts2.length) :
    PatchInRange verts2 patch stride := by
  obtain ⟨h0, h1⟩ := hp
  exact ⟨h0, by omega⟩

theorem vertexRow_ok (patch : Int) (stride : Nat) (sx : ℚ) (j : Nat) (sy : ℚ) (k : Nat) :
    ∀ (i : Nat) (st : PatchState), PatchInRange st.outVertices patch stride →
      (i + k) * 3 ≤ st.cache.length →
      ∃ st2, addPatchTriangles.vertexRow patch stride sx j sy k i st = .ok st2 ∧
        st2.outVertices.length = st.outVertices.length + k ∧
        st2.cache.length = st.cache.length := by
  induction k with
  | zero =>
    intro i st _ _
    exact ⟨st, rfl, rfl, rfl⟩
  | succ k ih =>
    intro i st hp hc
    obtain ⟨v, cache2, fill2, hq, hlen⟩ := quadraticBezierSurface_ok st.outVertices patch stride
      i sx j sy st.cache st.cacheFill hp (by omega)
    obtain ⟨st2, hrun, hv, hcl⟩ := ih (i + 1)
      { outVertices := st.outVertices ++ [v], cache := cache2, cacheFill := fill2 }
      (hp.mono (by simp)) (by
        show (i + 1 + k) * 3 ≤ cache2.length
        omega)
    refine ⟨st2, ?_, ?_, ?_⟩
    · rw [addPatchTriangles.vertexRow, hq]
      exact hrun
    · rw [hv]
      simp only [List.length_append, List.length_singleton]
      omega
    · rw [hcl]
      exact hlen

theorem vertexRows_ok (patch : Int) (stride nbVerticesX : Nat) (sx sy : ℚ) (k : Nat) :
    ∀ (j : Nat) (st : PatchState), PatchInRange st.outVertices patch stride →
      nbVerticesX * 3 ≤ st.cache.length →
      ∃ st2, addPatchTriangles.vertexRows patch stride nbVerticesX sx sy k j st = .ok st2 ∧
        st2.outVertices.length = st.outVertices.length + k * nbVerticesX ∧
        st2.cache.length = st.cache.length := by
  induction k with
  | zero =>
    intro j st _ _
    exact ⟨st, rfl, by simp, rfl⟩
  | succ k ih =>
    intro j st hp hc
    obtain ⟨st1, hrow, hv1, hc1⟩ := vertexRow_ok patch stride sx j sy nbVerticesX 0 st hp
      (by omega)
    obtain ⟨st2, hrun, hv2, hc2⟩ := ih (j + 1) st1 (hp.mono (by omega)) (by omega)
    refine ⟨st2, ?_, ?_, ?_⟩
    · rw [addPatchTriangles.vertexRows, hrow]
      exact hrun
    · rw [hv2, hv1, Nat.succ_mul]
      omega
    · rw [hc2, hc1]

theorem indexRow_length (nbVertexPerSide baseVertexIndex : Int) (j k : Nat) :
    ∀ (i : Nat) (out : List TMeshVert),
      (addPatchTriangles.indexRow nbVertexPerSide baseVertexIndex j k i out).length =
        out.length + 6 * k := by
  induction k with
  | zero =>
    intro i out
    rfl
  | succ k ih =>
    intro i out
    rw [addPatchTriangles.indexRow, ih]
    simp only [List.length_append, addPatchTriangles.cell, List.length_cons, List.length_nil]
    omega

theorem indexRows_length (nbVertexPerSide baseVertexIndex : Int) (cellsX k : Nat) :
    ∀ (j : Nat) (out : List TMeshVert),
      (addPatchTriangles.indexRows nbVertexPerSide baseVertexIndex cellsX k j out).length =
        out.length + 6 * (cellsX * k) := by
  induction k with
  | zero =>
    intro j out
    rfl
  | succ k ih =>
    intro j out
    rw [addPatchTriangles.indexRows, ih, indexRow_length, Nat.mul_succ]
    omega

theorem toUInt32_natCast (n : Nat) (h : n < 4294967296) : toUInt32 (n : Int) = n := by
  unfold toUInt32
  omega

theorem toUInt32_pred (n : Nat) (h1 : 1 ≤ n) (h : n < 4294967296) :
    toUInt32 ((n : Int) - 1) = n - 1 := by
  unfold toUInt32
  omega

theorem addPatchTriangles_counts (patch : Int) (stride n : Nat) (baseVertexIndex : Int)
    (outVertices : List TVertex) (outIndices : List TMeshVert) (cx cy : Bool)
    (hp : PatchInRange outVertices patch stride)
    (hx : colinearPatchX outVertices patch stride = .ok cx)
    (hy : colinearPatchY outVertices patch stride = .ok cy)
    (hn : 2 ≤ n) (hn3 : 3 * n < 4294967296) :
    ∃ v2 i2, addPatchTriangles patch stride n baseVertexIndex outVertices outIndices
        = .ok (v2, i2) ∧
      v2.length = outVertices.length + (if cx then 2 else n) * (if cy then 2 else n) ∧
      i2.length = outIndices.length +
        6 * (((if cx then 2 else n) - 1) * ((if cy then 2 else n) - 1)) := by
  have hX : (if cx then 2 else toUInt32 (n : Int)) = (if cx then 2 else n) := by
    rw [toUInt32_natCast n (by omega)]
  have hY : (if cy then 2 else toUInt32 (n : Int)) = (if cy then 2 else n) := by
    rw [toUInt32_natCast n (by omega)]
  have hX2 : 1 ≤ (if cx then 2 else n) ∧ (if cx then 2 else n) ≤ n := by
    cases cx <;> simp <;> omega
  have hY2 : 1 ≤ (if cy then 2 else n) ∧ (if cy then 2 else n) ≤ n := by
    cases cy <;> simp <;> omega
  have hcache : toUInt32 (((if cx then 2 else n : Nat) : Int) * 3) = (if cx then 2 else n) * 3 := by
    have := toUInt32_natCast ((if cx then 2 else n) * 3) (by omega)
    rw [← this]
    push_cast
    rfl
  unfold addPatchTriangles
  simp only [hx, hy, hX, hY, hcache]
  obtain ⟨st2, hrun, hv, _⟩ := vertexRows_ok patch stride (if cx then 2 else n)
    (1 / (toUInt32 (((if cx then 2 else n : Nat) : Int) - 1) : ℚ))
    (1 / (toUInt32 (((if cy then 2 else n : Nat) : Int) - 1) : ℚ))
    (if cy then 2 else n) 0
    { outVertices := outVertices
      cache := List.replicate ((if cx then 2 else n) * 3) {}
      cacheFill := 0 } hp (by simp)
  rw [hrun]
  refine ⟨_, _, rfl, ?_, ?_⟩
  · rw [hv]
    show outVertices.length + _ = _
    rw [Nat.mul_comm (if cy then 2 else n)]
  · rw [indexRows_length, toUInt32_pred _ hX2.1 (by omega), toUInt32_pred _ hY2.1 (by omega)]

/-! ## The corner test of `IsBoxInFrustum` -/

theorem lookup_getElem {α : Type} (xs : List α) (i : Nat) (h : i < xs.length) :
    lookup xs (i : Int) = .ok xs[i] := by
  unfold lookup
  rw [if_neg (by omega)]
  simp [List.getElem?_eq_getElem h]

theorem boxTestPoint_far (origin halfDim : Vec3) (plane : Vec4) :
    boxTestPoint origin halfDim (VectorToIndex ⟨plane.x, plane.y, plane.z⟩) =
      .ok (farCorner origin halfDim plane) := by
  unfold VectorToIndex farCorner
  dsimp only
  by_cases hx : plane.x ≥ 0 <;> by_cases hy : plane.y ≥ 0 <;> by_cases hz : plane.z ≥ 0 <;>
    simp only [hx, hy, hz, if_true, if_false] <;> rfl

theorem boxTestPoint_ok (origin halfDim v : Vec3) :
    ∃ c, boxTestPoint origin halfDim (VectorToIndex v) = .ok c := by
  have h := boxTestPoint_far origin halfDim ⟨v.x, v.y, v.z, 0⟩
  exact ⟨_, h⟩

theorem farCorner_inBox (origin halfDim : Vec3) (plane : Vec4)
    (hdim : Vec3.le ⟨0, 0, 0⟩ halfDim) : InBox origin halfDim (farCorner origin halfDim plane) := by
  obtain ⟨hx, hy, hz⟩ := hdim
  dsimp only at hx hy hz
  unfold InBox farCorner Vec3.le Vec3.sub Vec3.add
  dsimp only
  refine ⟨⟨?_, ?_, ?_⟩, ⟨?_, ?_, ?_⟩⟩ <;> split_ifs <;> linarith

theorem farCorner_max (origin halfDim : Vec3) (plane : Vec4) (p : Vec3)
    (hp : InBox origin halfDim p) :
    planeValue plane p ≤ planeValue plane (farCorner origin halfDim plane) := by
  obtain ⟨⟨lx, ly, lz⟩, ⟨ux, uy, uz⟩⟩ := hp
  simp only [Vec3.sub, Vec3.add] at lx ly lz ux uy uz
  have term : ∀ (n o h q : ℚ), o - h ≤ q → q ≤ o + h →
      q * n ≤ (o + h * (if n ≥ 0 then 1 else -1)) * n := by
    intro n o h q hl hu
    by_cases hn : n ≥ 0
    · rw [if_pos hn]
      nlinarith
    · rw [if_neg hn]
      nlinarith [not_le.mp hn]
  have hx := term plane.x origin.x halfDim.x p.x lx ux
  have hy := term plane.y origin.y halfDim.y p.y ly uy
  have hz := term plane.z origin.z halfDim.z p.z lz uz
  simp only [planeValue, Vec3.dot, farCorner]
  linarith

theorem IsBoxInFrustum_loop_spec (origin halfDim : Vec3) (planes : List Vec4) (k : Nat) :
    ∀ (i ret : Nat), i + k = planes.length → (ret = 1 ∨ ret = 3) →
      ∃ r, IsBoxInFrustum.loop origin halfDim planes k i ret = .ok r ∧
        (r = 0 ∨ r = 1 ∨ r = 3) ∧
        (r = 0 ↔ ∃ plane ∈ planes.drop i,
          planeValue plane (farCorner origin halfDim plane) < -(1 / 1000)) := by
  induction k with
  | zero =>
    intro i ret hlen hret
    refine ⟨ret, rfl, Or.inr hret, ?_⟩
    rw [List.drop_of_length_le (by omega)]
    constructor
    · intro h0
      rcases hret with h | h <;> omega
    · rintro ⟨_, hmem, _⟩
      cases hmem
  | succ k ih =>
    intro i ret hlen hret
    have hi : i < planes.length := by omega
    have hdrop : planes.drop i = planes[i] :: planes.drop (i + 1) :=
      List.drop_eq_getElem_cons hi
    rw [IsBoxInFrustum.loop, lookup_getElem planes i hi]
    dsimp only
    rw [boxTestPoint_far origin halfDim planes[i]]
    dsimp only
    have hval : ∀ c : Vec3, HalfPlaneTest c ⟨planes[i].x, planes[i].y, planes[i].z⟩ planes[i].w = 0
        ↔ planeValue planes[i] c < -(1 / 1000) := by
      intro c
      unfold HalfPlaneTest planeValue
      dsimp only
      split_ifs with h1 h2
      · constructor
        · intro h
          cases h
        · intro h
          linarith
      · exact ⟨fun _ => h2, fun _ => rfl⟩
      · constructor
        · intro h
          cases h
        · intro h
          exact absurd h h2
    by_cases hb : HalfPlaneTest (farCorner origin halfDim planes[i])
        ⟨planes[i].x, planes[i].y, planes[i].z⟩ planes[i].w = 0
    · rw [if_pos hb]
      refine ⟨0, rfl, Or.inl rfl, ?_⟩
      rw [hdrop]
      exact ⟨fun _ => ⟨planes[i], List.mem_cons_self _ _, (hval _).mp hb⟩, fun _ => rfl⟩
    · rw [if_neg hb]
      obtain ⟨c, hc⟩ := boxTestPoint_ok origin halfDim
        (Vec3.neg ⟨planes[i].x, planes[i].y, planes[i].z⟩)
      rw [hc]
      dsimp only
      obtain ⟨r, hr, hr013, hr0⟩ := ih (i + 1)
        (if HalfPlaneTest c ⟨planes[i].x, planes[i].y, planes[i].z⟩ planes[i].w = 0
          then Nat.lor ret 2 else ret) (by omega) (by
          split_ifs
          · rcases hret with h | h <;> subst h <;> decide
          · exact hret)
      refine ⟨r, hr, hr013, ?_⟩
      rw [hr0, hdrop]
      constructor
      · rintro ⟨plane, hmem, hlt⟩
        exact ⟨plane, List.mem_cons_of_mem _ hmem, hlt⟩
      · rintro ⟨plane, hmem, hlt⟩
        rcases List.mem_cons.mp hmem with h | h
        · subst h
          exact absurd ((hval _).mpr hlt) hb
        · exact ⟨plane, h, hlt⟩

/-! ## The samples of `quadraticBezierSurface` -/

theorem lookup_nat {α : Type} (xs : List α) (i : Nat) :
    lookup xs (i : Int) =
      match xs[i]? with
      | some a => .ok a
      | none => .error .outOfRange := by
  unfold lookup
  rw [if_neg (by omega)]
  simp

theorem lookup_controlAt (verts : List TVertex) (i : Int) (h0 : 0 ≤ i)
    (h1 : i < verts.length) : lookup verts i = .ok (controlAt verts i) := by
  obtain ⟨a, ha⟩ := lookup_in_range verts i h0 h1
  unfold controlAt
  rw [ha]

theorem controlAt_append (verts more : List TVertex) (i : Int) (h0 : 0 ≤ i)
    (h1 : i < verts.length) : controlAt (verts ++ more) i = controlAt verts i := by
  obtain ⟨n, rfl⟩ := Int.eq_ofNat_of_zero_le h0
  have hn : n < verts.length := by omega
  unfold controlAt
  rw [lookup_nat, lookup_nat, List.getElem?_append_left hn]

theorem uncachedSurface_append (verts more : List TVertex) (patch : Int) (stride : Nat)
    (u v : ℚ) (hp : PatchInRange verts patch stride) :
    uncachedSurface (verts ++ more) patch stride u v = uncachedSurface verts patch stride u v := by
  obtain ⟨h0, h1⟩ := hp
  push_cast at h1
  unfold uncachedSurface controlCurve
  rw [controlAt_append verts more patch h0 (by omega),
    controlAt_append verts more (patch + 1) (by omega) (by omega),
    controlAt_append verts more (patch + 2) (by omega) (by omega),
    controlAt_append verts more (patch + stride) (by omega) (by omega),
    controlAt_append verts more (patch + stride + 1) (by omega) (by omega),
    controlAt_append verts more (patch + stride + 2) (by omega) (by omega),
    controlAt_append verts more (patch + stride + stride) (by omega) (by omega),
    controlAt_append verts more (patch + stride + stride + 1) (by omega) (by omega),
    controlAt_append verts more (patch + stride + stride + 2) (by omega) (by omega)]

theorem fill_succ_value (verts : List TVertex) (stride ix : Nat) (stepX : ℚ) (off k i : Nat)
    (patch : Int) (cache : List TVertex)
    (h0 : 0 ≤ patch) (h2 : patch + 2 < verts.length) (hc : off + i < cache.length) :
    quadraticBezierSurface.fill verts stride ix stepX off (k + 1) i patch cache =
      quadraticBezierSurface.fill verts stride ix stepX off k (i + 1) (patch + stride)
        (cache.set (off + i) (controlCurve verts patch (ix * stepX))) := by
  rw [quadraticBezierSurface.fill]
  simp only [lookup_controlAt verts patch h0 (by omega),
    lookup_controlAt verts (patch + 1) (by omega) (by omega),
    lookup_controlAt verts (patch + 2) (by omega) (by omega)]
  rw [assign_in_range cache ((off + i : Nat) : Int) _ (by omega) (by omega)]
  rfl

theorem fill_three_value (verts : List TVertex) (stride ix : Nat) (stepX : ℚ) (off : Nat)
    (patch : Int) (cache : List TVertex)
    (hp : PatchInRange verts patch stride) (hc : off + 3 ≤ cache.length) :
    quadraticBezierSurface.fill verts stride ix stepX off 3 0 patch cache =
      .ok (((cache.set off (controlCurve verts patch (ix * stepX))).set (off + 1)
        (controlCurve verts (patch + stride) (ix * stepX))).set (off + 2)
        (controlCurve verts (patch + stride + stride) (ix * stepX))) := by
  obtain ⟨h0, h1⟩ := hp
  push_cast at h1
  rw [fill_succ_value verts stride ix stepX off 2 0 patch cache h0 (by omega) (by omega),
    fill_succ_value verts stride ix stepX off 1 1 (patch + stride) _ (by omega) (by omega)
      (by rw [List.length_set]; omega),
    fill_succ_value verts stride ix stepX off 0 2 (patch + stride + stride) _ (by omega)
      (by omega) (by rw [List.length_set, List.length_set]; omega),
    quadraticBezierSurface.fill, Nat.add_zero]

theorem quadraticBezierSurface_value (verts : List TVertex) (patch : Int) (stride ix : Nat)
    (stepX : ℚ) (iy : Nat) (stepY : ℚ) (cache : List TVertex)
    (hp : PatchInRange verts patch stride) (hc : ix * 3 + 3 ≤ cache.length) :
    ∃ cache2, quadraticBezierSurface verts patch stride ix stepX iy stepY cache 0 =
        .ok (uncachedSurface verts patch stride (ix * stepX) (iy * stepY), cache2, 0) ∧
      cache2.length = cache.length ∧
      lookup cache2 ((ix * 3 : Nat) : Int) = .ok (controlCurve verts patch (ix * stepX)) ∧
      lookup cache2 ((ix * 3 + 1 : Nat) : Int) =
        .ok (controlCurve verts (patch + stride) (ix * stepX)) ∧
      lookup cache2 ((ix * 3 + 2 : Nat) : Int) =
        .ok (controlCurve verts (patch + stride + stride) (ix * stepX)) := by
  have hl0 : lookup
      (((cache.set (ix * 3) (controlCurve verts patch (ix * stepX))).set (ix * 3 + 1)
        (controlCurve verts (patch + stride) (ix * stepX))).set (ix * 3 + 2)
        (controlCurve verts (patch + stride + stride) (ix * stepX))) ((ix * 3 : Nat) : Int) =
      .ok (controlCurve verts patch (ix * stepX)) := by
    rw [lookup_nat, List.getElem?_set_ne (by omega), List.getElem?_set_ne (by omega),
      List.getElem?_set_self (by omega)]
  have hl1 : lookup
      (((cache.set (ix * 3) (controlCurve verts patch (ix * stepX))).set (ix * 3 + 1)
        (controlCurve verts (patch + stride) (ix * stepX))).set (ix * 3 + 2)
        (controlCurve verts (patch + stride + stride) (ix * stepX)))
        ((ix * 3 + 1 : Nat) : Int) =
      .ok (controlCurve verts (patch + stride) (ix * stepX)) := by
    rw [lookup_nat, List.getElem?_set_ne (by omega),
      List.getElem?_set_self (by rw [List.length_set]; omega)]
  have hl2 : lookup
      (((cache.set (ix * 3) (controlCurve verts patch (ix * stepX))).set (ix * 3 + 1)
        (controlCurve verts (patch + stride) (ix * stepX))).set (ix * 3 + 2)
        (controlCurve verts (patch + stride + stride) (ix * stepX)))
        ((ix * 3 + 2 : Nat) : Int) =
      .ok (controlCurve verts (patch + stride + stride) (ix * stepX)) := by
    rw [lookup_nat, List.getElem?_set_self (by rw [List.length_set, List.length_set]; omega)]
  refine ⟨_, ?_, ?_, hl0, hl1, hl2⟩
  · unfold quadraticBezierSurface
    dsimp only
    have hz : Nat.land 0 ((1 <<< ix) % 18446744073709551616) = 0 := Nat.zero_and _
    rw [if_pos hz, fill_three_value verts stride ix stepX (ix * 3) patch cache hp hc]
    dsimp only
    rw [hl0, hl1, hl2, hz]
    rfl
  · simp only [List.length_set]

theorem vertexRow_value (V : List TVertex) (patch : Int) (stride : Nat) (sx : ℚ) (j : Nat)
    (sy : ℚ) (hp : PatchInRange V patch stride) (k : Nat) :
    ∀ (i : Nat) (st : PatchState) (extra : List TVertex), st.outVertices = V ++ extra →
      st.cacheFill = 0 → (i + k) * 3 ≤ st.cache.length →
      ∃ st2, addPatchTriangles.vertexRow patch stride sx j sy k i st = .ok st2 ∧
        st2.outVertices = st.outVertices ++ (List.range k).map
          (fun t => uncachedSurface V patch stride ((i + t : Nat) * sx) (j * sy)) ∧
        st2.cacheFill = 0 ∧ st2.cache.length = st.cache.length := by
  induction k with
  | zero =>
    intro i st extra _ hf _
    exact ⟨st, rfl, by simp, hf, rfl⟩
  | succ k ih =>
    intro i st extra hout hf hc
    have hp2 : PatchInRange st.outVertices patch stride :=
      hp.mono (by rw [hout, List.length_append]; omega)
    obtain ⟨cache2, hq, hlen, _⟩ := quadraticBezierSurface_value st.outVertices patch stride
      i sx j sy st.cache hp2 (by omega)
    have hval : uncachedSurface st.outVertices patch stride (i * sx) (j * sy) =
        uncachedSurface V patch stride (i * sx) (j * sy) := by
      rw [hout]
      exact uncachedSurface_append V extra patch stride _ _ hp
    rw [hval] at hq
    obtain ⟨st2, hrun, hv, hf2, hcl⟩ := ih (i + 1)
      { outVertices := st.outVertices ++ [uncachedSurface V patch stride (i * sx) (j * sy)]
        cache := cache2, cacheFill := 0 }
      (extra ++ [uncachedSurface V patch stride (i * sx) (j * sy)])
      (by rw [hout, List.append_assoc]) rfl (by
        show (i + 1 + k) * 3 ≤ cache2.length
        omega)
    refine ⟨st2, ?_, ?_, hf2, ?_⟩
    · rw [addPatchTriangles.vertexRow, hf, hq]
      exact hrun
    · rw [hv, List.range_succ_eq_map, List.map_cons, List.map_map, List.append_assoc]
      congr 1
      simp only [List.singleton_append, Nat.add_zero, List.cons.injEq, true_and]
      apply List.map_congr_left
      intro t _
      simp only [Function.comp, Nat.succ_eq_add_one]
      rw [show i + 1 + t = i + (t + 1) by omega]
    · rw [hcl]
      exact hlen

theorem vertexRows_value (V : List TVertex) (patch : Int) (stride nbVerticesX : Nat)
    (sx sy : ℚ) (hp : PatchInRange V patch stride) (hX : 0 < nbVerticesX) (k : Nat) :
    ∀ (j : Nat) (st : PatchState),
      st.outVertices = V ++ (List.range (j * nbVerticesX)).map (fun t =>
        uncachedSurface V patch stride ((t % nbVerticesX : Nat) * sx)
          ((t / nbVerticesX : Nat) * sy)) →
      st.cacheFill = 0 → nbVerticesX * 3 ≤ st.cache.length →
      ∃ st2, addPatchTriangles.vertexRows patch stride nbVerticesX sx sy k j st = .ok st2 ∧
        st2.outVertices = V ++ (List.range ((j + k) * nbVerticesX)).map (fun t =>
          uncachedSurface V patch stride ((t % nbVerticesX : Nat) * sx)
            ((t / nbVerticesX : Nat) * sy)) ∧
        st2.cacheFill = 0 := by
  induction k with
  | zero =>
    intro j st hout hf _
    exact ⟨st, rfl, hout, hf⟩
  | succ k ih =>
    intro j st hout hf hc
    obtain ⟨st1, hrow, hv1, hf1, hc1⟩ := vertexRow_value V patch stride sx j sy hp nbVerticesX
      0 st _ hout hf (by omega)
    have hout1 : st1.outVertices = V ++ (List.range ((j + 1) * nbVerticesX)).map (fun t =>
        uncachedSurface V patch stride ((t % nbVerticesX : Nat) * sx)
          ((t / nbVerticesX : Nat) * sy)) := by
      rw [hv1, hout, List.append_assoc, Nat.succ_mul, List.range_add, List.map_append,
        List.map_map]
      congr 2
      apply List.map_congr_left
      intro t ht
      have htlt : t < nbVerticesX := List.mem_range.mp ht
      simp only [Function.comp, Nat.zero_add]
      have e1 : (j * nbVerticesX + t) % nbVerticesX = t := by
        rw [Nat.mul_comm, Nat.mul_add_mod, Nat.mod_eq_of_lt htlt]
      have e2 : (j * nbVerticesX + t) / nbVerticesX = j := by
        rw [Nat.mul_comm, Nat.mul_add_div hX, Nat.div_eq_of_lt htlt, Nat.add_zero]
      rw [e1, e2]
    obtain ⟨st2, hrun, hv2, hf2⟩ := ih (j + 1) st1 hout1 hf1 (by omega)
    refine ⟨st2, ?_, ?_, hf2⟩
    · rw [addPatchTriangles.vertexRows, hrow]
      exact hrun
    · rw [hv2, show j + 1 + k = j + (k + 1) by omega]

theorem addPatchTriangles_grid (patch : Int) (stride n : Nat) (baseVertexIndex : Int)
    (outVertices : List TVertex) (outIndices : List TMeshVert) (cx cy : Bool)
    (hp : PatchInRange outVertices patch stride)
    (hx : colinearPatchX outVertices patch stride = .ok cx)
    (hy : colinearPatchY outVertices patch stride = .ok cy)
    (hn : 2 ≤ n) (hn3 : 3 * n < 4294967296) :
    ∃ i2, addPatchTriangles patch stride n baseVertexIndex outVertices outIndices =
      .ok (outVertices ++ sampleGrid outVertices patch stride (if cx then 2 else n)
        (if cy then 2 else n) (1 / (((if cx then 2 else n) - 1 : Nat) : ℚ))
        (1 / (((if cy then 2 else n) - 1 : Nat) : ℚ)), i2) := by
  have hX : (if cx then 2 else toUInt32 (n : Int)) = (if cx then 2 else n) := by
    rw [toUInt32_natCast n (by omega)]
  have hY : (if cy then 2 else toUInt32 (n : Int)) = (if cy then 2 else n) := by
    rw [toUInt32_natCast n (by omega)]
  have hX2 : 1 ≤ (if cx then 2 else n) ∧ (if cx then 2 else n) ≤ n := by
    cases cx <;> simp <;> omega
  have hY2 : 1 ≤ (if cy then 2 else n) ∧ (if cy then 2 else n) ≤ n := by
    cases cy <;> simp <;> omega
  have hcache : toUInt32 (((if cx then 2 else n : Nat) : Int) * 3) = (if cx then 2 else n) * 3 := by
    have := toUInt32_natCast ((if cx then 2 else n) * 3) (by omega)
    rw [← this]
    push_cast
    rfl
  unfold addPatchTriangles
  simp only [hx, hy, hX, hY, hcache]
  rw [toUInt32_pred _ hX2.1 (by omega), toUInt32_pred _ hY2.1 (by omega)]
  obtain ⟨st2, hrun, hv, _⟩ := vertexRows_value outVertices patch stride (if cx then 2 else n)
    (1 / (((if cx then 2 else n) - 1 : Nat) : ℚ))
    (1 / (((if cy then 2 else n) - 1 : Nat) : ℚ)) hp (by omega)
    (if cy then 2 else n) 0
    { outVertices := outVertices
      cache := List.replicate ((if cx then 2 else n) * 3) {}
      cacheFill := 0 } (by simp) rfl (by simp)
  rw [hrun]
  dsimp only
  rw [hv, Nat.zero_add]
  exact ⟨_, rfl⟩

theorem sampleGrid_lookup (V : List TVertex) (patch : Int) (stride nx ny : Nat) (sx sy : ℚ)
    (i j : Nat) (hi : i < nx) (hj : j < ny) :
    lookup (V ++ sampleGrid V patch stride nx ny sx sy) ((V.length + (j * nx + i) : Nat) : Int) =
      .ok (uncachedSurface V patch stride (i * sx) (j * sy)) := by
  have hlt : j * nx + i < ny * nx := by
    have h1 : (j + 1) * nx ≤ ny * nx := Nat.mul_le_mul_right nx hj
    rw [Nat.succ_mul] at h1
    omega
  have e1 : (j * nx + i) % nx = i := by
    rw [Nat.mul_comm, Nat.mul_add_mod, Nat.mod_eq_of_lt hi]
  have e2 : (j * nx + i) / nx = j := by
    rw [Nat.mul_comm, Nat.mul_add_div (by omega), Nat.div_eq_of_lt hi, Nat.add_zero]
  rw [lookup_nat, List.getElem?_append_right (by omega), Nat.add_sub_cancel_left]
  unfold sampleGrid
  rw [List.getElem?_map, List.getElem?_range hlt]
  simp only [Option.map_some', e1, e2]

theorem sampleGrid_length (V : List TVertex) (patch : Int) (stride nx ny : Nat) (sx sy : ℚ) :
    (sampleGrid V patch stride nx ny sx sy).length = ny * nx := by
  simp [sampleGrid]

theorem deCasteljau_zero (A B C : TVertex) :
    (deCasteljau A B C 0).mPosition = A.mPosition ∧
    (deCasteljau A B C 0).mTexCoord = A.mTexCoord := by
  simp [deCasteljau, mixTVertex, mix]

theorem deCasteljau_one (A B C : TVertex) :
    (deCasteljau A B C 1).mPosition = C.mPosition ∧
    (deCasteljau A B C 1).mTexCoord = C.mTexCoord := by
  simp [deCasteljau, mixTVertex, mix]

/-! ## The mask of the listed faces -/

theorem bit_word (k : Nat) (hk : k < 64) :
    (1 <<< k) % 18446744073709551616 = 2 ^ k := by
  rw [Nat.one_shiftLeft]
  apply Nat.mod_eq_of_lt
  calc 2 ^ k < 2 ^ 64 := Nat.pow_lt_pow_right (by decide) hk
    _ = 18446744073709551616 := by norm_num

theorem lookup_getD (mask : List Nat) (i : Nat) (h : i < mask.length) :
    lookup mask (i : Int) = .ok (mask.getD i 0) := by
  rw [lookup_getElem mask i h]
  simp [List.getD_eq_getElem?_getD, List.getElem?_eq_getElem h]

theorem IsBitSet_eq (f : Nat) (mask : List Nat) (h : f < mask.length * 64) :
    IsBitSet f mask = .ok (maskHas mask f) := by
  have hw : f / 64 < mask.length := by omega
  unfold IsBitSet maskHas
  rw [if_pos h, lookup_getD mask _ hw]
  dsimp only
  rw [bit_word _ (Nat.mod_lt _ (by decide)), ← Nat.one_shiftLeft, land_shift_ne_zero]

theorem IsBitSet_ok {f : Nat} {mask : List Nat} {b : Bool} (h : IsBitSet f mask = .ok b) :
    f < mask.length * 64 ∧ b = maskHas mask f := by
  have hlt : f < mask.length * 64 := by
    by_contra hc
    unfold IsBitSet at h
    rw [if_neg hc] at h
    cases h
  rw [IsBitSet_eq f mask hlt] at h
  cases h
  exact ⟨hlt, rfl⟩

theorem SetBit_ok {f : Nat} {mask mask2 : List Nat} (h : SetBit f mask = .ok mask2) :
    mask2.length = mask.length ∧
    ∀ g, maskHas mask2 g = (maskHas mask g || decide (g = f)) := by
  have hlt : f < mask.length * 64 := by
    by_contra hc
    unfold SetBit at h
    rw [if_neg hc] at h
    cases h
  have hw : f / 64 < mask.length := by omega
  unfold SetBit at h
  rw [if_pos hlt, lookup_getD mask _ hw] at h
  dsimp only at h
  rw [bit_word _ (Nat.mod_lt _ (by decide))] at h
  cases h
  refine ⟨List.length_set _ _ _, ?_⟩
  intro g
  unfold maskHas
  by_cases hq : g / 64 = f / 64
  · have hget : (mask.set (f / 64) (Nat.lor (mask.getD (f / 64) 0) (2 ^ (f % 64)))).getD
        (g / 64) 0 = Nat.lor (mask.getD (f / 64) 0) (2 ^ (f % 64)) := by
      rw [hq, List.getD_eq_getElem?_getD, List.getElem?_set_self hw]
      rfl
    rw [hget, hq]
    show ((mask.getD (f / 64) 0) ||| 2 ^ (f % 64)).testBit (g % 64) = _
    rw [Nat.testBit_lor, Nat.testBit_two_pow]
    congr 1
    by_cases hr : f % 64 = g % 64
    · have : g = f := by omega
      simp [hr, this]
    · have : g ≠ f := fun e => hr (by rw [e])
      simp [hr, this]
  · have hne : g ≠ f := fun e => hq (by rw [e])
    have hget : (mask.set (f / 64) (Nat.lor (mask.getD (f / 64) 0) (2 ^ (f % 64)))).getD
        (g / 64) 0 = mask.getD (g / 64) 0 := by
      simp only [List.getD_eq_getElem?_getD, List.getElem?_set_ne (fun e => hq e.symm)]
    rw [hget]
    simp [hne]

/-! ## The loops of `FindVisibleFaces` -/

theorem VisibleInv.congr {m : TMapQ3} {bits : List Nat} {W : Nat} {st : VisibleState}
    {seen seen2 : Nat → Prop} (h : VisibleInv m bits W st seen)
    (hiff : ∀ f, seen f ↔ seen2 f) : VisibleInv m bits W st seen2 := by
  obtain ⟨h1, h2, h3, h4, h5, h6, h7⟩ := h
  exact ⟨h1, h2, fun f hf => h3 f ((hiff f).mpr hf), fun f => (h4 f).trans (hiff f), h5,
    fun f => (h6 f).trans (hiff f), h7⟩

theorem flatten_set_perm {α : Type} (x : α) :
    ∀ (lists : List (List α)) (t : Nat) (faces : List α), lists[t]? = some faces →
      (lists.set t (faces ++ [x])).flatten.Perm (x :: lists.flatten) := by
  intro lists
  induction lists with
  | nil =>
    intro t faces h
    simp at h
  | cons l rest ih =>
    intro t faces h
    cases t with
    | zero =>
      simp only [List.getElem?_cons_zero, Option.some.injEq] at h
      subst h
      simp only [List.set_cons_zero, List.flatten_cons, List.append_assoc]
      have h1 : (l ++ ([x] ++ rest.flatten)).Perm (l ++ (x :: rest.flatten)) := by
        simp
      have h2 : (l ++ (x :: rest.flatten)).Perm (x :: (l ++ rest.flatten)) :=
        List.perm_middle
      exact h1.trans h2
    | succ t =>
      simp only [List.getElem?_cons_succ] at h
      simp only [List.set_cons_succ, List.flatten_cons]
      have h1 := ih t faces h
      have h2 : (l ++ (rest.set t (faces ++ [x])).flatten).Perm (l ++ (x :: rest.flatten)) :=
        List.Perm.append_left l h1
      exact h2.trans List.perm_middle

theorem listedFaces_set_perm (lists : List (List (Nat × Nat))) (t : Nat)
    (faces : List (Nat × Nat)) (f h : Nat) (hget : lists[t]? = some faces) :
    (listedFaces (lists.set t (faces ++ [(f, h)]))).Perm (f :: listedFaces lists) := by
  unfold listedFaces
  have := (flatten_set_perm (f, h) lists t faces hget).map Prod.fst
  simpa using this

theorem mem_of_set_append {lists : List (List (Nat × Nat))} {t t2 : Nat}
    {faces faces2 : List (Nat × Nat)} {x y : Nat × Nat} (hget : lists[t]? = some faces)
    (hget2 : (lists.set t (faces ++ [x]))[t2]? = some faces2) (hy : y ∈ faces2) :
    (t2 = t ∧ y = x) ∨ (∃ old, lists[t2]? = some old ∧ y ∈ old) := by
  by_cases ht : t = t2
  · subst ht
    have hlt : t < lists.length := by
      by_contra hc
      rw [List.getElem?_eq_none (by omega)] at hget
      cases hget
    rw [List.getElem?_set_self hlt] at hget2
    cases hget2
    rcases List.mem_append.mp hy with h | h
    · exact Or.inr ⟨faces, hget, h⟩
    · exact Or.inl ⟨rfl, List.mem_singleton.mp h⟩
  · rw [List.getElem?_set_ne ht] at hget2
    exact Or.inr ⟨faces2, hget2, hy⟩

theorem FindVisibleFaces_face_inv {m : TMapQ3} {bits : List Nat} {W : Nat} {leaf : TLeaf}
    {k : Int} {st st2 : VisibleState} {seen : Nat → Prop}
    (hinv : VisibleInv m bits W st seen)
    (hrun : FindVisibleFaces.face m bits leaf k st = .ok st2) :
    ∃ leafFace, lookup m.mLeafFaces (leaf.mLeafFace + k) = .ok leafFace ∧
      VisibleInv m bits W st2 (fun f => seen f ∨ f = toUInt32 leafFace.mFaceIndex) := by
  obtain ⟨h1, h2, h3, h4, h5, h6, h7⟩ := hinv
  unfold FindVisibleFaces.face at hrun
  split at hrun
  · cases hrun
  · rename_i leafFace hlf
    refine ⟨leafFace, hlf, ?_⟩
    dsimp only at hrun
    split at hrun
    · cases hrun
    · rename_i hbit
      cases hrun
      obtain ⟨hlt, hb⟩ := IsBitSet_ok hbit
      have hseen : seen (toUInt32 leafFace.mFaceIndex) := (h4 _).mp hb.symm
      exact VisibleInv.congr ⟨h1, h2, h3, h4, h5, h6, h7⟩
        (fun f => ⟨Or.inl, fun h => h.elim id (fun e => e ▸ hseen)⟩)
    · rename_i hbit
      obtain ⟨hlt, hb⟩ := IsBitSet_ok hbit
      have hnot : ¬ seen (toUInt32 leafFace.mFaceIndex) := by
        intro hs
        have := (h4 _).mpr hs
        rw [← hb] at this
        cases this
      split at hrun
      · cases hrun
      · rename_i mask2 hset
        obtain ⟨hlen2, hmask2⟩ := SetBit_ok hset
        split at hrun
        · cases hrun
        · rename_i face hface
          split at hrun
          · rename_i htype
            split at hrun
            · cases hrun
            · rename_i texType htex
              split at hrun
              · cases hrun
              · rename_i faces hfaces
                cases hrun
                have hget : st.visibleFaces[(if texType = 1 then 0 else if texType = 2 then 5
                    else if texType = 3 then 6 else toUInt32 face.mType)]? = some faces := by
                  have := (lookup_ok hfaces).2.2
                  rw [List.get?_eq_getElem?] at this
                  rw [← this]
                  congr 1
                have hperm := listedFaces_set_perm st.visibleFaces _ faces
                  (toUInt32 leafFace.mFaceIndex) (GetFaceHash face) hget
                refine ⟨?_, ?_, ?_, ?_, ?_, ?_, ?_⟩
                · show (st.visibleFaces.set _ _).length = 7
                  rw [List.length_set]
                  exact h1
                · show mask2.length = W
                  rw [hlen2]
                  exact h2
                · intro f hf
                  rcases hf with hf | hf
                  · exact h3 f hf
                  · rw [hf, ← h2]
                    exact hlt
                · intro f
                  show maskHas mask2 f = true ↔ _
                  rw [hmask2 f, Bool.or_eq_true, decide_eq_true_eq, h4 f]
                · show (listedFaces (st.visibleFaces.set _ _)).Nodup
                  rw [hperm.nodup_iff, List.nodup_cons]
                  exact ⟨fun hmem => hnot ((h6 _).mp hmem), h5⟩
                · intro f
                  show f ∈ listedFaces (st.visibleFaces.set _ _) ↔ _
                  rw [hperm.mem_iff, List.mem_cons, h6 f]
                  exact Or.comm
                · intro t faces2 f h hget2 hmem
                  rcases mem_of_set_append hget hget2 hmem with ⟨ht, hxy⟩ | ⟨old, hold, hin⟩
                  · cases hxy
                    exact ⟨face, texType, hface, htex, rfl, htype.1, htype.2, ht⟩
                  · exact h7 t old f h hold hin
          · cases hrun

theorem FindVisibleFaces_faces_inv {m : TMapQ3} {bits : List Nat} {W : Nat} {leaf : TLeaf}
    (n : Nat) :
    ∀ (k : Int) (st st2 : VisibleState) (seen : Nat → Prop),
      VisibleInv m bits W st seen →
      FindVisibleFaces.faces m bits leaf n k st = .ok st2 →
      VisibleInv m bits W st2 (fun f => seen f ∨
        ∃ (k2 : Int) (leafFace : TLeafFace), k ≤ k2 ∧ k2 < k + n ∧
          lookup m.mLeafFaces (leaf.mLeafFace + k2) = .ok leafFace ∧
          toUInt32 leafFace.mFaceIndex = f) := by
  induction n with
  | zero =>
    intro k st st2 seen hinv hrun
    cases hrun
    refine hinv.congr (fun f => ⟨Or.inl, fun h => h.elim id ?_⟩)
    rintro ⟨k2, _, h1, h2, _⟩
    simp at h2
    omega
  | succ n ih =>
    intro k st st2 seen hinv hrun
    rw [FindVisibleFaces.faces] at hrun
    split at hrun
    · cases hrun
    · rename_i st1 hstep
      obtain ⟨leafFace, hlf, hinv1⟩ := FindVisibleFaces_face_inv hinv hstep
      refine (ih (k + 1) st1 st2 _ hinv1 hrun).congr (fun f => ?_)
      constructor
      · rintro ((hs | hf) | ⟨k2, lf2, h1, h2, h3, h4⟩)
        · exact Or.inl hs
        · exact Or.inr ⟨k, leafFace, le_refl _, by push_cast; omega, hlf, hf.symm⟩
        · exact Or.inr ⟨k2, lf2, by omega, by push_cast at h2 ⊢; omega, h3, h4⟩
      · rintro (hs | ⟨k2, lf2, h1, h2, h3, h4⟩)
        · exact Or.inl (Or.inl hs)
        · by_cases hk : k2 = k
          · subst hk
            rw [hlf] at h3
            cases h3
            exact Or.inl (Or.inr h4.symm)
          · exact Or.inr ⟨k2, lf2, by omega, by push_cast at h2 ⊢; omega, h3, h4⟩

theorem FindVisibleFaces_leaf_inv {sqrt : ℚ → ℚ} {m : TMapQ3} {bits : List Nat} {W : Nat}
    {visCluster : Int} {mvpMat : Mat4} {i : Nat} {st st2 : VisibleState} {seen : Nat → Prop}
    (hinv : VisibleInv m bits W st seen)
    (hrun : FindVisibleFaces.leaf m bits visCluster (CalcFrustumPlanes sqrt mvpMat) i st
      = .ok st2) :
    ∃ leaf, lookup m.mLeaves (i : Int) = .ok leaf ∧
      VisibleInv m bits W st2 (fun f => seen f ∨
        (LeafShown sqrt m visCluster mvpMat leaf ∧ LeafLists m leaf f)) := by
  unfold FindVisibleFaces.leaf at hrun
  split at hrun
  · cases hrun
  · rename_i leaf hleaf
    refine ⟨leaf, hleaf, ?_⟩
    split at hrun
    · cases hrun
    · rename_i hvis
      cases hrun
      refine hinv.congr (fun f => ⟨Or.inl, fun h => h.elim id ?_⟩)
      rintro ⟨⟨hshown, _⟩, _⟩
      rw [hvis] at hshown
      cases hshown
    · rename_i hvis
      dsimp only at hrun
      split at hrun
      · cases hrun
      · rename_i inFrustum hbox
        by_cases hz : inFrustum = 0
        · rw [if_pos hz] at hrun
          cases hrun
          refine hinv.congr (fun f => ⟨Or.inl, fun h => h.elim id ?_⟩)
          rintro ⟨⟨_, r, hr, hne⟩, _⟩
          rw [hbox] at hr
          cases hr
          exact absurd hz hne
        · rw [if_neg hz] at hrun
          refine (FindVisibleFaces_faces_inv _ 0 st st2 seen hinv hrun).congr (fun f => ?_)
          have hshown : LeafShown sqrt m visCluster mvpMat leaf := ⟨hvis, inFrustum, hbox, hz⟩
          constructor
          · rintro (hs | ⟨k2, lf2, h1, h2, h3, h4⟩)
            · exact Or.inl hs
            · exact Or.inr ⟨hshown, k2, lf2, h1, by omega, h3, h4⟩
          · rintro (hs | ⟨_, k2, lf2, h1, h2, h3, h4⟩)
            · exact Or.inl hs
            · exact Or.inr ⟨k2, lf2, h1, by omega, h3, h4⟩

theorem FindVisibleFaces_leaves_inv {sqrt : ℚ → ℚ} {m : TMapQ3} {bits : List Nat} {W : Nat}
    {visCluster : Int} {mvpMat : Mat4} (n : Nat) :
    ∀ (i : Nat) (st st2 : VisibleState) (seen : Nat → Prop),
      VisibleInv m bits W st seen →
      FindVisibleFaces.leaves m bits visCluster (CalcFrustumPlanes sqrt mvpMat) n i st
        = .ok st2 →
      VisibleInv m bits W st2 (fun f => seen f ∨
        ∃ (i2 : Nat) (leaf : TLeaf), i ≤ i2 ∧ i2 < i + n ∧
          lookup m.mLeaves (i2 : Int) = .ok leaf ∧
          LeafShown sqrt m visCluster mvpMat leaf ∧ LeafLists m leaf f) := by
  induction n with
  | zero =>
    intro i st st2 seen hinv hrun
    cases hrun
    refine hinv.congr (fun f => ⟨Or.inl, fun h => h.elim id ?_⟩)
    rintro ⟨i2, _, h1, h2, _⟩
    omega
  | succ n ih =>
    intro i st st2 seen hinv hrun
    rw [FindVisibleFaces.leaves] at hrun
    split at hrun
    · cases hrun
    · rename_i st1 hstep
      obtain ⟨leaf, hleaf, hinv1⟩ := FindVisibleFaces_leaf_inv hinv hstep
      refine (ih (i + 1) st1 st2 _ hinv1 hrun).congr (fun f => ?_)
      constructor
      · rintro ((hs | ⟨h1, h2⟩) | ⟨i2, leaf2, h1, h2, h3, h4, h5⟩)
        · exact Or.inl hs
        · exact Or.inr ⟨i, leaf, le_refl _, by omega, hleaf, h1, h2⟩
        · exact Or.inr ⟨i2, leaf2, by omega, by omega, h3, h4, h5⟩
      · rintro (hs | ⟨i2, leaf2, h1, h2, h3, h4, h5⟩)
        · exact Or.inl (Or.inl hs)
        · by_cases hi : i2 = i
          · subst hi
            rw [hleaf] at h3
            cases h3
            exact Or.inl (Or.inr ⟨h4, h5⟩)
          · exact Or.inr ⟨i2, leaf2, by omega, by omega, h3, h4, h5⟩

theorem VisibleInv_init (m : TMapQ3) (bits : List Nat) (W : Nat) :
    VisibleInv m bits W
      { visibleFaces := List.replicate 7 [], visFaceMask := List.replicate W 0 }
      (fun _ => False) := by
  refine ⟨by simp, by simp, fun f hf => hf.elim, ?_, ?_, ?_, ?_⟩
  · intro f
    have : maskHas (List.replicate W 0) f = false := by
      unfold maskHas
      have h0 : (List.replicate W 0).getD (f / 64) 0 = 0 := by
        rw [List.getD_eq_getElem?_getD]
        by_cases hlt : f / 64 < W
        · simp [List.getElem?_replicate, hlt]
        · simp [List.getElem?_replicate, hlt]
      rw [h0]
      exact Nat.zero_testBit _
    simp [this]
  · have : listedFaces (List.replicate 7 ([] : List (Nat × Nat))) = [] := by decide
    show (listedFaces (List.replicate 7 ([] : List (Nat × Nat)))).Nodup
    rw [this]
    exact List.nodup_nil
  · intro f
    have : listedFaces (List.replicate 7 ([] : List (Nat × Nat))) = [] := by decide
    show f ∈ listedFaces (List.replicate 7 ([] : List (Nat × Nat))) ↔ False
    rw [this]
    simp
  · intro t faces f h hget hmem
    have hnil : faces = [] := by
      rw [List.getElem?_replicate] at hget
      split at hget
      · cases hget
        rfl
      · cases hget
    rw [hnil] at hmem
    cases hmem

theorem FindVisibleFaces_run {sqrt : ℚ → ℚ} {m : TMapQ3} {bits : List Nat} {fuel : Nat}
    {camPos : Vec3} {mvpMat : Mat4} {lists : List (List (Nat × Nat))}
    (hrun : FindVisibleFaces sqrt m bits fuel camPos mvpMat = .ok lists) (hne : lists ≠ []) :
    ∃ (leaf : Int) (cameraLeaf : TLeaf) (st : VisibleState),
      FindLeaf m fuel camPos = .ok leaf ∧ lookup m.mLeaves leaf = .ok cameraLeaf ∧
      0 ≤ cameraLeaf.mCluster ∧
      VisibleInv m bits (m.mFaces.length / 64 + 1) st
        (FaceReferenced sqrt m cameraLeaf.mCluster mvpMat) ∧
      lists = st.visibleFaces.map (fun faces => faces.insertionSort fun f1 f2 => f1.2 ≤ f2.2) := by
  unfold FindVisibleFaces at hrun
  dsimp only at hrun
  split at hrun
  · cases hrun
    exact absurd rfl hne
  · split at hrun
    · cases hrun
    · rename_i leaf hleaf
      split at hrun
      · cases hrun
      · rename_i cameraLeaf hcam
        split at hrun
        · cases hrun
          exact absurd rfl hne
        · rename_i hcluster
          split at hrun
          · cases hrun
          · rename_i st hloop
            cases hrun
            refine ⟨leaf, cameraLeaf, st, hleaf, hcam, not_lt.mp hcluster, ?_, rfl⟩
            refine (FindVisibleFaces_leaves_inv _ 0 _ st _ (VisibleInv_init m bits _)
              hloop).congr (fun f => ?_)
            constructor
            · rintro (hf | ⟨i2, lf, _, _, h3, h4, h5⟩)
              · exact hf.elim
              · exact ⟨i2, lf, h3, h4, h5⟩
            · rintro ⟨i2, lf, h3, h4, h5⟩
              refine Or.inr ⟨i2, lf, Nat.zero_le _, ?_, h3, h4, h5⟩
              have := (lookup_ok h3).2.2
              have hlt : (i2 : Int).toNat < m.mLeaves.length := by
                by_contra hc
                rw [List.get?_eq_none.mpr (by omega)] at this
                cases this
              simp at hlt
              omega

theorem listedFaces_sorted_perm (lists : List (List (Nat × Nat))) :
    (listedFaces (lists.map (fun faces => faces.insertionSort fun f1 f2 => f1.2 ≤ f2.2))).Perm
      (listedFaces lists) := by
  unfold listedFaces
  apply List.Perm.map
  induction lists with
  | nil => exact List.Perm.refl _
  | cons l rest ih =>
    simp only [List.map_cons, List.flatten_cons]
    exact List.Perm.append (List.perm_insertionSort _ l) ih

/-! ## The sort key of a face -/

theorem GetFaceHash_eq (face : TFace) (h : KeyRange face) :
    GetFaceHash face =
      (face.mTextureIndex + 1).toNat + 65536 * (face.mLightmapIndex + 1).toNat ∧
    (face.mTextureIndex + 1).toNat < 65536 ∧ (face.mLightmapIndex + 1).toNat < 65536 := by
  obtain ⟨h1, h2, h3, h4⟩ := h
  obtain ⟨a, ha⟩ := Int.eq_ofNat_of_zero_le (show 0 ≤ face.mTextureIndex + 1 by omega)
  obtain ⟨b, hb⟩ := Int.eq_ofNat_of_zero_le (show 0 ≤ face.mLightmapIndex + 1 by omega)
  have ha2 : a < 65536 := by omega
  have hb2 : b < 65536 := by omega
  unfold GetFaceHash
  rw [ha, hb]
  have hmul : ((b : Int) * 65536) = ((b * 65536 : Nat) : Int) := by push_cast; rfl
  rw [hmul]
  have hlor : Int.lor (a : Int) ((b * 65536 : Nat) : Int) = ((a ||| b * 65536 : Nat) : Int) := rfl
  rw [hlor]
  have hor : a ||| b * 65536 = 2 ^ 16 * b + a := by
    rw [Nat.mul_add_lt_is_or (by norm_num; exact ha2) b, Nat.lor_comm, Nat.mul_comm]
  rw [hor, toUInt32_natCast _ (by norm_num; omega)]
  simp only [Int.toNat_ofNat]
  refine ⟨by norm_num; omega, ha2, hb2⟩

theorem GetFaceHash_inj (a b : TFace) (ha : KeyRange a) (hb : KeyRange b) :
    GetFaceHash a = GetFaceHash b ↔
      (a.mTextureIndex = b.mTextureIndex ∧ a.mLightmapIndex = b.mLightmapIndex) := by
  obtain ⟨ea, a1, a2⟩ := GetFaceHash_eq a ha
  obtain ⟨eb, b1, b2⟩ := GetFaceHash_eq b hb
  obtain ⟨h1, _, h3, _⟩ := ha
  obtain ⟨h5, _, h7, _⟩ := hb
  constructor
  · intro h
    rw [ea, eb] at h
    constructor <;> omega
  · rintro ⟨ht, hl⟩
    rw [ea, eb, ht, hl]

theorem hash_sorted (faces : List (Nat × Nat)) :
    (faces.insertionSort fun f1 f2 => f1.2 ≤ f2.2).Sorted (fun f1 f2 => f1.2 ≤ f2.2) := by
  haveI : IsTotal (Nat × Nat) (fun f1 f2 => f1.2 ≤ f2.2) := ⟨fun a b => Nat.le_total a.2 b.2⟩
  haveI : IsTrans (Nat × Nat) (fun f1 f2 => f1.2 ≤ f2.2) :=
    ⟨fun _ _ _ h1 h2 => Nat.le_trans h1 h2⟩
  exact List.sorted_insertionSort _ faces

theorem FindVisibleFaces_hashes {sqrt : ℚ → ℚ} {m : TMapQ3} {bits : List Nat} {fuel : Nat}
    {camPos : Vec3} {mvpMat : Mat4} {lists : List (List (Nat × Nat))}
    (hrun : FindVisibleFaces sqrt m bits fuel camPos mvpMat = .ok lists) :
    (∀ faces ∈ lists, faces.Sorted (fun f1 f2 => f1.2 ≤ f2.2)) ∧
    (∀ faces ∈ lists, ∀ p ∈ faces, ∃ face, lookup m.mFaces (p.1 : Int) = .ok face ∧
      p.2 = GetFaceHash face) := by
  by_cases hne : lists = []
  · subst hne
    exact ⟨fun faces h => absurd h (List.not_mem_nil _),
      fun faces h => absurd h (List.not_mem_nil _)⟩
  · obtain ⟨_, _, st, _, _, _, hinv, hlists⟩ := FindVisibleFaces_run hrun hne
    obtain ⟨_, _, _, _, _, _, h7⟩ := hinv
    constructor
    · intro faces hmem
      rw [hlists] at hmem
      obtain ⟨old, _, rfl⟩ := List.mem_map.mp hmem
      exact hash_sorted old
    · intro faces hmem p hp
      rw [hlists] at hmem
      obtain ⟨old, hold, rfl⟩ := List.mem_map.mp hmem
      obtain ⟨t, ht⟩ := List.mem_iff_getElem?.mp hold
      obtain ⟨face, _, hface, _, hh, _⟩ := h7 t old p.1 p.2 ht
        ((List.mem_insertionSort _).mp hp)
      exact ⟨face, hface, hh⟩

/-! ## The descent with a record of its calls -/

theorem loopCalls_data (normalize : Vec3 → Vec3) (solid : Int) (m : TMapQ3) (leaf : TLeaf)
    (k : Nat) : ∀ (i : Int) (d : TraceData) (c : Calls),
      Except.map Prod.fst (CheckLeaf.loopCalls normalize solid m leaf k i d c) =
        CheckLeaf.loop normalize solid m leaf k i d := by
  induction k with
  | zero => intro i d c; rfl
  | succ k ih =>
    intro i d c
    simp only [CheckLeaf.loopCalls, CheckLeaf.loop]
    cases lookup m.mLeafBrushes (leaf.mLeafBrush + i) with
    | error e => rfl
    | ok leafBrush =>
      dsimp only
      split_ifs
      · exact ih _ _ _
      · cases CheckBrush normalize solid m leafBrush.mBrushIndex
          { d with mCheckedBrushes := toUInt32 leafBrush.mBrushIndex :: d.mCheckedBrushes } with
        | error e => rfl
        | ok d1 => exact ih _ _ _

theorem CheckLeafCalls_data (normalize : Vec3 → Vec3) (solid : Int) (m : TMapQ3)
    (leafIndex : Int) (d : TraceData) (c : Calls) :
    Except.map Prod.fst (CheckLeafCalls normalize solid m leafIndex d c) =
      CheckLeaf normalize solid m leafIndex d := by
  unfold CheckLeafCalls CheckLeaf
  cases lookup m.mLeaves leafIndex with
  | error e => rfl
  | ok leaf => exact loopCalls_data normalize solid m leaf _ _ _ _

theorem CheckNodeCalls_data (normalize : Vec3 → Vec3) (solid : Int) (m : TMapQ3)
    (fuel : Nat) : ∀ (nodeIndex : Int) (d : TraceData) (c : Calls),
      Except.map Prod.fst (CheckNodeCalls normalize solid m fuel nodeIndex d c) =
        CheckNode normalize solid m fuel nodeIndex d := by
  induction fuel with
  | zero => intro nodeIndex d c; rfl
  | succ fuel ih =>
    intro nodeIndex d c
    simp only [CheckNodeCalls, CheckNode]
    split_ifs with hneg
    · exact CheckLeafCalls_data normalize solid m _ d c
    · cases lookup m.mNodes nodeIndex with
      | error e => rfl
      | ok node =>
        dsimp only
        cases lookup m.mPlanes node.mPlane with
        | error e => rfl
        | ok plane =>
          dsimp only
          have hspan : ∀ s : Nat, Except.map Prod.fst
              (match CheckNodeCalls normalize solid m fuel (node.child s) d c with
                | .error e => .error e
                | .ok (data, calls) =>
                  CheckNodeCalls normalize solid m fuel (node.child (1 - s)) data calls) =
              (match CheckNode normalize solid m fuel (node.child s) d with
                | .error e => .error e
                | .ok data => CheckNode normalize solid m fuel (node.child (1 - s)) data) := by
            intro s
            have h1 := ih (node.child s) d c
            revert h1
            cases CheckNodeCalls normalize solid m fuel (node.child s) d c with
            | error e =>
              intro h1
              rw [← h1]
              rfl
            | ok r =>
              intro h1
              rw [← h1]
              exact ih _ _ _
          split_ifs
          · exact ih _ _ _
          · exact ih _ _ _
          · exact hspan 1
          · exact hspan 0

theorem loopCalls_frame {normalize : Vec3 → Vec3} {solid : Int} {m : TMapQ3} (leaf : TLeaf)
    (k : Nat) : ∀ (i : Int) (d d' : TraceData) (c c' : Calls),
      CheckLeaf.loopCalls normalize solid m leaf k i d c = .ok (d', c') →
      c'.leaves = c.leaves ∧ d.SameInput d' := by
  induction k with
  | zero =>
    intro i d d' c c' h
    simp only [CheckLeaf.loopCalls] at h
    cases h
    exact ⟨rfl, TraceData.SameInput.refl _⟩
  | succ k ih =>
    intro i d d' c c' h
    simp only [CheckLeaf.loopCalls] at h
    split at h
    · cases h
    · split at h
      · exact ih _ _ _ _ _ h
      · split at h
        · cases h
        · rename_i d1 hd1
          obtain ⟨hl, hs⟩ := ih _ _ _ _ _ h
          exact ⟨hl, TraceData.SameInput.trans (CheckBrush_frame hd1).1 hs⟩

theorem loopCalls_spec {normalize : Vec3 → Vec3} {solid : Int} {m : TMapQ3} (leaf : TLeaf)
    (k : Nat) : ∀ (i : Int) (d d' : TraceData) (c c' : Calls),
      CheckLeaf.loopCalls normalize solid m leaf k i d c = .ok (d', c') →
      d.mCheckedBrushes = c.brushes.map toUInt32 → d.mCheckedBrushes.Nodup →
      d'.mCheckedBrushes = c'.brushes.map toUInt32 ∧ d'.mCheckedBrushes.Nodup ∧
      ∀ b : Nat, b ∈ d'.mCheckedBrushes ↔ (b ∈ d.mCheckedBrushes ∨
        ∃ (j : Int) (leafBrush : TLeafBrush), i ≤ j ∧ j < i + k ∧
          lookup m.mLeafBrushes (leaf.mLeafBrush + j) = .ok leafBrush ∧
          toUInt32 leafBrush.mBrushIndex = b) := by
  induction k with
  | zero =>
    intro i d d' c c' h hmap hnd
    simp only [CheckLeaf.loopCalls] at h
    cases h
    refine ⟨hmap, hnd, fun b => ⟨Or.inl, ?_⟩⟩
    rintro (hb | ⟨j, _, h1, h2, _⟩)
    · exact hb
    · push_cast at h2
      omega
  | succ k ih =>
    intro i d d' c c' h hmap hnd
    simp only [CheckLeaf.loopCalls] at h
    split at h
    · cases h
    · rename_i leafBrush hlb
      split at h
      · rename_i hin
        obtain ⟨hm', hn', hb⟩ := ih _ _ _ _ _ h hmap hnd
        refine ⟨hm', hn', fun b => ?_⟩
        rw [hb b]
        constructor
        · rintro (hd | ⟨j, lb, h1, h2, h3, h4⟩)
          · exact Or.inl hd
          · exact Or.inr ⟨j, lb, by omega, by push_cast; omega, h3, h4⟩
        · rintro (hd | ⟨j, lb, h1, h2, h3, h4⟩)
          · exact Or.inl hd
          · by_cases hj : j = i
            · subst hj
              rw [hlb] at h3
              cases h3
              exact Or.inl (h4 ▸ hin)
            · exact Or.inr ⟨j, lb, by omega, by push_cast at h2; omega, h3, h4⟩
      · rename_i hnot
        split at h
        · cases h
        · rename_i d1 hd1
          have hf := (CheckBrush_frame hd1).2.1
          have hm1 : d1.mCheckedBrushes =
              ({ c with brushes := leafBrush.mBrushIndex :: c.brushes } : Calls).brushes.map
                toUInt32 := by
            rw [hf]
            show toUInt32 leafBrush.mBrushIndex :: d.mCheckedBrushes = _
            rw [hmap]
            rfl
          have hn1 : d1.mCheckedBrushes.Nodup := by
            rw [hf]
            exact List.nodup_cons.mpr ⟨hnot, hnd⟩
          obtain ⟨hm', hn', hb⟩ := ih _ _ _ _ _ h hm1 hn1
          refine ⟨hm', hn', fun b => ?_⟩
          rw [hb b, hf]
          show (b ∈ toUInt32 leafBrush.mBrushIndex :: d.mCheckedBrushes ∨ _) ↔ _
          rw [List.mem_cons]
          constructor
          · rintro ((hd | hd) | ⟨j, lb, h1, h2, h3, h4⟩)
            · exact Or.inr ⟨i, leafBrush, le_refl _, by push_cast; omega, hlb, hd.symm⟩
            · exact Or.inl hd
            · exact Or.inr ⟨j, lb, by omega, by push_cast; omega, h3, h4⟩
          · rintro (hd | ⟨j, lb, h1, h2, h3, h4⟩)
            · exact Or.inl (Or.inr hd)
            · by_cases hj : j = i
              · subst hj
                rw [hlb] at h3
                cases h3
                exact Or.inl (Or.inl h4.symm)
              · exact Or.inr ⟨j, lb, by omega, by push_cast at h2; omega, h3, h4⟩

theorem CheckLeafCalls_frame {normalize : Vec3 → Vec3} {solid : Int} {m : TMapQ3}
    {leafIndex : Int} {d d' : TraceData} {c c' : Calls}
    (h : CheckLeafCalls normalize solid m leafIndex d c = .ok (d', c')) :
    c'.leaves = leafIndex :: c.leaves ∧ d.SameInput d' := by
  unfold CheckLeafCalls at h
  split at h
  · cases h
  · exact loopCalls_frame _ _ _ _ _ _ _ h

theorem CheckLeafCalls_inv {normalize : Vec3 → Vec3} {solid : Int} {m : TMapQ3}
    {leafIndex : Int} {d d' : TraceData} {c c' : Calls}
    (h : CheckLeafCalls normalize solid m leafIndex d c = .ok (d', c'))
    (hinv : CallsInv m d c) : CallsInv m d' c' := by
  have hleaves := (CheckLeafCalls_frame h).1
  unfold CheckLeafCalls at h
  split at h
  · cases h
  · rename_i leaf hleaf
    obtain ⟨h1, h2, h3⟩ := hinv
    obtain ⟨hm', hn', hb⟩ := loopCalls_spec _ _ _ _ _ _ _ h h1 h2
    refine ⟨hm', hn', fun b => ?_⟩
    rw [hb b, hleaves, h3 b]
    constructor
    · rintro (⟨li, hli, rest⟩ | ⟨j, lb, hj0, hj1, hj2, hj3⟩)
      · exact ⟨li, List.mem_cons_of_mem _ hli, rest⟩
      · exact ⟨leafIndex, List.mem_cons_self _ _, leaf, hleaf, j, lb, hj0, by omega, hj2, hj3⟩
    · rintro ⟨li, hli, leaf2, hleaf2, j, lb, hj0, hj1, hj2, hj3⟩
      rcases List.mem_cons.mp hli with rfl | hli
      · rw [hleaf] at hleaf2
        cases hleaf2
        exact Or.inr ⟨j, lb, hj0, by omega, hj2, hj3⟩
      · exact Or.inl ⟨li, hli, leaf2, hleaf2, j, lb, hj0, hj1, hj2, hj3⟩

theorem CheckNodeCalls_inv {normalize : Vec3 → Vec3} {solid : Int} {m : TMapQ3} (fuel : Nat) :
    ∀ (nodeIndex : Int) (d d' : TraceData) (c c' : Calls),
      CheckNodeCalls normalize solid m fuel nodeIndex d c = .ok (d', c') →
      CallsInv m d c → CallsInv m d' c' := by
  induction fuel with
  | zero =>
    intro nodeIndex d d' c c' h
    simp only [CheckNodeCalls] at h
    cases h
  | succ fuel ih =>
    intro nodeIndex d d' c c' h hinv
    simp only [CheckNodeCalls] at h
    split at h
    · exact CheckLeafCalls_inv h hinv
    · split at h
      · cases h
      · split at h
        · cases h
        · split at h
          · exact ih _ _ _ _ _ h hinv
          · split at h
            · exact ih _ _ _ _ _ h hinv
            · split at h
              · cases h
              · rename_i d1 c1 hd1
                exact ih _ _ _ _ _ h (ih _ _ _ _ _ hd1 hinv)

theorem nodeOffset_congr {d d' : TraceData} (h : d.SameInput d') (planeNormal : Vec3) :
    nodeOffset d' planeNormal = nodeOffset d planeNormal := by
  obtain ⟨h1, _, _, h4, _, _, h7⟩ := h
  unfold nodeOffset
  rw [h1, h4, h7]

theorem nodeOffset_nonneg (d : TraceData)
    (hradius : d.mTraceType ≠ .TraceBox → 0 ≤ d.mRadius)
    (hextends : d.mTraceType = .TraceBox →
      0 ≤ d.mExtends.x ∧ 0 ≤ d.mExtends.y ∧ 0 ≤ d.mExtends.z)
    (planeNormal : Vec3) : 0 ≤ nodeOffset d planeNormal := by
  unfold nodeOffset
  split_ifs with hbox
  · obtain ⟨hx, hy, hz⟩ := hextends hbox
    simp only [Vec3.dot, Vec3.abs]
    have := mul_nonneg hx (abs_nonneg planeNormal.x)
    have := mul_nonneg hy (abs_nonneg planeNormal.y)
    have := mul_nonneg hz (abs_nonneg planeNormal.z)
    linarith
  · exact hradius hbox

theorem FindLeaf_loop_step {m : TMapQ3} {p : Vec3} {fuel : Nat} {index : Int} {node : TNode}
    {plane : TPlane} (hindex : ¬ index < 0) (hnode : lookup m.mNodes index = .ok node)
    (hplane : lookup m.mPlanes node.mPlane = .ok plane) :
    FindLeaf.loop m p (fuel + 1) index =
      if Vec3.dot p plane.mNormal - plane.mDistance ≥ 0 then
        FindLeaf.loop m p fuel node.mChildren.1
      else FindLeaf.loop m p fuel node.mChildren.2 := by
  have hcomm : Vec3.dot plane.mNormal p = Vec3.dot p plane.mNormal := by
    simp only [Vec3.dot]
    ring
  simp only [FindLeaf.loop, ge_iff_le, not_lt.mp hindex, if_true, hnode, hplane, hcomm]

/-- The leaves the descent calls `CheckLeaf` with hold the leaf point
location gives for the start and for the end of the trace, when the offset
of the traced shape is not negative. -/
theorem CheckNodeCalls_endpoints {normalize : Vec3 → Vec3} {solid : Int} {m : TMapQ3}
    (fuel : Nat) : ∀ (nodeIndex : Int) (d d' : TraceData) (c c' : Calls),
      CheckNodeCalls normalize solid m fuel nodeIndex d c = .ok (d', c') →
      (∀ planeNormal, 0 ≤ nodeOffset d planeNormal) →
      d.SameInput d' ∧ (∀ l ∈ c.leaves, l ∈ c'.leaves) ∧
      ∀ p : Vec3, p = d.mStart ∨ p = d.mEnd →
        ∃ l, FindLeaf.loop m p fuel nodeIndex = .ok l ∧ l ∈ c'.leaves := by
  induction fuel with
  | zero =>
    intro nodeIndex d d' c c' h
    simp only [CheckNodeCalls] at h
    cases h
  | succ fuel ih =>
    intro nodeIndex d d' c c' h hoff
    simp only [CheckNodeCalls] at h
    split at h
    · rename_i hneg
      obtain ⟨hl, hs⟩ := CheckLeafCalls_frame h
      refine ⟨hs, fun l hmem => hl ▸ List.mem_cons_of_mem _ hmem, fun p _ => ?_⟩
      refine ⟨-nodeIndex - 1, ?_, ?_⟩
      · simp only [FindLeaf.loop, ge_iff_le, not_le.mpr hneg, if_false]
      · rw [hl, show -nodeIndex - 1 = -(nodeIndex + 1) by ring]
        exact List.mem_cons_self _ _
    · rename_i hneg
      split at h
      · cases h
      · rename_i node hnode
        split at h
        · cases h
        · rename_i plane hplane
          have h0 := hoff plane.mNormal
          split at h
          · rename_i hfront
            obtain ⟨hs, hsub, hp⟩ := ih _ _ _ _ _ h hoff
            refine ⟨hs, hsub, fun p hpe => ?_⟩
            rw [FindLeaf_loop_step hneg hnode hplane, if_pos]
            · exact hp p hpe
            · rcases hpe with rfl | rfl
              · exact le_trans h0 hfront.1
              · exact le_trans h0 hfront.2
          · split at h
            · rename_i hback
              obtain ⟨hs, hsub, hp⟩ := ih _ _ _ _ _ h hoff
              refine ⟨hs, hsub, fun p hpe => ?_⟩
              rw [FindLeaf_loop_step hneg hnode hplane, if_neg]
              · exact hp p hpe
              · rcases hpe with rfl | rfl
                · have := hback.1
                  intro hge
                  linarith
                · have := hback.2
                  intro hge
                  linarith
            · split at h
              · cases h
              · rename_i d1 c1 hd1
                obtain ⟨hs1, hsub1, hp1⟩ := ih _ _ _ _ _ hd1 hoff
                have hoff1 : ∀ planeNormal, 0 ≤ nodeOffset d1 planeNormal := by
                  intro planeNormal
                  rw [nodeOffset_congr hs1]
                  exact hoff planeNormal
                obtain ⟨hs2, hsub2, hp2⟩ := ih _ _ _ _ _ h hoff1
                refine ⟨TraceData.SameInput.trans hs1 hs2,
                  fun l hmem => hsub2 l (hsub1 l hmem), fun p hpe => ?_⟩
                have hpe1 : p = d1.mStart ∨ p = d1.mEnd := by
                  rcases hpe with rfl | rfl
                  · exact Or.inl hs1.2.1.symm
                  · exact Or.inr hs1.2.2.1.symm
                rw [FindLeaf_loop_step hneg hnode hplane]
                by_cases hside : Vec3.dot d.mStart plane.mNormal - plane.mDistance <
                    Vec3.dot d.mEnd plane.mNormal - plane.mDistance
                · simp only [hside, if_true, TNode.child] at hp1 hp2
                  split_ifs
                  · simpa using hp2 p hpe1
                  · obtain ⟨l, hl, hmem⟩ := hp1 p hpe
                    exact ⟨l, by simpa using hl, hsub2 l hmem⟩
                · simp only [hside, if_false, TNode.child] at hp1 hp2
                  split_ifs
                  · obtain ⟨l, hl, hmem⟩ := hp1 p hpe
                    exact ⟨l, by simpa using hl, hsub2 l hmem⟩
                  · simpa using hp2 p hpe1

/-! ## The binary32 functions without rounding are the exact ones -/

theorem sideDistancesFl_id (normalize : Vec3 → Vec3) (m : TMapQ3) (data : TraceData)
    (brush : TBrush) (i : Int) :
    sideDistancesFl id normalize m data brush i = sideDistances normalize m data brush i := rfl

theorem clipSideFl_id (s : BrushScan) (sd : SideDist) : clipSideFl id s sd = clipSide s sd := rfl

theorem sidesFl_id (normalize : Vec3 → Vec3) (m : TMapQ3) (data : TraceData) (brush : TBrush)
    (k : Nat) : ∀ (i : Int) (s : BrushScan),
      CheckBrush.sidesFl id normalize m data brush k i s =
        CheckBrush.sides normalize m data brush k i s := by
  induction k with
  | zero => intro i s; rfl
  | succ k ih =>
    intro i s
    simp only [CheckBrush.sidesFl, CheckBrush.sides, sideDistancesFl_id, clipSideFl_id, ih]

theorem CheckBrushFl_id (normalize : Vec3 → Vec3) (solid : Int) (m : TMapQ3)
    (brushIndex : Int) (data : TraceData) :
    CheckBrushFl id normalize solid m brushIndex data =
      CheckBrush normalize solid m brushIndex data := by
  simp only [CheckBrushFl, CheckBrush, CheckBrush.scanFl, CheckBrush.scan, sidesFl_id]

theorem loopFl_id (normalize : Vec3 → Vec3) (solid : Int) (m : TMapQ3) (leaf : TLeaf)
    (k : Nat) : ∀ (i : Int) (data : TraceData),
      CheckLeaf.loopFl id normalize solid m leaf k i data =
        CheckLeaf.loop normalize solid m leaf k i data := by
  induction k with
  | zero => intro i data; rfl
  | succ k ih =>
    intro i data
    simp only [CheckLeaf.loopFl, CheckLeaf.loop, CheckBrushFl_id, ih]

theorem CheckNodeFl_id (normalize : Vec3 → Vec3) (solid : Int) (m : TMapQ3) (fuel : Nat) :
    ∀ (nodeIndex : Int) (data : TraceData),
      CheckNodeFl id normalize solid m fuel nodeIndex data =
        CheckNode normalize solid m fuel nodeIndex data := by
  induction fuel with
  | zero => intro nodeIndex data; rfl
  | succ fuel ih =>
    intro nodeIndex data
    have hoff : ∀ n : Vec3, nodeOffsetFl id data n = nodeOffset data n := fun _ => rfl
    have hdot : ∀ a b : Vec3, Vec3.dotFl id a b = Vec3.dot a b := fun _ _ => rfl
    simp only [CheckNodeFl, CheckNode, CheckLeafFl, CheckLeaf, loopFl_id, ih, hoff, hdot, id]

/-- With no rounding the binary32 trace is the exact trace. -/
theorem TraceFl_id (normalize : Vec3 → Vec3) (solid : Int) (m : TMapQ3) (fuel : Nat)
    (data : TraceData) :
    TraceFl id normalize solid m fuel data = Trace normalize solid m fuel data := by
  have hproj : ∀ (n v : Vec3), projFl id n v = proj n v := fun _ _ => rfl
  have hsub : ∀ a b : Vec3, Vec3.subFl id a b = Vec3.sub a b := fun _ _ => rfl
  have hscale : ∀ (a : Vec3) (s : ℚ), Vec3.scaleFl id a s = Vec3.scale a s := fun _ _ => rfl
  simp only [TraceFl, Trace, CheckNodeFl_id, hproj, hsub, hscale, id]
/-! ## The fraction stays in the unit interval (C1) -/

/-- C1. The fraction stays in [0, 1] throughout `Trace`: every `CheckBrush`
call takes a state with 0 <= mFraction <= 1 to a state whose mFraction is
>= 0 and <= the previous one, so does every `CheckNode` call, and `Trace`
on a freshly constructed `TraceData` (mFraction = 1) ends with a fraction
in [0, 1], on every map. -/
theorem Trace_fraction_unit_interval (normalize : Vec3 → Vec3) (CONTENTS_SOLID : Int)
    (m : TMapQ3) :
    (∀ (brushIndex : Int) (d d' : TraceData), 0 ≤ d.mFraction → d.mFraction ≤ 1 →
        CheckBrush normalize CONTENTS_SOLID m brushIndex d = .ok d' →
        0 ≤ d'.mFraction ∧ d'.mFraction ≤ d.mFraction) ∧
    (∀ (fuel : Nat) (nodeIndex : Int) (d d' : TraceData), 0 ≤ d.mFraction →
        d.mFraction ≤ 1 →
        CheckNode normalize CONTENTS_SOLID m fuel nodeIndex d = .ok d' →
        0 ≤ d'.mFraction ∧ d'.mFraction ≤ d.mFraction) ∧
    (∀ (fuel : Nat) (d d' : TraceData), d.Fresh →
        Trace normalize CONTENTS_SOLID m fuel d = .ok d' →
        0 ≤ d'.mFraction ∧ d'.mFraction ≤ 1) := by
  refine ⟨fun _ _ _ h0 _ h => CheckBrush_fraction h0 h,
    fun _ _ _ _ h0 _ h => CheckNode_fraction h0 h, ?_⟩
  intro fuel d d' hfresh h
  obtain ⟨d1, hd1, hcase⟩ := Trace_ok h
  have hf : d.mFraction = 1 := hfresh.2.1
  have h1 := CheckNode_fraction (by rw [hf]; exact zero_le_one) hd1
  rw [hf] at h1
  rcases hcase with ⟨_, rfl⟩ | ⟨_, plane, _, rfl⟩
  · exact h1
  · exact h1

/-- C1 on the slab map: the point trace from x = 2 to x = 0 returns, with
the fraction 9999/10000 / 2 of the biased entry into the slab. -/
theorem Trace_fraction_unit_interval_witness :
    ∃ d', Trace id 1 slabMap 2 (TraceData.mkPoint ⟨2, 0, 0⟩ ⟨0, 0, 0⟩) = .ok d' ∧
      d'.mFraction = 9999 / 20000 ∧ 0 ≤ d'.mFraction ∧ d'.mFraction ≤ 1 := by
  have h : Trace id 1 slabMap 2 (TraceData.mkPoint ⟨2, 0, 0⟩ ⟨0, 0, 0⟩) =
      .ok { TraceData.mkPoint ⟨2, 0, 0⟩ ⟨0, 0, 0⟩ with
            mCollision := true, mPlaneIndex := 0, mFraction := 9999 / 20000
            mContents := some 1, mPlaneProj := some ⟨0, 0, 0⟩, mCheckedBrushes := [0] } := by
    decide!
  exact ⟨_, h, rfl,
    (Trace_fraction_unit_interval id 1 slabMap).2.2 2 _ _ (by decide!) h⟩

/-! ## The closer hit wins in either order (C2) -/

/-- C2. Closer hit wins regardless of the order: for two brushes A and B
and a trace state with mFraction >= 0, whenever `CheckBrush` A followed by
`CheckBrush` B returns, so does B followed by A, with the same mFraction,
mCollision, mStartsOut and mAllSolid; and the resulting mFraction is the
minimum of the initial mFraction and of max(enterFraction, 0) over those
of the two brushes whose test ends with the start outside and
-1 < enterFraction < leaveFraction. -/
theorem CheckBrush_order_independent (normalize : Vec3 → Vec3) (CONTENTS_SOLID : Int)
    (m : TMapQ3) (A B : Int) (d dAB : TraceData) (h0 : 0 ≤ d.mFraction)
    (hAB : (CheckBrush normalize CONTENTS_SOLID m A d).bind
      (CheckBrush normalize CONTENTS_SOLID m B) = .ok dAB) :
    ∃ dBA, (CheckBrush normalize CONTENTS_SOLID m B d).bind
        (CheckBrush normalize CONTENTS_SOLID m A) = .ok dBA ∧
      dBA.mFraction = dAB.mFraction ∧ dBA.mCollision = dAB.mCollision ∧
      dBA.mStartsOut = dAB.mStartsOut ∧ dBA.mAllSolid = dAB.mAllSolid ∧
      dAB.mFraction =
        minEntry (minEntry d.mFraction (entryFraction normalize CONTENTS_SOLID m A d))
          (entryFraction normalize CONTENTS_SOLID m B d) := by
  cases hA : CheckBrush normalize CONTENTS_SOLID m A d with
  | error e =>
    rw [hA] at hAB
    cases hAB
  | ok dA =>
    rw [hA] at hAB
    have hB : CheckBrush normalize CONTENTS_SOLID m B dA = .ok dAB := hAB
    obtain ⟨rA, hsA, rfl⟩ := CheckBrush_ok_applyScan hA
    obtain ⟨rB, hsB, rfl⟩ := CheckBrush_ok_applyScan hB
    have hsB' : CheckBrush.scan normalize CONTENTS_SOLID m B d = .ok rB := by
      rw [← scan_congr normalize CONTENTS_SOLID m (applyScan_sameInput rA d) B]
      exact hsB
    have hsA' : CheckBrush.scan normalize CONTENTS_SOLID m A (applyScan rB d) = .ok rA := by
      rw [scan_congr normalize CONTENTS_SOLID m (applyScan_sameInput rB d) A]
      exact hsA
    obtain ⟨h1, h2, h3, h4, h5⟩ := applyScan_comm rA rB d h0
    refine ⟨applyScan rA (applyScan rB d), ?_, h1, h2, h3, h4, ?_⟩
    · rw [CheckBrush_eq_applyScan hsB']
      exact CheckBrush_eq_applyScan hsA'
    · rw [h5]
      simp only [entryFraction, hsA, hsB']

/-- C2 on the two-slab map: from x = 4 to x = -1 the nearer slab (brush 1)
gives the fraction 9999/50000 whichever brush is tested first. -/
theorem CheckBrush_order_independent_witness :
    ∃ dAB dBA,
      (CheckBrush id 1 twoSlabMap 0 (TraceData.mkPoint ⟨4, 0, 0⟩ ⟨-1, 0, 0⟩)).bind
        (CheckBrush id 1 twoSlabMap 1) = .ok dAB ∧
      (CheckBrush id 1 twoSlabMap 1 (TraceData.mkPoint ⟨4, 0, 0⟩ ⟨-1, 0, 0⟩)).bind
        (CheckBrush id 1 twoSlabMap 0) = .ok dBA ∧
      dAB.mFraction = 9999 / 50000 ∧ dBA.mFraction = dAB.mFraction ∧
      dBA.mCollision = dAB.mCollision ∧ dBA.mStartsOut = dAB.mStartsOut ∧
      dBA.mAllSolid = dAB.mAllSolid := by
  have hAB : (CheckBrush id 1 twoSlabMap 0 (TraceData.mkPoint ⟨4, 0, 0⟩ ⟨-1, 0, 0⟩)).bind
      (CheckBrush id 1 twoSlabMap 1) =
      .ok { TraceData.mkPoint ⟨4, 0, 0⟩ ⟨-1, 0, 0⟩ with
            mCollision := true, mPlaneIndex := 2, mFraction := 9999 / 50000
            mContents := some 1 } := by
    decide!
  obtain ⟨dBA, hBA, h1, h2, h3, h4, _⟩ :=
    CheckBrush_order_independent id 1 twoSlabMap 0 1 _ _ (by decide!) hAB
  exact ⟨_, dBA, hAB, hBA, rfl, h1, h2, h3, h4⟩

/-! ## One side crossed by a box (C3) -/

/-- C3, as the code has it in exact arithmetic. For a box trace on a fresh
`TraceData` against a solid brush in which exactly one side is crossed,
with the start more than the bias 1e-4 in front of that side's offset plane
(startDist > 1e-4) and the end behind it (endDist < 0) and both endpoints
behind every other side, `CheckBrush`, computing without rounding, reports
a collision whose fraction is strictly between 0 and 1 and equals
(startDist - 1e-4) / (startDist - endDist); the plane reported is the one
of that side. -/
theorem CheckBrush_single_side_crossing (normalize : Vec3 → Vec3) (CONTENTS_SOLID : Int)
    (m : TMapQ3) (brushIndex : Int) (brush : TBrush) (texture : TTexture)
    (start end_ minBounds maxBounds : Vec3) (d : TraceData) (k : Int) (sd : SideDist)
    (hd : TraceData.mkBox start end_ minBounds maxBounds = .ok d)
    (hb : lookup m.mBrushes brushIndex = .ok brush)
    (ht : lookup m.mTextures brush.mTextureIndex = .ok texture)
    (hsolid : Int.land texture.mContents CONTENTS_SOLID ≠ 0)
    (hk0 : 0 ≤ k) (hk : k < brush.mNbBrushSides)
    (hside : sideDistances normalize m d brush k = .ok sd)
    (hstart : 1 / 10000 < sd.startDistance) (hend : sd.endDistance < 0)
    (hothers : ∀ i : Int, 0 ≤ i → i < brush.mNbBrushSides → i ≠ k →
      ∃ sdi, sideDistances normalize m d brush i = .ok sdi ∧
        sdi.startDistance ≤ 0 ∧ sdi.endDistance ≤ 0) :
    ∃ d', CheckBrush normalize CONTENTS_SOLID m brushIndex d = .ok d' ∧
      d'.mCollision = true ∧
      d'.mFraction = (sd.startDistance - 1 / 10000) / (sd.startDistance - sd.endDistance) ∧
      0 < d'.mFraction ∧ d'.mFraction < 1 ∧ d'.mPlaneIndex = sd.mPlaneIndex := by
  have hfresh : d.mFraction = 1 := by
    unfold TraceData.mkBox at hd
    dsimp only at hd
    split_ifs at hd
    cases hd
    rfl
  have hden : 0 < sd.startDistance - sd.endDistance := by linarith
  have hfpos : 0 < (sd.startDistance - 1 / 10000) / (sd.startDistance - sd.endDistance) :=
    div_pos (by linarith) hden
  have hflt : (sd.startDistance - 1 / 10000) / (sd.startDistance - sd.endDistance) < 1 := by
    rw [div_lt_one hden]
    linarith
  have hscan := scan_solid normalize d hb ht hsolid (by linarith)
  rw [sides_single_crossing normalize m d brush k sd hk0 hk hside hstart hend hothers] at hscan
  have hrun := CheckBrush_eq_applyScan hscan
  refine ⟨_, hrun, ?_⟩
  have hcond : (sd.startDistance - 1 / 10000) / (sd.startDistance - sd.endDistance) < 1 ∧
      -1 < (sd.startDistance - 1 / 10000) / (sd.startDistance - sd.endDistance) ∧
      (sd.startDistance - 1 / 10000) / (sd.startDistance - sd.endDistance) ≤ d.mFraction :=
    ⟨hflt, by linarith, by rw [hfresh]; exact le_of_lt hflt⟩
  simp only [applyScan, Bool.true_eq_false, if_false, hcond, and_self, if_true,
    not_lt.mpr (le_of_lt hfpos)]
  exact ⟨trivial, trivial, hfpos, trivial⟩

/-- C3 as stated fails, in two ways. (1) The box of half size 1/2 moved
from x = 30001/20000 to x = 1/2 against the slab of the slab map crosses
side 0 only: its start is in front of the offset plane of side 0
(startDist = 1/20000 > 0), its end behind it (endDist = -1 < 0), both
points are behind side 1. The closed form
(startDist - 1e-4) / (startDist - endDist) is -1/20001, and `CheckBrush`
reports a collision at fraction 0: not strictly above 0 and not the closed
form. (2) In binary32 the same box moved from x = 3001.5 to x = 1.5 - 2^-14
has startDist = 3000 and endDist = -2^-14 at side 0 and is behind side 1
(all four exactly, the coordinates being binary32 values); both
startDist - 0.0001f and startDist - endDist round to 3000, the fraction is
1, not below the leave fraction 1, and `CheckBrush` reports no collision,
where exact arithmetic gives a collision at a fraction below 1. -/
theorem CheckBrush_single_side_crossing_counterexample :
    (∃ d d',
      TraceData.mkBox ⟨30001 / 20000, 0, 0⟩ ⟨1 / 2, 0, 0⟩
        ⟨-1 / 2, -1 / 2, -1 / 2⟩ ⟨1 / 2, 1 / 2, 1 / 2⟩ = .ok d ∧
      lookup slabMap.mBrushes 0 = .ok ⟨0, 2, 0⟩ ∧
      lookup slabMap.mTextures 0 = .ok { mContents := 1 } ∧ Int.land 1 1 ≠ 0 ∧
      sideDistances id slabMap d ⟨0, 2, 0⟩ 0 = .ok ⟨0, 1 / 20000, -1⟩ ∧
      sideDistances id slabMap d ⟨0, 2, 0⟩ 1 = .ok ⟨1, -40001 / 20000, -1⟩ ∧
      CheckBrush id 1 slabMap 0 d = .ok d' ∧
      d'.mCollision = true ∧ d'.mFraction = 0 ∧
      ¬ (0 < d'.mFraction) ∧
      d'.mFraction ≠ ((1 : ℚ) / 20000 - 1 / 10000) / (1 / 20000 - (-1))) ∧
    (∃ d dF dQ,
      TraceData.mkBox ⟨6003 / 2, 0, 0⟩ ⟨24575 / 16384, 0, 0⟩
        ⟨-1 / 2, -1 / 2, -1 / 2⟩ ⟨1 / 2, 1 / 2, 1 / 2⟩ = .ok d ∧
      d.mStart.IsF32 ∧ d.mEnd.IsF32 ∧
      sideDistancesFl roundF32 id slabMap d ⟨0, 2, 0⟩ 0 = .ok ⟨0, 3000, -1 / 16384⟩ ∧
      sideDistancesFl roundF32 id slabMap d ⟨0, 2, 0⟩ 1 = .ok ⟨1, -3002, -32767 / 16384⟩ ∧
      roundF32 (3000 - roundF32 (1 / 10000)) = 3000 ∧
      roundF32 (3000 - (-1 / 16384)) = 3000 ∧
      CheckBrushFl roundF32 id 1 slabMap 0 d = .ok dF ∧
      dF.mCollision = false ∧ dF.mFraction = 1 ∧
      CheckBrush id 1 slabMap 0 d = .ok dQ ∧
      dQ.mCollision = true ∧ dQ.mFraction = 30719998976 / 30720000625) := by
  refine ⟨?_, ?_⟩
  · refine ⟨{ mTraceType := .TraceBox, mStart := ⟨30001 / 20000, 0, 0⟩, mEnd := ⟨1 / 2, 0, 0⟩
              mRadius := 0, mMinBounds := ⟨-1 / 2, -1 / 2, -1 / 2⟩
              mMaxBounds := ⟨1 / 2, 1 / 2, 1 / 2⟩, mExtends := ⟨1 / 2, 1 / 2, 1 / 2⟩
              mPlaneIndex := -1, mFraction := 1, mStartsOut := true, mAllSolid := false
              mCollision := false, mContents := none, mPlaneProj := none
              mCheckedBrushes := [] },
            { mTraceType := .TraceBox, mStart := ⟨30001 / 20000, 0, 0⟩, mEnd := ⟨1 / 2, 0, 0⟩
              mRadius := 0, mMinBounds := ⟨-1 / 2, -1 / 2, -1 / 2⟩
              mMaxBounds := ⟨1 / 2, 1 / 2, 1 / 2⟩, mExtends := ⟨1 / 2, 1 / 2, 1 / 2⟩
              mPlaneIndex := 0, mFraction := 0, mStartsOut := true, mAllSolid := false
              mCollision := true, mContents := some 1, mPlaneProj := none
              mCheckedBrushes := [] },
            by decide!, by decide!, by decide!, by decide, by decide!, by decide!, by decide!,
            rfl, rfl, by decide!, by decide!⟩
  · refine ⟨{ mTraceType := .TraceBox, mStart := ⟨6003 / 2, 0, 0⟩
              mEnd := ⟨24575 / 16384, 0, 0⟩
              mRadius := 0, mMinBounds := ⟨-1 / 2, -1 / 2, -1 / 2⟩
              mMaxBounds := ⟨1 / 2, 1 / 2, 1 / 2⟩, mExtends := ⟨1 / 2, 1 / 2, 1 / 2⟩
              mPlaneIndex := -1, mFraction := 1, mStartsOut := true, mAllSolid := false
              mCollision := false, mContents := none, mPlaneProj := none
              mCheckedBrushes := [] },
            { mTraceType := .TraceBox, mStart := ⟨6003 / 2, 0, 0⟩
              mEnd := ⟨24575 / 16384, 0, 0⟩
              mRadius := 0, mMinBounds := ⟨-1 / 2, -1 / 2, -1 / 2⟩
              mMaxBounds := ⟨1 / 2, 1 / 2, 1 / 2⟩, mExtends := ⟨1 / 2, 1 / 2, 1 / 2⟩
              mPlaneIndex := -1, mFraction := 1, mStartsOut := true, mAllSolid := false
              mCollision := false, mContents := none, mPlaneProj := none
              mCheckedBrushes := [] },
            { mTraceType := .TraceBox, mStart := ⟨6003 / 2, 0, 0⟩
              mEnd := ⟨24575 / 16384, 0, 0⟩
              mRadius := 0, mMinBounds := ⟨-1 / 2, -1 / 2, -1 / 2⟩
              mMaxBounds := ⟨1 / 2, 1 / 2, 1 / 2⟩, mExtends := ⟨1 / 2, 1 / 2, 1 / 2⟩
              mPlaneIndex := 0, mFraction := 30719998976 / 30720000625, mStartsOut := true
              mAllSolid := false, mCollision := true, mContents := some 1, mPlaneProj := none
              mCheckedBrushes := [] },
            by decide!, by decide!, by decide!, by decide!, by decide!, by decide!, by decide!,
            by decide!, rfl, rfl, by decide!, rfl, rfl⟩

/-- C3 (amended) on the slab map: the box of half size 1/2 moved from
x = 5/2 to x = 1/2 has startDist = 1 and endDist = -1 at side 0 and is
stopped at (1 - 1e-4) / 2. -/
theorem CheckBrush_single_side_crossing_witness :
    ∃ d d',
      TraceData.mkBox ⟨5 / 2, 0, 0⟩ ⟨1 / 2, 0, 0⟩
        ⟨-1 / 2, -1 / 2, -1 / 2⟩ ⟨1 / 2, 1 / 2, 1 / 2⟩ = .ok d ∧
      CheckBrush id 1 slabMap 0 d = .ok d' ∧ d'.mCollision = true ∧
      d'.mFraction = 9999 / 20000 ∧ 0 < d'.mFraction ∧ d'.mFraction < 1 ∧
      d'.mPlaneIndex = 0 := by
  have hd : TraceData.mkBox ⟨5 / 2, 0, 0⟩ ⟨1 / 2, 0, 0⟩
      ⟨-1 / 2, -1 / 2, -1 / 2⟩ ⟨1 / 2, 1 / 2, 1 / 2⟩ =
      .ok { mTraceType := .TraceBox, mStart := ⟨5 / 2, 0, 0⟩, mEnd := ⟨1 / 2, 0, 0⟩
            mRadius := 0, mMinBounds := ⟨-1 / 2, -1 / 2, -1 / 2⟩
            mMaxBounds := ⟨1 / 2, 1 / 2, 1 / 2⟩, mExtends := ⟨1 / 2, 1 / 2, 1 / 2⟩
            mPlaneIndex := -1, mFraction := 1, mStartsOut := true, mAllSolid := false
            mCollision := false, mContents := none, mPlaneProj := none
            mCheckedBrushes := [] } := by
    decide!
  obtain ⟨d', h, hc, hf, hpos, hlt, hp⟩ :=
    CheckBrush_single_side_crossing id 1 slabMap 0 ⟨0, 2, 0⟩ { mContents := 1 }
      _ _ _ _ _ 0 ⟨0, 1, -1⟩ hd (by decide!) (by decide!) (by decide!) (by decide)
      (by decide) (by decide!) (by decide!) (by decide!) (by
        intro i hi0 hi2 hne
        have hi2' : i < 2 := hi2
        obtain rfl : i = 1 := by omega
        exact ⟨⟨1, -3, -1⟩, by decide!, by decide!, by decide!⟩)
  refine ⟨_, d', hd, h, hc, ?_, hpos, hlt, hp⟩
  rw [hf]
  norm_num

/-! ## A trace inside a brush (C4) -/

/-- C4. Embedded-start detection: for a solid brush with at least one side
and a trace whose start and end points are both inside it (offset distance
<= 0 to every side), `CheckBrush` sets mAllSolid = true and mStartsOut =
false and leaves mPlaneIndex, mFraction, mContents and mCollision as they
were, so that a fresh trace still has plane index -1. -/
theorem CheckBrush_embedded (normalize : Vec3 → Vec3) (CONTENTS_SOLID : Int) (m : TMapQ3)
    (brushIndex : Int) (brush : TBrush) (texture : TTexture) (d : TraceData)
    (hb : lookup m.mBrushes brushIndex = .ok brush)
    (ht : lookup m.mTextures brush.mTextureIndex = .ok texture)
    (hsolid : Int.land texture.mContents CONTENTS_SOLID ≠ 0)
    (hn : 1 ≤ brush.mNbBrushSides)
    (hin : ∀ i : Int, 0 ≤ i → i < brush.mNbBrushSides →
      ∃ sd, sideDistances normalize m d brush i = .ok sd ∧
        sd.startDistance ≤ 0 ∧ sd.endDistance ≤ 0) :
    ∃ d', CheckBrush normalize CONTENTS_SOLID m brushIndex d = .ok d' ∧
      d'.mAllSolid = true ∧ d'.mStartsOut = false ∧
      d'.mPlaneIndex = d.mPlaneIndex ∧ d'.mFraction = d.mFraction ∧
      d'.mContents = d.mContents ∧ d'.mCollision = d.mCollision ∧
      (d.Fresh → d'.mPlaneIndex = -1) := by
  have hloop : CheckBrush.sides normalize m d brush brush.mNbBrushSides.toNat 0
      BrushScan.init = .ok (some BrushScan.init) := by
    apply sides_all_behind
    intro j hj1 hj2
    apply hin j hj1
    have : ((brush.mNbBrushSides.toNat : Nat) : Int) = brush.mNbBrushSides :=
      Int.toNat_of_nonneg (by linarith)
    linarith
  have hscan := scan_solid normalize d hb ht hsolid (by linarith)
  rw [hloop] at hscan
  refine ⟨{ d with mStartsOut := false, mAllSolid := true }, ?_, rfl, rfl, rfl, rfl, rfl, rfl,
    fun hf => hf.1⟩
  unfold CheckBrush
  rw [hscan]
  rfl

/-- C4 on the slab map: the fresh point trace from x = 1/4 to x = 3/4
stays inside the slab; the brush test reports all solid and no plane. -/
theorem CheckBrush_embedded_witness :
    ∃ d', CheckBrush id 1 slabMap 0 (TraceData.mkPoint ⟨1 / 4, 0, 0⟩ ⟨3 / 4, 0, 0⟩) = .ok d' ∧
      d'.mAllSolid = true ∧ d'.mStartsOut = false ∧ d'.mPlaneIndex = -1 ∧
      d'.mFraction = 1 ∧ d'.mContents = none ∧ d'.mCollision = false := by
  obtain ⟨d', h, h1, h2, h3, h4, h5, h6, _⟩ :=
    CheckBrush_embedded id 1 slabMap 0 ⟨0, 2, 0⟩ { mContents := 1 }
      (TraceData.mkPoint ⟨1 / 4, 0, 0⟩ ⟨3 / 4, 0, 0⟩) (by decide!) (by decide!) (by decide!)
      (by decide!) (by
        intro i hi0 hi2
        have hi2' : i < 2 := hi2
        have hcases : i = 0 ∨ i = 1 := by omega
        rcases hcases with rfl | rfl
        · exact ⟨⟨0, -3 / 4, -1 / 4⟩, by decide!, by decide!, by decide!⟩
        · exact ⟨⟨1, -1 / 4, -3 / 4⟩, by decide!, by decide!, by decide!⟩)
  exact ⟨d', h, h1, h2, h3, h4, h5, h6⟩

/-! ## The fraction along a ray into a brush (C5) -/

/-- C5 as stated fails, in two ways. (1) On the slab map, from the start
(2, 0, 0) outside the slab along the ray (-1, 0, 0) into it, the trace to
the distance 1/2 ends before the slab and reports the fraction 1, the trace
to the larger distance 2 ends in the slab and reports the smaller fraction
9999/20000: the fraction is not non-decreasing in the distance. (2) Nor is
it non-increasing among the colliding traces in binary32: on `wallMap`,
from `wallStart` along `wallDir` (start and both ends have binary32
coordinates, the normal of the wall has the rounded scalar product 1 with
itself, so that `glm::normalize` returns it), the start distance rounds to
105 * 2^-20, above 0.0001f, the end distances to 209 * 2^-21 at t = 1/8 and
to 419 * 2^-22 at t = 3/16; both traces collide, the shorter at the
fraction 18665/65536, the longer at the larger 18665/32768. -/
theorem Trace_fraction_along_ray_counterexample :
    (∃ r1 r2 : TraceData,
      Trace id 1 slabMap 2 (TraceData.mkPoint ⟨2, 0, 0⟩
        (Vec3.add ⟨2, 0, 0⟩ (Vec3.scale ⟨-1, 0, 0⟩ (1 / 2)))) = .ok r1 ∧
      Trace id 1 slabMap 2 (TraceData.mkPoint ⟨2, 0, 0⟩
        (Vec3.add ⟨2, 0, 0⟩ (Vec3.scale ⟨-1, 0, 0⟩ 2))) = .ok r2 ∧
      r1.mFraction = 1 ∧ r2.mFraction = 9999 / 20000 ∧
      ¬ (r1.mFraction ≤ r2.mFraction)) ∧
    (∃ r1 r2 : TraceData,
      wallStart.IsF32 ∧ (Vec3.add wallStart (Vec3.scale wallDir (1 / 8))).IsF32 ∧
      (Vec3.add wallStart (Vec3.scale wallDir (3 / 16))).IsF32 ∧
      Vec3.dotFl roundF32 ⟨5033165 / 8388608, 13421773 / 16777216, 0⟩
        ⟨5033165 / 8388608, 13421773 / 16777216, 0⟩ = 1 ∧
      TraceFl roundF32 id 1 wallMap 2
        { TraceData.mkPoint wallStart wallStart with
          mEnd := Vec3.add (TraceData.mkPoint wallStart wallStart).mStart
            (Vec3.scale wallDir (1 / 8)) } = .ok r1 ∧
      TraceFl roundF32 id 1 wallMap 2
        { TraceData.mkPoint wallStart wallStart with
          mEnd := Vec3.add (TraceData.mkPoint wallStart wallStart).mStart
            (Vec3.scale wallDir (3 / 16)) } = .ok r2 ∧
      r1.mCollision = true ∧ r2.mCollision = true ∧
      r1.mFraction = 18665 / 65536 ∧ r2.mFraction = 18665 / 32768 ∧
      ¬ (r2.mFraction ≤ r1.mFraction)) := by
  refine ⟨?_, ?_⟩
  · exact ⟨{ TraceData.mkPoint ⟨2, 0, 0⟩ ⟨3 / 2, 0, 0⟩ with mCheckedBrushes := [0] },
      { TraceData.mkPoint ⟨2, 0, 0⟩ ⟨0, 0, 0⟩ with
        mCollision := true, mPlaneIndex := 0, mFraction := 9999 / 20000
        mContents := some 1, mPlaneProj := some ⟨0, 0, 0⟩, mCheckedBrushes := [0] },
      by decide!, by decide!, rfl, rfl, by decide!⟩
  · exact ⟨{ TraceData.mkPoint wallStart ⟨-83 / 16, 8011907 / 1048576, 0⟩ with
        mCollision := true, mPlaneIndex := 0, mFraction := 18665 / 65536
        mContents := some 1
        mPlaneProj := some ⟨46871 / 1048576, -140613 / 4194304, 0⟩
        mCheckedBrushes := [0] },
      { TraceData.mkPoint wallStart ⟨-165 / 32, 7987331 / 1048576, 0⟩ with
        mCollision := true, mPlaneIndex := 0, mFraction := 18665 / 32768
        mContents := some 1
        mPlaneProj := some ⟨42309 / 1048576, -126927 / 4194304, 0⟩
        mCheckedBrushes := [0] },
      by decide!, by decide!, by decide!, by decide!, by decide!, by decide!, rfl, rfl, rfl,
      rfl, by decide!⟩

/-- C5, as the code has it in exact arithmetic. For a fixed start point and
end points start + t * dir taken at increasing distance t >= 0 along a ray,
on a map whose leaves list a single brush, the fraction reported by
`Trace`, computing without rounding, on a fresh `TraceData` lies in [0, 1]
and does not increase with t as long as the trace collides: for t1 <= t2,
when the trace to start + t2 * dir reports a collision its fraction is at
most the fraction of the trace to start + t1 * dir. -/
theorem Trace_fraction_along_ray (normalize : Vec3 → Vec3) (CONTENTS_SOLID : Int)
    (m : TMapQ3) (b : Int)
    (hsingle : ∀ leafBrush ∈ m.mLeafBrushes, leafBrush.mBrushIndex = b)
    (fuel1 fuel2 : Nat) (d : TraceData) (dir : Vec3) (t1 t2 : ℚ) (r1 r2 : TraceData)
    (hfresh : d.Fresh) (ht1 : 0 ≤ t1) (ht : t1 ≤ t2)
    (h1 : Trace normalize CONTENTS_SOLID m fuel1
      { d with mEnd := Vec3.add d.mStart (Vec3.scale dir t1) } = .ok r1)
    (h2 : Trace normalize CONTENTS_SOLID m fuel2
      { d with mEnd := Vec3.add d.mStart (Vec3.scale dir t2) } = .ok r2) :
    0 ≤ r1.mFraction ∧ r1.mFraction ≤ 1 ∧ 0 ≤ r2.mFraction ∧ r2.mFraction ≤ 1 ∧
    (r2.mCollision = true → r2.mFraction ≤ r1.mFraction) := by
  have hf : d.mFraction = 1 := hfresh.2.1
  have hc : d.mCollision = false := hfresh.2.2.2.2.1
  have hfresh1 : ({ d with mEnd := Vec3.add d.mStart (Vec3.scale dir t1) } :
      TraceData).Fresh := hfresh
  have hfresh2 : ({ d with mEnd := Vec3.add d.mStart (Vec3.scale dir t2) } :
      TraceData).Fresh := hfresh
  obtain ⟨x1, hx1, hf1, _⟩ := Trace_fraction_collision h1
  obtain ⟨x2, hx2, hf2, hc2⟩ := Trace_fraction_collision h2
  have hb1 := CheckNode_fraction (by rw [hfresh1.2.1]; exact zero_le_one) hx1
  have hb2 := CheckNode_fraction (by rw [hfresh2.2.1]; exact zero_le_one) hx2
  rw [hfresh1.2.1] at hb1
  rw [hfresh2.2.1] at hb2
  rw [hf1, hf2, hc2]
  refine ⟨hb1.1, hb1.2, hb2.1, hb2.2, fun hcol => ?_⟩
  rcases CheckNode_single_brush hsingle hfresh2 hx2 with ⟨_, hsame⟩ | ⟨rr2, hs2, hfr2, hcr2⟩
  · rw [hsame, hfresh2.2.2.2.2.1] at hcol
    cases hcol
  · rcases CheckNode_single_brush hsingle hfresh1 hx1 with ⟨hsame, _⟩ | ⟨rr1, hs1, hfr1, _⟩
    · rw [hsame, hfresh1.2.1]
      exact hb2.2
    · rw [hfr1, hfr2]
      rw [hcr2] at hcol
      exact applyScan_ray normalize CONTENTS_SOLID m d hfresh dir t1 t2 ht1 ht b rr1 rr2
        hs1 hs2 hcol

/-- C5 (amended) on the slab map, from (2, 0, 0) along (-1, 0, 0): the
trace to the distance 3/2 reports 9999/15000, the trace to the larger
distance 2 reports the smaller 9999/20000. -/
theorem Trace_fraction_along_ray_witness :
    ∃ r1 r2 : TraceData,
      Trace id 1 slabMap 2
        { TraceData.mkPoint ⟨2, 0, 0⟩ ⟨0, 0, 0⟩ with
          mEnd := Vec3.add (TraceData.mkPoint ⟨2, 0, 0⟩ ⟨0, 0, 0⟩).mStart
            (Vec3.scale ⟨-1, 0, 0⟩ (3 / 2)) } = .ok r1 ∧
      Trace id 1 slabMap 2
        { TraceData.mkPoint ⟨2, 0, 0⟩ ⟨0, 0, 0⟩ with
          mEnd := Vec3.add (TraceData.mkPoint ⟨2, 0, 0⟩ ⟨0, 0, 0⟩).mStart
            (Vec3.scale ⟨-1, 0, 0⟩ 2) } = .ok r2 ∧
      r1.mFraction = 9999 / 15000 ∧ r2.mFraction = 9999 / 20000 ∧
      r2.mCollision = true ∧ r2.mFraction ≤ r1.mFraction := by
  have h1 : Trace id 1 slabMap 2
      { TraceData.mkPoint ⟨2, 0, 0⟩ ⟨0, 0, 0⟩ with
        mEnd := Vec3.add (TraceData.mkPoint ⟨2, 0, 0⟩ ⟨0, 0, 0⟩).mStart
          (Vec3.scale ⟨-1, 0, 0⟩ (3 / 2)) } =
      .ok { TraceData.mkPoint ⟨2, 0, 0⟩ ⟨1 / 2, 0, 0⟩ with
            mCollision := true, mPlaneIndex := 0, mFraction := 9999 / 15000
            mContents := some 1, mPlaneProj := some ⟨0, 0, 0⟩, mCheckedBrushes := [0] } := by
    decide!
  have h2 : Trace id 1 slabMap 2
      { TraceData.mkPoint ⟨2, 0, 0⟩ ⟨0, 0, 0⟩ with
        mEnd := Vec3.add (TraceData.mkPoint ⟨2, 0, 0⟩ ⟨0, 0, 0⟩).mStart
          (Vec3.scale ⟨-1, 0, 0⟩ 2) } =
      .ok { TraceData.mkPoint ⟨2, 0, 0⟩ ⟨0, 0, 0⟩ with
            mCollision := true, mPlaneIndex := 0, mFraction := 9999 / 20000
            mContents := some 1, mPlaneProj := some ⟨0, 0, 0⟩, mCheckedBrushes := [0] } := by
    decide!
  have hle := (Trace_fraction_along_ray id 1 slabMap 0 (by decide) 2 2
    (TraceData.mkPoint ⟨2, 0, 0⟩ ⟨0, 0, 0⟩) ⟨-1, 0, 0⟩ (3 / 2) 2 _ _ (by decide!)
    (by norm_num) (by norm_num) h1 h2).2.2.2.2 rfl
  exact ⟨_, _, h1, h2, rfl, rfl, rfl, hle⟩

/-- Why the amended C5 asks the longer trace to collide. On the wedge map,
from (-1, 0, 0) along (1, 0, 0): the trace to the distance 1002/1000 ends
inside the thin wedge and reports the fraction 3333/3340; the trace to the
larger distance 2 passes the wedge, its biased entry 9999/20000 is not
below its biased exit 7959999/16000000, so no collision is reported and
the fraction is 1, above the one of the shorter trace. -/
theorem Trace_fraction_thin_brush :
    ∃ r1 r2 : TraceData,
      Trace id 1 wedgeMap 2 (TraceData.mkPoint ⟨-1, 0, 0⟩
        (Vec3.add ⟨-1, 0, 0⟩ (Vec3.scale ⟨1, 0, 0⟩ (1002 / 1000)))) = .ok r1 ∧
      Trace id 1 wedgeMap 2 (TraceData.mkPoint ⟨-1, 0, 0⟩
        (Vec3.add ⟨-1, 0, 0⟩ (Vec3.scale ⟨1, 0, 0⟩ 2))) = .ok r2 ∧
      r1.mCollision = true ∧ r1.mFraction = 3333 / 3340 ∧
      r2.mCollision = false ∧ r2.mFraction = 1 ∧ r1.mFraction < r2.mFraction := by
  refine ⟨{ TraceData.mkPoint ⟨-1, 0, 0⟩ ⟨1 / 500, 0, 0⟩ with
      mCollision := true, mPlaneIndex := 0, mFraction := 3333 / 3340
      mContents := some 1, mPlaneProj := some ⟨0, 0, 0⟩, mCheckedBrushes := [0] },
    { TraceData.mkPoint ⟨-1, 0, 0⟩ ⟨1, 0, 0⟩ with mCheckedBrushes := [0] },
    by decide!, by decide!, rfl, rfl, rfl, rfl, by decide!⟩

/-! ## The struck plane faces the start (C6) -/

/-- C7. For a map whose brush sides carry non-negative plane indices and a
fresh `TraceData`, after `Trace` returns mCollision is false exactly when
mPlaneIndex = -1, and when mCollision is true mPlaneIndex is the plane
index of a side of a solid brush; and the assertion startPlaneIndex >= 0
never fails: neither `CheckBrush` nor `Trace` ends in a failed assertion,
whatever the state they are called on. -/
theorem Trace_plane_index (normalize : Vec3 → Vec3) (CONTENTS_SOLID : Int) (m : TMapQ3)
    (hplanes : ∀ side ∈ m.mBrushSides, 0 ≤ side.mPlaneIndex) :
    (∀ (fuel : Nat) (d d' : TraceData), d.Fresh →
      Trace normalize CONTENTS_SOLID m fuel d = .ok d' →
      (d'.mCollision = false ↔ d'.mPlaneIndex = -1) ∧
      (d'.mCollision = true →
        ∃ (brushIndex : Int) (brush : TBrush) (texture : TTexture) (i : Int)
          (side : TBrushSide),
          lookup m.mBrushes brushIndex = .ok brush ∧
          lookup m.mTextures brush.mTextureIndex = .ok texture ∧
          Int.land texture.mContents CONTENTS_SOLID ≠ 0 ∧
          0 ≤ i ∧ i < brush.mNbBrushSides ∧
          lookup m.mBrushSides (brush.mBrushSide + i) = .ok side ∧
          side.mPlaneIndex = d'.mPlaneIndex)) ∧
    (∀ (brushIndex : Int) (d : TraceData),
      CheckBrush normalize CONTENTS_SOLID m brushIndex d ≠ .error .assertFailed) ∧
    (∀ (fuel : Nat) (d : TraceData),
      Trace normalize CONTENTS_SOLID m fuel d ≠ .error .assertFailed) := by
  refine ⟨?_, ?_, ?_⟩
  · intro fuel d d' hfresh h
    obtain ⟨d1, hd1, hcase⟩ := Trace_ok h
    obtain ⟨_, hno, hyes⟩ := CheckNode_struck hfresh hd1
    have hside : d1.mCollision = true →
        ∃ (brushIndex : Int) (brush : TBrush) (texture : TTexture) (i : Int)
          (side : TBrushSide),
          lookup m.mBrushes brushIndex = .ok brush ∧
          lookup m.mTextures brush.mTextureIndex = .ok texture ∧
          Int.land texture.mContents CONTENTS_SOLID ≠ 0 ∧
          0 ≤ i ∧ i < brush.mNbBrushSides ∧
          lookup m.mBrushSides (brush.mBrushSide + i) = .ok side ∧
          side.mPlaneIndex = d1.mPlaneIndex := by
      intro hc
      obtain ⟨bi, brush, texture, i, sd, hb, ht, hs, hi0, hi1, hsd, hp, _, _⟩ := hyes hc
      obtain ⟨side, _, hside, _, hpi, _, _⟩ := sideDistances_ok hsd
      exact ⟨bi, brush, texture, i, side, hb, ht, hs, hi0, hi1, hside, hpi.symm.trans hp⟩
    have hiff : d1.mCollision = false ↔ d1.mPlaneIndex = -1 := by
      refine ⟨hno, fun hminus => ?_⟩
      cases hcol : d1.mCollision with
      | false => rfl
      | true =>
        exfalso
        obtain ⟨_, _, _, _, side, _, _, _, _, _, hside, hpi⟩ := hside hcol
        have := hplanes side (lookup_ok hside).2.1
        rw [hpi, hminus] at this
        exact absurd this (by decide)
    rcases hcase with ⟨_, rfl⟩ | ⟨_, plane, _, rfl⟩
    · exact ⟨hiff, hside⟩
    · exact ⟨hiff, hside⟩
  · intro brushIndex d hc
    exact absurd (CheckBrush_error hc) (by decide)
  · intro fuel d hc
    rcases Trace_error hc with he | he
    · exact absurd he (by decide)
    · exact absurd he (by decide)

/-- C7 on the slab map, whose two sides have the plane indices 0 and 1: the
trace from x = 2 to x = 0 collides and names plane 0 of brush 0, the trace
from x = 3 to x = 2 does not collide and leaves the plane index -1. -/
theorem Trace_plane_index_witness :
    ∃ d1 d2, Trace id 1 slabMap 2 (TraceData.mkPoint ⟨2, 0, 0⟩ ⟨0, 0, 0⟩) = .ok d1 ∧
      Trace id 1 slabMap 2 (TraceData.mkPoint ⟨3, 0, 0⟩ ⟨2, 0, 0⟩) = .ok d2 ∧
      d1.mCollision = true ∧ d1.mPlaneIndex = 0 ∧
      d2.mCollision = false ∧ d2.mPlaneIndex = -1 ∧
      (d1.mCollision = false ↔ d1.mPlaneIndex = -1) ∧
      (d2.mCollision = false ↔ d2.mPlaneIndex = -1) := by
  have h1 : Trace id 1 slabMap 2 (TraceData.mkPoint ⟨2, 0, 0⟩ ⟨0, 0, 0⟩) =
      .ok { TraceData.mkPoint ⟨2, 0, 0⟩ ⟨0, 0, 0⟩ with
            mCollision := true, mPlaneIndex := 0, mFraction := 9999 / 20000
            mContents := some 1, mPlaneProj := some ⟨0, 0, 0⟩, mCheckedBrushes := [0] } := by
    decide!
  have h2 : Trace id 1 slabMap 2 (TraceData.mkPoint ⟨3, 0, 0⟩ ⟨2, 0, 0⟩) =
      .ok { TraceData.mkPoint ⟨3, 0, 0⟩ ⟨2, 0, 0⟩ with mCheckedBrushes := [0] } := by
    decide!
  have hthm := (Trace_plane_index id 1 slabMap (by decide)).1
  exact ⟨_, _, h1, h2, rfl, rfl, rfl, rfl, (hthm 2 _ _ (by decide!) h1).1,
    (hthm 2 _ _ (by decide!) h2).1⟩

/-! ## The slide vector (C8) -/

/-- C8. When `Trace` reports a collision, mPlaneProj is v - n * dot(v, n)
with v = (mEnd - mStart) * (1 - mFraction) and n the stored normal of the
plane mPlaneIndex, and for a unit normal it lies in the struck plane:
dot(mPlaneProj, n) = 0; when no collision is reported mPlaneProj is what
it was before the call. -/
theorem Trace_plane_projection (normalize : Vec3 → Vec3) (CONTENTS_SOLID : Int)
    (m : TMapQ3) (fuel : Nat) (d d' : TraceData)
    (h : Trace normalize CONTENTS_SOLID m fuel d = .ok d') :
    (d'.mCollision = true →
      ∃ plane, lookup m.mPlanes d'.mPlaneIndex = .ok plane ∧
        d'.mPlaneProj = some (Vec3.sub
          (Vec3.scale (Vec3.sub d.mEnd d.mStart) (1 - d'.mFraction))
          (Vec3.scale plane.mNormal
            (Vec3.dot (Vec3.scale (Vec3.sub d.mEnd d.mStart) (1 - d'.mFraction))
              plane.mNormal))) ∧
        (Vec3.dot plane.mNormal plane.mNormal = 1 →
          ∃ p, d'.mPlaneProj = some p ∧ Vec3.dot p plane.mNormal = 0)) ∧
    (d'.mCollision = false → d'.mPlaneProj = d.mPlaneProj) := by
  obtain ⟨d1, hd1, hcase⟩ := Trace_ok h
  obtain ⟨⟨_, hs, he, _⟩, hproj⟩ := CheckNode_frame hd1
  rcases hcase with ⟨hc, rfl⟩ | ⟨hc, plane, hp, rfl⟩
  · refine ⟨fun hc' => ?_, fun _ => hproj⟩
    rw [hc] at hc'
    cases hc'
  · refine ⟨fun _ => ⟨plane, hp, ?_, fun hunit => ⟨_, rfl, ?_⟩⟩, fun hc' => ?_⟩
    · simp only [proj, hs, he]
    · simp only [proj, Vec3.dot, Vec3.sub, Vec3.scale] at hunit ⊢
      linear_combination
        (-(((d1.mEnd.x - d1.mStart.x) * (1 - d1.mFraction)) * plane.mNormal.x +
            ((d1.mEnd.y - d1.mStart.y) * (1 - d1.mFraction)) * plane.mNormal.y +
            ((d1.mEnd.z - d1.mStart.z) * (1 - d1.mFraction)) * plane.mNormal.z)) * hunit
    · dsimp only at hc'
      rw [hc] at hc'
      cases hc'

/-- C8 on the slab map: the point trace from (2, 0, 0) to (0, 1, 0) hits
side 0 (unit normal +x) and slides along it: the stored projection has no
x component. -/
theorem Trace_plane_projection_witness :
    ∃ d', Trace id 1 slabMap 2 (TraceData.mkPoint ⟨2, 0, 0⟩ ⟨0, 1, 0⟩) = .ok d' ∧
      d'.mCollision = true ∧ d'.mPlaneIndex = 0 ∧
      d'.mPlaneProj = some ⟨0, 10001 / 20000, 0⟩ ∧
      ∃ plane, lookup slabMap.mPlanes d'.mPlaneIndex = .ok plane ∧
        d'.mPlaneProj = some (Vec3.sub
          (Vec3.scale (Vec3.sub ⟨0, 1, 0⟩ ⟨2, 0, 0⟩) (1 - d'.mFraction))
          (Vec3.scale plane.mNormal
            (Vec3.dot (Vec3.scale (Vec3.sub ⟨0, 1, 0⟩ ⟨2, 0, 0⟩) (1 - d'.mFraction))
              plane.mNormal))) := by
  have h : Trace id 1 slabMap 2 (TraceData.mkPoint ⟨2, 0, 0⟩ ⟨0, 1, 0⟩) =
      .ok { TraceData.mkPoint ⟨2, 0, 0⟩ ⟨0, 1, 0⟩ with
            mCollision := true, mPlaneIndex := 0, mFraction := 9999 / 20000
            mContents := some 1, mPlaneProj := some ⟨0, 10001 / 20000, 0⟩
            mCheckedBrushes := [0] } := by
    decide!
  obtain ⟨plane, hp, hproj, _⟩ :=
    (Trace_plane_projection id 1 slabMap 2 _ _ h).1 rfl
  exact ⟨_, h, rfl, rfl, rfl, plane, hp, hproj⟩

/-! ## Point location terminates on a well-formed tree (C9) -/

/-- C9. For a well-formed tree (from root 0 every child reference is
negative or the index of a node with a plane of the map, and the reachable
nodes form a finite acyclic tree) and every point p, `FindLeaf` terminates:
its loop runs at most as many times as the map has nodes, so every fuel
from that number on gives the result; it follows child[0] exactly when
dot(normal, p) - distance >= 0 and child[1] otherwise, and returns -c - 1
for the first negative child reference c reached, which is not negative. -/
theorem FindLeaf_terminates (m : TMapQ3) (p : Vec3) (hwf : WellFormedAt m 0) :
    ∃ c : Int, c < 0 ∧ Descent m p 0 c ∧ (∀ c', Descent m p 0 c' → c' = c) ∧
      0 ≤ -c - 1 ∧
      ∀ fuel : Nat, m.mNodes.length ≤ fuel → FindLeaf m fuel p = .ok (-c - 1) := by
  obtain ⟨c, hc, hdesc, _⟩ := FindLeaf_loop_descent m p m.mNodes.length 0 [] hwf
    List.nodup_nil (fun v hv => absurd hv (List.not_mem_nil v)) (by simp)
  refine ⟨c, hc, hdesc, fun c' h' => h'.unique hdesc, by omega, fun fuel hfuel => ?_⟩
  obtain ⟨c', _, hdesc', hrun⟩ := FindLeaf_loop_descent m p fuel 0 [] hwf
    List.nodup_nil (fun v hv => absurd hv (List.not_mem_nil v)) (by simpa using hfuel)
  rw [← hdesc'.unique hdesc]
  exact hrun

/-- C9 on the slab map: node 0 with its two leaf references is a finite
tree; the point (2, 0, 0) is behind its plane and lands in leaf 1, with
any fuel from 1 on. -/
theorem FindLeaf_terminates_witness :
    FindLeaf slabMap 1 ⟨2, 0, 0⟩ = .ok 1 ∧
    ∃ c : Int, c < 0 ∧ Descent slabMap ⟨2, 0, 0⟩ 0 c ∧
      (∀ c', Descent slabMap ⟨2, 0, 0⟩ 0 c' → c' = c) ∧ 0 ≤ -c - 1 ∧
      ∀ fuel : Nat, slabMap.mNodes.length ≤ fuel →
        FindLeaf slabMap fuel ⟨2, 0, 0⟩ = .ok (-c - 1) :=
  ⟨by decide!,
   FindLeaf_terminates slabMap ⟨2, 0, 0⟩
    (WellFormedAt.node 0 { mPlane := 1, mChildren := (-1, -2) } ⟨⟨-1, 0, 0⟩, 0⟩ (by decide)
      (by decide!) (by decide!) (WellFormedAt.leaf _ (by decide))
      (WellFormedAt.leaf _ (by decide)))⟩

/-! ## Cluster visibility without a buffer (C10) -/

/-- C10. PVS fail-open: with an empty visibility buffer `IsClusterVisible`
returns true for every pair of cluster ids, negative ones included;
`readVisData` on a lump of length <= 0 returns without touching the buffer
(it only zeroes the two counts), so the buffer of a map that had none is
still empty and every pair is visible; and with any buffer loaded the
answer is true whenever one of the two ids is negative. -/
theorem IsClusterVisible_fail_open :
    (∀ (m : TMapQ3) (a b : Int), m.mVisData.mBuffer = [] →
        IsClusterVisible m a b = .ok true) ∧
    (∀ (bspData : IStream) (pMap : TMapQ3),
        (pMap.mHeader.mLumpes cVisDataLump).mLength ≤ 0 →
        ∃ m, readVisData bspData pMap = .ok (bspData, m) ∧
          m.mVisData.mBuffer = pMap.mVisData.mBuffer ∧
          m.mVisData.mNbClusters = 0 ∧ m.mVisData.mBytesPerCluster = 0 ∧
          (pMap.mVisData.mBuffer = [] →
            ∀ a b : Int, IsClusterVisible m a b = .ok true)) ∧
    (∀ (m : TMapQ3) (a b : Int), a < 0 ∨ b < 0 →
        IsClusterVisible m a b = .ok true) := by
  have h1 : ∀ (m : TMapQ3) (a b : Int), m.mVisData.mBuffer = [] →
      IsClusterVisible m a b = .ok true := by
    intro m a b h
    simp [IsClusterVisible, h]
  refine ⟨h1, ?_, ?_⟩
  · intro bspData pMap hlen
    refine ⟨{ pMap with
      mVisData := { pMap.mVisData with mNbClusters := 0, mBytesPerCluster := 0 } },
      ?_, rfl, rfl, rfl, ?_⟩
    · simp only [readVisData]
      rw [if_pos hlen]
    · intro hbuf a b
      exact h1 _ a b hbuf
  · intro m a b hab
    unfold IsClusterVisible
    by_cases hbuf : m.mVisData.mBuffer.isEmpty = true
    · rw [if_pos hbuf]
    · rw [if_neg hbuf, if_pos hab]

/-- C10 at concrete maps: a map without visibility buffer shows cluster -3
from cluster 7; so does the map `readVisData` leaves for a header whose
visibility lump has length 0; and a map with a one-byte buffer without any
bit set still shows cluster 0 from cluster -1. -/
theorem IsClusterVisible_fail_open_witness :
    IsClusterVisible ({} : TMapQ3) 7 (-3) = .ok true ∧
    (∃ m, readVisData { chars := [] } {} = .ok ({ chars := [] }, m) ∧
      m.mVisData.mBuffer = [] ∧ IsClusterVisible m 7 (-3) = .ok true) ∧
    IsClusterVisible { mVisData := { mNbClusters := 1, mBytesPerCluster := 1, mBuffer := [0] } }
      (-1) 0 = .ok true := by
  refine ⟨IsClusterVisible_fail_open.1 {} 7 (-3) rfl, ?_,
    IsClusterVisible_fail_open.2.2 _ (-1) 0 (Or.inl (by decide))⟩
  obtain ⟨m, hm, hbuf, _, _, hvis⟩ :=
    IsClusterVisible_fail_open.2.1 { chars := [] } {} (by decide)
  exact ⟨m, hm, hbuf, hvis rfl 7 (-3)⟩

/-! ## The byte and bit read by the visibility test (C11) -/

/-- C11. For a non-empty visibility buffer of nClusters * bytesPerCluster
bytes with bytesPerCluster >= ceil(nClusters / 8) and cluster ids
0 <= a, b < nClusters, `IsClusterVisible` a b reads the byte at index
a * bytesPerCluster + (b div 8), that index is within the buffer, and the
result is true exactly when bit (b mod 8) of that byte is set. -/
theorem IsClusterVisible_bit (m : TMapQ3) (a b : Int)
    (hne : m.mVisData.mBuffer ≠ [])
    (hlen : (m.mVisData.mBuffer.length : Int) =
      m.mVisData.mNbClusters * m.mVisData.mBytesPerCluster)
    (hrow : (m.mVisData.mNbClusters + 7) / 8 ≤ m.mVisData.mBytesPerCluster)
    (ha0 : 0 ≤ a) (ha : a < m.mVisData.mNbClusters)
    (hb0 : 0 ≤ b) (hb : b < m.mVisData.mNbClusters) :
    ∃ byte : Nat,
      0 ≤ a * m.mVisData.mBytesPerCluster + b / 8 ∧
      a * m.mVisData.mBytesPerCluster + b / 8 < m.mVisData.mBuffer.length ∧
      lookup m.mVisData.mBuffer (a * m.mVisData.mBytesPerCluster + b / 8) = .ok byte ∧
      IsClusterVisible m a b = .ok (byte.testBit (b % 8).toNat) := by
  have hcol : b / 8 < m.mVisData.mBytesPerCluster := by omega
  have hbpc : 0 < m.mVisData.mBytesPerCluster := by omega
  have hq : 0 ≤ b / 8 := by omega
  have hi0 : 0 ≤ a * m.mVisData.mBytesPerCluster + b / 8 :=
    add_nonneg (mul_nonneg ha0 (le_of_lt hbpc)) hq
  have hi1 : a * m.mVisData.mBytesPerCluster + b / 8 < m.mVisData.mBuffer.length := by
    rw [hlen]
    have h1 : (a + 1) * m.mVisData.mBytesPerCluster ≤
        m.mVisData.mNbClusters * m.mVisData.mBytesPerCluster :=
      mul_le_mul_of_nonneg_right (by omega) (le_of_lt hbpc)
    have h2 : (a + 1) * m.mVisData.mBytesPerCluster =
        a * m.mVisData.mBytesPerCluster + m.mVisData.mBytesPerCluster := by ring
    omega
  have hnat : (a * m.mVisData.mBytesPerCluster + b / 8).toNat < m.mVisData.mBuffer.length := by
    omega
  have hlook : lookup m.mVisData.mBuffer (a * m.mVisData.mBytesPerCluster + b / 8) =
      .ok (m.mVisData.mBuffer.get ⟨_, hnat⟩) := by
    unfold lookup
    rw [if_neg (not_lt.mpr hi0), List.get?_eq_get hnat]
  refine ⟨_, hi0, hi1, hlook, ?_⟩
  obtain ⟨hshift, hmask⟩ := cluster_shift_mask hb0
  unfold IsClusterVisible
  have hempty : ¬ (m.mVisData.mBuffer.isEmpty = true) := by
    rw [List.isEmpty_iff]
    exact hne
  rw [if_neg hempty, if_neg (by omega)]
  simp only [hshift, hmask, hlook, land_shift_ne_zero]

/-- C11 on a two-cluster buffer of one byte per row: the rows are 2 (bit 1:
cluster 1 is seen from cluster 0) and 1 (bit 0: cluster 0 is seen from
cluster 1). -/
theorem IsClusterVisible_bit_witness :
    IsClusterVisible
      { mVisData := { mNbClusters := 2, mBytesPerCluster := 1, mBuffer := [2, 1] } } 0 1
        = .ok true ∧
    IsClusterVisible
      { mVisData := { mNbClusters := 2, mBytesPerCluster := 1, mBuffer := [2, 1] } } 1 1
        = .ok false := by
  obtain ⟨byte1, _, _, hl1, hv1⟩ := IsClusterVisible_bit
    { mVisData := { mNbClusters := 2, mBytesPerCluster := 1, mBuffer := [2, 1] } } 0 1
    (by decide) (by decide) (by decide) (by decide) (by decide) (by decide) (by decide)
  obtain ⟨byte2, _, _, hl2, hv2⟩ := IsClusterVisible_bit
    { mVisData := { mNbClusters := 2, mBytesPerCluster := 1, mBuffer := [2, 1] } } 1 1
    (by decide) (by decide) (by decide) (by decide) (by decide) (by decide) (by decide)
  have e1 : byte1 = 2 := by
    have : lookup ([2, 1] : List Nat) (0 * 1 + 1 / 8) = .ok 2 := by decide
    exact (Except.ok.inj (hl1.symm.trans this))
  have e2 : byte2 = 1 := by
    have : lookup ([2, 1] : List Nat) (1 * 1 + 1 / 8) = .ok 1 := by decide
    exact (Except.ok.inj (hl2.symm.trans this))
  subst e1
  subst e2
  exact ⟨hv1, hv2⟩

/-! ## The early returns of `FindVisibleFaces` (C12) -/

/-- C12. `FindVisibleFaces` returns the empty result, with no technique
list and so no face in any, whenever the map has no leaves, and whenever
the leaf that `FindLeaf` gives for the camera has a negative cluster id;
the visibility buffer is not looked at on either way, so this is also so
when none is loaded and `IsClusterVisible` reports every pair visible. -/
theorem FindVisibleFaces_fail_closed (sqrt : ℚ → ℚ) (m : TMapQ3)
    (mTexturesTypeBits : List Nat) (fuel : Nat) (camPos : Vec3) (mvpMat : Mat4) :
    (m.mLeaves = [] →
      FindVisibleFaces sqrt m mTexturesTypeBits fuel camPos mvpMat = .ok []) ∧
    (∀ (leaf : Int) (cameraLeaf : TLeaf), FindLeaf m fuel camPos = .ok leaf →
      lookup m.mLeaves leaf = .ok cameraLeaf → cameraLeaf.mCluster < 0 →
      FindVisibleFaces sqrt m mTexturesTypeBits fuel camPos mvpMat = .ok [] ∧
      (m.mVisData.mBuffer = [] → ∀ a b, IsClusterVisible m a b = .ok true)) := by
  refine ⟨?_, ?_⟩
  · intro hempty
    unfold FindVisibleFaces
    dsimp only
    rw [hempty]
    rfl
  · intro leaf cameraLeaf hleaf hlook hneg
    refine ⟨?_, ?_⟩
    · unfold FindVisibleFaces
      dsimp only
      by_cases hempty : m.mLeaves.isEmpty = true
      · rw [if_pos hempty]
      · rw [if_neg hempty]
        simp only [hleaf, hlook]
        rw [if_pos hneg]
    · intro hbuf a b
      unfold IsClusterVisible
      rw [hbuf]
      rfl

/-- C12 on `noClusterMap`, which has no visibility data and whose one
leaf, found for the camera at the origin, has the cluster id -1: the
result is empty although that leaf lists a face and `IsClusterVisible`
reports it visible from itself. -/
theorem FindVisibleFaces_fail_closed_witness :
    FindLeaf noClusterMap 1 ⟨0, 0, 0⟩ = .ok 0 ∧
    FindVisibleFaces id noClusterMap [0] 1 ⟨0, 0, 0⟩ identityMat = .ok [] ∧
    IsClusterVisible noClusterMap (-1) (-1) = .ok true ∧
    FindVisibleFaces id {} [0] 1 ⟨0, 0, 0⟩ identityMat = .ok [] := by
  have h := FindVisibleFaces_fail_closed id noClusterMap [0] 1 ⟨0, 0, 0⟩ identityMat
  have h2 := h.2 0 { mCluster := -1, mMins := ⟨-1, -1, -1⟩, mMaxs := ⟨1, 1, 1⟩
                     mLeafFace := 0, mNbLeafFaces := 1 } (by decide!) (by decide!) (by decide)
  exact ⟨by decide!, h2.1, h2.2 rfl (-1) (-1),
    (FindVisibleFaces_fail_closed id {} [0] 1 ⟨0, 0, 0⟩ identityMat).1 rfl⟩

/-! ## The header check of the loader (C13) -/

/-- C13. For a magic tag of four characters, none of them NUL, `readMap`
returns false exactly when the first four bytes of the header it has read
differ from the tag or the version of that header differs from the
expected version. In that case it returns right after the header: the
stream is as the header read left it, the map differs from the map before
the call in its header only, so that every array (textures, planes, nodes,
leaves, brushes, vertices, faces, visibility buffer) is as it was. -/
theorem readMap_invalid_header (cMagicNumber : List Nat) (cVersion : Int)
    (floatBits : ℚ → Int) (L : Layouts) (pp : PostProcess) (bspData : IStream)
    (pMap : TMapQ3) (scale : ℚ) (postProcessSteps : Nat)
    (hlen : cMagicNumber.length = 4) (hnul : 0 ∉ cMagicNumber) :
    ((∃ s m, readMap cMagicNumber cVersion floatBits L pp bspData pMap scale postProcessSteps
        = .ok (false, s, m)) ↔
      ((THeader.ofBytes (overlay (bspData.read sizeofTHeader).2 pMap.mHeader.bytes)).mMagicNumber
          ≠ cMagicNumber ∨
        (THeader.ofBytes (overlay (bspData.read sizeofTHeader).2 pMap.mHeader.bytes)).mVersion
          ≠ cVersion)) ∧
    (∀ s m, readMap cMagicNumber cVersion floatBits L pp bspData pMap scale postProcessSteps
        = .ok (false, s, m) →
      s = (bspData.read sizeofTHeader).1 ∧
      m = { pMap with
            mHeader := THeader.ofBytes (overlay (bspData.read sizeofTHeader).2
              pMap.mHeader.bytes) } ∧
      m.mTextures = pMap.mTextures ∧ m.mPlanes = pMap.mPlanes ∧ m.mNodes = pMap.mNodes ∧
      m.mLeaves = pMap.mLeaves ∧ m.mBrushes = pMap.mBrushes ∧
      m.mVertices = pMap.mVertices ∧ m.mFaces = pMap.mFaces ∧
      m.mVisData.mBuffer = pMap.mVisData.mBuffer) := by
  have hiff := isValid_iff cMagicNumber cVersion
    { pMap with
      mHeader := THeader.ofBytes (overlay (bspData.read sizeofTHeader).2 pMap.mHeader.bytes) }
    (ofBytes_magic_length _) hlen hnul
  have hfalse : (readHeader cMagicNumber cVersion bspData pMap).1 = false →
      readMap cMagicNumber cVersion floatBits L pp bspData pMap scale postProcessSteps =
        .ok (false, (bspData.read sizeofTHeader).1,
          { pMap with
            mHeader := THeader.ofBytes (overlay (bspData.read sizeofTHeader).2
              pMap.mHeader.bytes) }) := by
    intro hv
    unfold readMap
    dsimp only
    rw [hv]
    rfl
  refine ⟨⟨?_, ?_⟩, ?_⟩
  · rintro ⟨s, m, hres⟩
    exact hiff.mp (readMap_true_or_false _ _ _ _ _ _ _ _ _ _ _ _ hres).symm
  · intro hbad
    exact ⟨_, _, hfalse (hiff.mpr hbad)⟩
  · intro s m hres
    have hv := (readMap_true_or_false _ _ _ _ _ _ _ _ _ _ _ _ hres).symm
    rw [hfalse hv] at hres
    cases hres
    exact ⟨rfl, rfl, rfl, rfl, rfl, rfl, rfl, rfl, rfl, rfl⟩

/-- C13 with the tag "IBSP" and the expected version 46, on a file whose
header has the tag "IBSP" and the version 47, read into a fresh map:
`readMap` returns false and the arrays of the map are empty. -/
theorem readMap_invalid_header_witness :
    ([73, 66, 83, 80] : List Nat).length = 4 ∧ 0 ∉ ([73, 66, 83, 80] : List Nat) ∧
    ∃ s m, readMap [73, 66, 83, 80] 46 subnormalBits q3Layouts stepBits badVersionFile {}
        (3 / 100) 11 = .ok (false, s, m) ∧
      m.mTextures = [] ∧ m.mPlanes = [] ∧ m.mNodes = [] ∧ m.mLeaves = [] ∧ m.mBrushes = [] ∧
      m.mVertices = [] ∧ m.mFaces = [] ∧ m.mVisData.mBuffer = [] := by
  have h := readMap_invalid_header [73, 66, 83, 80] 46 subnormalBits q3Layouts stepBits
    badVersionFile {} (3 / 100) 11 (by decide) (by decide)
  obtain ⟨s, m, hres⟩ := h.1.mpr (Or.inr (by decide!))
  obtain ⟨_, _, h1, h2, h3, h4, h5, h6, h7, h8⟩ := h.2 s m hres
  exact ⟨by decide, by decide, s, m, hres, h1, h2, h3, h4, h5, h6, h7, h8⟩

/-! ## The axis permutation of the plane normals (C14) -/

/-- C14. The axis permutation `swizzle3` maps every vector (x, y, z) to
(x, z, -y); `readPlane` with the OpenGL conversion enabled appends, for
every plane record of the lump in file order, the record with exactly that
image of its normal (and its distance times the scale); the normal
(0, 1, 0) is stored as (0, 0, -1), also when it is read from the sixteen
bytes of a plane record of the file. -/
theorem readPlane_swizzle (L : Layouts) (bspData : IStream) (pMap : TMapQ3) (scale : ℚ) :
    (∀ x y z : ℚ, swizzle3 ⟨x, y, z⟩ = ⟨x, z, -y⟩) ∧
    (readPlane L bspData pMap scale true).2.mPlanes =
      pMap.mPlanes ++
        (rawRecords L.plane (pMap.mHeader.mLumpes cPlaneLump) bspData).map
          (fun p => ⟨⟨p.mNormal.x, p.mNormal.z, -p.mNormal.y⟩, p.mDistance * scale⟩) ∧
    swizzle3 ⟨0, 1, 0⟩ = ⟨0, 0, -1⟩ ∧
    rawRecords q3Layouts.plane ⟨0, 16⟩ planeRecord = [⟨⟨0, 1, 0⟩, 2⟩] ∧
    (readPlane q3Layouts planeRecord (lumpOnly cPlaneLump 16) (3 / 100) true).2.mPlanes =
      [⟨⟨0, 0, -1⟩, 3 / 50⟩] := by
  refine ⟨fun x y z => rfl, ?_, by decide!, by decide!, by decide!⟩
  have h := readLump_post L.plane (readPlane.post scale true)
    (pMap.mHeader.mLumpes cPlaneLump) bspData pMap.mPlanes
  have e : (readPlane L bspData pMap scale true).2.mPlanes =
      (readLump L.plane (readPlane.post scale true)
        (pMap.mHeader.mLumpes cPlaneLump) bspData pMap.mPlanes).2 := rfl
  rw [e, h]
  rfl

/-! ## The sample grid of a flat patch (C15) -/

/-- C15 as stated fails. The patch `trapezoidPatch` is perfectly flat (all
nine control points have z = 0) and each of its rows and columns is three
points on a line, but its columns are not parallel: `colinearPatchX` holds,
`colinearPatchY` does not, and `addPatchTriangles` with the default density
9 appends 2 * 9 = 18 vertices and 6 * 8 = 48 mesh indices, not 4 and 6. -/
theorem addPatchTriangles_flat_counterexample :
    (∀ v ∈ trapezoidPatch, v.mPosition.z = 0) ∧
    (∀ j : Fin 3, CollinearAt trapezoidPatch (3 * j.val) (3 * j.val + 1) (3 * j.val + 2)) ∧
    (∀ i : Fin 3, CollinearAt trapezoidPatch i.val (i.val + 3) (i.val + 6)) ∧
    colinearPatchX trapezoidPatch 0 3 = .ok true ∧
    colinearPatchY trapezoidPatch 0 3 = .ok false ∧
    ∃ v2 i2, addPatchTriangles 0 3 9 0 trapezoidPatch [] = .ok (v2, i2) ∧
      v2.length = trapezoidPatch.length + 18 ∧ i2.length = 48 := by
  refine ⟨by decide!, by decide!, by decide!, by decide!, by decide!, ?_⟩
  obtain ⟨v2, i2, h, hv, hi⟩ := addPatchTriangles_counts 0 3 9 0 trapezoidPatch [] true false
    (by decide) (by decide!) (by decide!) (by decide) (by decide)
  exact ⟨v2, i2, h, hv, hi⟩

/-- C15, as the code has it. For every 3x3 control-point patch that passes
both tests of the code, `colinearPatchX` (the rows lie on parallel lines)
and `colinearPatchY` (the columns lie on parallel lines), `addPatchTriangles`
with the default density 9 appends exactly 4 vertices and exactly 6 mesh
indices (2 triangles). -/
theorem addPatchTriangles_flat (patch : Int) (stride : Nat) (baseVertexIndex : Int)
    (outVertices : List TVertex) (outIndices : List TMeshVert)
    (hp : PatchInRange outVertices patch stride)
    (hx : colinearPatchX outVertices patch stride = .ok true)
    (hy : colinearPatchY outVertices patch stride = .ok true) :
    ∃ v2 i2, addPatchTriangles patch stride 9 baseVertexIndex outVertices outIndices
        = .ok (v2, i2) ∧
      v2.length = outVertices.length + 4 ∧ i2.length = outIndices.length + 6 := by
  obtain ⟨v2, i2, h, hv, hi⟩ := addPatchTriangles_counts patch stride 9 baseVertexIndex
    outVertices outIndices true true hp hx hy (by decide) (by decide)
  exact ⟨v2, i2, h, hv, hi⟩

/-- C15 (amended) on the evenly spaced flat grid `flatGrid`: both tests
hold, 4 vertices and 6 mesh indices are appended. -/
theorem addPatchTriangles_flat_witness :
    ∃ v2 i2, addPatchTriangles 0 3 9 0 flatGrid [] = .ok (v2, i2) ∧
      v2.length = flatGrid.length + 4 ∧ i2.length = ([] : List TMeshVert).length + 6 :=
  addPatchTriangles_flat 0 3 0 flatGrid [] (by decide) (by decide!) (by decide!)

/-! ## The sample grid of a curved patch (C16) -/

/-- C16. For every 3x3 patch whose nine control points are elements of the
vertex array and for which neither `colinearPatchX` nor `colinearPatchY`
holds, and every density n >= 2 (with 3 * n below 2^32, so that the size
of the cache does not wrap), `addPatchTriangles` appends exactly n * n
vertices and 6 * (n - 1) * (n - 1) mesh indices, that is 2 * (n - 1)^2
triangles; for n = 9 that is 81 vertices and 3 * 128 mesh indices. -/
theorem addPatchTriangles_curved (patch : Int) (stride n : Nat) (baseVertexIndex : Int)
    (outVertices : List TVertex) (outIndices : List TMeshVert)
    (hp : PatchInRange outVertices patch stride)
    (hx : colinearPatchX outVertices patch stride = .ok false)
    (hy : colinearPatchY outVertices patch stride = .ok false)
    (hn : 2 ≤ n) (hn3 : 3 * n < 4294967296) :
    ∃ v2 i2, addPatchTriangles patch stride n baseVertexIndex outVertices outIndices
        = .ok (v2, i2) ∧
      v2.length = outVertices.length + n * n ∧
      i2.length = outIndices.length + 6 * (n - 1) * (n - 1) ∧
      i2.length = outIndices.length + 3 * (2 * (n - 1) ^ 2) ∧
      (n = 9 → v2.length = outVertices.length + 81 ∧
        i2.length = outIndices.length + 3 * 128) := by
  obtain ⟨v2, i2, h, hv, hi⟩ := addPatchTriangles_counts patch stride n baseVertexIndex
    outVertices outIndices false false hp hx hy hn hn3
  simp only [Bool.false_eq_true, if_false] at hv hi
  refine ⟨v2, i2, h, hv, ?_, ?_, ?_⟩
  · rw [hi, Nat.mul_assoc]
  · rw [hi, pow_two]
    ring
  · intro h9
    subst h9
    exact ⟨hv, hi⟩

/-- C16 on the patch `curvedPatch` with the default density 9: 81 vertices
and 384 mesh indices (128 triangles) are appended. -/
theorem addPatchTriangles_curved_witness :
    ∃ v2 i2, addPatchTriangles 0 3 9 0 curvedPatch [] = .ok (v2, i2) ∧
      v2.length = curvedPatch.length + 81 ∧ i2.length = 3 * 128 := by
  obtain ⟨v2, i2, h, _, _, _, h9⟩ := addPatchTriangles_curved 0 3 9 0 curvedPatch []
    (by decide) (by decide!) (by decide!) (by decide) (by decide)
  exact ⟨v2, i2, h, (h9 rfl).1, by simpa using (h9 rfl).2⟩

/-! ## The extents of the box constructor (C17) -/

/-- C17 as stated fails in its last part. The box with the bounds
(-1, -1, 0) and (1, 1, 0) has min <= max in every component and the
extents (1, 1, 0), none of them negative; the assertion of the constructor
compares the sign of each extent with 1 and refuses the extent 0. -/
theorem mkBox_extents_counterexample :
    (-1 : ℚ) ≤ 1 ∧ (0 : ℚ) ≤ 0 ∧
    Vec3.max (Vec3.neg ⟨-1, -1, 0⟩) ⟨1, 1, 0⟩ = ⟨1, 1, 0⟩ ∧
    TraceData.mkBox ⟨0, 0, 0⟩ ⟨1, 0, 0⟩ ⟨-1, -1, 0⟩ ⟨1, 1, 0⟩ = .error .assertFailed := by
  refine ⟨by norm_num, le_refl _, by decide!, by decide!⟩

/-- C17, as the code has it. For a box given by min/max bounds with
min <= max in every component, the box constructor sets the extents to the
component-wise max(-min, max), which is the component-wise maximum absolute
bound, and its assertion accepts exactly the boxes whose extents are
positive in every component. -/
theorem mkBox_extents (start end_ minBounds maxBounds : Vec3)
    (hx : minBounds.x ≤ maxBounds.x) (hy : minBounds.y ≤ maxBounds.y)
    (hz : minBounds.z ≤ maxBounds.z) :
    Vec3.max (Vec3.neg minBounds) maxBounds =
      Vec3.max (Vec3.abs minBounds) (Vec3.abs maxBounds) ∧
    (∀ d, TraceData.mkBox start end_ minBounds maxBounds = .ok d →
      d.mExtends = Vec3.max (Vec3.neg minBounds) maxBounds ∧
      d.mMinBounds = minBounds ∧ d.mMaxBounds = maxBounds) ∧
    ((∃ d, TraceData.mkBox start end_ minBounds maxBounds = .ok d) ↔
      0 < (Vec3.max (Vec3.neg minBounds) maxBounds).x ∧
      0 < (Vec3.max (Vec3.neg minBounds) maxBounds).y ∧
      0 < (Vec3.max (Vec3.neg minBounds) maxBounds).z) := by
  have habs : ∀ a b : ℚ, a ≤ b → max (-a) b = max |a| |b| := by
    intro a b hab
    apply le_antisymm
    · exact max_le_max (neg_le_abs a) (le_abs_self b)
    · apply max_le
      · rcases abs_cases a with ⟨h, _⟩ | ⟨h, _⟩
        · rw [h]
          exact le_trans hab (le_max_right _ _)
        · rw [h]
          exact le_max_left _ _
      · rcases abs_cases b with ⟨h, _⟩ | ⟨h, _⟩
        · rw [h]
          exact le_max_right _ _
        · rw [h]
          exact le_trans (neg_le_neg hab) (le_max_left _ _)
  have hsign : ∀ a : ℚ, Vec3.signf a = 1 ↔ 0 < a := by
    intro a
    unfold Vec3.signf
    split_ifs with h1 h2
    · exact ⟨fun _ => h1, fun _ => rfl⟩
    · exact ⟨fun h => absurd h (by norm_num), fun h => absurd h h1⟩
    · exact ⟨fun h => absurd h (by norm_num), fun h => absurd h h1⟩
  refine ⟨?_, ?_, ?_⟩
  · simp only [Vec3.max, Vec3.neg, Vec3.abs, habs _ _ hx, habs _ _ hy, habs _ _ hz]
  · intro d hd
    unfold TraceData.mkBox at hd
    dsimp only at hd
    split_ifs at hd
    cases hd
    exact ⟨rfl, rfl, rfl⟩
  · unfold TraceData.mkBox
    dsimp only
    constructor
    · rintro ⟨d, hd⟩
      split_ifs at hd with hs
      simp only [Vec3.sign, Vec3.mk.injEq] at hs
      exact ⟨(hsign _).mp hs.1, (hsign _).mp hs.2.1, (hsign _).mp hs.2.2⟩
    · rintro ⟨h1, h2, h3⟩
      have hs : Vec3.sign (Vec3.max (Vec3.neg minBounds) maxBounds) = ⟨1, 1, 1⟩ := by
        simp only [Vec3.sign, Vec3.mk.injEq]
        exact ⟨(hsign _).mpr h1, (hsign _).mpr h2, (hsign _).mpr h3⟩
      rw [if_pos hs]
      exact ⟨_, rfl⟩

/-- C17 (amended) on the box with the bounds (-1/2, -1, -1/2) and
(1/2, 2, 1/2): the extents are (1/2, 2, 1/2) and the box is accepted. -/
theorem mkBox_extents_witness :
    ∃ d, TraceData.mkBox ⟨0, 0, 0⟩ ⟨1, 0, 0⟩ ⟨-1 / 2, -1, -1 / 2⟩ ⟨1 / 2, 2, 1 / 2⟩ = .ok d ∧
      d.mExtends = ⟨1 / 2, 2, 1 / 2⟩ ∧
      d.mExtends = Vec3.max (Vec3.abs ⟨-1 / 2, -1, -1 / 2⟩) (Vec3.abs ⟨1 / 2, 2, 1 / 2⟩) := by
  obtain ⟨habs, hext, hiff⟩ := mkBox_extents ⟨0, 0, 0⟩ ⟨1, 0, 0⟩ ⟨-1 / 2, -1, -1 / 2⟩
    ⟨1 / 2, 2, 1 / 2⟩ (by norm_num) (by norm_num) (by norm_num)
  obtain ⟨d, hd⟩ := hiff.mpr ⟨by decide!, by decide!, by decide!⟩
  refine ⟨d, hd, ?_, ?_⟩
  · rw [(hext d hd).1]
    decide!
  · rw [(hext d hd).1, habs]

/-! ## The mesh indices of a collapsed patch (C18) -/

/-- C18 fails on the code. On the map `flatPatchMap`, whose one patch face
is the flat 3x3 grid `flatGrid`, `triangulateBezierPatches` collapses the
patch to 2 x 2 samples and appends 4 vertices: the face gets mVertex = 9,
mNbVertices = 4 and the six mesh indices 0, 10, 1, 0, 9, 10. The rows of the
index grid are taken 9 apart, the density, although a row has 2 vertices:
the indices 9 and 10 are not below mNbVertices = 4, and mVertex + 10 = 19
is outside the vertex array, which has 13 elements. -/
theorem triangulateBezierPatches_collapsed_indices :
    (triangulateBezierPatches flatPatchMap 9).map
        (fun m => (m.mFaces, m.mMeshVertices, m.mVertices.length)) =
      .ok ([{ mType := 2, mVertex := 9, mNbVertices := 4, mMeshVertex := 0
              mNbMeshVertices := 6, mPatchSize := (3, 3) }],
        [0, 10, 1, 0, 9, 10], 13) ∧
    colinearPatchX flatPatchMap.mVertices 0 3 = .ok true ∧
    colinearPatchY flatPatchMap.mVertices 0 3 = .ok true ∧
    ¬ ((10 : Int) < 4) ∧ ¬ ((9 : Int) + 10 < 13) := by
  refine ⟨by decide!, by decide!, by decide!, by decide, by decide⟩

/-! ## The bounds of the nodes and leaves after the conversion (C19) -/

/-- C20 as stated fails for a shape with a positive offset. On `splitMap`
(plane x = 0, front child leaf 0 with brush 0, back child leaf 1 with brush
1) the box of half side 3/2 moved from x = 1 to x = 2 is the data the box
constructor builds, has startDistance 1 >= 0, spans the plane (1 < 3/2),
and the back child is visited first: brush 1 enters the set of tested
brushes before brush 0, and the run equals the back child followed by the
front child. -/
theorem CheckNode_start_side_counterexample :
    TraceData.mkBox ⟨1, 0, 0⟩ ⟨2, 0, 0⟩ ⟨-3 / 2, -3 / 2, -3 / 2⟩ ⟨3 / 2, 3 / 2, 3 / 2⟩
      = .ok spanBox ∧
    lookup splitMap.mNodes 0 = .ok { mPlane := 0, mChildren := (-1, -2) } ∧
    lookup splitMap.mPlanes 0 = .ok ⟨⟨1, 0, 0⟩, 0⟩ ∧
    Vec3.dot spanBox.mStart ⟨1, 0, 0⟩ - 0 = 1 ∧
    Vec3.dot spanBox.mEnd ⟨1, 0, 0⟩ - 0 = 2 ∧
    nodeOffset spanBox ⟨1, 0, 0⟩ = 3 / 2 ∧
    CheckNode id 1 splitMap 2 0 spanBox = .ok { spanBox with mCheckedBrushes := [0, 1] } ∧
    CheckNode id 1 splitMap 1 (-2) spanBox = .ok { spanBox with mCheckedBrushes := [1] } ∧
    CheckNode id 1 splitMap 1 (-1) { spanBox with mCheckedBrushes := [1] }
      = .ok { spanBox with mCheckedBrushes := [0, 1] } ∧
    (CheckNode id 1 splitMap 1 (-1) spanBox).bind (CheckNode id 1 splitMap 1 (-2))
      = .ok { spanBox with mCheckedBrushes := [1, 0] } := by
  refine ⟨by decide!, by decide!, by decide!, by decide!, by decide!, by decide!, by decide!,
    by decide!, by decide!, by decide!⟩

/-- C20, as the code has it. At a node whose plane the swept shape spans
(neither both distances >= offset nor both < -offset) both children are
visited, the second on the data left by the first, and the child visited
first is child[1] when startDistance < endDistance and child[0] otherwise.
When the offset is 0 (a moving point) that child is the one on the side of
the start point: child[0] when startDistance >= 0, child[1] when
startDistance < 0. -/
theorem CheckNode_spanning_order (normalize : Vec3 → Vec3) (CONTENTS_SOLID : Int)
    (m : TMapQ3) (fuel : Nat) (nodeIndex : Int) (data : TraceData) (node : TNode)
    (plane : TPlane)
    (hidx : 0 ≤ nodeIndex)
    (hnode : lookup m.mNodes nodeIndex = .ok node)
    (hplane : lookup m.mPlanes node.mPlane = .ok plane)
    (hfront : ¬ (Vec3.dot data.mStart plane.mNormal - plane.mDistance
        ≥ nodeOffset data plane.mNormal ∧
      Vec3.dot data.mEnd plane.mNormal - plane.mDistance ≥ nodeOffset data plane.mNormal))
    (hback : ¬ (Vec3.dot data.mStart plane.mNormal - plane.mDistance
        < -nodeOffset data plane.mNormal ∧
      Vec3.dot data.mEnd plane.mNormal - plane.mDistance < -nodeOffset data plane.mNormal)) :
    (Vec3.dot data.mStart plane.mNormal - plane.mDistance
        < Vec3.dot data.mEnd plane.mNormal - plane.mDistance →
      CheckNode normalize CONTENTS_SOLID m (fuel + 1) nodeIndex data =
        (CheckNode normalize CONTENTS_SOLID m fuel node.mChildren.2 data).bind
          (CheckNode normalize CONTENTS_SOLID m fuel node.mChildren.1)) ∧
    (¬ Vec3.dot data.mStart plane.mNormal - plane.mDistance
        < Vec3.dot data.mEnd plane.mNormal - plane.mDistance →
      CheckNode normalize CONTENTS_SOLID m (fuel + 1) nodeIndex data =
        (CheckNode normalize CONTENTS_SOLID m fuel node.mChildren.1 data).bind
          (CheckNode normalize CONTENTS_SOLID m fuel node.mChildren.2)) ∧
    (nodeOffset data plane.mNormal = 0 →
      (Vec3.dot data.mStart plane.mNormal - plane.mDistance
          < Vec3.dot data.mEnd plane.mNormal - plane.mDistance ↔
        Vec3.dot data.mStart plane.mNormal - plane.mDistance < 0)) := by
  have hstep : CheckNode normalize CONTENTS_SOLID m (fuel + 1) nodeIndex data =
      (CheckNode normalize CONTENTS_SOLID m fuel
        (node.child (if Vec3.dot data.mStart plane.mNormal - plane.mDistance
          < Vec3.dot data.mEnd plane.mNormal - plane.mDistance then 1 else 0)) data).bind
        (CheckNode normalize CONTENTS_SOLID m fuel
          (node.child (1 - (if Vec3.dot data.mStart plane.mNormal - plane.mDistance
            < Vec3.dot data.mEnd plane.mNormal - plane.mDistance then 1 else 0)))) := by
    rw [CheckNode]
    rw [if_neg (not_lt.mpr hidx)]
    simp only [hnode, hplane]
    rw [if_neg hfront, if_neg hback]
    cases CheckNode normalize CONTENTS_SOLID m fuel
        (node.child (if Vec3.dot data.mStart plane.mNormal - plane.mDistance
          < Vec3.dot data.mEnd plane.mNormal - plane.mDistance then 1 else 0)) data <;> rfl
  refine ⟨?_, ?_, ?_⟩
  · intro h
    rw [hstep, if_pos h]
    rfl
  · intro h
    rw [hstep, if_neg h]
    rfl
  · intro h0
    rw [h0] at hfront hback
    rw [neg_zero] at hback
    constructor
    · intro hlt
      by_contra hs
      exact hfront ⟨not_lt.mp hs, le_trans (not_lt.mp hs) (le_of_lt hlt)⟩
    · intro hs
      by_contra hlt
      exact hback ⟨hs, lt_of_le_of_lt (not_lt.mp hlt) hs⟩

/-- C20 (amended) on `splitMap` with a point moved from x = 1 to x = -1:
the plane is spanned, startDistance 1 is not below endDistance -1, and the
front child, on the side of the start point, is visited first. -/
theorem CheckNode_spanning_order_witness :
    CheckNode id 1 splitMap 2 0 (TraceData.mkPoint ⟨1, 0, 0⟩ ⟨-1, 0, 0⟩) =
      (CheckNode id 1 splitMap 1 (-1) (TraceData.mkPoint ⟨1, 0, 0⟩ ⟨-1, 0, 0⟩)).bind
        (CheckNode id 1 splitMap 1 (-2)) ∧
    ¬ ((1 : ℚ) < 0) :=
  ⟨(CheckNode_spanning_order id 1 splitMap 1 0 (TraceData.mkPoint ⟨1, 0, 0⟩ ⟨-1, 0, 0⟩)
      { mPlane := 0, mChildren := (-1, -2) } ⟨⟨1, 0, 0⟩, 0⟩
      (by decide) (by decide!) (by decide!) (by decide!) (by decide!)).2.1 (by decide!),
   by norm_num⟩

/-! ## Each brush is tested once in a trace (C21) -/

/-- C21. A `Trace` call on fresh trace data that returns: its descent
from the root, followed with the record of its calls, calls `CheckBrush` at
most once for each brush index (no index occurs twice among the calls, also
not as the unsigned value the set keeps), and the set `mCheckedBrushes` of
the returned data holds the indices of these calls and is the set of the
brush indices listed by the leaves `CheckLeaf` was called with. -/
theorem Trace_brushes_once (normalize : Vec3 → Vec3) (CONTENTS_SOLID : Int) (m : TMapQ3)
    (fuel : Nat) (data d' : TraceData) (hfresh : data.Fresh)
    (hrun : Trace normalize CONTENTS_SOLID m fuel data = .ok d') :
    ∃ (d0 : TraceData) (calls : Calls),
      CheckNodeCalls normalize CONTENTS_SOLID m fuel 0 data {} = .ok (d0, calls) ∧
      CheckNode normalize CONTENTS_SOLID m fuel 0 data = .ok d0 ∧
      calls.brushes.Nodup ∧ (calls.brushes.map toUInt32).Nodup ∧
      d'.mCheckedBrushes = calls.brushes.map toUInt32 ∧
      ∀ b : Nat, b ∈ d'.mCheckedBrushes ↔ ListedBy m calls.leaves b := by
  obtain ⟨d1, hd1, hcases⟩ := Trace_ok hrun
  have hchecked : d'.mCheckedBrushes = d1.mCheckedBrushes := by
    rcases hcases with ⟨_, rfl⟩ | ⟨_, plane, _, rfl⟩ <;> rfl
  have hdata := CheckNodeCalls_data normalize CONTENTS_SOLID m fuel 0 data {}
  rw [hd1] at hdata
  cases hcalls : CheckNodeCalls normalize CONTENTS_SOLID m fuel 0 data {} with
  | error e =>
    rw [hcalls] at hdata
    cases hdata
  | ok r =>
    obtain ⟨d0, calls⟩ := r
    rw [hcalls] at hdata
    have hd0 : d0 = d1 := by
      simpa [Except.map] using hdata
    subst hd0
    have hinit : CallsInv m data {} := by
      refine ⟨hfresh.2.2.2.2.2, ?_, fun b => ?_⟩
      · rw [hfresh.2.2.2.2.2]
        exact List.nodup_nil
      · rw [hfresh.2.2.2.2.2]
        constructor
        · intro hb
          cases hb
        · rintro ⟨_, hmem, _⟩
          cases hmem
    obtain ⟨h1, h2, h3⟩ := CheckNodeCalls_inv fuel 0 data d0 {} calls hcalls hinit
    rw [h1] at h2
    refine ⟨d0, calls, rfl, hd1, h2.of_map _, h2, hchecked.trans h1, fun b => ?_⟩
    rw [hchecked]
    exact h3 b

/-- C21 on `slabMap`, both leaves of which list the brush 0: the point moved
from x = -1 to x = 2 spans the node plane, `CheckLeaf` is called with the
leaf 0 and then with the leaf 1, `CheckBrush` once, with the brush 0. -/
theorem Trace_brushes_once_witness :
    (TraceData.mkPoint ⟨-1, 0, 0⟩ ⟨2, 0, 0⟩).Fresh ∧
    (∃ d', Trace id 1 slabMap 2 (TraceData.mkPoint ⟨-1, 0, 0⟩ ⟨2, 0, 0⟩) = .ok d' ∧
      d'.mCheckedBrushes = [0]) ∧
    ∃ (d0 : TraceData) (calls : Calls),
      CheckNodeCalls id 1 slabMap 2 0 (TraceData.mkPoint ⟨-1, 0, 0⟩ ⟨2, 0, 0⟩) {} =
        .ok (d0, calls) ∧
      calls = { leaves := [1, 0], brushes := [0] } ∧ calls.brushes.Nodup ∧
      ∀ b : Nat, b ∈ [0] ↔ ListedBy slabMap calls.leaves b := by
  have hrun : Trace id 1 slabMap 2 (TraceData.mkPoint ⟨-1, 0, 0⟩ ⟨2, 0, 0⟩) =
      .ok { TraceData.mkPoint ⟨-1, 0, 0⟩ ⟨2, 0, 0⟩ with
            mCollision := true, mPlaneIndex := 1, mFraction := 3333 / 10000
            mContents := some 1, mPlaneProj := some ⟨0, 0, 0⟩, mCheckedBrushes := [0] } := by
    decide!
  have hcalls : CheckNodeCalls id 1 slabMap 2 0 (TraceData.mkPoint ⟨-1, 0, 0⟩ ⟨2, 0, 0⟩) {} =
      .ok ({ TraceData.mkPoint ⟨-1, 0, 0⟩ ⟨2, 0, 0⟩ with
             mCollision := true, mPlaneIndex := 1, mFraction := 3333 / 10000
             mContents := some 1, mCheckedBrushes := [0] },
           { leaves := [1, 0], brushes := [0] }) := by
    decide!
  obtain ⟨d0, calls, h1, _, h3, _, _, h6⟩ :=
    Trace_brushes_once id 1 slabMap 2 _ _ (by decide) hrun
  rw [hcalls] at h1
  cases h1
  exact ⟨by decide, ⟨_, hrun, rfl⟩, _, _, hcalls, rfl, h3, h6⟩

/-! ## The contact point stays off the struck plane (C22) -/

/-- C22. Whenever `CheckBrush` records a hit whose entry fraction is not
clamped (the loop over the sides ends with the start outside,
0 <= enterFraction < leaveFraction and enterFraction <= mFraction), the
recorded plane index is the one of a side of the brush, and the contact
point mStart + mFraction * (mEnd - mStart) has the signed distance exactly
1e-4 from the offset plane of that side, on its outside. -/
theorem CheckBrush_contact_distance (normalize : Vec3 → Vec3) (CONTENTS_SOLID : Int)
    (m : TMapQ3) (brushIndex : Int) (d : TraceData) (contents : Int) (s : BrushScan)
    (hscan : CheckBrush.scan normalize CONTENTS_SOLID m brushIndex d = .ok (some (contents, s)))
    (hout : s.startsOut = true) (hlt : s.enterFraction < s.leaveFraction)
    (hle : s.enterFraction ≤ d.mFraction) (h0 : 0 ≤ s.enterFraction) :
    ∃ d2, CheckBrush normalize CONTENTS_SOLID m brushIndex d = .ok d2 ∧
      d2.mCollision = true ∧ d2.mFraction = s.enterFraction ∧
      d2.mPlaneIndex = s.startPlaneIndex ∧
      ∃ (brush : TBrush) (i : Int) (side : TBrushSide) (plane : TPlane),
        lookup m.mBrushes brushIndex = .ok brush ∧ 0 ≤ i ∧ i < brush.mNbBrushSides ∧
        lookup m.mBrushSides (brush.mBrushSide + i) = .ok side ∧
        side.mPlaneIndex = d2.mPlaneIndex ∧
        lookup m.mPlanes side.mPlaneIndex = .ok plane ∧
        Vec3.dot (Vec3.add d.mStart (Vec3.scale (Vec3.sub d.mEnd d.mStart) d2.mFraction))
            (normalize plane.mNormal) -
          (plane.mDistance + sideOffset d (normalize plane.mNormal)) = 1 / 10000 ∧
        (0 : ℚ) < 1 / 10000 := by
  have hrun := CheckBrush_eq_applyScan hscan
  obtain ⟨brush, texture, hbrush, _, _, _, _, _, hentry⟩ := scan_some hscan
  have hgt : -1 < s.enterFraction := by linarith
  obtain ⟨i, sd, hi0, hi1, hsd, hplaneIdx, hcross, _, hfrac⟩ := hentry.2 hgt
  obtain ⟨side, plane, hside, hplane, hp, hs, he⟩ := sideDistances_ok hsd
  have hd2 : applyScan (some (contents, s)) d =
      { d with mPlaneIndex := s.startPlaneIndex
               mFraction := s.enterFraction
               mContents := some contents
               mCollision := true } := by
    unfold applyScan
    dsimp only
    rw [if_neg (by rw [hout]; exact Bool.noConfusion), if_pos ⟨hlt, hgt, hle⟩,
      if_neg (not_lt.mpr h0)]
  refine ⟨_, hrun, ?_, ?_, ?_, brush, i, side, plane, hbrush, hi0, hi1, hside, ?_, hplane, ?_,
    by norm_num⟩
  · rw [hd2]
  · rw [hd2]
  · rw [hd2]
  · rw [hd2, ← hp]
    exact hplaneIdx
  · rw [hd2]
    dsimp only
    have hne : sd.startDistance - sd.endDistance ≠ 0 := by linarith
    have hlin : Vec3.dot (Vec3.add d.mStart (Vec3.scale (Vec3.sub d.mEnd d.mStart)
          s.enterFraction)) (normalize plane.mNormal) -
        (plane.mDistance + sideOffset d (normalize plane.mNormal)) =
        sd.startDistance - s.enterFraction * (sd.startDistance - sd.endDistance) := by
      rw [hs, he]
      simp only [Vec3.dot, Vec3.add, Vec3.scale, Vec3.sub]
      ring
    rw [hlin, hfrac, div_mul_cancel₀ _ hne]
    ring

/-- C22 on the slab map: the point moved from x = 2 to x = 0 enters the slab
0 <= x <= 1 through the side 0 (plane 0) at the fraction 9999/20000; the
contact point has x = 1 + 1/10000. -/
theorem CheckBrush_contact_distance_witness :
    ∃ d2, CheckBrush id 1 slabMap 0 (TraceData.mkPoint ⟨2, 0, 0⟩ ⟨0, 0, 0⟩) = .ok d2 ∧
      d2.mCollision = true ∧ d2.mFraction = 9999 / 20000 ∧ d2.mPlaneIndex = 0 ∧
      Vec3.add ⟨2, 0, 0⟩ (Vec3.scale (Vec3.sub ⟨0, 0, 0⟩ ⟨2, 0, 0⟩) (9999 / 20000)) =
        ⟨1 + 1 / 10000, 0, 0⟩ := by
  obtain ⟨d2, hrun, hc, hf, hp, _⟩ := CheckBrush_contact_distance id 1 slabMap 0
    (TraceData.mkPoint ⟨2, 0, 0⟩ ⟨0, 0, 0⟩) 1
    { enterFraction := 9999 / 20000, leaveFraction := 1, startPlaneIndex := 0
      startsOut := true, endsOut := false }
    (by decide!) rfl (by decide!) (by decide!) (by decide!)
  exact ⟨d2, hrun, hc, hf, hp, by decide!⟩

/-! ## The fill mask of the row cache (C23) -/

/-- C23 fails on the code. On the patch `curvedPatch` with the density 9
(steps 1/8): after the evaluation for the output column 0 in the row 0,
`cacheFill` is 0 and its bit 0 is not set; it is still 0 after the nine
evaluations of the row 0. The evaluation for the column 0 in the row 1
does not reuse the cache: started on a cache whose entries are all the
point (9, 9, 9), it returns the point (0, 1/4, 0) of the surface and leaves
the three recomputed control-curve points (0, 0, 0), (0, 1, 0), (0, 2, 0)
in the cache; reusing the cache would have returned (9, 9, 9). -/
theorem quadraticBezierSurface_cacheFill_unset :
    (quadraticBezierSurface curvedPatch 0 3 0 (1 / 8) 0 (1 / 8) (List.replicate 27 {}) 0).map
        (fun r => r.2.2) = .ok 0 ∧
    Nat.testBit 0 0 = false ∧
    (addPatchTriangles.vertexRow 0 3 (1 / 8) 0 (1 / 8) 9 0
        { outVertices := curvedPatch, cache := List.replicate 27 {}, cacheFill := 0 }).map
        (fun st => st.cacheFill) = .ok 0 ∧
    (quadraticBezierSurface curvedPatch 0 3 0 (1 / 8) 1 (1 / 8) staleCache 0).map
        (fun r => (r.1.mPosition, (r.2.1.take 3).map fun v => v.mPosition, r.2.2)) =
      .ok (⟨0, 1 / 4, 0⟩, [⟨0, 0, 0⟩, ⟨0, 1, 0⟩, ⟨0, 2, 0⟩], 0) ∧
    (quadraticBezier (controlPoint 9 9 9) (controlPoint 9 9 9) (controlPoint 9 9 9)
      (1 / 8)).mPosition = ⟨9, 9, 9⟩ := by
  refine ⟨by decide!, by decide, by decide!, by decide!, by decide!⟩

/-! ## The cached samples are the de Casteljau values (C24) -/

/-- C24. For every 3x3 patch whose control points are elements of the
vertex array and every density n >= 2 (3 * n below 2^32),
`addPatchTriangles` appends the samples row by row, and the sample (i, j),
the one numbered j * nx + i, is the uncached de Casteljau value
Q(Q(r0, u), Q(r1, u), Q(r2, u), v) with u = i * stepX and v = j * stepY;
and whatever the cache holds, a call of `quadraticBezierSurface` with
`cacheFill` 0 returns that value and leaves `cacheFill` 0 and the size of
the cache as they were, so that this holds for the calls in any order. -/
theorem addPatchTriangles_uncached (patch : Int) (stride n : Nat) (baseVertexIndex : Int)
    (outVertices : List TVertex) (outIndices : List TMeshVert) (cx cy : Bool)
    (hp : PatchInRange outVertices patch stride)
    (hx : colinearPatchX outVertices patch stride = .ok cx)
    (hy : colinearPatchY outVertices patch stride = .ok cy)
    (hn : 2 ≤ n) (hn3 : 3 * n < 4294967296) :
    (∃ v2 i2, addPatchTriangles patch stride n baseVertexIndex outVertices outIndices
        = .ok (v2, i2) ∧
      v2.length = outVertices.length + (if cy then 2 else n) * (if cx then 2 else n) ∧
      v2.take outVertices.length = outVertices ∧
      ∀ i j : Nat, i < (if cx then 2 else n) → j < (if cy then 2 else n) →
        lookup v2 ((outVertices.length + (j * (if cx then 2 else n) + i) : Nat) : Int) =
          .ok (uncachedSurface outVertices patch stride
            (i * (1 / (((if cx then 2 else n) - 1 : Nat) : ℚ)))
            (j * (1 / (((if cy then 2 else n) - 1 : Nat) : ℚ))))) ∧
    (∀ (ix iy : Nat) (stepX stepY : ℚ) (cache : List TVertex), ix * 3 + 3 ≤ cache.length →
      ∃ cache2, quadraticBezierSurface outVertices patch stride ix stepX iy stepY cache 0 =
          .ok (uncachedSurface outVertices patch stride (ix * stepX) (iy * stepY), cache2, 0) ∧
        cache2.length = cache.length) := by
  refine ⟨?_, ?_⟩
  · obtain ⟨i2, hrun⟩ := addPatchTriangles_grid patch stride n baseVertexIndex outVertices
      outIndices cx cy hp hx hy hn hn3
    refine ⟨_, i2, hrun, ?_, ?_, ?_⟩
    · rw [List.length_append, sampleGrid_length]
    · rw [List.take_left']
      rfl
    · intro i j hi hj
      exact sampleGrid_lookup outVertices patch stride _ _ _ _ i j hi hj
  · intro ix iy stepX stepY cache hc
    obtain ⟨cache2, hq, hlen, _⟩ := quadraticBezierSurface_value outVertices patch stride ix
      stepX iy stepY cache hp hc
    exact ⟨cache2, hq, hlen⟩

/-- C24 on the patch `curvedPatch` with the density 9: the sample (4, 4),
numbered 9 + 40 in the vertex array, is the middle (1, 1, 1/4) of the
surface. -/
theorem addPatchTriangles_uncached_witness :
    ∃ v2 i2, addPatchTriangles 0 3 9 0 curvedPatch [] = .ok (v2, i2) ∧
      ∃ v, lookup v2 49 = .ok v ∧ v = uncachedSurface curvedPatch 0 3 (1 / 2) (1 / 2) ∧
        v.mPosition = ⟨1, 1, 1 / 4⟩ := by
  obtain ⟨⟨v2, i2, hrun, _, _, hval⟩, _⟩ := addPatchTriangles_uncached 0 3 9 0 curvedPatch []
    false false (by decide) (by decide!) (by decide!) (by decide) (by decide)
  have h := hval 4 4 (by decide) (by decide)
  have e : uncachedSurface curvedPatch 0 3
      ((4 : Nat) * (1 / (((if false = true then 2 else 9) - 1 : Nat) : ℚ)))
      ((4 : Nat) * (1 / (((if false = true then 2 else 9) - 1 : Nat) : ℚ))) =
      uncachedSurface curvedPatch 0 3 (1 / 2) (1 / 2) := by
    norm_num
  rw [e] at h
  exact ⟨v2, i2, hrun, _, h, rfl, by decide!⟩

/-! ## The faces in the technique lists (C25) -/

/-- C25. When `FindVisibleFaces` returns a non-empty result, there are
seven technique lists; a face index appears in them exactly once if it is
referenced by at least one leaf whose cluster is visible from the cluster
of the camera's leaf and whose box passes `IsBoxInFrustum`, and does not
appear otherwise; and every face index in a list is the index of a face of
type 1 to 4, in the list 0, 5 or 6 when its texture type is 1
(transparent), 2 (flame) or 3 (swirl) and otherwise in the list numbered by
its stored type. -/
theorem FindVisibleFaces_listed (sqrt : ℚ → ℚ) (m : TMapQ3) (mTexturesTypeBits : List Nat)
    (fuel : Nat) (camPos : Vec3) (mvpMat : Mat4) (lists : List (List (Nat × Nat)))
    (hrun : FindVisibleFaces sqrt m mTexturesTypeBits fuel camPos mvpMat = .ok lists)
    (hne : lists ≠ []) :
    ∃ (leaf : Int) (cameraLeaf : TLeaf),
      FindLeaf m fuel camPos = .ok leaf ∧ lookup m.mLeaves leaf = .ok cameraLeaf ∧
      lists.length = 7 ∧
      (∀ f, FaceReferenced sqrt m cameraLeaf.mCluster mvpMat f →
        (listedFaces lists).count f = 1) ∧
      (∀ f, ¬ FaceReferenced sqrt m cameraLeaf.mCluster mvpMat f →
        (listedFaces lists).count f = 0) ∧
      (∀ (t : Nat) (faces : List (Nat × Nat)) (f h : Nat), lists[t]? = some faces →
        (f, h) ∈ faces → PlacedAt m mTexturesTypeBits t f h) := by
  obtain ⟨leaf, cameraLeaf, st, hleaf, hcam, _, hinv, hlists⟩ := FindVisibleFaces_run hrun hne
  obtain ⟨h1, _, _, _, h5, h6, h7⟩ := hinv
  have hperm := listedFaces_sorted_perm st.visibleFaces
  rw [← hlists] at hperm
  refine ⟨leaf, cameraLeaf, hleaf, hcam, ?_, ?_, ?_, ?_⟩
  · rw [hlists, List.length_map]
    exact h1
  · intro f href
    rw [hperm.count_eq]
    exact List.count_eq_one_of_mem h5 ((h6 f).mpr href)
  · intro f href
    rw [hperm.count_eq]
    exact List.count_eq_zero_of_not_mem (fun hmem => href ((h6 f).mp hmem))
  · intro t faces f h hget hmem
    rw [hlists, List.getElem?_map] at hget
    cases hold : st.visibleFaces[t]? with
    | none =>
      rw [hold] at hget
      cases hget
    | some old =>
      rw [hold] at hget
      simp only [Option.map_some', Option.some.injEq] at hget
      rw [← hget] at hmem
      exact h7 t old f h hold ((List.mem_insertionSort _).mp hmem)

/-- C25 on `faceMap` seen from (1/2, 0, 0) through the unit cube: the leaf
0 passes both tests and lists the faces 0, 1, 3, 0, the leaf 1 is outside
the frustum. The transparent face 1 is in the list 0, the polygons 3 and 0
in the list 1; the face 0, listed twice by the leaf, appears once, the
face 2, listed only by the leaf 1, does not appear. -/
theorem FindVisibleFaces_listed_witness :
    FindVisibleFaces id faceMap faceMapTexTypes 1 ⟨1 / 2, 0, 0⟩ identityMat =
      .ok [[(1, 2)], [(3, 65537), (0, 65540)], [], [], [], [], []] ∧
    (listedFaces [[(1, 2)], [(3, 65537), (0, 65540)], [], [], [], [], []]).count 0 = 1 ∧
    (listedFaces [[(1, 2)], [(3, 65537), (0, 65540)], [], [], [], [], []]).count 2 = 0 ∧
    PlacedAt faceMap faceMapTexTypes 0 1 2 ∧ PlacedAt faceMap faceMapTexTypes 1 3 65537 := by
  have hrun : FindVisibleFaces id faceMap faceMapTexTypes 1 ⟨1 / 2, 0, 0⟩ identityMat =
      .ok [[(1, 2)], [(3, 65537), (0, 65540)], [], [], [], [], []] := by decide!
  obtain ⟨leaf, cameraLeaf, _, _, _, _, _, hplaced⟩ := FindVisibleFaces_listed id faceMap
    faceMapTexTypes 1 ⟨1 / 2, 0, 0⟩ identityMat _ hrun (by simp)
  exact ⟨hrun, by decide, by decide,
    hplaced 0 [(1, 2)] 1 2 rfl (List.mem_singleton.mpr rfl),
    hplaced 1 [(3, 65537), (0, 65540)] 3 65537 rfl (List.mem_cons_self _ _)⟩

/-! ## The order of a technique list (C26) -/

/-- C26. Each technique list returned by `FindVisibleFaces` is ordered by
non-decreasing sort key, and the key of every entry is the hash
(textureIndex + 1) | ((lightmapIndex + 1) << 16) of its face; for texture
and light map indices in [-1, 65534] two faces have equal keys exactly when
they have the same texture index and the same light map index, so that in
a list an entry standing between two entries of faces that share both
shares both with them. -/
theorem FindVisibleFaces_sorted (sqrt : ℚ → ℚ) (m : TMapQ3) (mTexturesTypeBits : List Nat)
    (fuel : Nat) (camPos : Vec3) (mvpMat : Mat4) (lists : List (List (Nat × Nat)))
    (hrun : FindVisibleFaces sqrt m mTexturesTypeBits fuel camPos mvpMat = .ok lists) :
    (∀ faces ∈ lists, faces.Sorted (fun f1 f2 => f1.2 ≤ f2.2)) ∧
    (∀ faces ∈ lists, ∀ p ∈ faces, ∃ face, lookup m.mFaces (p.1 : Int) = .ok face ∧
      p.2 = GetFaceHash face ∧
      GetFaceHash face =
        toUInt32 (Int.lor (face.mTextureIndex + 1) ((face.mLightmapIndex + 1) * 65536))) ∧
    (∀ a b : TFace, KeyRange a → KeyRange b →
      (GetFaceHash a = GetFaceHash b ↔
        a.mTextureIndex = b.mTextureIndex ∧ a.mLightmapIndex = b.mLightmapIndex)) ∧
    (∀ faces ∈ lists, ∀ (i j k : Fin faces.length) (fi fj fk : TFace), i ≤ j → j ≤ k →
      lookup m.mFaces ((faces.get i).1 : Int) = .ok fi →
      lookup m.mFaces ((faces.get j).1 : Int) = .ok fj →
      lookup m.mFaces ((faces.get k).1 : Int) = .ok fk →
      KeyRange fi → KeyRange fj → KeyRange fk →
      fi.mTextureIndex = fk.mTextureIndex → fi.mLightmapIndex = fk.mLightmapIndex →
      fj.mTextureIndex = fi.mTextureIndex ∧ fj.mLightmapIndex = fi.mLightmapIndex) := by
  obtain ⟨hsorted, hhash⟩ := FindVisibleFaces_hashes hrun
  refine ⟨hsorted, ?_, GetFaceHash_inj, ?_⟩
  · intro faces hmem p hp
    obtain ⟨face, hface, hh⟩ := hhash faces hmem p hp
    exact ⟨face, hface, hh, rfl⟩
  · intro faces hmem i j k fi fj fk hij hjk hi hj hk ri rj rk htex hlm
    have hs := hsorted faces hmem
    have key : ∀ (a : Fin faces.length) (fa : TFace),
        lookup m.mFaces ((faces.get a).1 : Int) = .ok fa → (faces.get a).2 = GetFaceHash fa := by
      intro a fa ha
      obtain ⟨face, hface, hh⟩ := hhash faces hmem (faces.get a) (List.get_mem _ _ _)
      rw [ha] at hface
      cases hface
      exact hh
    have hle : ∀ a b : Fin faces.length, a ≤ b → (faces.get a).2 ≤ (faces.get b).2 := by
      intro a b hab
      rcases Fin.eq_or_lt_of_le hab with h | h
      · rw [h]
      · exact hs.rel_get_of_lt h
    have h1 := hle i j hij
    have h2 := hle j k hjk
    rw [key i fi hi, key j fj hj] at h1
    rw [key j fj hj, key k fk hk] at h2
    have hik : GetFaceHash fi = GetFaceHash fk := (GetFaceHash_inj fi fk ri rk).mpr ⟨htex, hlm⟩
    have hji : GetFaceHash fj = GetFaceHash fi := by omega
    exact (GetFaceHash_inj fj fi rj ri).mp hji

/-- C26 on `faceMap`: the list 1 holds the faces 3 and 0 with the keys
65537 and 65540, in this order although the leaf lists the face 0 first. -/
theorem FindVisibleFaces_sorted_witness :
    FindVisibleFaces id faceMap faceMapTexTypes 1 ⟨1 / 2, 0, 0⟩ identityMat =
      .ok [[(1, 2)], [(3, 65537), (0, 65540)], [], [], [], [], []] ∧
    List.Sorted (fun f1 f2 : Nat × Nat => f1.2 ≤ f2.2) [(3, 65537), (0, 65540)] ∧
    ∃ face, lookup faceMap.mFaces 3 = .ok face ∧ 65537 = GetFaceHash face := by
  have hrun : FindVisibleFaces id faceMap faceMapTexTypes 1 ⟨1 / 2, 0, 0⟩ identityMat =
      .ok [[(1, 2)], [(3, 65537), (0, 65540)], [], [], [], [], []] := by decide!
  obtain ⟨hsorted, hhash, _, _⟩ := FindVisibleFaces_sorted id faceMap faceMapTexTypes 1
    ⟨1 / 2, 0, 0⟩ identityMat _ hrun
  obtain ⟨face, hface, hh, _⟩ := hhash [(3, 65537), (0, 65540)] (by simp) (3, 65537) (by simp)
  exact ⟨hrun, hsorted [(3, 65537), (0, 65540)] (by simp), face, hface, hh⟩

/-! ## The corner test of the frustum culling (C27) -/

/-- C27. For every box (origin, halfDim) with halfDim >= 0 component-wise
and every six planes, `IsBoxInFrustum` returns 0, 1 or 3; it returns 0
exactly when for some plane (n, w) the value dot(n, p) + w is below -0.001
at every point p of the box, that is when its maximum over the box is; the
corner tested first for a plane is a point of the box at which the value
of that plane is largest; so a box with a point at which all six values
are at least -0.001 is not rejected. -/
theorem IsBoxInFrustum_corner (origin halfDim : Vec3) (planes : List Vec4)
    (hdim : Vec3.le ⟨0, 0, 0⟩ halfDim) (hsix : planes.length = 6) :
    ∃ ret, IsBoxInFrustum origin halfDim planes = .ok ret ∧
      (ret = 0 ∨ ret = 1 ∨ ret = 3) ∧
      (ret = 0 ↔ ∃ plane ∈ planes,
        ∀ p, InBox origin halfDim p → planeValue plane p < -(1 / 1000)) ∧
      (∀ plane ∈ planes,
        boxTestPoint origin halfDim (VectorToIndex ⟨plane.x, plane.y, plane.z⟩) =
          .ok (farCorner origin halfDim plane) ∧
        InBox origin halfDim (farCorner origin halfDim plane) ∧
        ∀ p, InBox origin halfDim p →
          planeValue plane p ≤ planeValue plane (farCorner origin halfDim plane)) ∧
      ((∃ p, InBox origin halfDim p ∧ ∀ plane ∈ planes, planeValue plane p ≥ -(1 / 1000)) →
        ret ≠ 0) := by
  obtain ⟨ret, hrun, h013, h0⟩ := IsBoxInFrustum_loop_spec origin halfDim planes 6 0 1
    (by omega) (Or.inl rfl)
  rw [List.drop_zero] at h0
  have hmax : (∃ plane ∈ planes, planeValue plane (farCorner origin halfDim plane) < -(1 / 1000))
      ↔ ∃ plane ∈ planes, ∀ p, InBox origin halfDim p → planeValue plane p < -(1 / 1000) := by
    constructor
    · rintro ⟨plane, hmem, hlt⟩
      exact ⟨plane, hmem, fun p hp => lt_of_le_of_lt (farCorner_max origin halfDim plane p hp) hlt⟩
    · rintro ⟨plane, hmem, hall⟩
      exact ⟨plane, hmem, hall _ (farCorner_inBox origin halfDim plane hdim)⟩
  refine ⟨ret, hrun, h013, h0.trans hmax, ?_, ?_⟩
  · intro plane _
    exact ⟨boxTestPoint_far origin halfDim plane, farCorner_inBox origin halfDim plane hdim,
      fun p hp => farCorner_max origin halfDim plane p hp⟩
  · rintro ⟨p, hp, hall⟩ hret
    obtain ⟨plane, hmem, hlt⟩ := (h0.trans hmax).mp hret
    exact absurd (hlt p hp) (not_lt.mpr (hall plane hmem))

/-- C27 on the six planes `cubeFrustum`: the box of half diagonal (1, 1, 1)
at the origin is inside (1), the same box at (5, 0, 0) is rejected (0: the
value of the first plane is at most -2 on it), the box at (2, 0, 0) is
partly inside (3). -/
theorem IsBoxInFrustum_corner_witness :
    IsBoxInFrustum ⟨0, 0, 0⟩ ⟨1, 1, 1⟩ cubeFrustum = .ok 1 ∧
    IsBoxInFrustum ⟨5, 0, 0⟩ ⟨1, 1, 1⟩ cubeFrustum = .ok 0 ∧
    IsBoxInFrustum ⟨2, 0, 0⟩ ⟨1, 1, 1⟩ cubeFrustum = .ok 3 ∧
    ∃ ret, IsBoxInFrustum ⟨5, 0, 0⟩ ⟨1, 1, 1⟩ cubeFrustum = .ok ret ∧
      (ret = 0 ↔ ∃ plane ∈ cubeFrustum,
        ∀ p, InBox ⟨5, 0, 0⟩ ⟨1, 1, 1⟩ p → planeValue plane p < -(1 / 1000)) := by
  obtain ⟨ret, hrun, _, h0, _, _⟩ := IsBoxInFrustum_corner ⟨5, 0, 0⟩ ⟨1, 1, 1⟩ cubeFrustum
    (by decide!) (by decide)
  exact ⟨by decide!, by decide!, by decide!, ret, hrun, h0⟩

/-! ## The descent reaches the leaves of both endpoints (C28) -/

/-- C28. For a point, sphere or box trace whose offset is not negative (a
radius of at least 0 for a point or sphere, extents of at least 0 for a
box), a descent `CheckNode(0)` that returns has called `CheckLeaf` with the
leaf `FindLeaf` gives for `mStart` and with the leaf it gives for `mEnd`,
and `FindLeaf` returns both. -/
theorem CheckNode_visits_endpoint_leaves (normalize : Vec3 → Vec3) (CONTENTS_SOLID : Int)
    (m : TMapQ3) (fuel : Nat) (data d' : TraceData) (calls : Calls)
    (hradius : data.mTraceType ≠ .TraceBox → 0 ≤ data.mRadius)
    (hextends : data.mTraceType = .TraceBox →
      0 ≤ data.mExtends.x ∧ 0 ≤ data.mExtends.y ∧ 0 ≤ data.mExtends.z)
    (hrun : CheckNodeCalls normalize CONTENTS_SOLID m fuel 0 data {} = .ok (d', calls)) :
    CheckNode normalize CONTENTS_SOLID m fuel 0 data = .ok d' ∧
    ∃ startLeaf endLeaf : Int,
      FindLeaf m fuel data.mStart = .ok startLeaf ∧ startLeaf ∈ calls.leaves ∧
      FindLeaf m fuel data.mEnd = .ok endLeaf ∧ endLeaf ∈ calls.leaves := by
  have hdata := CheckNodeCalls_data normalize CONTENTS_SOLID m fuel 0 data {}
  rw [hrun] at hdata
  obtain ⟨_, _, hp⟩ := CheckNodeCalls_endpoints fuel 0 data d' {} calls hrun
    (nodeOffset_nonneg data hradius hextends)
  obtain ⟨startLeaf, hs1, hs2⟩ := hp data.mStart (Or.inl rfl)
  obtain ⟨endLeaf, he1, he2⟩ := hp data.mEnd (Or.inr rfl)
  exact ⟨hdata.symm, startLeaf, endLeaf, hs1, hs2, he1, he2⟩

/-- C28 on `splitMap`: the point moved from x = -1 to x = 2 starts in the
leaf 1 and ends in the leaf 0, and the descent calls `CheckLeaf` with
both. -/
theorem CheckNode_visits_endpoint_leaves_witness :
    WellFormedAt splitMap 0 ∧
    FindLeaf splitMap 2 ⟨-1, 0, 0⟩ = .ok 1 ∧ FindLeaf splitMap 2 ⟨2, 0, 0⟩ = .ok 0 ∧
    ∃ (d' : TraceData) (calls : Calls),
      CheckNodeCalls id 1 splitMap 2 0 (TraceData.mkPoint ⟨-1, 0, 0⟩ ⟨2, 0, 0⟩) {} =
        .ok (d', calls) ∧
      calls.leaves = [0, 1] ∧
      ∃ startLeaf endLeaf : Int,
        FindLeaf splitMap 2 (TraceData.mkPoint ⟨-1, 0, 0⟩ ⟨2, 0, 0⟩).mStart = .ok startLeaf ∧
        startLeaf ∈ calls.leaves ∧
        FindLeaf splitMap 2 (TraceData.mkPoint ⟨-1, 0, 0⟩ ⟨2, 0, 0⟩).mEnd = .ok endLeaf ∧
        endLeaf ∈ calls.leaves := by
  have hcalls : CheckNodeCalls id 1 splitMap 2 0 (TraceData.mkPoint ⟨-1, 0, 0⟩ ⟨2, 0, 0⟩) {} =
      .ok ({ TraceData.mkPoint ⟨-1, 0, 0⟩ ⟨2, 0, 0⟩ with mCheckedBrushes := [0, 1] },
           { leaves := [0, 1], brushes := [0, 1] }) := by
    decide!
  have hwf : WellFormedAt splitMap 0 :=
    WellFormedAt.node 0 { mPlane := 0, mChildren := (-1, -2) } ⟨⟨1, 0, 0⟩, 0⟩ (le_refl _)
      (by decide) (by decide) (WellFormedAt.leaf _ (by decide)) (WellFormedAt.leaf _ (by decide))
  exact ⟨hwf, by decide!, by decide!, _, _, hcalls, rfl,
    (CheckNode_visits_endpoint_leaves id 1 splitMap 2 _ _ _ (fun _ => le_refl _)
      (fun h => by cases h) hcalls).2⟩

/-! ## The two plane offsets of a box (C29) -/

/-- C29. For every box `TraceData` (built by the box constructor) and every
normal n, the plane offset that `CheckBrush` uses,
dist = -sum_j n_j * (n_j < 0 ? maxBounds_j : minBounds_j), is at most the
offset that `CheckNode` uses for the same normal, dot(mExtends, abs(n)); it
is non-negative when minBounds <= 0 <= maxBounds, and the two offsets are
equal when minBounds = -maxBounds. -/
theorem box_offsets (start end_ minBounds maxBounds n : Vec3) (d : TraceData)
    (hd : TraceData.mkBox start end_ minBounds maxBounds = .ok d) :
    sideOffset d n =
      -((if n.x < 0 then maxBounds.x else minBounds.x) * n.x +
        (if n.y < 0 then maxBounds.y else minBounds.y) * n.y +
        (if n.z < 0 then maxBounds.z else minBounds.z) * n.z) ∧
    nodeOffset d n = Vec3.dot d.mExtends (Vec3.abs n) ∧
    sideOffset d n ≤ nodeOffset d n ∧
    (Vec3.le minBounds ⟨0, 0, 0⟩ → Vec3.le ⟨0, 0, 0⟩ maxBounds → 0 ≤ sideOffset d n) ∧
    (minBounds = Vec3.neg maxBounds → sideOffset d n = nodeOffset d n) := by
  unfold TraceData.mkBox at hd
  dsimp only at hd
  split_ifs at hd with hsign
  cases hd
  have hside : sideOffset
      { mTraceType := .TraceBox, mStart := start, mEnd := end_, mRadius := 0
        mMinBounds := minBounds, mMaxBounds := maxBounds
        mExtends := Vec3.max (Vec3.neg minBounds) maxBounds
        mPlaneIndex := -1, mFraction := 1, mStartsOut := true, mAllSolid := false
        mCollision := false, mContents := none, mPlaneProj := none
        mCheckedBrushes := [] } n =
      -((if n.x < 0 then maxBounds.x else minBounds.x) * n.x +
        (if n.y < 0 then maxBounds.y else minBounds.y) * n.y +
        (if n.z < 0 then maxBounds.z else minBounds.z) * n.z) := by
    simp only [sideOffset, boxCorner, Vec3.dot, if_true]
  have hnode : nodeOffset
      { mTraceType := .TraceBox, mStart := start, mEnd := end_, mRadius := 0
        mMinBounds := minBounds, mMaxBounds := maxBounds
        mExtends := Vec3.max (Vec3.neg minBounds) maxBounds
        mPlaneIndex := -1, mFraction := 1, mStartsOut := true, mAllSolid := false
        mCollision := false, mContents := none, mPlaneProj := none
        mCheckedBrushes := [] } n =
      max (-minBounds.x) maxBounds.x * |n.x| + max (-minBounds.y) maxBounds.y * |n.y| +
        max (-minBounds.z) maxBounds.z * |n.z| := by
    simp only [nodeOffset, Vec3.dot, Vec3.max, Vec3.neg, Vec3.abs, if_true]
  have term_le : ∀ a b t : ℚ, -((if t < 0 then b else a) * t) ≤ max (-a) b * |t| := by
    intro a b t
    by_cases ht : t < 0
    · rw [if_pos ht, abs_of_neg ht]
      have : b * -t ≤ max (-a) b * -t :=
        mul_le_mul_of_nonneg_right (le_max_right _ _) (by linarith)
      linarith
    · rw [if_neg ht, abs_of_nonneg (not_lt.mp ht)]
      have : -a * t ≤ max (-a) b * t :=
        mul_le_mul_of_nonneg_right (le_max_left _ _) (not_lt.mp ht)
      linarith
  have term_nonneg : ∀ a b t : ℚ, a ≤ 0 → 0 ≤ b → 0 ≤ -((if t < 0 then b else a) * t) := by
    intro a b t ha hb
    by_cases ht : t < 0
    · rw [if_pos ht]
      nlinarith
    · rw [if_neg ht]
      nlinarith [not_lt.mp ht]
  have term_eq : ∀ b t : ℚ, -((if t < 0 then b else -b) * t) = max (- -b) b * |t| := by
    intro b t
    rw [neg_neg, max_self]
    by_cases ht : t < 0
    · rw [if_pos ht, abs_of_neg ht]
      ring
    · rw [if_neg ht, abs_of_nonneg (not_lt.mp ht)]
      ring
  refine ⟨hside, rfl, ?_, ?_, ?_⟩
  · rw [hside, hnode]
    have hx := term_le minBounds.x maxBounds.x n.x
    have hy := term_le minBounds.y maxBounds.y n.y
    have hz := term_le minBounds.z maxBounds.z n.z
    linarith
  · rintro ⟨ax, ay, az⟩ ⟨bx, by_, bz⟩
    rw [hside]
    have hx := term_nonneg minBounds.x maxBounds.x n.x ax bx
    have hy := term_nonneg minBounds.y maxBounds.y n.y ay by_
    have hz := term_nonneg minBounds.z maxBounds.z n.z az bz
    linarith
  · intro hsym
    rw [hside, hnode, hsym]
    simp only [Vec3.neg]
    have hx := term_eq maxBounds.x n.x
    have hy := term_eq maxBounds.y n.y
    have hz := term_eq maxBounds.z n.z
    linarith

/-- C29 on the box with the bounds (-1, -2, -1) and (3, 2, 1), whose
extents are (3, 2, 1), and the normal (1, 0, 0): the offset of `CheckBrush`
is 1, the offset of `CheckNode` is 3. -/
theorem box_offsets_witness :
    ∃ d, TraceData.mkBox ⟨0, 0, 0⟩ ⟨1, 0, 0⟩ ⟨-1, -2, -1⟩ ⟨3, 2, 1⟩ = .ok d ∧
      sideOffset d ⟨1, 0, 0⟩ = 1 ∧ nodeOffset d ⟨1, 0, 0⟩ = 3 ∧
      sideOffset d ⟨1, 0, 0⟩ ≤ nodeOffset d ⟨1, 0, 0⟩ ∧ 0 ≤ sideOffset d ⟨1, 0, 0⟩ := by
  have hex : ∃ d, TraceData.mkBox ⟨0, 0, 0⟩ ⟨1, 0, 0⟩ ⟨-1, -2, -1⟩ ⟨3, 2, 1⟩ = .ok d := by
    unfold TraceData.mkBox
    dsimp only
    rw [if_pos (by decide!)]
    exact ⟨_, rfl⟩
  obtain ⟨d, hd⟩ := hex
  have h := box_offsets ⟨0, 0, 0⟩ ⟨1, 0, 0⟩ ⟨-1, -2, -1⟩ ⟨3, 2, 1⟩ ⟨1, 0, 0⟩ d hd
  refine ⟨d, hd, ?_, ?_, h.2.2.1, h.2.2.2.1 (by decide!) (by decide!)⟩
  · rw [h.1]
    norm_num
  · rw [h.2.1]
    unfold TraceData.mkBox at hd
    dsimp only at hd
    rw [if_pos (by decide!)] at hd
    cases hd
    decide!

/-! ## The corners of the sample grid (C30) -/

/-- C30. For every 3x3 patch with row stride s whose control points are
elements of the vertex array, the samples that `addPatchTriangles` appends
(nx to a row, ny rows, both at least 2) have at the four grid corners
(0, 0), (nx-1, 0), (0, ny-1) and (nx-1, ny-1) the position and the texture
coordinates of the control points patch[0], patch[2], patch[2s] and
patch[2s+2]. -/
theorem addPatchTriangles_corners (patch : Int) (stride n : Nat) (baseVertexIndex : Int)
    (outVertices : List TVertex) (outIndices : List TMeshVert) (cx cy : Bool)
    (hp : PatchInRange outVertices patch stride)
    (hx : colinearPatchX outVertices patch stride = .ok cx)
    (hy : colinearPatchY outVertices patch stride = .ok cy)
    (hn : 2 ≤ n) (hn3 : 3 * n < 4294967296) :
    ∃ v2 i2 c00 c10 c01 c11,
      addPatchTriangles patch stride n baseVertexIndex outVertices outIndices = .ok (v2, i2) ∧
      2 ≤ (if cx then 2 else n) ∧ 2 ≤ (if cy then 2 else n) ∧
      lookup v2 ((outVertices.length + (0 * (if cx then 2 else n) + 0) : Nat) : Int)
        = .ok c00 ∧
      lookup v2 ((outVertices.length +
        (0 * (if cx then 2 else n) + ((if cx then 2 else n) - 1)) : Nat) : Int) = .ok c10 ∧
      lookup v2 ((outVertices.length +
        (((if cy then 2 else n) - 1) * (if cx then 2 else n) + 0) : Nat) : Int) = .ok c01 ∧
      lookup v2 ((outVertices.length +
        (((if cy then 2 else n) - 1) * (if cx then 2 else n) + ((if cx then 2 else n) - 1))
          : Nat) : Int) = .ok c11 ∧
      c00.mPosition = (controlAt outVertices patch).mPosition ∧
      c00.mTexCoord = (controlAt outVertices patch).mTexCoord ∧
      c10.mPosition = (controlAt outVertices (patch + 2)).mPosition ∧
      c10.mTexCoord = (controlAt outVertices (patch + 2)).mTexCoord ∧
      c01.mPosition = (controlAt outVertices (patch + 2 * stride)).mPosition ∧
      c01.mTexCoord = (controlAt outVertices (patch + 2 * stride)).mTexCoord ∧
      c11.mPosition = (controlAt outVertices (patch + 2 * stride + 2)).mPosition ∧
      c11.mTexCoord = (controlAt outVertices (patch + 2 * stride + 2)).mTexCoord := by
  obtain ⟨i2, hrun⟩ := addPatchTriangles_grid patch stride n baseVertexIndex outVertices
    outIndices cx cy hp hx hy hn hn3
  have hX2 : 2 ≤ (if cx then 2 else n) := by
    cases cx
    · simpa using hn
    · simp
  have hY2 : 2 ≤ (if cy then 2 else n) := by
    cases cy
    · simpa using hn
    · simp
  have hone : ∀ m : Nat, 2 ≤ m → ((m - 1 : Nat) : ℚ) * (1 / ((m - 1 : Nat) : ℚ)) = 1 := by
    intro m hm
    have h0 : ((m - 1 : Nat) : ℚ) ≠ 0 := by
      have : m - 1 ≠ 0 := by omega
      exact Nat.cast_ne_zero.mpr this
    rw [mul_one_div, div_self h0]
  have hzero : ∀ s : ℚ, ((0 : Nat) : ℚ) * s = 0 := by
    intro s
    simp
  have h2s : patch + (2 : Int) * stride = patch + stride + stride := by ring
  have h00 := sampleGrid_lookup outVertices patch stride (if cx then 2 else n)
    (if cy then 2 else n) (1 / (((if cx then 2 else n) - 1 : Nat) : ℚ))
    (1 / (((if cy then 2 else n) - 1 : Nat) : ℚ)) 0 0 (by omega) (by omega)
  have h10 := sampleGrid_lookup outVertices patch stride (if cx then 2 else n)
    (if cy then 2 else n) (1 / (((if cx then 2 else n) - 1 : Nat) : ℚ))
    (1 / (((if cy then 2 else n) - 1 : Nat) : ℚ)) ((if cx then 2 else n) - 1) 0
    (by omega) (by omega)
  have h01 := sampleGrid_lookup outVertices patch stride (if cx then 2 else n)
    (if cy then 2 else n) (1 / (((if cx then 2 else n) - 1 : Nat) : ℚ))
    (1 / (((if cy then 2 else n) - 1 : Nat) : ℚ)) 0 ((if cy then 2 else n) - 1)
    (by omega) (by omega)
  have h11 := sampleGrid_lookup outVertices patch stride (if cx then 2 else n)
    (if cy then 2 else n) (1 / (((if cx then 2 else n) - 1 : Nat) : ℚ))
    (1 / (((if cy then 2 else n) - 1 : Nat) : ℚ)) ((if cx then 2 else n) - 1)
    ((if cy then 2 else n) - 1) (by omega) (by omega)
  rw [hone _ hX2, hone _ hY2] at h11
  rw [hone _ hX2, hzero] at h10
  rw [hone _ hY2, hzero] at h01
  rw [hzero, hzero] at h00
  refine ⟨_, i2, _, _, _, _, hrun, hX2, hY2, h00, h10, h01, h11, ?_⟩
  rw [h2s]
  unfold uncachedSurface controlCurve
  refine ⟨?_, ?_, ?_, ?_, ?_, ?_, ?_, ?_⟩
  · rw [(deCasteljau_zero _ _ _).1, (deCasteljau_zero _ _ _).1]
  · rw [(deCasteljau_zero _ _ _).2, (deCasteljau_zero _ _ _).2]
  · rw [(deCasteljau_zero _ _ _).1, (deCasteljau_one _ _ _).1]
  · rw [(deCasteljau_zero _ _ _).2, (deCasteljau_one _ _ _).2]
  · rw [(deCasteljau_one _ _ _).1, (deCasteljau_zero _ _ _).1]
  · rw [(deCasteljau_one _ _ _).2, (deCasteljau_zero _ _ _).2]
  · rw [(deCasteljau_one _ _ _).1, (deCasteljau_one _ _ _).1]
  · rw [(deCasteljau_one _ _ _).2, (deCasteljau_one _ _ _).2]

/-- C30 on the patch `curvedPatch` with the density 9: the samples numbered
0, 8, 72 and 80 have the positions of the control points 0, 2, 6 and 8. -/
theorem addPatchTriangles_corners_witness :
    ∃ v2 i2 c00 c10 c01 c11, addPatchTriangles 0 3 9 0 curvedPatch [] = .ok (v2, i2) ∧
      lookup v2 9 = .ok c00 ∧ lookup v2 17 = .ok c10 ∧ lookup v2 81 = .ok c01 ∧
      lookup v2 89 = .ok c11 ∧
      c00.mPosition = ⟨0, 0, 0⟩ ∧ c10.mPosition = ⟨2, 0, 0⟩ ∧ c01.mPosition = ⟨0, 2, 0⟩ ∧
      c11.mPosition = ⟨2, 2, 0⟩ := by
  obtain ⟨v2, i2, c00, c10, c01, c11, hrun, _, _, h00, h10, h01, h11, p00, _, p10, _, p01, _,
    p11, _⟩ := addPatchTriangles_corners 0 3 9 0 curvedPatch [] false false (by decide)
    (by decide!) (by decide!) (by decide) (by decide)
  refine ⟨v2, i2, c00, c10, c01, c11, hrun, h00, h10, h01, h11, ?_, ?_, ?_, ?_⟩
  · rw [p00]
    decide!
  · rw [p10]
    decide!
  · rw [p01]
    decide!
  · rw [p11]
    decide!

end Q3
